import Mathlib

/-!
# nebula-common: metadata client and storage routing layer

A shallow embedding of the parts of `src/clients/meta/MetaClient.{h,cpp}` and
`src/clients/storage/StorageClientBase.inl` that the routing, retry, fan-out and
cache-refresh properties are about (`partsNum`, `partId`, `ResponseContext`,
`collectResponse`, `getResponse`, `handleResponse`, `loadData` with its helpers and
`diff`), followed by the theorems.

Conventions of the embedding

* `std::unordered_map<K, V>` is an association list `List (K × V)`; the list order
  stands for the (unspecified) iteration order, `umFind` is `find`,
  `umEmplace` is `emplace` (insert only when the key is absent), `umAssign` is
  `m[k] = v` and `umErase` is `erase`.
* `int32_t`, `uint32_t`, `uint64_t` values are `Int`/`Nat` with the wrap-around of
  every conversion written out (`toInt32`, `toUInt32`, `toUInt64`).
* A `CHECK` that fails and an operation with undefined behaviour are results of
  their own (`Fault`), never silently skipped.
-/

set_option autoImplicit false

namespace Nebula

/-! ## Basic types -/

abbrev GraphSpaceID := Int
abbrev PartitionID := Int
abbrev TagID := Int
abbrev EdgeType := Int
abbrev IndexID := Int
abbrev SchemaVer := Int

/-- A host address `HostAddr(host, port)`. -/
structure HostAddr where
  host : String
  port : Int
deriving DecidableEq, Repr

/-- The bytes of a `std::string` used as a vertex id. -/
abbrev VertexID := List (Fin 256)

/-- Ways a call can end without returning: a failed `CHECK` or a `LOG(FATAL)` aborts
the process, a modulus by zero and a vector access out of range are undefined behaviour, a `resize`
to a negative (wrapped) size throws `std::length_error`, and a signed division whose
quotient does not fit the type overflows (undefined behaviour; the division traps),
and `boost::get` on a variant that holds another alternative throws `bad_get`, which
nothing catches. -/
inductive Fault where
  | checkFailed
  | divisionByZero
  | outOfRange
  | lengthError
  | overflow
  | badGet
deriving DecidableEq, Repr

deriving instance DecidableEq for Except

/-- Modelled from the spec: `base/Status.h` is absent from the sources; the kinds
are the ones of the error taxonomy (§7) that the modelled code constructs:
`Status::OK()`, `Status::Error(msg)`, `Status::LeaderChanged(msg)` and the
not-found kinds. -/
inductive Status where
  | OK
  | Error (msg : String)
  | LeaderChanged (msg : String)
  | SpaceNotFound
  | PartNotFound
  | IndexNotFound
  | TagNotFound
  | EdgeNotFound
deriving DecidableEq, Repr

/-- Modelled from the spec: `base/StatusOr.h` is absent; a `StatusOr<T>` holds
either a failure status or a value. -/
inductive StatusOr (α : Type) where
  | status (s : Status)
  | value (v : α)
deriving DecidableEq, Repr

/-- The `ok()` test of a `StatusOr`. -/
def StatusOr.ok {α : Type} : StatusOr α → Bool
  | .status _ => false
  | .value _ => true

/-! ## Machine integers -/

/-- Conversion to `int32_t` (two's complement wrap-around). -/
def toInt32 (n : Int) : Int := (n + 2147483648) % 4294967296 - 2147483648

/-- Conversion to `uint32_t`. -/
def toUInt32 (n : Int) : Nat := (n % 4294967296).toNat

/-- Conversion to `uint64_t`. -/
def toUInt64 (n : Int) : Nat := (n % 18446744073709551616).toNat

/-! ## Unordered maps -/

section UnorderedMap
variable {K V : Type} [DecidableEq K]

/-- The `find` of an unordered map: the value stored under `k`, if any. -/
def umFind : List (K × V) → K → Option V
  | [], _ => none
  | (k', v) :: rest, k => if k' = k then some v else umFind rest k

/-- The `emplace(k, v)` of an unordered map: inserts only when `k` is absent. -/
def umEmplace (m : List (K × V)) (k : K) (v : V) : List (K × V) :=
  match umFind m k with
  | some _ => m
  | none => m ++ [(k, v)]

/-- The assignment `m[k] = v`: overwrites the entry of `k` or inserts one. -/
def umAssign : List (K × V) → K → V → List (K × V)
  | [], k, v => [(k, v)]
  | (k', v') :: rest, k, v =>
    if k' = k then (k, v) :: rest else (k', v') :: umAssign rest k v

/-- The `erase(k)` of an unordered map. -/
def umErase (m : List (K × V)) (k : K) : List (K × V) :=
  m.filter (fun p => !decide (p.1 = k))

end UnorderedMap

/-! ## The local cache of the metadata client (`MetaClient.h`) -/

abbrev PartsAlloc := List (PartitionID × List HostAddr)

/-- A column of a thrift schema (`cpp2::ColumnDef`); the optional fields are the ones
read through `__isset`. -/
structure ColumnDef where
  name : String
  type : Int
  type_length : Option Int
  nullable : Option Bool
  default_value : Option String
deriving DecidableEq, Repr

/-- A thrift schema (`cpp2::Schema`): its columns and its `schema_prop`. -/
structure ThriftSchema where
  columns : List ColumnDef
  schema_prop : String
deriving DecidableEq, Repr

/-- The arguments of one `addField` call. -/
structure SchemaField where
  name : String
  type : Int
  len : Nat
  nullable : Bool
  defaultValue : Option String
deriving DecidableEq, Repr

/-- A `NebulaSchemaProvider` as `loadSchemas` builds it (the class is only declared in
`NebulaSchemaProvider.h`): the version it is constructed with, the `addField` calls in
order, and the property set by `setProp`. -/
structure NebulaSchemaProvider where
  ver : SchemaVer
  fields : List SchemaField
  prop : String
deriving DecidableEq, Repr

/-- One item of `listTagSchemas`. -/
structure TagItem where
  tag_id : TagID
  tag_name : String
  version : SchemaVer
  schema : ThriftSchema
deriving DecidableEq, Repr

/-- One item of `listEdgeSchemas`. -/
structure EdgeItem where
  edge_type : EdgeType
  edge_name : String
  version : SchemaVer
  schema : ThriftSchema
deriving DecidableEq, Repr

/-- An index item (`cpp2::IndexItem`), as far as the cache reads it. -/
structure IndexItem where
  index_id : IndexID
  index_name : String
  schema_id : Int
  fields : List String
deriving DecidableEq, Repr

abbrev TagSchemas := List (TagID × List (Option NebulaSchemaProvider))
abbrev EdgeSchemas := List (EdgeType × List (Option NebulaSchemaProvider))
abbrev Indexes := List (IndexID × IndexItem)

/-- The `struct SpaceInfoCache` of `MetaClient.h`. -/
structure SpaceInfoCache where
  spaceName : String
  partsAlloc_ : PartsAlloc
  partsOnHost_ : List (HostAddr × List PartitionID)
  tagSchemas_ : TagSchemas
  edgeSchemas_ : EdgeSchemas
  tagIndexes_ : Indexes
  edgeIndexes_ : Indexes
  vertexIdLen_ : Int
deriving DecidableEq, Repr

abbrev LocalCache := List (GraphSpaceID × SpaceInfoCache)

/-- `MetaClient::partsNum`: the size of the space's partition allocation, returned
through a `StatusOr<int32_t>`. -/
def partsNum (localCache_ : LocalCache) (spaceId : GraphSpaceID) : StatusOr Int :=
  match umFind localCache_ spaceId with
  | none => .status (.Error ("Space not found, spaceid: " ++ toString spaceId))
  | some info => .value (toInt32 (info.partsAlloc_.length : Int))

/-- The `memcpy` of eight id bytes into a `uint64_t` on a little-endian machine. -/
def readU64LE : List (Fin 256) → Nat
  | [] => 0
  | b :: rest => b.val + 256 * readU64LE rest

/-- `MetaClient::partId`. `fnv64_buf` is folly's 64-bit FNV hash (an external
library function, taken as a parameter; its result is a `uint64_t`). -/
def partId (fnv64_buf : List (Fin 256) → Nat) (localCache_ : LocalCache)
    (spaceId : GraphSpaceID) (id : VertexID) : Except Fault (StatusOr PartitionID) :=
  match partsNum localCache_ spaceId with
  | .status _ => .ok (.status (.Error ("Space not found, spaceid: " ++ toString spaceId)))
  | .value numParts =>
    let vid : Nat := if id.length = 8 then readU64LE id else fnv64_buf id % 18446744073709551616
    -- `vid % numParts`: the `int32_t` operand is converted to `uint64_t`
    let divisor : Nat := toUInt64 numParts
    if divisor = 0 then .error .divisionByZero
    else
      let pId : Int := toInt32 (((vid % divisor + 1) % 18446744073709551616 : Nat) : Int)
      -- `CHECK_GT(pId, 0U)` compares after converting `pId` to `unsigned`
      if 0 < toUInt32 pId then .ok (.value pId) else .error .checkFailed

/-! ## The fan-out of `StorageClientBase::collectResponse` (`StorageClientBase.inl`) -/

/-- The storage error codes that the fan-out code names; every other member of the
thrift enum `storage::cpp2::ErrorCode` (generated code, absent from the sources) is
`other n`. -/
inductive ErrorCode where
  | SUCCEEDED
  | E_RPC_FAILURE
  | E_LEADER_CHANGED
  | E_PART_NOT_FOUND
  | E_SPACE_NOT_FOUND
  | other (n : Int)
deriving DecidableEq, Repr

/-- One entry of `result.failed_parts`; `leader` is the optional hint that
`get_leader()` returns as a nullable pointer. -/
structure PartitionResult where
  code : ErrorCode
  part_id : PartitionID
  leader : Option HostAddr
deriving DecidableEq, Repr

/-- The common part of a storage response: `result.failed_parts`,
`result.latency_in_us`, and the payload (opaque to the fan-out). -/
structure Response where
  failed_parts : List PartitionResult
  latency_in_us : Int
  payload : String
deriving DecidableEq, Repr

/-- A per-host sub-request: its space id and its `parts` (keyed by partition id;
`getPartIDFunc` of the source is the projection to the key). -/
structure Request where
  space_id : GraphSpaceID
  parts : List (PartitionID × String)
deriving DecidableEq, Repr

/-- The `folly::Try<Response>` handed to the continuation. -/
inductive Try where
  | exception (what : String)
  | value (resp : Response)
deriving DecidableEq, Repr

abbrev LeaderMap := List ((GraphSpaceID × PartitionID) × HostAddr)

/-- Modelled from the spec: `StorageRpcResponse` is declared in
`StorageClientBase.h`, which is absent. §4.7 describes the aggregate as the
per-partition failed results, the per-host responses, the per-host latencies and a
mark that the aggregate has failures. `failedParts()` is used with
`emplace(partId, code)`, a container keyed by partition id, and `responses()` with
`emplace_back`. -/
structure StorageRpcResponse where
  failedParts : List (PartitionID × ErrorCode)
  responses : List Response
  hostLatency : List (HostAddr × Int × Int)
  hasFailure : Bool
deriving DecidableEq, Repr

/-- `markFailure()`. -/
def StorageRpcResponse.markFailure (r : StorageRpcResponse) : StorageRpcResponse :=
  { r with hasFailure := true }

/-- `setLatency(host, latency, e2eLatency)`. -/
def StorageRpcResponse.setLatency (r : StorageRpcResponse) (host : HostAddr)
    (latency e2e : Int) : StorageRpcResponse :=
  { r with hostLatency := r.hostLatency ++ [(host, latency, e2e)] }

/-- `StorageClientBase::updateLeader`: `leaders_[{spaceId, partId}] = leader`. -/
def updateLeader (leaders_ : LeaderMap) (spaceId : GraphSpaceID) (partId : PartitionID)
    (leader : HostAddr) : LeaderMap :=
  umAssign leaders_ (spaceId, partId) leader

/-- `StorageClientBase::invalidLeader`: erase the entry if there is one. -/
def invalidLeader (leaders_ : LeaderMap) (spaceId : GraphSpaceID) (partId : PartitionID) :
    LeaderMap :=
  match umFind leaders_ (spaceId, partId) with
  | some _ => umErase leaders_ (spaceId, partId)
  | none => leaders_

/-- The state of `struct ResponseContext` that its lock guards. -/
structure ResponseContext where
  ongoingRequests_ : List (HostAddr × Request)
  finishSending_ : Bool
  fulfilled_ : Bool
deriving DecidableEq, Repr

/-- `ResponseContext::finishSending`. -/
def ResponseContext.finishSending (c : ResponseContext) : ResponseContext × Bool :=
  let c1 := { c with finishSending_ := true }
  if c1.ongoingRequests_.isEmpty && !c1.fulfilled_ then
    ({ c1 with fulfilled_ := true }, true)
  else (c1, false)

/-- `ResponseContext::insertRequest`; the flag is `res.second` of the `emplace`. -/
def ResponseContext.insertRequest (c : ResponseContext) (host : HostAddr) (req : Request) :
    ResponseContext × Bool :=
  ({ c with ongoingRequests_ := umEmplace c.ongoingRequests_ host req },
   (umFind c.ongoingRequests_ host).isNone)

/-- `ResponseContext::removeRequest`. -/
def ResponseContext.removeRequest (c : ResponseContext) (host : HostAddr) :
    ResponseContext × Bool :=
  let c1 := { c with ongoingRequests_ := umErase c.ongoingRequests_ host }
  if c1.finishSending_ && !c1.fulfilled_ && c1.ongoingRequests_.isEmpty then
    ({ c1 with fulfilled_ := true }, true)
  else (c1, false)

/-- What the continuation of `collectResponse` mutates besides the context: the
aggregate response and the leader cache of the client. -/
structure Aggregate where
  resp : StorageRpcResponse
  leaders_ : LeaderMap
deriving DecidableEq, Repr

/-- The exception branch of the continuation, for one partition of the failed
sub-request. -/
def failPart (spaceId : GraphSpaceID) (a : Aggregate) (partId : PartitionID) : Aggregate :=
  { resp := { a.resp with
                failedParts := umEmplace a.resp.failedParts partId ErrorCode.E_RPC_FAILURE },
    leaders_ := invalidLeader a.leaders_ spaceId partId }

/-- The exception branch of the continuation: every partition of the sub-request
`r` fails with `E_RPC_FAILURE`, then `markFailure()`. -/
def handleException (a : Aggregate) (r : Request) : Aggregate :=
  let a1 := (r.parts.map Prod.fst).foldl (failPart r.space_id) a
  { a1 with resp := a1.resp.markFailure }

/-- The body of the loop over `result.get_failed_parts()` in the value branch. -/
def handleFailedPart (spaceId : GraphSpaceID) (a : Aggregate) (code : PartitionResult) :
    Aggregate :=
  if code.code = ErrorCode.E_LEADER_CHANGED then
    match code.leader with
    | some leader =>
      if leader.host ≠ "" ∧ leader.port ≠ 0 then
        { a with leaders_ := updateLeader a.leaders_ spaceId code.part_id leader }
      else
        { a with leaders_ := invalidLeader a.leaders_ spaceId code.part_id }
    | none => { a with leaders_ := invalidLeader a.leaders_ spaceId code.part_id }
  else if code.code = ErrorCode.E_PART_NOT_FOUND ∨ code.code = ErrorCode.E_SPACE_NOT_FOUND then
    { a with leaders_ := invalidLeader a.leaders_ spaceId code.part_id }
  else
    { a with resp := { a.resp with
        failedParts := umEmplace a.resp.failedParts code.part_id code.code } }

/-- The value branch of the continuation: the failed parts of the response, the
failure mark, the latency and the response itself. `e2e` is the client-observed
latency `fastNowInMicroSec() - start`. -/
def handleValue (a : Aggregate) (host : HostAddr) (spaceId : GraphSpaceID) (resp : Response)
    (e2e : Int) : Aggregate :=
  let a1 := resp.failed_parts.foldl (handleFailedPart spaceId) a
  let hasFailure := !resp.failed_parts.isEmpty
  let a2 := if hasFailure then { a1 with resp := a1.resp.markFailure } else a1
  let r3 := a2.resp.setLatency host resp.latency_in_us e2e
  { a2 with resp := { r3 with responses := r3.responses ++ [resp] } }

/-- The continuation up to (not including) `removeRequest`. -/
def handleTry (a : Aggregate) (host : HostAddr) (r : Request) (val : Try) (e2e : Int) :
    Aggregate :=
  match val with
  | .exception _ => handleException a r
  | .value resp => handleValue a host r.space_id resp e2e

/-- The state of one `collectResponse` call. `promise` lists the values passed to
`promise.setValue`, `calls` the results of the `removeRequest` and `finishSending`
calls so far, both in the order they happened. -/
structure Fanout where
  context : ResponseContext
  agg : Aggregate
  promise : List StorageRpcResponse
  calls : List Bool
deriving DecidableEq, Repr

/-- What can happen during a `collectResponse` call: one iteration of the sending
loop, the continuation of one host's RPC, the `finishSending` after the loop. -/
inductive FanoutEvent where
  | send (host : HostAddr) (req : Request)
  | reply (host : HostAddr) (val : Try) (e2e : Int)
  | finishSending
deriving DecidableEq, Repr

/-- The state `collectResponse` starts from. -/
def Fanout.init (leaders_ : LeaderMap) : Fanout :=
  { context := { ongoingRequests_ := [], finishSending_ := false, fulfilled_ := false },
    agg := { resp := { failedParts := [], responses := [], hostLatency := [],
                       hasFailure := false },
             leaders_ := leaders_ },
    promise := [], calls := [] }

/-- One event of `collectResponse`. The `DCHECK`s of `insertRequest` and
`findRequest` are faults. -/
def Fanout.step (st : Fanout) : FanoutEvent → Except Fault Fanout
  | .send host req =>
    let (c, inserted) := st.context.insertRequest host req
    if inserted then .ok { st with context := c } else .error .checkFailed
  | .reply host val e2e =>
    match umFind st.context.ongoingRequests_ host with
    | none => .error .checkFailed
    | some r =>
      let agg := handleTry st.agg host r val e2e
      let (c, done) := st.context.removeRequest host
      .ok { context := c, agg := agg,
            promise := if done then st.promise ++ [agg.resp] else st.promise,
            calls := st.calls ++ [done] }
  | .finishSending =>
    let (c, done) := st.context.finishSending
    .ok { st with context := c,
                  promise := if done then st.promise ++ [st.agg.resp] else st.promise,
                  calls := st.calls ++ [done] }

/-- A sequence of events, from left to right. -/
def Fanout.run (st : Fanout) : List FanoutEvent → Except Fault Fanout
  | [] => .ok st
  | ev :: rest =>
    match st.step ev with
    | .error f => .error f
    | .ok st1 => Fanout.run st1 rest

/-- The schedules `collectResponse` allows for the sub-requests `pending` still to
be sent, the hosts `inflight` whose continuation has not run yet, and `finished`
(whether `finishSending` was called): the loop sends the sub-requests in order, a
continuation runs once and after its send, `finishSending` is called once and after
the last send, and nothing is left at the end. -/
def validSchedule : List (HostAddr × Request) → List HostAddr → Bool → List FanoutEvent → Bool
  | pending, inflight, finished, [] => pending.isEmpty && inflight.isEmpty && finished
  | pending, inflight, finished, .send host req :: rest =>
    match pending with
    | [] => false
    | (h, r) :: ps =>
      decide (h = host) && decide (r = req) && validSchedule ps (inflight ++ [host]) finished rest
  | pending, inflight, finished, .reply host _ _ :: rest =>
    decide (host ∈ inflight) &&
      validSchedule pending (inflight.filter (fun h => !decide (h = host))) finished rest
  | pending, inflight, finished, .finishSending :: rest =>
    pending.isEmpty && !finished && validSchedule pending inflight true rest

/-- The responses that the successful replies of a schedule carry, in order. -/
def repliedResponses : List FanoutEvent → List Response
  | [] => []
  | .reply _ (.value resp) _ :: rest => resp :: repliedResponses rest
  | _ :: rest => repliedResponses rest

/-- The link between the state of a fan-out that is not fulfilled yet and the
bookkeeping of `validSchedule`. -/
structure SchedInv (st : Fanout) (pending : List (HostAddr × Request))
    (inflight : List HostAddr) (finished : Bool) : Prop where
  keys : st.context.ongoingRequests_.map Prod.fst = inflight
  fin : st.context.finishSending_ = finished
  notFulfilled : st.context.fulfilled_ = false
  pendingNodup : (pending.map Prod.fst).Nodup
  inflightNodup : inflight.Nodup
  disjoint : ∀ h ∈ pending.map Prod.fst, h ∉ inflight
  finPending : finished = true → pending = []
  finInflight : finished = true → inflight ≠ []

/-! ## The retrying invoker `MetaClient::getResponse` (`MetaClient.cpp`) -/

/-- The codes of the thrift enum `meta::cpp2::ErrorCode` (generated code, absent from
the sources) that `handleResponse` names; every other code is `other n` with its
numeric value. -/
inductive MetaErrorCode where
  | SUCCEEDED
  | E_EXISTED
  | E_NOT_FOUND
  | E_NO_HOSTS
  | E_CONFIG_IMMUTABLE
  | E_CONFLICT
  | E_WRONGCLUSTER
  | E_LEADER_CHANGED
  | E_BALANCED
  | E_BALANCER_RUNNING
  | E_BAD_BALANCE_PLAN
  | E_NO_RUNNING_BALANCE_PLAN
  | E_NO_VALID_HOST
  | E_CORRUPTTED_BALANCE_PLAN
  | E_INVALID_PARTITION_NUM
  | E_INVALID_REPLICA_FACTOR
  | E_INVALID_CHARSET
  | E_INVALID_COLLATE
  | E_CHARSET_COLLATE_NOT_MATCH
  | E_INVALID_PASSWORD
  | E_IMPROPER_ROLE
  | other (n : Int)
deriving DecidableEq, Repr

/-- `MetaClient::handleResponse`. -/
def handleResponse : MetaErrorCode → Status
  | .SUCCEEDED => .OK
  | .E_EXISTED => .Error "existed!"
  | .E_NOT_FOUND => .Error "not existed!"
  | .E_NO_HOSTS => .Error "no hosts!"
  | .E_CONFIG_IMMUTABLE => .Error "Config immutable"
  | .E_CONFLICT => .Error "conflict!"
  | .E_WRONGCLUSTER => .Error "wrong cluster!"
  | .E_LEADER_CHANGED => .LeaderChanged "Leader changed!"
  | .E_BALANCED => .Error "The cluster is balanced!"
  | .E_BALANCER_RUNNING => .Error "The balancer is running!"
  | .E_BAD_BALANCE_PLAN => .Error "Bad balance plan!"
  | .E_NO_RUNNING_BALANCE_PLAN => .Error "No running balance plan!"
  | .E_NO_VALID_HOST => .Error "No valid host hold the partition"
  | .E_CORRUPTTED_BALANCE_PLAN => .Error "No corrupted blance plan"
  | .E_INVALID_PARTITION_NUM => .Error "No valid partition_num"
  | .E_INVALID_REPLICA_FACTOR => .Error "No valid replica_factor"
  | .E_INVALID_CHARSET => .Error "No valid charset"
  | .E_INVALID_COLLATE => .Error "No valid collate"
  | .E_CHARSET_COLLATE_NOT_MATCH => .Error "Charset and collate not match"
  | .E_INVALID_PASSWORD => .Error "Invalid password"
  | .E_IMPROPER_ROLE => .Error "Improper role"
  | .other n => .Error ("Unknown code " ++ toString n)

/-- What `getResponse` reads of a metadata RPC response: `code`, `get_leader()`, and
the rest (opaque, consumed by the response transform). -/
structure RpcResponse where
  code : MetaErrorCode
  leader : HostAddr
  body : String
deriving DecidableEq, Repr

/-- The `folly::Try<RpcResponse>` of one attempt. -/
inductive MetaTry where
  | exception (what : String)
  | value (resp : RpcResponse)
deriving DecidableEq, Repr

/-- The endpoint state of the client: `addrs_`, `active_`, `leader_`. -/
structure MetaHosts where
  addrs_ : List HostAddr
  active_ : HostAddr
  leader_ : HostAddr
deriving DecidableEq, Repr

/-- `addrs_[folly::Random::rand64(addrs_.size())]`, for the random draw `r`. -/
def MetaHosts.randomAddr (h : MetaHosts) (r : Nat) : HostAddr :=
  h.addrs_.getD (r % h.addrs_.length) ⟨"", 0⟩

/-- `MetaClient::updateActive`. -/
def MetaHosts.updateActive (h : MetaHosts) (r : Nat) : MetaHosts :=
  { h with active_ := h.randomAddr r }

/-- `MetaClient::updateLeader(leader)`; the default argument is `HostAddr("", 0)`. -/
def MetaHosts.updateLeader (h : MetaHosts) (leader : HostAddr) (r : Nat) : MetaHosts :=
  if leader ≠ ⟨"", 0⟩ then { h with leader_ := leader }
  else { h with leader_ := h.randomAddr r }

/-- What the outside world contributes to a `getResponse` call: the outcome of the
RPC of the attempt numbered `retry` when it is sent to a given host, and the random
draw used by the endpoint refresh of that attempt. -/
structure MetaEnv where
  remoteFunc : Int → HostAddr → MetaTry
  rand : Int → Nat

/-- The observable outcome of a `getResponse` call: the hosts the attempts were sent
to (in order), the value the promise was completed with, and the endpoint state
afterwards. -/
structure Delivered (α : Type) where
  attempts : List HostAddr
  promise : StatusOr α
  hosts : MetaHosts
deriving DecidableEq, Repr

/-- `MetaClient::getResponse`, with the continuation chain unrolled: one attempt and,
when it retries, the recursive call with `retry + 1` (no overflow, as
`retry < retryLimit`). `fuel` bounds the number of attempts; `none` means the fuel
ran out. -/
def getResponseAux {α : Type} (env : MetaEnv) (respGen : RpcResponse → StatusOr α)
    (toLeader : Bool) (retryLimit : Int) :
    Nat → MetaHosts → Int → Option (Delivered α)
  | 0, _, _ => none
  | fuel + 1, hosts, retry =>
    let host := if toLeader then hosts.leader_ else hosts.active_
    match env.remoteFunc retry host with
    | .exception what =>
      let hosts1 := if toLeader then hosts.updateLeader ⟨"", 0⟩ (env.rand retry)
                    else hosts.updateActive (env.rand retry)
      if retry < retryLimit then
        (getResponseAux env respGen toLeader retryLimit fuel hosts1 (retry + 1)).map
          (fun d => { d with attempts := host :: d.attempts })
      else
        some { attempts := [host],
               promise := .status (.Error ("RPC failure in MetaClient: " ++ what)),
               hosts := hosts1 }
    | .value resp =>
      if resp.code = MetaErrorCode.SUCCEEDED then
        some { attempts := [host], promise := respGen resp, hosts := hosts }
      else if resp.code = MetaErrorCode.E_LEADER_CHANGED then
        let hosts1 := hosts.updateLeader resp.leader (env.rand retry)
        if retry < retryLimit then
          (getResponseAux env respGen toLeader retryLimit fuel hosts1 (retry + 1)).map
            (fun d => { d with attempts := host :: d.attempts })
        else
          some { attempts := [host], promise := .status (handleResponse resp.code),
                 hosts := hosts1 }
      else
        some { attempts := [host], promise := .status (handleResponse resp.code),
               hosts := hosts }

/-- `MetaClient::getResponse` with fuel for every attempt the retry budget allows. -/
def getResponse {α : Type} (env : MetaEnv) (respGen : RpcResponse → StatusOr α)
    (hosts : MetaHosts) (toLeader : Bool) (retry retryLimit : Int) : Option (Delivered α) :=
  getResponseAux env respGen toLeader retryLimit ((retryLimit - retry).toNat + 1) hosts retry

/-! ## The full load `MetaClient::loadData` (`MetaClient.cpp`) -/

/-- A role item (`cpp2::RoleItem`). -/
structure RoleItem where
  user_id : String
  space_id : GraphSpaceID
  role_type : Int
deriving DecidableEq, Repr

/-- The properties of a space (`cpp2::SpaceProperties`), as far as the load reads
them. -/
structure SpaceProperties where
  space_name : String
  partition_num : Int
  vid_size : Int
deriving DecidableEq, Repr

/-- The item `getSpace` returns (`cpp2::SpaceItem`). -/
structure SpaceItem where
  space_id : GraphSpaceID
  properties : SpaceProperties
deriving DecidableEq, Repr

/-- The metadata service as the load sees it: the result of each RPC wrapper
(`listUsers().get()`, `getUserRoles(user).get()`, …), a `StatusOr` each. -/
structure MetaServer where
  listUsers : StatusOr (List (String × String))
  getUserRoles : String → StatusOr (List RoleItem)
  listSpaces : StatusOr (List (GraphSpaceID × String))
  getPartsAlloc : GraphSpaceID → StatusOr PartsAlloc
  listTagSchemas : GraphSpaceID → StatusOr (List TagItem)
  listEdgeSchemas : GraphSpaceID → StatusOr (List EdgeItem)
  listTagIndexes : GraphSpaceID → StatusOr (List IndexItem)
  listEdgeIndexes : GraphSpaceID → StatusOr (List IndexItem)
  getSpace : String → StatusOr SpaceItem

/-- The fields of `struct PartHosts` (`meta/Common.h`, absent from the sources) that
the client reads and writes. -/
structure PartHosts where
  spaceId_ : GraphSpaceID
  partId_ : PartitionID
  hosts_ : List HostAddr
deriving DecidableEq, Repr

abbrev PartsMap := List (GraphSpaceID × List (PartitionID × PartHosts))

/-- A call on the registered `MetaChangedListener`. -/
inductive ListenerEvent where
  | onSpaceAdded (spaceId : GraphSpaceID)
  | onSpaceRemoved (spaceId : GraphSpaceID)
  | onPartAdded (partHosts : PartHosts)
  | onPartRemoved (spaceId : GraphSpaceID) (partId : PartitionID)
  | onPartUpdated (partHosts : PartHosts)
deriving DecidableEq, Repr

abbrev NameIndexMap := List ((GraphSpaceID × String) × IndexID)

/-- The members of `MetaClient` that the load reads and writes. `numThreads` is
`ioThreadPool_->numThreads()`, `localHost_` is `options_.localHost_`, `hasListener`
says whether `listener_` is set and `listenerCalls` lists the calls made on it. -/
structure MetaClientState where
  numThreads : Int
  localHost_ : HostAddr
  hasListener : Bool
  listenerCalls : List ListenerEvent
  localCache_ : LocalCache
  spaceIndexByName_ : List (String × GraphSpaceID)
  spaceTagIndexByName_ : List ((GraphSpaceID × String) × TagID)
  spaceEdgeIndexByName_ : List ((GraphSpaceID × String) × EdgeType)
  spaceEdgeIndexByType_ : List ((GraphSpaceID × EdgeType) × String)
  spaceTagIndexById_ : List ((GraphSpaceID × TagID) × String)
  spaceNewestTagVerMap_ : List ((GraphSpaceID × TagID) × SchemaVer)
  spaceNewestEdgeVerMap_ : List ((GraphSpaceID × EdgeType) × SchemaVer)
  spaceAllEdgeMap_ : List (GraphSpaceID × List String)
  userRolesMap_ : List (String × List RoleItem)
  userPasswordMap_ : List (String × String)
  tagNameIndexMap_ : NameIndexMap
  edgeNameIndexMap_ : NameIndexMap
  ready_ : Bool
deriving DecidableEq, Repr

/-- A loop whose body can fault. -/
def foldlE {σ β : Type} (f : σ → β → Except Fault σ) : σ → List β → Except Fault σ
  | acc, [] => .ok acc
  | acc, x :: rest =>
    match f acc x with
    | .error e => .error e
    | .ok acc1 => foldlE f acc1 rest

/-- The loop of `loadUsersAndRoles` over the listed users; `none` when a
`getUserRoles` fails. -/
def loadUserRoles (srv : MetaServer) :
    List (String × String) → List (String × List RoleItem) → List (String × String) →
    Option (List (String × List RoleItem) × List (String × String))
  | [], userRolesMap, userPasswordMap => some (userRolesMap, userPasswordMap)
  | user :: rest, userRolesMap, userPasswordMap =>
    match srv.getUserRoles user.1 with
    | .status _ => none
    | .value roles =>
      loadUserRoles srv rest (umAssign userRolesMap user.1 roles)
        (umAssign userPasswordMap user.1 user.2)

/-- `MetaClient::loadUsersAndRoles`. -/
def loadUsersAndRoles (srv : MetaServer) (st : MetaClientState) : Bool × MetaClientState :=
  match srv.listUsers with
  | .status _ => (false, st)
  | .value users =>
    match loadUserRoles srv users [] [] with
    | none => (false, st)
    | some (userRolesMap, userPasswordMap) =>
      (true, { st with userRolesMap_ := userRolesMap, userPasswordMap_ := userPasswordMap })

/-- `MetaClient::reverse`. -/
def reverse (parts : PartsAlloc) : List (HostAddr × List PartitionID) :=
  parts.foldl (fun hosts partHost =>
    partHost.2.foldl (fun hosts h =>
      umAssign hosts h ((umFind hosts h).getD [] ++ [partHost.1])) hosts) []

/-- The `addField` arguments `loadSchemas` computes for a column (`len` is a
`size_t`). -/
def toSchemaField (c : ColumnDef) : SchemaField :=
  { name := c.name, type := c.type, len := toUInt64 (c.type_length.getD 0),
    nullable := c.nullable.getD false, defaultValue := c.default_value }

/-- The schema provider `loadSchemas` builds from one listed item. -/
def buildSchema (version : SchemaVer) (schema : ThriftSchema) : NebulaSchemaProvider :=
  { ver := version, fields := schema.columns.map toSchemaField, prop := schema.schema_prop }

/-- `std::vector::resize(n)` on a vector of shared pointers: truncates, or pads with
null pointers. -/
def resizeVec {α : Type} (v : List (Option α)) (n : Nat) : List (Option α) :=
  v.take n ++ List.replicate (n - v.length) none

/-- The two statements `schemas[id].resize(ver + 1)` (only when `doResize`) and
`schemas[id][ver] = schema`; `schemas[id]` creates an empty vector when `id` is
absent. A size `ver + 1` that is negative (also after overflow of the `int64_t`) is a
`length_error`, an index outside the vector is out of range. -/
def storeSchema (schemas : List (Int × List (Option NebulaSchemaProvider))) (id : Int)
    (ver : SchemaVer) (doResize : Bool) (schema : NebulaSchemaProvider) :
    Except Fault (List (Int × List (Option NebulaSchemaProvider))) :=
  let vec0 := (umFind schemas id).getD []
  if doResize ∧ (ver + 1 < 0 ∨ 9223372036854775807 < ver + 1) then .error .lengthError
  else
    let vec1 := if doResize then resizeVec vec0 (ver + 1).toNat else vec0
    if 0 ≤ ver ∧ ver.toNat < vec1.length then
      .ok (umAssign schemas id (vec1.set ver.toNat (some schema)))
    else .error .outOfRange

/-- The "get the latest version" step: raise the stored version, or insert one. -/
def updateNewestVer (m : List ((GraphSpaceID × Int) × SchemaVer)) (key : GraphSpaceID × Int)
    (version : SchemaVer) : List ((GraphSpaceID × Int) × SchemaVer) :=
  match umFind m key with
  | some cur => if cur < version then umAssign m key version else m
  | none => umEmplace m key version

/-- The maps `loadSchemas` receives by reference. -/
structure SchemaMaps where
  tagNameIdMap : List ((GraphSpaceID × String) × TagID)
  tagIdNameMap : List ((GraphSpaceID × TagID) × String)
  edgeNameTypeMap : List ((GraphSpaceID × String) × EdgeType)
  edgeTypeNameMap : List ((GraphSpaceID × EdgeType) × String)
  newestTagVerMap : List ((GraphSpaceID × TagID) × SchemaVer)
  newestEdgeVerMap : List ((GraphSpaceID × EdgeType) × SchemaVer)
  allEdgeMap : List (GraphSpaceID × List String)
deriving DecidableEq, Repr

/-- The variables of the tag loop of `loadSchemas`. -/
structure TagLoop where
  tagSchemas : TagSchemas
  lastTagId : TagID
  maps : SchemaMaps
deriving DecidableEq, Repr

/-- The body of the tag loop of `loadSchemas`. -/
def loadTagItem (spaceId : GraphSpaceID) (st : TagLoop) (tagIt : TagItem) :
    Except Fault TagLoop :=
  let schema := buildSchema tagIt.version tagIt.schema
  let doResize := decide (tagIt.tag_id ≠ st.lastTagId)
  match storeSchema st.tagSchemas tagIt.tag_id tagIt.version doResize schema with
  | .error e => .error e
  | .ok tagSchemas =>
    .ok { tagSchemas := tagSchemas,
          lastTagId := if doResize then tagIt.tag_id else st.lastTagId,
          maps := { st.maps with
            tagNameIdMap := umEmplace st.maps.tagNameIdMap (spaceId, tagIt.tag_name) tagIt.tag_id,
            tagIdNameMap := umEmplace st.maps.tagIdNameMap (spaceId, tagIt.tag_id) tagIt.tag_name,
            newestTagVerMap :=
              updateNewestVer st.maps.newestTagVerMap (spaceId, tagIt.tag_id) tagIt.version } }

/-- The variables of the edge loop of `loadSchemas`: `lastEdgeType` is compared but
never assigned (the loop assigns `lastTagId`), `edges` is the local set of edge types
already listed. -/
structure EdgeLoop where
  edgeSchemas : EdgeSchemas
  lastEdgeType : EdgeType
  lastTagId : TagID
  edges : List (GraphSpaceID × EdgeType)
  maps : SchemaMaps
deriving DecidableEq, Repr

/-- The body of the edge loop of `loadSchemas`. -/
def loadEdgeItem (spaceId : GraphSpaceID) (st : EdgeLoop) (edgeIt : EdgeItem) :
    Except Fault EdgeLoop :=
  let schema := buildSchema edgeIt.version edgeIt.schema
  let doResize := decide (edgeIt.edge_type ≠ st.lastEdgeType)
  match storeSchema st.edgeSchemas edgeIt.edge_type edgeIt.version doResize schema with
  | .error e => .error e
  | .ok edgeSchemas =>
    let st1 : EdgeLoop :=
      { st with
        edgeSchemas := edgeSchemas,
        lastTagId := if doResize then edgeIt.edge_type else st.lastTagId,
        maps := { st.maps with
          edgeNameTypeMap :=
            umEmplace st.maps.edgeNameTypeMap (spaceId, edgeIt.edge_name) edgeIt.edge_type,
          edgeTypeNameMap :=
            umEmplace st.maps.edgeTypeNameMap (spaceId, edgeIt.edge_type) edgeIt.edge_name } }
    let newest (s : EdgeLoop) : EdgeLoop :=
      { s with maps := { s.maps with
          newestEdgeVerMap :=
            updateNewestVer s.maps.newestEdgeVerMap (spaceId, edgeIt.edge_type) edgeIt.version } }
    match umFind st1.maps.allEdgeMap spaceId with
    | none =>
      .ok (newest { st1 with
        edges := if (spaceId, edgeIt.edge_type) ∈ st1.edges then st1.edges
                 else st1.edges ++ [(spaceId, edgeIt.edge_type)],
        maps := { st1.maps with
          allEdgeMap := umEmplace st1.maps.allEdgeMap spaceId [edgeIt.edge_name] } })
    | some names =>
      if (spaceId, edgeIt.edge_type) ∈ st1.edges then
        -- `continue`
        .ok st1
      else
        .ok (newest { st1 with
          edges := st1.edges ++ [(spaceId, edgeIt.edge_type)],
          maps := { st1.maps with
            allEdgeMap := umAssign st1.maps.allEdgeMap spaceId (names ++ [edgeIt.edge_name]) } })

/-- `MetaClient::loadSchemas`; `none` is `return false`. -/
def loadSchemas (srv : MetaServer) (spaceId : GraphSpaceID) (spaceInfoCache : SpaceInfoCache)
    (maps : SchemaMaps) : Except Fault (Option (SpaceInfoCache × SchemaMaps)) :=
  match srv.listTagSchemas spaceId with
  | .status _ => .ok none
  | .value tagItemVec =>
    match srv.listEdgeSchemas spaceId with
    | .status _ => .ok none
    | .value edgeItemVec =>
      match foldlE (loadTagItem spaceId)
          { tagSchemas := [], lastTagId := -1, maps := maps } tagItemVec with
      | .error e => .error e
      | .ok tags =>
        match foldlE (loadEdgeItem spaceId)
            { edgeSchemas := [], lastEdgeType := -1, lastTagId := tags.lastTagId, edges := [],
              maps := tags.maps } edgeItemVec with
        | .error e => .error e
        | .ok edges =>
          .ok (some ({ spaceInfoCache with tagSchemas_ := tags.tagSchemas,
                                           edgeSchemas_ := edges.edgeSchemas }, edges.maps))

/-- One of the two loops of `loadIndexes`: the member map `nameIndexMap` and the local
`indexes`, both filled with `emplace`. -/
def loadIndexItems (spaceId : GraphSpaceID) (items : List IndexItem)
    (nameIndexMap : NameIndexMap) : NameIndexMap × Indexes :=
  items.foldl (fun acc item =>
    (umEmplace acc.1 (spaceId, item.index_name) item.index_id,
     umEmplace acc.2 item.index_id item)) (nameIndexMap, [])

/-- `MetaClient::loadIndexes`, which writes the members `tagNameIndexMap_` and
`edgeNameIndexMap_` directly; `none` is `return false`. -/
def loadIndexes (srv : MetaServer) (spaceId : GraphSpaceID) (cache : SpaceInfoCache)
    (tagNameIndexMap_ edgeNameIndexMap_ : NameIndexMap) :
    Option (SpaceInfoCache × NameIndexMap × NameIndexMap) :=
  match srv.listTagIndexes spaceId with
  | .status _ => none
  | .value tagIndexes =>
    match srv.listEdgeIndexes spaceId with
    | .status _ => none
    | .value edgeIndexes =>
      let t := loadIndexItems spaceId tagIndexes tagNameIndexMap_
      let e := loadIndexItems spaceId edgeIndexes edgeNameIndexMap_
      some ({ cache with tagIndexes_ := t.2, edgeIndexes_ := e.2 }, t.1, e.1)

/-- The local containers of `loadData`. -/
structure LoadAcc where
  cache : LocalCache
  spaceIndexByName : List (String × GraphSpaceID)
  maps : SchemaMaps
deriving DecidableEq, Repr

/-- What survives one iteration of the loop over the spaces: the locals (`none` after
a `return false`) and the two member maps that `loadIndexes` writes. -/
structure LoadProgress where
  acc : Option LoadAcc
  tagNameIndexMap_ : NameIndexMap
  edgeNameIndexMap_ : NameIndexMap
deriving DecidableEq, Repr

/-- The body of the loop of `loadData` over the listed spaces. -/
def loadSpace (srv : MetaServer) (acc : LoadAcc) (tagNameIndexMap_ edgeNameIndexMap_ : NameIndexMap)
    (space : GraphSpaceID × String) : Except Fault LoadProgress :=
  let spaceId := space.1
  match srv.getPartsAlloc spaceId with
  | .status _ => .ok ⟨none, tagNameIndexMap_, edgeNameIndexMap_⟩
  | .value partsAlloc =>
    let spaceCache : SpaceInfoCache :=
      { spaceName := space.2, partsAlloc_ := partsAlloc, partsOnHost_ := reverse partsAlloc,
        tagSchemas_ := [], edgeSchemas_ := [], tagIndexes_ := [], edgeIndexes_ := [],
        vertexIdLen_ := -1 }
    match loadSchemas srv spaceId spaceCache acc.maps with
    | .error e => .error e
    | .ok none => .ok ⟨none, tagNameIndexMap_, edgeNameIndexMap_⟩
    | .ok (some (spaceCache1, maps1)) =>
      match loadIndexes srv spaceId spaceCache1 tagNameIndexMap_ edgeNameIndexMap_ with
      | none => .ok ⟨none, tagNameIndexMap_, edgeNameIndexMap_⟩
      | some (spaceCache2, tagNames, edgeNames) =>
        match srv.getSpace spaceCache2.spaceName with
        | .status _ => .ok ⟨none, tagNames, edgeNames⟩
        | .value item =>
          .ok ⟨some { cache := umEmplace acc.cache spaceId
                        { spaceCache2 with vertexIdLen_ := item.properties.vid_size },
                      spaceIndexByName := umEmplace acc.spaceIndexByName space.2 spaceId,
                      maps := maps1 },
               tagNames, edgeNames⟩

/-- The loop of `loadData` over the listed spaces; it stops at the first
`return false`. -/
def loadSpaces (srv : MetaServer) :
    List (GraphSpaceID × String) → LoadAcc → NameIndexMap → NameIndexMap →
    Except Fault LoadProgress
  | [], acc, tagNames, edgeNames => .ok ⟨some acc, tagNames, edgeNames⟩
  | space :: rest, acc, tagNames, edgeNames =>
    match loadSpace srv acc tagNames edgeNames space with
    | .error e => .error e
    | .ok ⟨none, tagNames1, edgeNames1⟩ => .ok ⟨none, tagNames1, edgeNames1⟩
    | .ok ⟨some acc1, tagNames1, edgeNames1⟩ => loadSpaces srv rest acc1 tagNames1 edgeNames1

/-- `MetaClient::doGetPartsMap`. -/
def doGetPartsMap (host : HostAddr) (localCache : LocalCache) : Except Fault PartsMap :=
  foldlE (fun partMap entry =>
    match umFind entry.2.partsOnHost_ host with
    | none => .ok partMap
    | some parts =>
      foldlE (fun pm partId =>
        match umFind entry.2.partsAlloc_ partId with
        | none => .error .checkFailed
        | some hosts =>
          .ok (umAssign pm entry.1
            (umAssign ((umFind pm entry.1).getD []) partId
              { spaceId_ := entry.1, partId_ := partId, hosts_ := hosts })))
        partMap parts) [] localCache

/-- The first loop of `diff`: spaces and parts that were added or updated. -/
def diffAdded (differs : PartHosts → PartHosts → Bool) (oldPartsMap newPartsMap : PartsMap) :
    List ListenerEvent :=
  newPartsMap.flatMap fun entry =>
    match umFind oldPartsMap entry.1 with
    | none => .onSpaceAdded entry.1 :: entry.2.map (fun part => .onPartAdded part.2)
    | some oldParts =>
      entry.2.flatMap fun part =>
        match umFind oldParts part.1 with
        | none => [.onPartAdded part.2]
        | some oldPartHosts => if differs oldPartHosts part.2 then [.onPartUpdated part.2] else []

/-- The second loop of `diff`: spaces and parts that were removed. -/
def diffRemoved (oldPartsMap newPartsMap : PartsMap) : List ListenerEvent :=
  oldPartsMap.flatMap fun entry =>
    match umFind newPartsMap entry.1 with
    | none => entry.2.map (fun part => .onPartRemoved entry.1 part.1) ++ [.onSpaceRemoved entry.1]
    | some newParts =>
      entry.2.flatMap fun part =>
        match umFind newParts part.1 with
        | none => [.onPartRemoved entry.1 part.1]
        | some _ => []

/-- `MetaClient::diff`: the listener calls it makes. `differs` is `operator!=` of
`PartHosts` (`meta/Common.h`, absent from the sources), a parameter. -/
def diff (differs : PartHosts → PartHosts → Bool) (hasListener : Bool) (localHost_ : HostAddr)
    (oldCache newCache : LocalCache) : Except Fault (List ListenerEvent) :=
  if !hasListener then .ok []
  else
    match doGetPartsMap localHost_ newCache with
    | .error e => .error e
    | .ok newPartsMap =>
      match doGetPartsMap localHost_ oldCache with
      | .error e => .error e
      | .ok oldPartsMap =>
        .ok (diffAdded differs oldPartsMap newPartsMap ++ diffRemoved oldPartsMap newPartsMap)

/-- The empty local containers `loadData` starts from. -/
def LoadAcc.empty : LoadAcc :=
  { cache := [], spaceIndexByName := [],
    maps := { tagNameIdMap := [], tagIdNameMap := [], edgeNameTypeMap := [],
              edgeTypeNameMap := [], newestTagVerMap := [], newestEdgeVerMap := [],
              allEdgeMap := [] } }

/-- `MetaClient::loadData`: the returned flag and the client state afterwards. -/
def loadData (differs : PartHosts → PartHosts → Bool) (srv : MetaServer)
    (st : MetaClientState) : Except Fault (Bool × MetaClientState) :=
  if st.numThreads ≤ 0 then .ok (false, st)
  else
    match loadUsersAndRoles srv st with
    | (false, st1) => .ok (false, st1)
    | (true, st1) =>
      match srv.listSpaces with
      | .status _ => .ok (false, st1)
      | .value spaces =>
        match loadSpaces srv spaces LoadAcc.empty st1.tagNameIndexMap_ st1.edgeNameIndexMap_ with
        | .error e => .error e
        | .ok ⟨none, tagNames, edgeNames⟩ =>
          .ok (false, { st1 with tagNameIndexMap_ := tagNames, edgeNameIndexMap_ := edgeNames })
        | .ok ⟨some acc, tagNames, edgeNames⟩ =>
          let oldCache := st1.localCache_
          let st2 : MetaClientState :=
            { st1 with
              localCache_ := acc.cache,
              spaceIndexByName_ := acc.spaceIndexByName,
              spaceTagIndexByName_ := acc.maps.tagNameIdMap,
              spaceEdgeIndexByName_ := acc.maps.edgeNameTypeMap,
              spaceNewestTagVerMap_ := acc.maps.newestTagVerMap,
              spaceNewestEdgeVerMap_ := acc.maps.newestEdgeVerMap,
              spaceEdgeIndexByType_ := acc.maps.edgeTypeNameMap,
              spaceTagIndexById_ := acc.maps.tagIdNameMap,
              spaceAllEdgeMap_ := acc.maps.allEdgeMap,
              tagNameIndexMap_ := tagNames,
              edgeNameIndexMap_ := edgeNames }
          match diff differs st2.hasListener st2.localHost_ oldCache st2.localCache_ with
          | .error e => .error e
          | .ok events =>
            .ok (true, { st2 with listenerCalls := st2.listenerCalls ++ events, ready_ := true })

/-- A sequence of full loads, one metadata-service state per load: the flags the loads
return and the client state after the last one. -/
def loadDataSeq (differs : PartHosts → PartHosts → Bool) :
    List MetaServer → MetaClientState → Except Fault (List Bool × MetaClientState)
  | [], st => .ok ([], st)
  | srv :: rest, st =>
    match loadData differs srv st with
    | .error e => .error e
    | .ok (b, st1) =>
      match loadDataSeq differs rest st1 with
      | .error e => .error e
      | .ok (bs, st2) => .ok (b :: bs, st2)

/-! ## Snapshots and listener events -/

/-- The space a listener call is about. -/
def ListenerEvent.space : ListenerEvent → GraphSpaceID
  | .onSpaceAdded s => s
  | .onSpaceRemoved s => s
  | .onPartAdded ph => ph.spaceId_
  | .onPartRemoved s _ => s
  | .onPartUpdated ph => ph.spaceId_

/-- The partition of `spaceId` that an `onPartAdded` call announces, if the call is one
about that space. -/
def ListenerEvent.addedPart (spaceId : GraphSpaceID) : ListenerEvent → Option PartitionID
  | .onPartAdded ph => if ph.spaceId_ = spaceId then some ph.partId_ else none
  | _ => none

/-- The partition of `spaceId` that an `onPartRemoved` call announces. -/
def ListenerEvent.removedPart (spaceId : GraphSpaceID) : ListenerEvent → Option PartitionID
  | .onPartRemoved s p => if s = spaceId then some p else none
  | _ => none

/-- The partition of `spaceId` that an `onPartUpdated` call announces. -/
def ListenerEvent.updatedPart (spaceId : GraphSpaceID) : ListenerEvent → Option PartitionID
  | .onPartUpdated ph => if ph.spaceId_ = spaceId then some ph.partId_ else none
  | _ => none

/-- A topology snapshot as `loadData` builds it: the space ids are the keys of an
unordered map, and `partsOnHost_` of every space is `reverse(partsAlloc_)`. -/
structure IsSnapshot (cache : LocalCache) : Prop where
  keys : (cache.map Prod.fst).Nodup
  hosts : ∀ e ∈ cache, e.2.partsOnHost_ = reverse e.2.partsAlloc_

/-- The partitions of a space that a snapshot places on `host`: the list
`partsOnHost_[host]` of the space, empty when the space or the host is unknown. -/
def localParts (cache : LocalCache) (host : HostAddr) (spaceId : GraphSpaceID) :
    List PartitionID :=
  match umFind cache spaceId with
  | none => []
  | some info => (umFind info.partsOnHost_ host).getD []

/-- The replica hosts a snapshot lists for a partition (empty when unknown). -/
def replicaHosts (cache : LocalCache) (spaceId : GraphSpaceID) (partId : PartitionID) :
    List HostAddr :=
  match umFind cache spaceId with
  | none => []
  | some info => (umFind info.partsAlloc_ partId).getD []

/-- Modelled from the spec: `operator!=` of `PartHosts` is declared in `meta/Common.h`,
which is absent from the sources. §4.3 says that "partition-level comparison is by
host-set equality, not deep identity": two `PartHosts` differ when their sets of
hosts differ. -/
def partHostsDiffer (a b : PartHosts) : Bool :=
  !(a.hosts_.all (fun h => decide (h ∈ b.hosts_)) && b.hosts_.all (fun h => decide (h ∈ a.hosts_)))

/-- The partition entries that the inner loop of `doGetPartsMap` assigns for the
partitions `ps` of space `s`, starting from the entries `inner`. -/
def assignParts (s : GraphSpaceID) (alloc : PartsAlloc) (inner : List (PartitionID × PartHosts))
    (ps : List PartitionID) : List (PartitionID × PartHosts) :=
  ps.foldl (fun acc p =>
    umAssign acc p { spaceId_ := s, partId_ := p, hosts_ := (umFind alloc p).getD [] }) inner

/-- What `doGetPartsMap` holds for a space: nothing when the space is not cached or
the host has no partition list or an empty one there, and otherwise one entry for each
partition of the list. -/
def partsMapEntry (host : HostAddr) (cache : LocalCache) (s : GraphSpaceID) :
    Option (List (PartitionID × PartHosts)) :=
  match umFind cache s with
  | none => none
  | some info =>
    match umFind info.partsOnHost_ host with
    | none => none
    | some ps => if ps = [] then none else some (assignParts s info.partsAlloc_ [] ps)

/-- The body of the inner loop of the first loop of `diff`, for a space that both
partition maps hold: the call for one partition of the new map. -/
def partAddedOrUpdated (differs : PartHosts → PartHosts → Bool)
    (oldParts : List (PartitionID × PartHosts)) (part : PartitionID × PartHosts) :
    List ListenerEvent :=
  match umFind oldParts part.1 with
  | none => [.onPartAdded part.2]
  | some oldPartHosts => if differs oldPartHosts part.2 then [.onPartUpdated part.2] else []

/-- The body of the first loop of `diff`: the calls for one space of the new map. -/
def addedEvents (differs : PartHosts → PartHosts → Bool) (oldPartsMap : PartsMap)
    (entry : GraphSpaceID × List (PartitionID × PartHosts)) : List ListenerEvent :=
  match umFind oldPartsMap entry.1 with
  | none => .onSpaceAdded entry.1 :: entry.2.map (fun part => .onPartAdded part.2)
  | some oldParts => entry.2.flatMap (partAddedOrUpdated differs oldParts)

/-- The body of the inner loop of the second loop of `diff`. -/
def partRemoved (spaceId : GraphSpaceID) (newParts : List (PartitionID × PartHosts))
    (part : PartitionID × PartHosts) : List ListenerEvent :=
  match umFind newParts part.1 with
  | none => [.onPartRemoved spaceId part.1]
  | some _ => []

/-- The body of the second loop of `diff`: the calls for one space of the old map. -/
def removedEvents (newPartsMap : PartsMap)
    (entry : GraphSpaceID × List (PartitionID × PartHosts)) : List ListenerEvent :=
  match umFind newPartsMap entry.1 with
  | none => entry.2.map (fun part => .onPartRemoved entry.1 part.1) ++ [.onSpaceRemoved entry.1]
  | some newParts => entry.2.flatMap (partRemoved entry.1 newParts)

/-- The partition map `doGetPartsMap` computes for a host from a snapshot. -/
structure PartsMapOf (host : HostAddr) (cache : LocalCache) (pm : PartsMap) : Prop where
  find : ∀ s, umFind pm s = partsMapEntry host cache s
  keys : (pm.map Prod.fst).Nodup

/-- A space description with the given partition allocation, as the load builds it. -/
def mkSpace (name : String) (alloc : PartsAlloc) : SpaceInfoCache :=
  { spaceName := name, partsAlloc_ := alloc, partsOnHost_ := reverse alloc,
    tagSchemas_ := [], edgeSchemas_ := [], tagIndexes_ := [], edgeIndexes_ := [],
    vertexIdLen_ := 8 }

/-! ## The cache accessors of `MetaClient` (`MetaClient.cpp`) -/

/-- The status every accessor that tests `ready_` returns while the flag is false:
`Status::Error("Not ready!")`. -/
def notReady : Status := .Error "Not ready!"

/-- `MetaClient::getSpaceIdByNameFromCache`. -/
def getSpaceIdByNameFromCache (st : MetaClientState) (name : String) : StatusOr GraphSpaceID :=
  if !st.ready_ then .status notReady
  else
    match umFind st.spaceIndexByName_ name with
    | some id => .value id
    | none => .status .SpaceNotFound

/-- `MetaClient::getTagIDByNameFromCache`. -/
def getTagIDByNameFromCache (st : MetaClientState) (space : GraphSpaceID) (name : String) :
    StatusOr TagID :=
  if !st.ready_ then .status notReady
  else
    match umFind st.spaceTagIndexByName_ (space, name) with
    | none => .status (.Error ("TagName `" ++ name ++ "'  is nonexistent"))
    | some id => .value id

/-- `MetaClient::getTagNameByIdFromCache`. -/
def getTagNameByIdFromCache (st : MetaClientState) (space : GraphSpaceID) (tagId : TagID) :
    StatusOr String :=
  if !st.ready_ then .status notReady
  else
    match umFind st.spaceTagIndexById_ (space, tagId) with
    | none => .status (.Error ("TagID `" ++ toString tagId ++ "'  is nonexistent"))
    | some name => .value name

/-- `MetaClient::getEdgeTypeByNameFromCache`. -/
def getEdgeTypeByNameFromCache (st : MetaClientState) (space : GraphSpaceID) (name : String) :
    StatusOr EdgeType :=
  if !st.ready_ then .status notReady
  else
    match umFind st.spaceEdgeIndexByName_ (space, name) with
    | none => .status (.Error ("EdgeName `" ++ name ++ "'  is nonexistent"))
    | some t => .value t

/-- `MetaClient::getEdgeNameByTypeFromCache`. -/
def getEdgeNameByTypeFromCache (st : MetaClientState) (space : GraphSpaceID)
    (edgeType : EdgeType) : StatusOr String :=
  if !st.ready_ then .status notReady
  else
    match umFind st.spaceEdgeIndexByType_ (space, edgeType) with
    | none => .status (.Error ("EdgeType `" ++ toString edgeType ++ "'  is nonexistent"))
    | some name => .value name

/-- `MetaClient::getAllEdgeFromCache`. -/
def getAllEdgeFromCache (st : MetaClientState) (space : GraphSpaceID) :
    StatusOr (List String) :=
  if !st.ready_ then .status notReady
  else
    match umFind st.spaceAllEdgeMap_ space with
    | none => .status (.Error ("SpaceId `" ++ toString space ++ "'  is nonexistent"))
    | some names => .value names

/-- `MetaClient::getPartHostsFromCache`. -/
def getPartHostsFromCache (localCache_ : LocalCache) (spaceId : GraphSpaceID)
    (partId : PartitionID) : StatusOr PartHosts :=
  match umFind localCache_ spaceId with
  | none => .status (.Error ("Space not found, spaceid: " ++ toString spaceId))
  | some cache =>
    match umFind cache.partsAlloc_ partId with
    | none =>
      .status (.Error ("Part not found in cache, spaceid: " ++ toString spaceId
        ++ ", partid: " ++ toString partId))
    | some hosts => .value { spaceId_ := spaceId, partId_ := partId, hosts_ := hosts }

/-- `MetaClient::checkPartExistInCache`. -/
def checkPartExistInCache (localCache_ : LocalCache) (host : HostAddr)
    (spaceId : GraphSpaceID) (partId : PartitionID) : Status :=
  match umFind localCache_ spaceId with
  | some cache =>
    match umFind cache.partsOnHost_ host with
    | some parts => if partId ∈ parts then .OK else .SpaceNotFound
    | none => .PartNotFound
  | none => .SpaceNotFound

/-- `MetaClient::checkSpaceExistInCache`. -/
def checkSpaceExistInCache (localCache_ : LocalCache) (host : HostAddr)
    (spaceId : GraphSpaceID) : Status :=
  match umFind localCache_ spaceId with
  | some cache =>
    match umFind cache.partsOnHost_ host with
    | some parts => if !parts.isEmpty then .OK else .PartNotFound
    | none => .PartNotFound
  | none => .SpaceNotFound

/-- `MetaClient::checkTagIndexed`: the lookup in `tagIndexes_` is by the tag id. -/
def checkTagIndexed (localCache_ : LocalCache) (space : GraphSpaceID) (tagID : TagID) :
    Status :=
  match umFind localCache_ space with
  | some cache =>
    match umFind cache.tagIndexes_ tagID with
    | some _ => .OK
    | none => .IndexNotFound
  | none => .SpaceNotFound

/-- `MetaClient::checkEdgeIndexed`: the lookup in `edgeIndexes_` is by the edge type. -/
def checkEdgeIndexed (localCache_ : LocalCache) (space : GraphSpaceID) (edgeType : EdgeType) :
    Status :=
  match umFind localCache_ space with
  | some cache =>
    match umFind cache.edgeIndexes_ edgeType with
    | some _ => .OK
    | none => .IndexNotFound
  | none => .SpaceNotFound

/-- `MetaClient::getSpaceVidLen`. -/
def getSpaceVidLen (st : MetaClientState) (spaceId : GraphSpaceID) : StatusOr Int :=
  if !st.ready_ then .status notReady
  else
    match umFind st.localCache_ spaceId with
    | none => .status (.Error ("Space " ++ toString spaceId ++ " not found"))
    | some cache =>
      if cache.vertexIdLen_ ≤ 0 then
        .status (.Error ("Space " ++ toString spaceId ++ " vertexId length invalid"))
      else .value cache.vertexIdLen_

/-- The tail shared by `getTagSchemaFromCache` and `getEdgeSchemaFromCache`: the bound
test `size() <= static_cast<size_t>(ver)` and the access `[ver]`; `none` is the empty
`shared_ptr`. -/
def schemaAt (schemas : List (Int × List (Option NebulaSchemaProvider))) (id : Int)
    (ver : SchemaVer) : Option NebulaSchemaProvider :=
  match umFind schemas id with
  | none => none
  | some vec => if vec.length ≤ toUInt64 ver then none else (vec.getD (toUInt64 ver) none)

/-- `MetaClient::getTagSchemaFromCache`: a space that is not cached gives a value, the
empty `shared_ptr`. -/
def getTagSchemaFromCache (st : MetaClientState) (spaceId : GraphSpaceID) (tagID : TagID)
    (ver : SchemaVer) : StatusOr (Option NebulaSchemaProvider) :=
  if !st.ready_ then .status notReady
  else
    match umFind st.localCache_ spaceId with
    | none => .value none
    | some cache => .value (schemaAt cache.tagSchemas_ tagID ver)

/-- `MetaClient::getEdgeSchemaFromCache`. -/
def getEdgeSchemaFromCache (st : MetaClientState) (spaceId : GraphSpaceID)
    (edgeType : EdgeType) (ver : SchemaVer) : StatusOr (Option NebulaSchemaProvider) :=
  if !st.ready_ then .status notReady
  else
    match umFind st.localCache_ spaceId with
    | none => .value none
    | some cache => .value (schemaAt cache.edgeSchemas_ edgeType ver)

/-- `MetaClient::getAllVerTagSchema`. -/
def getAllVerTagSchema (st : MetaClientState) (spaceId : GraphSpaceID) : StatusOr TagSchemas :=
  if !st.ready_ then .status notReady
  else
    match umFind st.localCache_ spaceId with
    | none => .status (.Error ("Space not " ++ toString spaceId ++ " found"))
    | some cache => .value cache.tagSchemas_

/-- `MetaClient::getAllVerEdgeSchema`. -/
def getAllVerEdgeSchema (st : MetaClientState) (spaceId : GraphSpaceID) :
    StatusOr EdgeSchemas :=
  if !st.ready_ then .status notReady
  else
    match umFind st.localCache_ spaceId with
    | none => .status (.Error ("Space not " ++ toString spaceId ++ " found"))
    | some cache => .value cache.edgeSchemas_

/-- `MetaClient::getTagIndexFromCache`. -/
def getTagIndexFromCache (st : MetaClientState) (spaceId : GraphSpaceID) (indexID : IndexID) :
    StatusOr IndexItem :=
  if !st.ready_ then .status notReady
  else
    match umFind st.localCache_ spaceId with
    | none => .status .SpaceNotFound
    | some cache =>
      match umFind cache.tagIndexes_ indexID with
      | none => .status .IndexNotFound
      | some item => .value item

/-- `MetaClient::getEdgeIndexFromCache`. -/
def getEdgeIndexFromCache (st : MetaClientState) (spaceId : GraphSpaceID) (indexID : IndexID) :
    StatusOr IndexItem :=
  if !st.ready_ then .status notReady
  else
    match umFind st.localCache_ spaceId with
    | none => .status .SpaceNotFound
    | some cache =>
      match umFind cache.edgeIndexes_ indexID with
      | none => .status .IndexNotFound
      | some item => .value item

/-- `MetaClient::getTagIndexByNameFromCache`. -/
def getTagIndexByNameFromCache (st : MetaClientState) (space : GraphSpaceID) (name : String) :
    StatusOr IndexItem :=
  if !st.ready_ then .status notReady
  else
    match umFind st.tagNameIndexMap_ (space, name) with
    | none => .status .IndexNotFound
    | some indexID => getTagIndexFromCache st space indexID

/-- `MetaClient::getEdgeIndexByNameFromCache`. -/
def getEdgeIndexByNameFromCache (st : MetaClientState) (space : GraphSpaceID) (name : String) :
    StatusOr IndexItem :=
  if !st.ready_ then .status notReady
  else
    match umFind st.edgeNameIndexMap_ (space, name) with
    | none => .status .IndexNotFound
    | some indexID => getEdgeIndexFromCache st space indexID

/-- `MetaClient::getRelatedTagIDByIndexNameFromCache`. -/
def getRelatedTagIDByIndexNameFromCache (st : MetaClientState) (space : GraphSpaceID)
    (indexName : String) : StatusOr TagID :=
  if !st.ready_ then .status notReady
  else
    match getTagIndexByNameFromCache st space indexName with
    | .status e => .status e
    | .value item => .value item.schema_id

/-- `MetaClient::getRelatedEdgeTypeByIndexNameFromCache`. -/
def getRelatedEdgeTypeByIndexNameFromCache (st : MetaClientState) (space : GraphSpaceID)
    (indexName : String) : StatusOr EdgeType :=
  if !st.ready_ then .status notReady
  else
    match getEdgeIndexByNameFromCache st space indexName with
    | .status e => .status e
    | .value item => .value item.schema_id

/-- `MetaClient::getTagIndexesFromCache`. -/
def getTagIndexesFromCache (st : MetaClientState) (spaceId : GraphSpaceID) :
    StatusOr (List IndexItem) :=
  if !st.ready_ then .status notReady
  else
    match umFind st.localCache_ spaceId with
    | none => .status .SpaceNotFound
    | some cache => .value (cache.tagIndexes_.map Prod.snd)

/-- `MetaClient::getEdgeIndexesFromCache`. -/
def getEdgeIndexesFromCache (st : MetaClientState) (spaceId : GraphSpaceID) :
    StatusOr (List IndexItem) :=
  if !st.ready_ then .status notReady
  else
    match umFind st.localCache_ spaceId with
    | none => .status .SpaceNotFound
    | some cache => .value (cache.edgeIndexes_.map Prod.snd)

/-- `MetaClient::getLatestTagVersionFromCache`. -/
def getLatestTagVersionFromCache (st : MetaClientState) (space : GraphSpaceID) (tagId : TagID) :
    StatusOr SchemaVer :=
  if !st.ready_ then .status notReady
  else
    match umFind st.spaceNewestTagVerMap_ (space, tagId) with
    | none => .status .TagNotFound
    | some ver => .value ver

/-- `MetaClient::getLatestEdgeVersionFromCache`. -/
def getLatestEdgeVersionFromCache (st : MetaClientState) (space : GraphSpaceID)
    (edgeType : EdgeType) : StatusOr SchemaVer :=
  if !st.ready_ then .status notReady
  else
    match umFind st.spaceNewestEdgeVerMap_ (space, edgeType) with
    | none => .status .EdgeNotFound
    | some ver => .value ver

/-! ## Listed schema versions -/

/-- The version the "get the latest version" steps of `loadSchemas` leave for a key
after the listed versions, starting from the stored one. -/
def newestOf : Option SchemaVer → List SchemaVer → Option SchemaVer
  | o, [] => o
  | none, v :: rest => newestOf (some v) rest
  | some c, v :: rest => newestOf (some (if c < v then v else c)) rest

/-- The items `listTagSchemas` returns for a space; none when the call fails. -/
def tagItemsOf (srv : MetaServer) (spaceId : GraphSpaceID) : List TagItem :=
  match srv.listTagSchemas spaceId with
  | .value items => items
  | .status _ => []

/-- The versions with which the listed items give a tag, in the order listed. -/
def tagVersions (items : List TagItem) (tagId : TagID) : List SchemaVer :=
  (items.filter (fun it => decide (it.tag_id = tagId))).map (fun it => it.version)

/-- The tag arrays of a cached space are those the tag loop of `loadSchemas` builds
from the tag listing of the space. -/
def LoadedTags (srv : MetaServer) (spaceId : GraphSpaceID) (info : SpaceInfoCache) : Prop :=
  ∃ items maps tags, srv.listTagSchemas spaceId = .value items ∧
    foldlE (loadTagItem spaceId) { tagSchemas := [], lastTagId := -1, maps := maps } items
      = .ok tags ∧
    info.tagSchemas_ = tags.tagSchemas

/-- The items `listEdgeSchemas` returns for a space; none when the call fails. -/
def edgeItemsOf (srv : MetaServer) (spaceId : GraphSpaceID) : List EdgeItem :=
  match srv.listEdgeSchemas spaceId with
  | .value items => items
  | .status _ => []

/-- The names the edge loop of `loadSchemas` appends to the list of the space for the
listed items, given the edge types `seen` so far: the name of the first item of each
edge type not seen yet, in the order listed. -/
def newEdgeNames (spaceId : GraphSpaceID) :
    List (GraphSpaceID × EdgeType) → List EdgeItem → List String
  | _, [] => []
  | seen, x :: rest =>
    if (spaceId, x.edge_type) ∈ seen then newEdgeNames spaceId seen rest
    else x.edge_name :: newEdgeNames spaceId (seen ++ [(spaceId, x.edge_type)]) rest

/-- The entry of a space in the all-edge-names map after the edge loop has run over
the listed items, from the entry before. -/
def edgeNamesAfter (prev : Option (List String)) (spaceId : GraphSpaceID)
    (items : List EdgeItem) : Option (List String) :=
  if items = [] then prev else some (prev.getD [] ++ newEdgeNames spaceId [] items)

/-! ## The key-value calls of `MetaClient` (`MetaClient.cpp`) -/

/-- The outcome of a key-value call that fails the local check of its arguments: the
returned future holds the error and `getResponse` is not called, so no attempt is
sent and the endpoints stay as they are. -/
def argumentsInvalid {α : Type} (hosts : MetaHosts) : Option (Delivered α) :=
  some { attempts := [], promise := .status (.Error "arguments invalid!"), hosts := hosts }

/-- `MetaClient::multiPut`. `checkSegment` is declared in `meta/Common.h`, absent from
the sources, and is a parameter here and below; `retryLimit` is
`FLAGS_meta_client_retry_times`. -/
def MetaClient.multiPut (checkSegment : String → Bool) (env : MetaEnv) (hosts : MetaHosts)
    (retryLimit : Int) (segment : String) (pairs : List (String × String)) :
    Option (Delivered Bool) :=
  if checkSegment segment = false ∨ pairs = [] then argumentsInvalid hosts
  else getResponse env (fun resp => .value (decide (resp.code = MetaErrorCode.SUCCEEDED)))
    hosts true 0 retryLimit

/-- `MetaClient::get`. -/
def MetaClient.get (checkSegment : String → Bool) (env : MetaEnv) (hosts : MetaHosts)
    (retryLimit : Int) (segment key : String) : Option (Delivered String) :=
  if checkSegment segment = false ∨ key = "" then argumentsInvalid hosts
  else getResponse env (fun resp => .value resp.body) hosts false 0 retryLimit

/-- `MetaClient::multiGet`; `getValues` is `resp.get_values()`. -/
def MetaClient.multiGet (checkSegment : String → Bool) (getValues : RpcResponse → List String)
    (env : MetaEnv) (hosts : MetaHosts) (retryLimit : Int) (segment : String)
    (keys : List String) : Option (Delivered (List String)) :=
  if checkSegment segment = false ∨ keys = [] then argumentsInvalid hosts
  else getResponse env (fun resp => .value (getValues resp)) hosts false 0 retryLimit

/-- `MetaClient::scan`. -/
def MetaClient.scan (checkSegment : String → Bool) (getValues : RpcResponse → List String)
    (env : MetaEnv) (hosts : MetaHosts) (retryLimit : Int) (segment start endKey : String) :
    Option (Delivered (List String)) :=
  if checkSegment segment = false ∨ start = "" ∨ endKey = "" then argumentsInvalid hosts
  else getResponse env (fun resp => .value (getValues resp)) hosts false 0 retryLimit

/-- `MetaClient::remove`. -/
def MetaClient.remove (checkSegment : String → Bool) (env : MetaEnv) (hosts : MetaHosts)
    (retryLimit : Int) (segment key : String) : Option (Delivered Bool) :=
  if checkSegment segment = false ∨ key = "" then argumentsInvalid hosts
  else getResponse env (fun resp => .value (decide (resp.code = MetaErrorCode.SUCCEEDED)))
    hosts true 0 retryLimit

/-- `MetaClient::removeRange`. -/
def MetaClient.removeRange (checkSegment : String → Bool) (env : MetaEnv) (hosts : MetaHosts)
    (retryLimit : Int) (segment start endKey : String) : Option (Delivered Bool) :=
  if checkSegment segment = false ∨ start = "" ∨ endKey = "" then argumentsInvalid hosts
  else getResponse env (fun resp => .value (decide (resp.code = MetaErrorCode.SUCCEEDED)))
    hosts true 0 retryLimit

/-! ## The leader lookup of the storage client (`StorageClientBase.inl`) -/

/-- An item of `listHosts` (`cpp2::HostItem`), as far as `loadLeader` reads it: the
host and, per space name, the partitions it leads. -/
structure HostItem where
  hostAddr : HostAddr
  leader_parts : List (String × List PartitionID)
deriving DecidableEq, Repr

/-- `MetaClient::loadLeader`; `listHosts` is the result of `listHosts().get()`. -/
def loadLeader (st : MetaClientState) (listHosts : StatusOr (List HostItem)) :
    StatusOr LeaderMap :=
  if !st.ready_ then .status (.Error "Not ready!")
  else
    match listHosts with
    | .status _ => .status (.Error "List hosts failed")
    | .value hostItems =>
      .value (hostItems.foldl (fun leaderMap item =>
        item.leader_parts.foldl (fun leaderMap spaceEntry =>
          match getSpaceIdByNameFromCache st spaceEntry.1 with
          | .status _ => leaderMap
          | .value spaceId =>
            spaceEntry.2.foldl (fun leaderMap partId =>
              umAssign leaderMap (spaceId, partId) item.hostAddr) leaderMap) leaderMap) [])

/-- The members of `StorageClientBase` that the leader lookup reads and writes.
`metaClient_` is the constructor's argument and is taken to be set, so that the
`CHECK`s on it hold. -/
structure StorageClient where
  leaders_ : LeaderMap
  loadLeaderBefore_ : Bool
  isLoadingLeader_ : Bool
deriving DecidableEq, Repr

/-- What the outside world contributes to one `getLeader` call: what
`metaClient_->loadLeader()` returns if it is called now, and the draw of
`folly::Random` behind `rand32`. -/
structure LeaderEnv where
  metaLeaders : StatusOr LeaderMap
  rand : Nat

/-- `StorageClientBase::loadLeader`: the client afterwards and whether the pass ran,
that is, whether `metaClient_->loadLeader()` was called. -/
def StorageClient.loadLeader (c : StorageClient) (env : LeaderEnv) : StorageClient × Bool :=
  if c.loadLeaderBefore_ then (c, false)
  -- `compare_exchange_strong(expected, true)` with `expected = false`
  else if c.isLoadingLeader_ then (c, false)
  else
    match env.metaLeaders with
    | .value leaders =>
      ({ leaders_ := leaders, loadLeaderBefore_ := true, isLoadingLeader_ := false }, true)
    | .status _ => ({ c with isLoadingLeader_ := false }, true)

/-- `folly::Random::rand32(max)`: 0 for `max = 0`, otherwise a value below `max`. -/
def rand32 (draw : Nat) (max : Nat) : Nat := if max = 0 then 0 else draw % max

/-- What a `getLeader` call gives: the host returned, the client afterwards, and
whether the call ran the load-all-leaders pass. -/
structure LeaderAnswer where
  leader : HostAddr
  client : StorageClient
  loaded : Bool
deriving DecidableEq, Repr

/-- `StorageClientBase::getLeader`. The size of `hosts_` is converted to the
`uint32_t` argument of `rand32`; an index outside `hosts_` is out of range. -/
def StorageClient.getLeader (c : StorageClient) (env : LeaderEnv) (partHosts : PartHosts) :
    Except Fault LeaderAnswer :=
  let c1 := c.loadLeader env
  let part := (partHosts.spaceId_, partHosts.partId_)
  match umFind c1.1.leaders_ part with
  | some leader => .ok { leader := leader, client := c1.1, loaded := c1.2 }
  | none =>
    match partHosts.hosts_[rand32 env.rand (toUInt32 partHosts.hosts_.length)]? with
    | none => .error .outOfRange
    | some random =>
      .ok { leader := random,
            client := { c1.1 with leaders_ := umAssign c1.1.leaders_ part random },
            loaded := c1.2 }

/-- A sequence of `getLeader` calls on one client: the answers in order. -/
def StorageClient.getLeaderSeq :
    StorageClient → List (LeaderEnv × PartHosts) → Except Fault (List LeaderAnswer)
  | _, [] => .ok []
  | c, call :: rest =>
    match c.getLeader call.1 call.2 with
    | .error e => .error e
    | .ok r =>
      match StorageClient.getLeaderSeq r.client rest with
      | .error e => .error e
      | .ok rs => .ok (r :: rs)

/-- The client after a sequence of answers. -/
def StorageClient.after : StorageClient → List LeaderAnswer → StorageClient
  | c, [] => c
  | _, r :: rs => StorageClient.after r.client rs

/-! ## Grouping by leader (`StorageClientBase.inl`) -/

/-- The statement `m[k].emplace_back(v)` on a map of vectors: `m[k]` creates an empty
vector when `k` is absent. -/
def umPush {K V : Type} [DecidableEq K] (m : List (K × List V)) (k : K) (v : V) :
    List (K × List V) :=
  umAssign m k ((umFind m k).getD [] ++ [v])

/-- The values `1, ..., parts` of the loop variable of `getHostParts`. -/
def partIdsUpTo (parts : Int) : List PartitionID :=
  (List.range parts.toNat).map fun (i : Nat) => Int.ofNat i + 1

/-- The loop of `getHostParts` over the partition ids still to do. `getPartHosts` is
`StorageClientBase::getPartHosts` (declared in `StorageClientBase.h`, absent from the
sources), a parameter; `env` gives, for the iteration of a partition, what its
`getLeader` call draws from outside. The `DCHECK_GT` is a debug check; an empty replica
list faults in `getLeader`. -/
def StorageClient.getHostPartsLoop
    (getPartHosts : GraphSpaceID → PartitionID → StatusOr PartHosts)
    (env : PartitionID → LeaderEnv) (spaceId : GraphSpaceID) :
    List PartitionID → StorageClient → List (HostAddr × List PartitionID) →
    Except Fault (StatusOr (List (HostAddr × List PartitionID)) × StorageClient)
  | [], c, hostParts => .ok (.value hostParts, c)
  | partId :: rest, c, hostParts =>
    match getPartHosts spaceId partId with
    | .status st => .ok (.status st, c)
    | .value partHosts =>
      match c.getLeader (env partId) partHosts with
      | .error e => .error e
      | .ok r =>
        StorageClient.getHostPartsLoop getPartHosts env spaceId rest r.client
          (umPush hostParts r.leader partId)

/-- `StorageClientBase::getHostParts`: the result and the client afterwards
(`leaders_` is `mutable`). `localCache_` is the cache of the metadata client, read by
`metaClient_->partsNum`. The loop variable `partId` is an `int`: when `parts` is
`INT32_MAX` the test `partId <= parts` never fails, and the `partId++` after the
iteration of `INT32_MAX` overflows. -/
def StorageClient.getHostParts (c : StorageClient) (localCache_ : LocalCache)
    (getPartHosts : GraphSpaceID → PartitionID → StatusOr PartHosts)
    (env : PartitionID → LeaderEnv) (spaceId : GraphSpaceID) :
    Except Fault (StatusOr (List (HostAddr × List PartitionID)) × StorageClient) :=
  match partsNum localCache_ spaceId with
  | .status _ => .ok (.status (.Error ("Space not found, spaceid: " ++ toString spaceId)), c)
  | .value parts =>
    match StorageClient.getHostPartsLoop getPartHosts env spaceId (partIdsUpTo parts) c [] with
    | .error e => .error e
    | .ok (.status st, c1) => .ok (.status st, c1)
    | .ok (.value hostParts, c1) =>
      if parts = 2147483647 then .error .overflow else .ok (.value hostParts, c1)

/-- The result type of `clusterIdsToHosts`: host, then partition, then the ids. -/
abbrev Clusters (α : Type) := List (HostAddr × List (PartitionID × List α))

/-- The statement `clusters[leader][part].emplace_back(id)`. -/
def Clusters.add {α : Type} (clusters : Clusters α) (leader : HostAddr) (part : PartitionID)
    (id : α) : Clusters α :=
  umAssign clusters leader (umPush ((umFind clusters leader).getD []) part id)

/-- The loop of `clusterIdsToHosts`. Each id comes with what the `getLeader` call of its
iteration draws from outside; `partIdOf` is `metaClient_->partId(spaceId, f(id))` and
`getPartHosts` is `getPartHosts(spaceId, part)`. When `getPartHosts` fails the loop
returns `status.status()`, the status of the `partId` result, which is OK there. -/
def StorageClient.clusterIdsToHostsLoop {α : Type}
    (partIdOf : α → Except Fault (StatusOr PartitionID))
    (getPartHosts : PartitionID → StatusOr PartHosts) :
    List (α × LeaderEnv) → StorageClient → Clusters α →
    Except Fault (StatusOr (Clusters α) × StorageClient)
  | [], c, clusters => .ok (.value clusters, c)
  | id :: rest, c, clusters =>
    match partIdOf id.1 with
    | .error e => .error e
    | .ok (.status st) => .ok (.status st, c)
    | .ok (.value part) =>
      match getPartHosts part with
      | .status _ => .ok (.status .OK, c)
      | .value partHosts =>
        -- `CHECK_GT(partHosts.hosts_.size(), 0U)`
        if partHosts.hosts_.length = 0 then .error .checkFailed
        else
          match c.getLeader id.2 partHosts with
          | .error e => .error e
          | .ok r =>
            StorageClient.clusterIdsToHostsLoop partIdOf getPartHosts rest r.client
              (clusters.add r.leader part id.1)

/-- `StorageClientBase::clusterIdsToHosts`: the result and the client afterwards.
`fnv64_buf` and `localCache_` are what `MetaClient::partId` reads. -/
def StorageClient.clusterIdsToHosts {α : Type} (c : StorageClient)
    (fnv64_buf : List (Fin 256) → Nat) (localCache_ : LocalCache)
    (getPartHosts : GraphSpaceID → PartitionID → StatusOr PartHosts)
    (spaceId : GraphSpaceID) (ids : List (α × LeaderEnv)) (f : α → VertexID) :
    Except Fault (StatusOr (Clusters α) × StorageClient) :=
  StorageClient.clusterIdsToHostsLoop (fun id => partId fnv64_buf localCache_ spaceId (f id))
    (getPartHosts spaceId) ids c []

/-- The ids of a bucket of the clusters, none when the bucket does not exist. -/
def Clusters.bucket {α : Type} (clusters : Clusters α) (leader : HostAddr)
    (part : PartitionID) : List α :=
  (umFind ((umFind clusters leader).getD []) part).getD []

/-- All ids of the clusters, bucket after bucket. -/
def Clusters.allIds {α : Type} (clusters : Clusters α) : List α :=
  clusters.flatMap fun hostEntry => hostEntry.2.flatMap Prod.snd

/-- What one iteration of `clusterIdsToHosts` resolved for its id: the partition, the
replicas of the partition and the answer of `getLeader`. -/
structure Resolved (α : Type) where
  id : α
  env : LeaderEnv
  part : PartitionID
  partHosts : PartHosts
  answer : LeaderAnswer

/-! ## The version lookup with its vector access (`MetaClient.cpp`) -/

/-- The lookup of `getTagSchemaFromCache` and `getEdgeSchemaFromCache` with the access
`it->second[ver]` as the source makes it: `ver` is converted to the `size_t` index,
and an index outside the vector is out of range. -/
def schemaAtChecked (schemas : List (Int × List (Option NebulaSchemaProvider))) (id : Int)
    (ver : SchemaVer) : Except Fault (Option NebulaSchemaProvider) :=
  match umFind schemas id with
  | none => .ok none
  | some vec =>
    if vec.length ≤ toUInt64 ver then .ok none
    else
      match vec[toUInt64 ver]? with
      | none => .error .outOfRange
      | some slot => .ok slot

/-- `MetaClient::getTagSchemaFromCache`, with the vector access that can fault. -/
def getTagSchemaFromCacheChecked (st : MetaClientState) (spaceId : GraphSpaceID)
    (tagID : TagID) (ver : SchemaVer) :
    Except Fault (StatusOr (Option NebulaSchemaProvider)) :=
  if !st.ready_ then .ok (.status notReady)
  else
    match umFind st.localCache_ spaceId with
    | none => .ok (.value none)
    | some cache =>
      match schemaAtChecked cache.tagSchemas_ tagID ver with
      | .error e => .error e
      | .ok slot => .ok (.value slot)

/-- `MetaClient::getEdgeSchemaFromCache`, with the vector access that can fault. -/
def getEdgeSchemaFromCacheChecked (st : MetaClientState) (spaceId : GraphSpaceID)
    (edgeType : EdgeType) (ver : SchemaVer) :
    Except Fault (StatusOr (Option NebulaSchemaProvider)) :=
  if !st.ready_ then .ok (.status notReady)
  else
    match umFind st.localCache_ spaceId with
    | none => .ok (.value none)
    | some cache =>
      match schemaAtChecked cache.edgeSchemas_ edgeType ver with
      | .error e => .error e
      | .ok slot => .ok (.value slot)

/-! ## Division and modulus of `Value` (`Value.cpp`) -/

/-- The kinds of null value that the two operators construct, `BAD_TYPE` and
`DIV_BY_ZERO`; every other member of `NullType` (`Value.h`, absent from the sources) is
`other n`. -/
inductive NullType where
  | BAD_TYPE
  | DIV_BY_ZERO
  | other (n : Int)
deriving DecidableEq, Repr

/-- A `Value`, as far as the two operators look at it: a null with its kind, an INT
(an `int64_t`), a FLOAT (a `double`, given by its bit pattern), or a value of any other
type. -/
inductive Value where
  | null (t : NullType)
  | int (n : Int)
  | float (bits : Nat)
  | other (type : Nat)
deriving DecidableEq, Repr

/-- The floating-point operations the two operators use, on bit patterns: the
conversion of an `int64_t`, the division, `std::fmod`, and the test
`std::abs(denom) > EPSILON`. -/
structure FloatOps where
  ofInt : Int → Nat
  div : Nat → Nat → Nat
  fmod : Nat → Nat → Nat
  absGtEpsilon : Nat → Bool

/-- The `int64_t` division `a / denom` for `denom ≠ 0`: truncated, and an overflow for
the one quotient that does not fit, `INT64_MIN / -1`. -/
def int64Div (a denom : Int) : Except Fault Int :=
  if a = -9223372036854775808 ∧ denom = -1 then .error .overflow else .ok (Int.tdiv a denom)

/-- The `int64_t` remainder `a % denom` for `denom ≠ 0`; undefined, like the division,
when the quotient does not fit. -/
def int64Mod (a denom : Int) : Except Fault Int :=
  if a = -9223372036854775808 ∧ denom = -1 then .error .overflow else .ok (Int.tmod a denom)

/-- The function `operator/(const Value&, const Value&)`. -/
def Value.div (fo : FloatOps) (lhs rhs : Value) : Except Fault Value :=
  match lhs, rhs with
  | .null t, _ => .ok (.null t)
  | _, .null t => .ok (.null t)
  | .int a, .int denom =>
    if denom ≠ 0 then (int64Div a denom).map Value.int else .ok (.null .DIV_BY_ZERO)
  | .int a, .float denom =>
    if fo.absGtEpsilon denom then .ok (.float (fo.div (fo.ofInt a) denom))
    else .ok (.null .DIV_BY_ZERO)
  | .int _, .other _ => .ok (.null .BAD_TYPE)
  | .float a, .int denom =>
    if denom ≠ 0 then .ok (.float (fo.div a (fo.ofInt denom))) else .ok (.null .DIV_BY_ZERO)
  | .float a, .float denom =>
    if fo.absGtEpsilon denom then .ok (.float (fo.div a denom)) else .ok (.null .DIV_BY_ZERO)
  | .float _, .other _ => .ok (.null .BAD_TYPE)
  | .other _, _ => .ok (.null .BAD_TYPE)

/-- The function `operator%(const Value&, const Value&)`. -/
def Value.mod (fo : FloatOps) (lhs rhs : Value) : Except Fault Value :=
  match lhs, rhs with
  | .null t, _ => .ok (.null t)
  | _, .null t => .ok (.null t)
  | .int a, .int denom =>
    if denom ≠ 0 then (int64Mod a denom).map Value.int else .ok (.null .DIV_BY_ZERO)
  | .int a, .float denom =>
    if fo.absGtEpsilon denom then .ok (.float (fo.fmod (fo.ofInt a) denom))
    else .ok (.null .DIV_BY_ZERO)
  | .int _, .other _ => .ok (.null .BAD_TYPE)
  | .float a, .int denom =>
    if denom ≠ 0 then .ok (.float (fo.fmod a (fo.ofInt denom))) else .ok (.null .DIV_BY_ZERO)
  | .float a, .float denom =>
    if fo.absGtEpsilon denom then .ok (.float (fo.fmod a denom)) else .ok (.null .DIV_BY_ZERO)
  | .float _, .other _ => .ok (.null .BAD_TYPE)
  | .other _, _ => .ok (.null .BAD_TYPE)

/-! ## The configuration cache (`MetaClient.cpp`) -/

/-- The members of `cpp2::ConfigType` (generated code, absent from the sources) that
the code names; every other value is `other n`. -/
inductive ConfigType where
  | INT64
  | DOUBLE
  | BOOL
  | STRING
  | NESTED
  | other (n : Int)
deriving DecidableEq, Repr

/-- The member of `cpp2::ConfigMode` that the code names, and every other value. -/
inductive ConfigMode where
  | MUTABLE
  | other (n : Int)
deriving DecidableEq, Repr

/-- The alternatives of `VariantType`, a `boost::variant` of `int64_t`, `double`, `bool` and
`std::string`; a `double` is given by its bit pattern. -/
inductive VariantType where
  | int64 (n : Int)
  | double (bits : Nat)
  | bool (b : Bool)
  | string (s : String)
deriving DecidableEq, Repr

/-- The `struct ConfigItem` of `MetaClient.h`; `module_` is the numeric value of the
`cpp2::ConfigModule`. -/
structure ConfigItem where
  module_ : Int
  name_ : String
  type_ : ConfigType
  mode_ : ConfigMode
  value_ : VariantType
deriving DecidableEq, Repr

abbrev MetaConfigMap := List ((Int × String) × ConfigItem)

/-- The members of `MetaClient` that the configuration load reads and writes, together
with the command line flags of the process (`gflags`: the registered flags and their
current values) and two records of calls: `gflagsCalls` lists the items
`updateGflagsValue` was called with, `nestedUpdates` the names `updateNestedGflags` was
called with. -/
structure ConfigState where
  configReady_ : Bool
  metaConfigMap_ : MetaConfigMap
  gflags : List (String × String)
  gflagsCalls : List ConfigItem
  nestedUpdates : List String
deriving DecidableEq, Repr

/-- What the outside world contributes to a configuration load: the results of
`regConfig(...).get()` and of `listConfigs(...).get()`, the listed items already
converted by `toConfigItem` (which keeps module, name, type and mode and decodes the
value bytes). `valueNe` is `operator!=` of `VariantType` and `doubleToString` is
`folly::to<std::string>` on a `double`, both library code. -/
structure ConfigEnv where
  regConfig : StatusOr Bool
  listConfigs : StatusOr (List ConfigItem)
  valueNe : VariantType → VariantType → Bool
  doubleToString : Nat → String

/-- The string `updateGflagsValue` computes from the value of an item: `boost::get` of
the alternative that goes with the type. -/
def metaValueOf (doubleToString : Nat → String) (item : ConfigItem) : Except Fault String :=
  match item.type_, item.value_ with
  | .INT64, .int64 n => .ok (toString n)
  | .INT64, _ => .error .badGet
  | .DOUBLE, .double d => .ok (doubleToString d)
  | .DOUBLE, _ => .error .badGet
  | .BOOL, .bool b => .ok (if b then "true" else "false")
  | .BOOL, _ => .error .badGet
  | .STRING, .string v => .ok v
  | .STRING, _ => .error .badGet
  | .NESTED, .string v => .ok v
  | .NESTED, _ => .error .badGet
  | .other _, _ => .ok ""

/-- `MetaClient::updateGflagsValue`. `GetCommandLineOption` fails for a name that is
not a registered flag; `SetCommandLineOption` is taken to accept the value. -/
def updateGflagsValue (env : ConfigEnv) (hasListener : Bool) (c : ConfigState)
    (item : ConfigItem) : Except Fault ConfigState :=
  let c1 := { c with gflagsCalls := c.gflagsCalls ++ [item] }
  if item.mode_ ≠ ConfigMode.MUTABLE then .ok c1
  else
    match metaValueOf env.doubleToString item with
    | .error e => .error e
    | .ok metaValue =>
      match umFind c1.gflags item.name_ with
      | none => .ok c1
      | some curValue =>
        if curValue ≠ metaValue then
          let metaValue1 :=
            if item.type_ = ConfigType.NESTED ∧ metaValue = "" then "{}" else metaValue
          let c2 := { c1 with gflags := umAssign c1.gflags item.name_ metaValue1 }
          if hasListener ∧ item.type_ = ConfigType.NESTED then
            .ok { c2 with nestedUpdates := c2.nestedUpdates ++ [item.name_] }
          else .ok c2
        else .ok c1

/-- `MetaClient::registerCfg`. -/
def registerCfg (env : ConfigEnv) (c : ConfigState) : Bool × ConfigState :=
  match env.regConfig with
  | .value _ => (true, { c with configReady_ := true })
  | .status _ => (c.configReady_, c)

/-- The local `metaConfigMap` of `loadCfg`: the listed items under their
(module, name) keys, filled with `emplace`. -/
def cfgListed (items : List ConfigItem) : MetaConfigMap :=
  items.foldl (fun m item => umEmplace m (item.module_, item.name_) item) []

/-- The test of the merge loop of `loadCfg` for a listed entry: the key has no entry in
the cache, or the cached value differs from the listed one. -/
def cfgChanged (valueNe : VariantType → VariantType → Bool) (cache : MetaConfigMap)
    (entry : (Int × String) × ConfigItem) : Bool :=
  match umFind cache entry.1 with
  | none => true
  | some cached => valueNe entry.2.value_ cached.value_

/-- The body of the merge loop of `loadCfg`. -/
def mergeCfgEntry (env : ConfigEnv) (hasListener : Bool) (c : ConfigState)
    (entry : (Int × String) × ConfigItem) : Except Fault ConfigState :=
  if cfgChanged env.valueNe c.metaConfigMap_ entry then
    match updateGflagsValue env hasListener c entry.2 with
    | .error e => .error e
    | .ok c1 =>
      .ok { c1 with metaConfigMap_ := umAssign c1.metaConfigMap_ entry.1 entry.2 }
  else .ok c

/-- `MetaClient::loadCfg`: the returned flag and the configuration state afterwards. -/
def loadCfg (env : ConfigEnv) (hasListener : Bool) (c : ConfigState) :
    Except Fault (Bool × ConfigState) :=
  -- `!configReady_ && !registerCfg()`
  let r := if c.configReady_ then (true, c) else registerCfg env c
  if !r.1 then .ok (false, r.2)
  else
    match env.listConfigs with
    | .status _ => .ok (false, r.2)
    | .value items =>
      match foldlE (mergeCfgEntry env hasListener) r.2 (cfgListed items) with
      | .error e => .error e
      | .ok c1 => .ok (true, c1)

/-- The cache entry of a key after the merge of the listed entries `listed` into
`cache`: the listed item when the key is listed and its entry counts as changed, the
old entry otherwise. -/
def cfgMerged (valueNe : VariantType → VariantType → Bool) (cache listed : MetaConfigMap)
    (key : Int × String) : Option ConfigItem :=
  match umFind listed key with
  | none => umFind cache key
  | some item => if cfgChanged valueNe cache (key, item) then some item else umFind cache key

/-! ## The heartbeat task and `isMetadReady` (`MetaClient.cpp`) -/

/-- What the response handler of `heartbeat` reads of a `cpp2::HBResp`. -/
structure HBResp where
  cluster_id : Int
  last_update_time_in_ms : Int
deriving DecidableEq, Repr

/-- The members of `MetaClient` that the heartbeat task reads and writes: the members
of the load (`st`), those of the configuration load (`cfg`), the two timestamps, and
of `options_` the fields `skipConfig_`, `inStoraged_` and `clusterId_`. -/
structure MetaClient where
  st : MetaClientState
  cfg : ConfigState
  localLastUpdateTime_ : Int
  metadLastUpdateTime_ : Int
  skipConfig_ : Bool
  inStoraged_ : Bool
  clusterId_ : Int
deriving DecidableEq, Repr

/-- What the outside world contributes to one heartbeat and the loads after it:
`heartBeat` is what the `getResponse` chain of the heartbeat request delivers before
the response handler runs (the status it fails with, or the response of the attempt
that succeeded), `clusterIdFromFile` and `persistInFile` are the two calls of
`FileBasedClusterIdMan`, `server` and `config` are what the metadata service answers
to the loads, `differs` is `operator!=` of `PartHosts` and `statusNe` is `operator!=`
of `Status`. -/
structure HeartbeatEnv where
  heartBeat : StatusOr HBResp
  clusterIdFromFile : Int
  persistInFile : Int → Bool
  server : MetaServer
  config : ConfigEnv
  differs : PartHosts → PartHosts → Bool
  statusNe : Status → Status → Bool

/-- `MetaClient::heartbeat` followed by `.get()`: the delivered result and the client
afterwards. The leader ids sent along with the request are left out. -/
def heartbeat (env : HeartbeatEnv) (c : MetaClient) : Except Fault (StatusOr Bool × MetaClient) :=
  let c1 :=
    if c.inStoraged_ ∧ c.clusterId_ = 0 then { c with clusterId_ := env.clusterIdFromFile }
    else c
  match env.heartBeat with
  | .status s => .ok (.status s, c1)
  | .value resp =>
    if c1.inStoraged_ ∧ c1.clusterId_ = 0 then
      if env.persistInFile resp.cluster_id then
        .ok (.value true, { c1 with clusterId_ := resp.cluster_id,
                                    metadLastUpdateTime_ := resp.last_update_time_in_ms })
      else .error .checkFailed
    else .ok (.value true, { c1 with metadLastUpdateTime_ := resp.last_update_time_in_ms })

/-- The outcome of the block that `isMetadReady` and `heartBeatThreadFunc` share: the
two flags `ldRet` and `lcRet` and the client afterwards. -/
structure Reloaded where
  ldRet : Bool
  lcRet : Bool
  client : MetaClient
deriving DecidableEq, Repr

/-- The block `bool ldRet = loadData(); bool lcRet = true; if (!options_.skipConfig_)
lcRet = loadCfg(); if (ldRet && lcRet) localLastUpdateTime_ = metadLastUpdateTime_;`. -/
def reload (env : HeartbeatEnv) (c : MetaClient) : Except Fault Reloaded :=
  match loadData env.differs env.server c.st with
  | .error e => .error e
  | .ok (ldRet, st1) =>
    let c1 := { c with st := st1 }
    let lc : Except Fault (Bool × MetaClient) :=
      if !c1.skipConfig_ then
        match loadCfg env.config c1.st.hasListener c1.cfg with
        | .error e => .error e
        | .ok (lcRet, cfg1) => .ok (lcRet, { c1 with cfg := cfg1 })
      else .ok (true, c1)
    match lc with
    | .error e => .error e
    | .ok (lcRet, c2) =>
      if ldRet && lcRet then
        .ok ⟨ldRet, lcRet, { c2 with localLastUpdateTime_ := c2.metadLastUpdateTime_ }⟩
      else .ok ⟨ldRet, lcRet, c2⟩

/-- One run of the heartbeat task: the client afterwards and, when the run reloaded,
the flags `(ldRet, lcRet)` of the reload. -/
structure HeartbeatRun where
  client : MetaClient
  reloaded : Option (Bool × Bool)
deriving DecidableEq, Repr

/-- `MetaClient::heartBeatThreadFunc`; the task added again on exit is left out. -/
def heartBeatThreadFunc (env : HeartbeatEnv) (c : MetaClient) : Except Fault HeartbeatRun :=
  match heartbeat env c with
  | .error e => .error e
  | .ok (ret, c1) =>
    if !ret.ok then .ok ⟨c1, none⟩
    else if c1.localLastUpdateTime_ < c1.metadLastUpdateTime_ then
      match reload env c1 with
      | .error e => .error e
      | .ok r => .ok ⟨r.client, some (r.ldRet, r.lcRet)⟩
    else .ok ⟨c1, none⟩

/-- The test `!ret.ok() && ret.status() != Status::LeaderChanged()` of `isMetadReady`. -/
def heartbeatFailed (statusNe : Status → Status → Bool) : StatusOr Bool → Bool
  | .value _ => false
  | .status s => statusNe s (.LeaderChanged "")

/-- `MetaClient::isMetadReady`: the returned flag and the client afterwards. -/
def isMetadReady (env : HeartbeatEnv) (c : MetaClient) : Except Fault (Bool × MetaClient) :=
  match heartbeat env c with
  | .error e => .error e
  | .ok (ret, c1) =>
    if heartbeatFailed env.statusNe ret then
      .ok (false, { c1 with st := { c1.st with ready_ := false } })
    else
      match reload env c1 with
      | .error e => .error e
      | .ok r => .ok (r.client.st.ready_, r.client)

/-! ## Sample data -/

/-- A cache holding space 1 with three partitions, each on one host. -/
def sampleCache : LocalCache :=
  [(1, { spaceName := "s1",
         partsAlloc_ := [(1, [⟨"a", 1⟩]), (2, [⟨"b", 1⟩]), (3, [⟨"c", 1⟩])],
         partsOnHost_ := [(⟨"a", 1⟩, [1]), (⟨"b", 1⟩, [2]), (⟨"c", 1⟩, [3])],
         tagSchemas_ := [], edgeSchemas_ := [], tagIndexes_ := [], edgeIndexes_ := [],
         vertexIdLen_ := 8 })]

/-- Two storage hosts and a sub-request for each. -/
def hostA : HostAddr := ⟨"a", 9779⟩

def hostB : HostAddr := ⟨"b", 9779⟩

def reqA : Request := { space_id := 1, parts := [(1, "k1")] }

def reqB : Request := { space_id := 1, parts := [(2, "k2")] }

def okResponse : Response := { failed_parts := [], latency_in_us := 10, payload := "v1" }

/-- A schedule in which host A fails before the sending loop reaches host B, and host
B answers after `finishSending`. -/
def sampleSchedule : List FanoutEvent :=
  [.send hostA reqA, .reply hostA (.exception "timeout") 50, .send hostB reqB,
   .finishSending, .reply hostB (.value okResponse) 70]

/-- Sub-requests of two hosts that both carry keys of partition 1 (the leader of the
partition changed while the ids were clustered). -/
def reqA1 : Request := { space_id := 1, parts := [(1, "k1")] }

def reqB1 : Request := { space_id := 1, parts := [(1, "k3")] }

/-- Host A's answer: partition 1 failed with a code that is kept as the result. -/
def failedResponse : Response :=
  { failed_parts := [{ code := .other 5, part_id := 1, leader := none }],
    latency_in_us := 10, payload := "" }

/-- Host A answers with a failed partition 1, then the RPC to host B throws. -/
def overlapScheduleAB : List FanoutEvent :=
  [.send hostA reqA1, .send hostB reqB1, .finishSending,
   .reply hostA (.value failedResponse) 50, .reply hostB (.exception "timeout") 70]

/-- The RPC to host B throws, then host A answers with a failed partition 1. -/
def overlapScheduleBA : List FanoutEvent :=
  [.send hostA reqA1, .send hostB reqB1, .finishSending,
   .reply hostB (.exception "timeout") 50, .reply hostA (.value failedResponse) 70]

/-- Two metadata hosts. -/
def meta1 : HostAddr := ⟨"m1", 9559⟩

def meta2 : HostAddr := ⟨"m2", 9559⟩

/-- Both endpoints point at `meta1`. -/
def sampleHosts : MetaHosts := { addrs_ := [meta1, meta2], active_ := meta1, leader_ := meta1 }

/-- Every RPC throws. -/
def envAlwaysThrows : MetaEnv :=
  { remoteFunc := fun _ _ => .exception "timeout", rand := fun _ => 0 }

/-- Host `meta1` is not the leader and redirects to `meta2`; `meta2` answers. -/
def envRedirect : MetaEnv :=
  { remoteFunc := fun _ h =>
      if h = meta1 then .value { code := .E_LEADER_CHANGED, leader := meta2, body := "" }
      else .value { code := .SUCCEEDED, leader := ⟨"", 0⟩, body := "done" },
    rand := fun _ => 0 }

/-- Every host answers `E_LEADER_CHANGED`, pointing at the other one. -/
def envNoLeader : MetaEnv :=
  { remoteFunc := fun _ h =>
      .value { code := .E_LEADER_CHANGED, leader := if h = meta1 then meta2 else meta1,
               body := "" },
    rand := fun _ => 0 }

/-- A response transform: the body of the response. -/
def bodyOf (r : RpcResponse) : StatusOr String := .value r.body

/-- A metadata service that lists one user and then fails to list the spaces. -/
def usersOnlyServer : MetaServer :=
  { listUsers := .value [("root", "pw")],
    getUserRoles := fun _ => .value [{ user_id := "root", space_id := 0, role_type := 1 }],
    listSpaces := .status (.Error "RPC failure in MetaClient: timeout"),
    getPartsAlloc := fun _ => .status (.Error "not existed!"),
    listTagSchemas := fun _ => .status (.Error "not existed!"),
    listEdgeSchemas := fun _ => .status (.Error "not existed!"),
    listTagIndexes := fun _ => .status (.Error "not existed!"),
    listEdgeIndexes := fun _ => .status (.Error "not existed!"),
    getSpace := fun _ => .status (.Error "not existed!") }

/-- A client that has loaded nothing yet. -/
def emptyClient : MetaClientState :=
  { numThreads := 1, localHost_ := ⟨"", 0⟩, hasListener := false, listenerCalls := [],
    localCache_ := [], spaceIndexByName_ := [], spaceTagIndexByName_ := [],
    spaceEdgeIndexByName_ := [], spaceEdgeIndexByType_ := [], spaceTagIndexById_ := [],
    spaceNewestTagVerMap_ := [], spaceNewestEdgeVerMap_ := [], spaceAllEdgeMap_ := [],
    userRolesMap_ := [], userPasswordMap_ := [], tagNameIndexMap_ := [],
    edgeNameIndexMap_ := [], ready_ := false }

/-- A metadata service with no users and no spaces: every load succeeds. -/
def emptyServer : MetaServer :=
  { usersOnlyServer with listUsers := .value [], listSpaces := .value [] }

/-- A client after a successful load of a metadata service without spaces. -/
def readyClient : MetaClientState := { emptyClient with ready_ := true }

/-- A third storage host. -/
def hostC : HostAddr := ⟨"c", 9779⟩

/-- An old snapshot. Space 1 has partitions 1, 2, 5 on host A and 3 on host B; space 2
has a partition on host A; space 4 lives on host B only. -/
def snapOld : LocalCache :=
  [(1, mkSpace "s1" [(1, [hostA, hostB]), (2, [hostA]), (3, [hostB]), (5, [hostA])]),
   (2, mkSpace "s2" [(1, [hostA])]),
   (4, mkSpace "s4" [(1, [hostB])])]

/-- A new snapshot. In space 1 the replicas of partition 1 are reordered, partition 2
has a new replica, partition 4 is new and partition 5 is gone; space 3 is new with two
partitions on host A; space 5 is new and lives on host B only. -/
def snapNew : LocalCache :=
  [(1, mkSpace "s1" [(1, [hostB, hostA]), (2, [hostA, hostC]), (3, [hostB]), (4, [hostA])]),
   (3, mkSpace "s3" [(1, [hostA]), (2, [hostA, hostB])]),
   (5, mkSpace "s5" [(1, [hostB])])]

/-- A column of the sample schemas. -/
def sampleColumn (name : String) : ColumnDef :=
  { name := name, type := 1, type_length := none, nullable := none, default_value := none }

/-- Tag "T" (id 2) at version 0, with one column. -/
def tagT0 : TagItem :=
  { tag_id := 2, tag_name := "T", version := 0,
    schema := { columns := [sampleColumn "a"], schema_prop := "" } }

/-- Tag "T" (id 2) at version 1, with two columns. -/
def tagT1 : TagItem :=
  { tag_id := 2, tag_name := "T", version := 1,
    schema := { columns := [sampleColumn "a", sampleColumn "b"], schema_prop := "" } }

/-- Tag "U" (id 3) at version 0. -/
def tagU0 : TagItem :=
  { tag_id := 3, tag_name := "U", version := 0,
    schema := { columns := [], schema_prop := "" } }

/-- A metadata service with no users and one space (id 1, one partition on host A, no
edges, no indexes) whose tag listing is `items`. -/
def schemaServer (items : List TagItem) : MetaServer :=
  { listUsers := .value [],
    getUserRoles := fun _ => .value [],
    listSpaces := .value [(1, "s1")],
    getPartsAlloc := fun _ => .value [(1, [hostA])],
    listTagSchemas := fun _ => .value items,
    listEdgeSchemas := fun _ => .value [],
    listTagIndexes := fun _ => .value [],
    listEdgeIndexes := fun _ => .value [],
    getSpace := fun _ =>
      .value { space_id := 1,
               properties := { space_name := "s1", partition_num := 1, vid_size := 8 } } }

/-- The client state a load leaves, the empty client when the load faults. -/
def stateAfter (r : Except Fault (Bool × MetaClientState)) : MetaClientState :=
  match r with
  | .ok (_, st) => st
  | .error _ => emptyClient

/-- Edge type "E" (type 5) at version 0, with one column. -/
def edgeE0 : EdgeItem :=
  { edge_type := 5, edge_name := "E", version := 0,
    schema := { columns := [sampleColumn "a"], schema_prop := "" } }

/-- Edge type "E" (type 5) at version 1, with two columns. -/
def edgeE1 : EdgeItem :=
  { edge_type := 5, edge_name := "E", version := 1,
    schema := { columns := [sampleColumn "a", sampleColumn "b"], schema_prop := "" } }

/-- Edge type "F" (type 6) at version 0. -/
def edgeF0 : EdgeItem :=
  { edge_type := 6, edge_name := "F", version := 0,
    schema := { columns := [], schema_prop := "" } }

/-- The sample metadata service with one space (id 1) and no tags, whose edge listing
is `items`. -/
def edgeServer (items : List EdgeItem) : MetaServer :=
  { schemaServer [] with listEdgeSchemas := fun _ => .value items }

/-- A segment check that rejects exactly the empty segment. -/
def nonEmptySegment (segment : String) : Bool := !decide (segment = "")

/-- Every RPC is answered with `SUCCEEDED` and the body "v". -/
def envAnswers : MetaEnv :=
  { remoteFunc := fun _ _ => .value { code := .SUCCEEDED, leader := ⟨"", 0⟩, body := "v" },
    rand := fun _ => 0 }

/-- The metadata client after a successful load of the sample space "s1" (id 1). -/
def loadedMeta : MetaClientState :=
  stateAfter (loadData partHostsDiffer (schemaServer []) emptyClient)

/-- Partition 1 of the sample space, with replicas on hosts A and B. -/
def samplePart : PartHosts := { spaceId_ := 1, partId_ := 1, hosts_ := [hostA, hostB] }

/-- The answer of `listHosts`: host B leads partition 1 of "s1" and a partition of a
space that the client does not know. -/
def sampleHostItems : List HostItem :=
  [{ hostAddr := hostB, leader_parts := [("s1", [1]), ("unknown", [7])] }]

/-- A `getLeader` call during which the metadata client is not ready yet, so that a
load-all-leaders pass fails. -/
def envNotReady : LeaderEnv :=
  { metaLeaders := loadLeader emptyClient (.value sampleHostItems), rand := 0 }

/-- A `getLeader` call during which the metadata client is ready and `listHosts`
reports host B as the leader of partition 1 of "s1". -/
def envLeaderB : LeaderEnv :=
  { metaLeaders := loadLeader loadedMeta (.value sampleHostItems), rand := 0 }

/-- A storage client that has not looked up any leader yet. -/
def freshStorageClient : StorageClient :=
  { leaders_ := [], loadLeaderBefore_ := false, isLoadingLeader_ := false }

/-- The answers of three `getLeader` calls for the sample partition on a fresh
client: the first during a failed pass, the other two with a ready metadata client. -/
def sampleLeaderAnswers : List LeaderAnswer :=
  [{ leader := hostA,
     client := { freshStorageClient with leaders_ := [((1, 1), hostA)] },
     loaded := true },
   { leader := hostB,
     client := { leaders_ := [((1, 1), hostB)], loadLeaderBefore_ := true,
                 isLoadingLeader_ := false },
     loaded := true },
   { leader := hostB,
     client := { leaders_ := [((1, 1), hostB)], loadLeaderBefore_ := true,
                 isLoadingLeader_ := false },
     loaded := false }]

/-- The metadata cache of the end-to-end scenario: space 1 ("s1") with 4 partitions
on the 3 hosts A, B, C. -/
def scenarioCache : LocalCache :=
  [(1, mkSpace "s1" [(1, [hostA, hostB]), (2, [hostB, hostC]), (3, [hostC, hostA]),
                     (4, [hostA, hostB, hostC])])]

/-- The `getLeader` calls of the scenario: the metadata client lists no leaders, and
the draw for partition `p` is `p`. -/
def scenarioEnv (p : PartitionID) : LeaderEnv :=
  { metaLeaders := .value [], rand := p.toNat }

/-- The 8-byte vertex id whose little-endian value is `n`. -/
def vidOf (n : Fin 256) : VertexID := [n, 0, 0, 0, 0, 0, 0, 0]

/-- Three vertex ids of the scenario space, each with the outside of its `getLeader`
call: the ids 1 and 5 belong to partition 2, the id 2 to partition 3. -/
def scenarioIds : List (VertexID × LeaderEnv) :=
  [(vidOf 1, scenarioEnv 0), (vidOf 2, scenarioEnv 1), (vidOf 5, scenarioEnv 1)]

/-- The clusters of the three scenario ids. -/
def scenarioClusters : Clusters VertexID :=
  [(hostB, [(2, [vidOf 1, vidOf 5])]), (hostA, [(3, [vidOf 2])])]

/-- The storage client after clustering the three scenario ids. -/
def scenarioClient : StorageClient :=
  { leaders_ := [((1, 2), hostB), ((1, 3), hostA)], loadLeaderBefore_ := true,
    isLoadingLeader_ := false }

/-- A cache whose space 1 has an empty partition allocation. -/
def zeroPartsCache : LocalCache := [(1, mkSpace "s1" [])]

/-- A cache whose space 1 has a single partition, with the id 2. -/
def gapCache : LocalCache := [(1, mkSpace "s1" [(2, [hostA])])]

/-- The sample metadata service with one space (id 1), no tags and no edges, whose tag
index listing is `items`. -/
def indexServer (items : List IndexItem) : MetaServer :=
  { schemaServer [] with listTagIndexes := fun _ => .value items }

/-- A tag index named "idx" with the index id `id`. -/
def idxItem (id : IndexID) : IndexItem :=
  { index_id := id, index_name := "idx", schema_id := 2, fields := ["a"] }

/-- A snapshot in which space 1 has one partition, on host B. -/
def snapBefore : LocalCache := [(1, mkSpace "s1" [(1, [hostB])])]

/-- The same space after a second partition was placed on host A. -/
def snapAfter : LocalCache := [(1, mkSpace "s1" [(1, [hostB]), (2, [hostA])])]

/-- A mutable 64-bit integer configuration item of module 1. -/
def cfgItem (name : String) (v : Int) : ConfigItem :=
  ⟨1, name, .INT64, .MUTABLE, .int64 v⟩

/-- The items a sample server lists: `a` as cached, `b` with a new value, `c` new. -/
def sampleListedItems : List ConfigItem :=
  [cfgItem "a" 1, cfgItem "b" 5, cfgItem "c" 7]

/-- A sample environment of a configuration load; values differ when they are not the
same alternative with the same content. -/
def sampleConfigEnv : ConfigEnv :=
  { regConfig := .value true
    listConfigs := .value sampleListedItems
    valueNe := fun a b => decide (a ≠ b)
    doubleToString := fun _ => "" }

/-- A configuration state with three cached items and the flag `b` registered. -/
def sampleConfigState : ConfigState :=
  { configReady_ := true
    metaConfigMap_ :=
      [((1, "a"), cfgItem "a" 1), ((1, "b"), cfgItem "b" 2), ((1, "z"), cfgItem "z" 9)]
    gflags := [("b", "2")]
    gflagsCalls := []
    nestedUpdates := [] }

/-- The state after the sample load. -/
def sampleConfigAfter : ConfigState :=
  { configReady_ := true
    metaConfigMap_ :=
      [((1, "a"), cfgItem "a" 1), ((1, "b"), cfgItem "b" 5), ((1, "z"), cfgItem "z" 9),
       ((1, "c"), cfgItem "c" 7)]
    gflags := [("b", "5")]
    gflagsCalls := [cfgItem "b" 5, cfgItem "c" 7]
    nestedUpdates := [] }

/-- A client before its first load, outside a storage daemon. -/
def sampleMetaClient : MetaClient :=
  { st := emptyClient
    cfg := sampleConfigState
    localLastUpdateTime_ := 0
    metadLastUpdateTime_ := 0
    skipConfig_ := false
    inStoraged_ := false
    clusterId_ := 0 }

/-- A sample comparison of statuses: two statuses differ when they are of different
kinds, whatever their messages. -/
def statusKindNe : Status → Status → Bool
  | .OK, .OK => false
  | .Error _, .Error _ => false
  | .LeaderChanged _, .LeaderChanged _ => false
  | .SpaceNotFound, .SpaceNotFound => false
  | .PartNotFound, .PartNotFound => false
  | .IndexNotFound, .IndexNotFound => false
  | .TagNotFound, .TagNotFound => false
  | .EdgeNotFound, .EdgeNotFound => false
  | _, _ => true

/-- A sample environment: a metadata service without spaces that lists the sample
configuration, and the given outcome of the heartbeat. -/
def heartbeatEnv (hb : StatusOr HBResp) : HeartbeatEnv :=
  { heartBeat := hb
    clusterIdFromFile := 0
    persistInFile := fun _ => true
    server := emptyServer
    config := sampleConfigEnv
    differs := partHostsDiffer
    statusNe := statusKindNe }

/-- The sample client after a run of the heartbeat task that learned the timestamp 7
and reloaded. -/
def sampleMetaClientAfter : MetaClient :=
  { sampleMetaClient with
    st := { emptyClient with ready_ := true }
    cfg := sampleConfigAfter
    localLastUpdateTime_ := 7
    metadLastUpdateTime_ := 7 }

/-- The sample client after a full load from a metadata service without spaces. -/
def sampleLoadedClient : MetaClient :=
  { sampleMetaClient with st := stateAfter (loadData partHostsDiffer emptyServer emptyClient) }

/-- A heartbeat that failed after its retries. -/
def heartbeatTimeout : StatusOr HBResp :=
  .status (.Error "RPC failure in MetaClient: timeout")

/-- A heartbeat that ended with the leader-changed status. -/
def heartbeatLeaderChanged : StatusOr HBResp :=
  .status (.LeaderChanged "Leader changed!")

/-- Comparison of two `PartHosts` field by field. -/
def partHostsNe (a b : PartHosts) : Bool := decide (a ≠ b)

/-! ## Theorems -/

theorem toInt32_range (n : Int) : -2147483648 ≤ toInt32 n ∧ toInt32 n < 2147483648 := by
  unfold toInt32; omega

theorem toInt32_of_small (n : Int) (h0 : 0 ≤ n) (h1 : n < 2147483648) : toInt32 n = n := by
  unfold toInt32; omega

theorem readU64LE_lt (l : List (Fin 256)) : readU64LE l < 256 ^ l.length := by
  induction l with
  | nil => simp [readU64LE]
  | cons b rest ih =>
    have hb := b.isLt
    simp only [readU64LE, List.length_cons, pow_succ]
    generalize 256 ^ rest.length = P at ih ⊢
    omega

/-! ### Unordered-map lemmas -/

section UnorderedMapLemmas
variable {K V : Type} [DecidableEq K]

theorem umFind_eq_none_iff (m : List (K × V)) (k : K) :
    umFind m k = none ↔ k ∉ m.map Prod.fst := by
  induction m with
  | nil => simp [umFind]
  | cons p rest ih =>
    obtain ⟨k', v⟩ := p
    by_cases h : k' = k
    · simp [umFind, h]
    · have h' : ¬ k = k' := fun e => h e.symm
      simp [umFind, h, h', ih]

theorem umFind_isSome_of_mem (m : List (K × V)) (k : K) (h : k ∈ m.map Prod.fst) :
    ∃ v, umFind m k = some v := by
  cases hf : umFind m k with
  | none => exact absurd h ((umFind_eq_none_iff m k).1 hf)
  | some v => exact ⟨v, rfl⟩

theorem umEmplace_of_not_mem (m : List (K × V)) (k : K) (v : V) (h : k ∉ m.map Prod.fst) :
    umEmplace m k v = m ++ [(k, v)] := by
  have := (umFind_eq_none_iff m k).2 h
  simp [umEmplace, this]

theorem umErase_keys (m : List (K × V)) (k : K) :
    (umErase m k).map Prod.fst = (m.map Prod.fst).filter (fun h => !decide (h = k)) := by
  induction m with
  | nil => simp [umErase]
  | cons p rest ih =>
    obtain ⟨k', v⟩ := p
    unfold umErase at ih ⊢
    by_cases h : k' = k
    · simp [List.filter_cons, h, ih]
    · simp [List.filter_cons, h, ih]

theorem umFind_append (m m2 : List (K × V)) (k : K) :
    umFind (m ++ m2) k = match umFind m k with
      | some v => some v
      | none => umFind m2 k := by
  induction m with
  | nil => simp [umFind]
  | cons p rest ih =>
    obtain ⟨k', v⟩ := p
    by_cases h : k' = k
    · simp [umFind, h]
    · simp [umFind, h, ih]

/-- After `emplace(k, v)` an entry that existed is still the one found; only a key
without entry gets the new value. -/
theorem umFind_umEmplace (m : List (K × V)) (k k' : K) (v : V) :
    umFind (umEmplace m k v) k' = match umFind m k' with
      | some c => some c
      | none => if k' = k then some v else none := by
  unfold umEmplace
  cases hk : umFind m k with
  | some c =>
    by_cases h : k' = k
    · subst h; simp [hk]
    · cases hk' : umFind m k' <;> simp [h]
  | none =>
    simp only [umFind_append]
    cases hk' : umFind m k' with
    | some c => rfl
    | none =>
      by_cases h : k' = k
      · subst h; simp [umFind]
      · have h' : ¬ k = k' := fun e => h e.symm
        simp [umFind, h, h']

theorem umFind_umErase (m : List (K × V)) (k k' : K) :
    umFind (umErase m k) k' = if k' = k then none else umFind m k' := by
  induction m with
  | nil => simp [umErase, umFind]
  | cons p rest ih =>
    obtain ⟨k0, v⟩ := p
    unfold umErase at ih ⊢
    by_cases h0 : k0 = k
    · subst h0
      by_cases h : k' = k0
      · subst h; simpa [List.filter_cons] using ih
      · have h' : ¬ k0 = k' := fun e => h e.symm
        simp only [List.filter_cons, decide_True, Bool.not_true, Bool.false_eq_true, if_false,
          ih, if_neg h, umFind, if_neg h']
    · by_cases h : k' = k
      · subst h
        simp only [List.filter_cons, h0, decide_False, Bool.not_false, if_true, umFind, ih]
        simp
      · simp only [List.filter_cons, h0, decide_False, Bool.not_false, if_true, umFind, ih,
          if_neg h]

theorem umFind_umAssign (m : List (K × V)) (k k' : K) (v : V) :
    umFind (umAssign m k v) k' = if k' = k then some v else umFind m k' := by
  induction m with
  | nil =>
    by_cases h : k' = k
    · subst h; simp [umAssign, umFind]
    · have h' : ¬ k = k' := fun e => h e.symm
      simp [umAssign, umFind, h, h']
  | cons p rest ih =>
    obtain ⟨k0, v0⟩ := p
    by_cases h0 : k0 = k
    · subst h0
      by_cases h : k' = k0
      · subst h; simp [umAssign, umFind]
      · have h' : ¬ k0 = k' := fun e => h e.symm
        simp [umAssign, umFind, h, h']
    · by_cases h : k' = k
      · subst h
        simp [umAssign, umFind, h0, ih]
      · simp [umAssign, umFind, h0, ih, h]

end UnorderedMapLemmas

theorem filter_ne_length {α : Type} [DecidableEq α] (l : List α) (a : α)
    (hnd : l.Nodup) (hmem : a ∈ l) :
    (l.filter (fun h => !decide (h = a))).length + 1 = l.length := by
  induction l with
  | nil => simp at hmem
  | cons b rest ih =>
    have hnd' := List.nodup_cons.1 hnd
    by_cases hb : b = a
    · subst hb
      have : rest.filter (fun h => !decide (h = b)) = rest := by
        apply List.filter_eq_self.2
        intro x hx
        have : x ≠ b := fun e => hnd'.1 (e ▸ hx)
        simpa using this
      simp [List.filter_cons, this]
    · have hmem' : a ∈ rest := by
        rcases List.mem_cons.1 hmem with h | h
        · exact absurd h.symm hb
        · exact h
      have := ih hnd'.2 hmem'
      simp [List.filter_cons, hb, this]

/-! ### The fan-out -/

theorem failPart_foldl_responses (spaceId : GraphSpaceID) (ps : List PartitionID)
    (a : Aggregate) :
    (ps.foldl (failPart spaceId) a).resp.responses = a.resp.responses := by
  induction ps generalizing a with
  | nil => rfl
  | cons p rest ih => rw [List.foldl_cons, ih]; rfl

theorem handleFailedPart_responses (spaceId : GraphSpaceID) (a : Aggregate)
    (c : PartitionResult) :
    (handleFailedPart spaceId a c).resp.responses = a.resp.responses := by
  unfold handleFailedPart
  repeat' split
  all_goals rfl

theorem handleFailedPart_foldl_responses (spaceId : GraphSpaceID) (cs : List PartitionResult)
    (a : Aggregate) :
    (cs.foldl (handleFailedPart spaceId) a).resp.responses = a.resp.responses := by
  induction cs generalizing a with
  | nil => rfl
  | cons c rest ih => rw [List.foldl_cons, ih, handleFailedPart_responses]

theorem handleException_responses (a : Aggregate) (r : Request) :
    (handleException a r).resp.responses = a.resp.responses := by
  simp [handleException, StorageRpcResponse.markFailure, failPart_foldl_responses]

theorem handleValue_responses (a : Aggregate) (host : HostAddr) (spaceId : GraphSpaceID)
    (resp : Response) (e2e : Int) :
    (handleValue a host spaceId resp e2e).resp.responses = a.resp.responses ++ [resp] := by
  unfold handleValue
  by_cases h : resp.failed_parts.isEmpty = true
  · simp [h, StorageRpcResponse.setLatency, handleFailedPart_foldl_responses]
  · simp [h, StorageRpcResponse.setLatency, StorageRpcResponse.markFailure,
      handleFailedPart_foldl_responses]

theorem umFind_invalidLeader (leaders_ : LeaderMap) (spaceId : GraphSpaceID)
    (partId : PartitionID) (key : GraphSpaceID × PartitionID) :
    umFind (invalidLeader leaders_ spaceId partId) key
      = if key = (spaceId, partId) then none else umFind leaders_ key := by
  unfold invalidLeader
  cases h : umFind leaders_ (spaceId, partId) with
  | some v => simp only [umFind_umErase]
  | none =>
    by_cases hk : key = (spaceId, partId)
    · subst hk; simp [h]
    · simp [hk]

theorem failPart_foldl_failedParts (spaceId : GraphSpaceID) (ps : List PartitionID)
    (a : Aggregate) (p : PartitionID) :
    umFind (ps.foldl (failPart spaceId) a).resp.failedParts p
      = match umFind a.resp.failedParts p with
        | some c => some c
        | none => if p ∈ ps then some ErrorCode.E_RPC_FAILURE else none := by
  induction ps generalizing a with
  | nil =>
    simp only [List.foldl_nil, List.not_mem_nil, if_false]
    cases umFind a.resp.failedParts p <;> rfl
  | cons q rest ih =>
    rw [List.foldl_cons, ih]
    simp only [failPart, umFind_umEmplace]
    cases umFind a.resp.failedParts p with
    | some c => rfl
    | none =>
      by_cases hq : p = q
      · simp [hq]
      · simp [hq]

theorem failPart_foldl_leaders (spaceId : GraphSpaceID) (ps : List PartitionID)
    (a : Aggregate) (key : GraphSpaceID × PartitionID) :
    umFind (ps.foldl (failPart spaceId) a).leaders_ key
      = if key.1 = spaceId ∧ key.2 ∈ ps then none else umFind a.leaders_ key := by
  induction ps generalizing a with
  | nil => simp
  | cons q rest ih =>
    rw [List.foldl_cons, ih]
    simp only [failPart, umFind_invalidLeader]
    obtain ⟨ks, kp⟩ := key
    by_cases h1 : ks = spaceId
    · by_cases h2 : kp ∈ rest
      · simp [h1, h2]
      · by_cases h3 : kp = q
        · simp [h1, h3]
        · simp [h1, h2, h3]
    · simp [h1]

theorem validSchedule_done (evs : List FanoutEvent)
    (h : validSchedule [] [] true evs = true) : evs = [] := by
  cases evs with
  | nil => rfl
  | cons ev rest => cases ev <;> simp [validSchedule] at h

theorem fanout_send_step (st : Fanout) (host : HostAddr) (req : Request)
    (h : host ∉ st.context.ongoingRequests_.map Prod.fst) :
    st.step (.send host req) = .ok { st with context :=
      { st.context with ongoingRequests_ := st.context.ongoingRequests_ ++ [(host, req)] } } := by
  have hfind := (umFind_eq_none_iff _ _).2 h
  simp [Fanout.step, ResponseContext.insertRequest, hfind, umEmplace]

theorem fanout_run_cons (st st1 : Fanout) (ev : FanoutEvent) (rest : List FanoutEvent)
    (h : st.step ev = .ok st1) : st.run (ev :: rest) = st1.run rest := by
  simp only [Fanout.run, h]

theorem fanout_run_single (st st1 : Fanout) (ev : FanoutEvent)
    (h : st.step ev = .ok st1) : st.run [ev] = .ok st1 := by
  simp only [Fanout.run, h]

theorem fanout_run_valid (evs : List FanoutEvent) :
    ∀ (st : Fanout) (pending : List (HostAddr × Request)) (inflight : List HostAddr)
      (finished : Bool),
      SchedInv st pending inflight finished →
      validSchedule pending inflight finished evs = true →
      ∃ final, st.run evs = .ok final ∧
        final.calls = st.calls ++
          List.replicate (pending.length + inflight.length + (if finished then 0 else 1) - 1)
            false ++ [true] ∧
        final.context.ongoingRequests_ = [] ∧
        final.promise = st.promise ++ [final.agg.resp] ∧
        final.agg.resp.responses = st.agg.resp.responses ++ repliedResponses evs := by
  induction evs with
  | nil =>
    intro st pending inflight finished inv hv
    simp only [validSchedule, Bool.and_eq_true, List.isEmpty_iff] at hv
    exact absurd hv.1.2 (inv.finInflight hv.2)
  | cons ev rest ih =>
    intro st pending inflight finished inv hv
    cases ev with
    | send host req =>
      cases pending with
      | nil => simp [validSchedule] at hv
      | cons pr ps =>
        obtain ⟨h, r⟩ := pr
        simp only [validSchedule, Bool.and_eq_true, decide_eq_true_eq] at hv
        obtain ⟨⟨rfl, rfl⟩, hv⟩ := hv
        have hfin : finished = false := by
          cases finished
          · rfl
          · exact absurd (inv.finPending rfl) (by simp)
        have hnot : h ∉ st.context.ongoingRequests_.map Prod.fst := by
          rw [inv.keys]; exact inv.disjoint h (by simp)
        have hstep := fanout_send_step st h r hnot
        have hpn : h ∉ ps.map Prod.fst ∧ (ps.map Prod.fst).Nodup :=
          List.nodup_cons.1 inv.pendingNodup
        have inv1 : SchedInv { st with context :=
            { st.context with ongoingRequests_ := st.context.ongoingRequests_ ++ [(h, r)] } }
            ps (inflight ++ [h]) finished :=
          { keys := by simp [inv.keys]
            fin := inv.fin
            notFulfilled := inv.notFulfilled
            pendingNodup := hpn.2
            inflightNodup := by
              rw [List.nodup_append]
              refine ⟨inv.inflightNodup, by simp, ?_⟩
              intro a ha hb
              have : a = h := by simpa using hb
              subst this
              exact inv.disjoint a (by simp) ha
            disjoint := by
              intro a ha hmem
              rcases List.mem_append.1 hmem with hm | hm
              · exact inv.disjoint a (by simp [ha]) hm
              · have : a = h := by simpa using hm
                subst this
                exact hpn.1 ha
            finPending := by simp [hfin]
            finInflight := by simp [hfin] }
        obtain ⟨final, hrun, hcalls, hong, hprom, hresp⟩ := ih _ ps (inflight ++ [h]) finished inv1 hv
        refine ⟨final, by rw [fanout_run_cons _ _ _ _ hstep, hrun], ?_, hong, hprom, ?_⟩
        · rw [hcalls]
          simp only [hfin, List.length_append, List.length_cons, List.length_nil]
          congr 3
          simp only [Bool.false_eq_true, if_false]
          omega
        · rw [hresp]; simp [repliedResponses]
    | reply host val e2e =>
      simp only [validSchedule, Bool.and_eq_true, decide_eq_true_eq] at hv
      obtain ⟨hmem, hv⟩ := hv
      obtain ⟨r, hr⟩ := umFind_isSome_of_mem st.context.ongoingRequests_ host
        (by rw [inv.keys]; exact hmem)
      have hlen := filter_ne_length inflight host inv.inflightNodup hmem
      have hkeys : (umErase st.context.ongoingRequests_ host).map Prod.fst
          = inflight.filter (fun h => !decide (h = host)) := by
        rw [umErase_keys, inv.keys]
      have hrespq : (handleTry st.agg host r val e2e).resp.responses
          = st.agg.resp.responses ++ repliedResponses [FanoutEvent.reply host val e2e] := by
        cases val with
        | exception w => simp [handleTry, handleException_responses, repliedResponses]
        | value resp => simp [handleTry, handleValue_responses, repliedResponses]
      by_cases hdone : finished = true ∧ umErase st.context.ongoingRequests_ host = []
      · -- this continuation fulfils the promise
        obtain ⟨hf, he⟩ := hdone
        have hpend := inv.finPending hf
        have hinf : inflight.filter (fun h => !decide (h = host)) = [] := by
          rw [← hkeys, he]; rfl
        subst hpend
        rw [hinf, hf] at hv
        have hrest := validSchedule_done rest hv
        subst hrest
        have hstep : st.step (.reply host val e2e) = .ok
            { context := { ongoingRequests_ := [], finishSending_ := true, fulfilled_ := true },
              agg := handleTry st.agg host r val e2e,
              promise := st.promise ++ [(handleTry st.agg host r val e2e).resp],
              calls := st.calls ++ [true] } := by
          simp [Fanout.step, hr, ResponseContext.removeRequest, he, inv.fin, hf,
            inv.notFulfilled]
        refine ⟨_, fanout_run_single _ _ _ hstep, ?_, rfl, rfl, hrespq⟩
        have h1 : inflight.length = 1 := by
          rw [hinf] at hlen; simpa using hlen.symm
        simp [hf, h1]
      · -- requests are still outstanding, or sending has not finished
        have hstep : st.step (.reply host val e2e) = .ok
            { context := { st.context with
                ongoingRequests_ := umErase st.context.ongoingRequests_ host },
              agg := handleTry st.agg host r val e2e,
              promise := st.promise,
              calls := st.calls ++ [false] } := by
          have hcond : (finished && (umErase st.context.ongoingRequests_ host).isEmpty) = false := by
            cases hfv : finished
            · rfl
            · cases he : umErase st.context.ongoingRequests_ host with
              | nil => exact absurd ⟨hfv, he⟩ hdone
              | cons x xs => rfl
          simp [Fanout.step, hr, ResponseContext.removeRequest, inv.fin, inv.notFulfilled, hcond]
        have inv1 : SchedInv
            { context := { st.context with
                ongoingRequests_ := umErase st.context.ongoingRequests_ host },
              agg := handleTry st.agg host r val e2e,
              promise := st.promise,
              calls := st.calls ++ [false] }
            pending (inflight.filter (fun h => !decide (h = host))) finished :=
          { keys := hkeys
            fin := inv.fin
            notFulfilled := inv.notFulfilled
            pendingNodup := inv.pendingNodup
            inflightNodup := inv.inflightNodup.filter _
            disjoint := fun a ha hm => inv.disjoint a ha (List.mem_of_mem_filter hm)
            finPending := inv.finPending
            finInflight := by
              intro hf hem
              apply hdone
              refine ⟨hf, ?_⟩
              have : (umErase st.context.ongoingRequests_ host).map Prod.fst = [] := by
                rw [hkeys, hem]
              simpa using this }
        obtain ⟨final, hrun, hcalls, hong, hprom, hresp⟩ := ih _ pending _ finished inv1 hv
        refine ⟨final, by rw [fanout_run_cons _ _ _ _ hstep, hrun], ?_, hong, hprom, ?_⟩
        · rw [hcalls]
          have hpos : 1 ≤ pending.length
              + (inflight.filter (fun h => !decide (h = host))).length
              + (if finished = true then 0 else 1) := by
            cases hfv : finished
            · simp
            · have := inv1.finInflight hfv
              have : 0 < (inflight.filter (fun h => !decide (h = host))).length :=
                List.length_pos.2 this
              simp; omega
          have hk : pending.length + inflight.length + (if finished = true then 0 else 1) - 1
              = (pending.length + (inflight.filter (fun h => !decide (h = host))).length
                  + (if finished = true then 0 else 1) - 1) + 1 := by omega
          rw [hk, List.replicate_succ]
          simp
        · rw [hresp, hrespq]; simp [repliedResponses, List.append_assoc]
          cases val <;> simp [repliedResponses]
    | finishSending =>
      simp only [validSchedule, Bool.and_eq_true, List.isEmpty_iff, Bool.not_eq_true'] at hv
      obtain ⟨⟨hpend, hfin⟩, hv⟩ := hv
      subst hpend
      subst hfin
      by_cases hemp : inflight = []
      · subst hemp
        have hrest := validSchedule_done rest hv
        subst hrest
        have hong : st.context.ongoingRequests_ = [] := by simpa using inv.keys
        have hstep : st.step .finishSending = .ok
            { st with context := { ongoingRequests_ := [], finishSending_ := true,
                                   fulfilled_ := true },
                      promise := st.promise ++ [st.agg.resp],
                      calls := st.calls ++ [true] } := by
          simp [Fanout.step, ResponseContext.finishSending, hong, inv.notFulfilled]
        exact ⟨_, fanout_run_single _ _ _ hstep, by simp, rfl, rfl, by simp [repliedResponses]⟩
      · have hong : st.context.ongoingRequests_.isEmpty = false := by
          cases ho : st.context.ongoingRequests_ with
          | nil => exact absurd (by simpa [ho] using inv.keys.symm) hemp
          | cons x xs => rfl
        have hstep : st.step .finishSending = .ok
            { st with context := { st.context with finishSending_ := true },
                      calls := st.calls ++ [false] } := by
          simp [Fanout.step, ResponseContext.finishSending, hong]
        have inv1 : SchedInv
            { st with context := { st.context with finishSending_ := true },
                      calls := st.calls ++ [false] } [] inflight true :=
          { keys := inv.keys
            fin := rfl
            notFulfilled := inv.notFulfilled
            pendingNodup := inv.pendingNodup
            inflightNodup := inv.inflightNodup
            disjoint := inv.disjoint
            finPending := fun _ => rfl
            finInflight := fun _ => hemp }
        obtain ⟨final, hrun, hcalls, hong', hprom, hresp⟩ := ih _ [] inflight true inv1 hv
        refine ⟨final, by rw [fanout_run_cons _ _ _ _ hstep, hrun], ?_, hong', hprom, ?_⟩
        · rw [hcalls]
          have hpos : 0 < inflight.length := List.length_pos.2 hemp
          obtain ⟨k, hk⟩ : ∃ k, inflight.length = k + 1 := ⟨inflight.length - 1, by omega⟩
          simp [hk, List.replicate_succ]
        · rw [hresp]; simp [repliedResponses]

/-- `partsNum` reports the size of the partition allocation of a cached space
whenever that size fits an `int32_t`. -/
theorem partsNum_eq_size (cache : LocalCache) (s : GraphSpaceID) (info : SpaceInfoCache)
    (hs : umFind cache s = some info) (hfit : info.partsAlloc_.length < 2147483648) :
    partsNum cache s = .value (info.partsAlloc_.length : Int) := by
  simp only [partsNum, hs]
  rw [toInt32_of_small _ (by omega) (by omega)]

/-- What `partId` computes once the partition count `n` reported by `partsNum` is
positive: `vid % n + 1`. -/
theorem partId_eq (fnv64_buf : List (Fin 256) → Nat) (cache : LocalCache)
    (s : GraphSpaceID) (id : VertexID) (n : Int)
    (hn : partsNum cache s = .value n) (h1 : 1 ≤ n) :
    partId fnv64_buf cache s id = .ok (.value
      (((if id.length = 8 then readU64LE id else fnv64_buf id % 18446744073709551616 : Nat) : Int)
          % n + 1)) := by
  have hr : n < 2147483648 := by
    unfold partsNum at hn
    split at hn
    · exact absurd hn (by simp)
    · rw [← StatusOr.value.inj hn]; exact (toInt32_range _).2
  obtain ⟨d, rfl⟩ : ∃ d : Nat, n = (d : Int) := ⟨n.toNat, by omega⟩
  have hd1 : 1 ≤ d := by omega
  have hd2 : d < 2147483648 := by omega
  have hdiv : toUInt64 (d : Int) = d := by unfold toUInt64; omega
  generalize hv : (if id.length = 8 then readU64LE id else fnv64_buf id % 18446744073709551616) = vid
  have hm : vid % d < d := Nat.mod_lt _ (by omega)
  have hsmall : (vid % d + 1) % 18446744073709551616 = vid % d + 1 := by omega
  have h32 : toInt32 ((vid % d + 1 : Nat) : Int) = ((vid % d + 1 : Nat) : Int) :=
    toInt32_of_small _ (by omega) (by omega)
  have hpos : 0 < toUInt32 ((vid % d + 1 : Nat) : Int) := by unfold toUInt32; omega
  simp only [partId, hn, hv, hdiv, hsmall, h32]
  rw [if_neg (by omega), if_pos hpos]
  push_cast
  rfl

/-- C1. For every cache in which space `s` is present with `n ≥ 1` partitions (the
count `partsNum` reports) and every id byte string, `partId s id` returns a partition
id `p` with `1 ≤ p ≤ n`; it neither fails nor aborts. -/
theorem partId_in_range (fnv64_buf : List (Fin 256) → Nat) (cache : LocalCache)
    (s : GraphSpaceID) (id : VertexID) (n : Int)
    (hn : partsNum cache s = .value n) (h1 : 1 ≤ n) :
    ∃ p : PartitionID, partId fnv64_buf cache s id = .ok (.value p) ∧ 1 ≤ p ∧ p ≤ n := by
  have key := partId_eq fnv64_buf cache s id n hn h1
  generalize
    (((if id.length = 8 then readU64LE id else fnv64_buf id % 18446744073709551616 : Nat) : Int))
      = v at key
  have h0 := Int.emod_nonneg v (show n ≠ 0 by omega)
  have h2 := Int.emod_lt_of_pos v (show 0 < n by omega)
  have h3 : (1 : Int) ≤ v % n + 1 := by omega
  have h4 : v % n + 1 ≤ n := by omega
  exact ⟨v % n + 1, key, h3, h4⟩

theorem partId_in_range_witness :
    partsNum sampleCache 1 = .value 3 ∧ (1 : Int) ≤ 3 ∧
    ∃ p : PartitionID, partId (fun _ => 7) sampleCache 1 [] = .ok (.value p) ∧ 1 ≤ p ∧ p ≤ 3 :=
  ⟨by decide, by decide, partId_in_range (fun _ => 7) sampleCache 1 [] 3 (by decide) (by decide)⟩

/-- The direct path on a concrete 8-byte id (bytes `05 01 00 …`, the integer 261) and
the hashed path on the 9-byte id with the same leading bytes. -/
theorem partId_sample_values :
    partId (fun _ => 7) sampleCache 1 [5, 1, 0, 0, 0, 0, 0, 0] = .ok (.value 1) ∧
    partId (fun _ => 7) sampleCache 1 [5, 1, 0, 0, 0, 0, 0, 0, 0] = .ok (.value 2) ∧
    partId (fun _ => 7) sampleCache 2 [] = .ok (.status (.Error "Space not found, spaceid: 2")) :=
  ⟨by decide, by decide, by decide⟩

/-- C3. Fan-out completion is exactly-once: for every set of `N ≥ 0` per-host
sub-requests and every schedule of the `N` continuations (each after its host's
`insertRequest`) and the one `finishSending()` (after all inserts), the run ends
without a failed check; of the `N + 1` `removeRequest`/`finishSending` calls exactly
the last one returns true; no request is outstanding then; the promise is set exactly
once, with the aggregate as it is after all `N` continuations, which holds the
response of every host that answered. -/
theorem fanout_fulfilled_exactly_once (leaders_ : LeaderMap)
    (requests : List (HostAddr × Request)) (evs : List FanoutEvent)
    (hkeys : (requests.map Prod.fst).Nodup)
    (hvalid : validSchedule requests [] false evs = true) :
    ∃ final, (Fanout.init leaders_).run evs = .ok final ∧
      final.calls = List.replicate requests.length false ++ [true] ∧
      final.context.ongoingRequests_ = [] ∧
      final.promise = [final.agg.resp] ∧
      final.agg.resp.responses = repliedResponses evs := by
  have inv : SchedInv (Fanout.init leaders_) requests [] false :=
    { keys := rfl
      fin := rfl
      notFulfilled := rfl
      pendingNodup := hkeys
      inflightNodup := List.nodup_nil
      disjoint := fun _ _ h => by simp at h
      finPending := fun h => by simp at h
      finInflight := fun h => by simp at h }
  obtain ⟨final, hrun, hcalls, hong, hprom, hresp⟩ :=
    fanout_run_valid evs (Fanout.init leaders_) requests [] false inv hvalid
  refine ⟨final, hrun, ?_, hong, ?_, ?_⟩
  · simpa [Fanout.init] using hcalls
  · simpa [Fanout.init] using hprom
  · simpa [Fanout.init] using hresp

theorem fanout_fulfilled_exactly_once_witness :
    ([(hostA, reqA), (hostB, reqB)].map Prod.fst).Nodup ∧
    validSchedule [(hostA, reqA), (hostB, reqB)] [] false sampleSchedule = true ∧
    ∃ final, (Fanout.init []).run sampleSchedule = .ok final ∧
      final.calls = List.replicate [(hostA, reqA), (hostB, reqB)].length false ++ [true] ∧
      final.context.ongoingRequests_ = [] ∧
      final.promise = [final.agg.resp] ∧
      final.agg.resp.responses = repliedResponses sampleSchedule :=
  ⟨by decide, by decide,
    fanout_fulfilled_exactly_once [] [(hostA, reqA), (hostB, reqB)] sampleSchedule
      (by decide) (by decide)⟩

/-- The sample schedule, evaluated: three calls, the last one fulfils the promise
with host A's partition failed and host B's response kept. -/
theorem fanout_sample_run :
    (Fanout.init []).run sampleSchedule = .ok
      { context := { ongoingRequests_ := [], finishSending_ := true, fulfilled_ := true },
        agg := { resp := { failedParts := [(1, ErrorCode.E_RPC_FAILURE)],
                           responses := [okResponse],
                           hostLatency := [(hostB, 10, 70)],
                           hasFailure := true },
                 leaders_ := [] },
        promise := [{ failedParts := [(1, ErrorCode.E_RPC_FAILURE)],
                      responses := [okResponse],
                      hostLatency := [(hostB, 10, 70)],
                      hasFailure := true }],
        calls := [false, false, true] } := by
  decide

/-- C4 as stated fails: host A answered with partition 1 failed (code 5), then the RPC
to host B, whose sub-request also holds partition 1, throws; partition 1 keeps code 5
in the aggregate and is not recorded with `E_RPC_FAILURE`. -/
theorem collectResponse_exception_not_recorded :
    ((Fanout.init []).run overlapScheduleAB).map (fun f => f.agg.resp.failedParts)
        = .ok [(1, ErrorCode.other 5)] ∧
    (1 : PartitionID) ∈ reqB1.parts.map Prod.fst ∧
    ((Fanout.init []).run overlapScheduleAB).map
        (fun f => umFind f.agg.resp.failedParts 1) ≠ .ok (some ErrorCode.E_RPC_FAILURE) := by
  decide

/-- C4, amended. When the RPC to a host throws, every partition of its sub-request
`r` is in the aggregate's failed parts afterwards, with code `E_RPC_FAILURE` unless
the partition already had an entry, which keeps its code; entries of all other
partitions are unchanged and none is added; the leader-cache entry of each partition
of `r` is removed and every other leader-cache entry is unchanged; the responses are
unchanged and the aggregate is marked as failed. A host that answers successfully has
its response appended to the aggregate's responses. -/
theorem collectResponse_exception_isolated (a : Aggregate) (host : HostAddr) (r : Request)
    (what : String) (e2e : Int) :
    (∀ p, umFind (handleTry a host r (.exception what) e2e).resp.failedParts p
        = match umFind a.resp.failedParts p with
          | some c => some c
          | none => if p ∈ r.parts.map Prod.fst then some ErrorCode.E_RPC_FAILURE else none) ∧
    (∀ key, umFind (handleTry a host r (.exception what) e2e).leaders_ key
        = if key.1 = r.space_id ∧ key.2 ∈ r.parts.map Prod.fst then none
          else umFind a.leaders_ key) ∧
    (handleTry a host r (.exception what) e2e).resp.responses = a.resp.responses ∧
    (handleTry a host r (.exception what) e2e).resp.hasFailure = true ∧
    (∀ resp, (handleTry a host r (.value resp) e2e).resp.responses
        = a.resp.responses ++ [resp]) := by
  refine ⟨fun p => ?_, fun key => ?_, ?_, rfl, fun resp => ?_⟩
  · simp only [handleTry, handleException, StorageRpcResponse.markFailure]
    exact failPart_foldl_failedParts r.space_id _ a p
  · simp only [handleTry, handleException]
    exact failPart_foldl_leaders r.space_id _ a key
  · exact handleException_responses a r
  · exact handleValue_responses a host r.space_id resp e2e

/-- C5 as stated fails: the RPC to host B failed partition 1 with `E_RPC_FAILURE`, then
host A's answer lists partition 1 with code 5; the pair (1, code 5) is not recorded in
the aggregate's failed parts. -/
theorem collectResponse_failed_part_not_recorded :
    ((Fanout.init []).run overlapScheduleBA).map (fun f => f.agg.resp.failedParts)
        = .ok [(1, ErrorCode.E_RPC_FAILURE)] ∧
    ((Fanout.init []).run overlapScheduleBA).map
        (fun f => decide (((1 : PartitionID), ErrorCode.other 5) ∈ f.agg.resp.failedParts))
      = .ok false := by
  decide

/-- C5, amended. For one per-partition failure entry of a successful host response:
`E_LEADER_CHANGED` with a hint whose host is non-empty and whose port is non-zero
makes the leader cache map (space, part) to the hint; `E_LEADER_CHANGED` with a
missing or invalid hint, `E_PART_NOT_FOUND` and `E_SPACE_NOT_FOUND` remove the
leader-cache entry of (space, part); for any other code the leader cache is unchanged
and (part, code) is recorded in the failed parts unless the partition already has an
entry there, which is kept. -/
theorem collectResponse_failed_part_effect (spaceId : GraphSpaceID) (a : Aggregate)
    (c : PartitionResult) :
    (c.code = ErrorCode.E_LEADER_CHANGED → ∀ hint, c.leader = some hint →
        hint.host ≠ "" → hint.port ≠ 0 →
        umFind (handleFailedPart spaceId a c).leaders_ (spaceId, c.part_id) = some hint) ∧
    (c.code = ErrorCode.E_LEADER_CHANGED →
        (c.leader = none ∨ ∃ hint, c.leader = some hint ∧ (hint.host = "" ∨ hint.port = 0)) →
        umFind (handleFailedPart spaceId a c).leaders_ (spaceId, c.part_id) = none) ∧
    (c.code = ErrorCode.E_PART_NOT_FOUND ∨ c.code = ErrorCode.E_SPACE_NOT_FOUND →
        umFind (handleFailedPart spaceId a c).leaders_ (spaceId, c.part_id) = none) ∧
    (c.code ≠ ErrorCode.E_LEADER_CHANGED → c.code ≠ ErrorCode.E_PART_NOT_FOUND →
        c.code ≠ ErrorCode.E_SPACE_NOT_FOUND →
        (handleFailedPart spaceId a c).leaders_ = a.leaders_ ∧
        ∀ p, umFind (handleFailedPart spaceId a c).resp.failedParts p
          = match umFind a.resp.failedParts p with
            | some c0 => some c0
            | none => if p = c.part_id then some c.code else none) := by
  refine ⟨fun hc hint hl hh hp => ?_, fun hc hl => ?_, fun hc => ?_, fun h1 h2 h3 => ⟨?_, fun p => ?_⟩⟩
  · simp [handleFailedPart, hc, hl, hh, hp, updateLeader, umFind_umAssign]
  · rcases hl with hl | ⟨hint, hl, hbad⟩
    · simp [handleFailedPart, hc, hl, umFind_invalidLeader]
    · have hcond : ¬ (hint.host ≠ "" ∧ hint.port ≠ 0) := by
        rcases hbad with hb | hb
        · exact fun h => h.1 hb
        · exact fun h => h.2 hb
      simp only [handleFailedPart, hc, hl, if_true, if_neg hcond, umFind_invalidLeader]
  · have hne : c.code ≠ ErrorCode.E_LEADER_CHANGED := by
      rcases hc with hc | hc <;> rw [hc] <;> decide
    simp only [handleFailedPart, if_neg hne, if_pos hc, umFind_invalidLeader]
    simp
  · have hne : ¬ (c.code = ErrorCode.E_PART_NOT_FOUND ∨ c.code = ErrorCode.E_SPACE_NOT_FOUND) :=
      fun h => h.elim h2 h3
    simp only [handleFailedPart, if_neg h1, if_neg hne]
  · have hne : ¬ (c.code = ErrorCode.E_PART_NOT_FOUND ∨ c.code = ErrorCode.E_SPACE_NOT_FOUND) :=
      fun h => h.elim h2 h3
    simp only [handleFailedPart, if_neg h1, if_neg hne, umFind_umEmplace]
    cases umFind a.resp.failedParts p <;> simp

/-! ### The retrying invoker -/

/-- Enough fuel gives a result, and the first attempt goes to the selected endpoint. -/
theorem getResponseAux_total {α : Type} (env : MetaEnv) (respGen : RpcResponse → StatusOr α)
    (toLeader : Bool) (retryLimit : Int) :
    ∀ (fuel : Nat) (hosts : MetaHosts) (retry : Int),
      (retryLimit - retry).toNat < fuel →
      ∃ d rest, getResponseAux env respGen toLeader retryLimit fuel hosts retry = some d ∧
        d.attempts = (if toLeader then hosts.leader_ else hosts.active_) :: rest := by
  intro fuel
  induction fuel with
  | zero => intro hosts retry h; omega
  | succ fuel ih =>
    intro hosts retry hf
    simp only [getResponseAux]
    cases hr : env.remoteFunc retry (if toLeader = true then hosts.leader_ else hosts.active_) with
    | exception what =>
      by_cases hlt : retry < retryLimit
      · obtain ⟨d, rest, hd, _⟩ := ih
          (if toLeader = true then hosts.updateLeader ⟨"", 0⟩ (env.rand retry)
            else hosts.updateActive (env.rand retry)) (retry + 1) (by omega)
        simp only [if_pos hlt, hd, Option.map_some']
        exact ⟨_, _, rfl, rfl⟩
      · simp only [if_neg hlt]
        exact ⟨_, _, rfl, rfl⟩
    | value resp =>
      by_cases hs : resp.code = MetaErrorCode.SUCCEEDED
      · simp only [if_pos hs]
        exact ⟨_, _, rfl, rfl⟩
      · by_cases hl : resp.code = MetaErrorCode.E_LEADER_CHANGED
        · by_cases hlt : retry < retryLimit
          · obtain ⟨d, rest, hd, _⟩ := ih (hosts.updateLeader resp.leader (env.rand retry))
              (retry + 1) (by omega)
            simp only [if_neg hs, if_pos hl, if_pos hlt, hd, Option.map_some']
            exact ⟨_, _, rfl, rfl⟩
          · simp only [if_neg hs, if_pos hl, if_neg hlt]
            exact ⟨_, _, rfl, rfl⟩
        · simp only [if_neg hs, if_neg hl]
          exact ⟨_, _, rfl, rfl⟩

/-- An attempt answered `E_LEADER_CHANGED` with retry budget left: the call goes on as
the call with `retry + 1` on the endpoint state after `updateLeader(hint)`. -/
theorem getResponse_leader_changed_retry {α : Type} (env : MetaEnv)
    (respGen : RpcResponse → StatusOr α) (hosts : MetaHosts) (toLeader : Bool)
    (retry retryLimit : Int) (resp : RpcResponse)
    (hresp : env.remoteFunc retry (if toLeader then hosts.leader_ else hosts.active_)
      = .value resp)
    (hcode : resp.code = MetaErrorCode.E_LEADER_CHANGED) (hbudget : retry < retryLimit) :
    getResponse env respGen hosts toLeader retry retryLimit
      = (getResponse env respGen (hosts.updateLeader resp.leader (env.rand retry)) toLeader
          (retry + 1) retryLimit).map
          (fun d => { d with attempts :=
            (if toLeader then hosts.leader_ else hosts.active_) :: d.attempts }) := by
  have hf : (retryLimit - retry).toNat + 1 = ((retryLimit - (retry + 1)).toNat + 1) + 1 := by
    omega
  have hs : resp.code ≠ MetaErrorCode.SUCCEEDED := by rw [hcode]; decide
  unfold getResponse
  rw [hf]
  simp only [getResponseAux, hresp, if_neg hs, if_pos hcode, if_pos hbudget]

theorem getResponse_all_throw {α : Type} (env : MetaEnv) (respGen : RpcResponse → StatusOr α)
    (toLeader : Bool) (retryLimit : Int) (what : Int → HostAddr → String)
    (hexc : ∀ i h, env.remoteFunc i h = .exception (what i h)) :
    ∀ (fuel : Nat) (hosts : MetaHosts) (retry : Int),
      retry ≤ retryLimit → (retryLimit - retry).toNat < fuel →
      ∃ d, getResponseAux env respGen toLeader retryLimit fuel hosts retry = some d ∧
        d.attempts.length = (retryLimit - retry).toNat + 1 ∧
        ∃ h, d.attempts.getLast? = some h ∧
          d.promise = .status (.Error ("RPC failure in MetaClient: " ++ what retryLimit h)) := by
  intro fuel
  induction fuel with
  | zero => intro hosts retry _ h; omega
  | succ fuel ih =>
    intro hosts retry hle hf
    simp only [getResponseAux, hexc]
    by_cases hlt : retry < retryLimit
    · obtain ⟨d, hd, hlen, h, hlast, hprom⟩ := ih
        (if toLeader = true then hosts.updateLeader ⟨"", 0⟩ (env.rand retry)
          else hosts.updateActive (env.rand retry)) (retry + 1) (by omega) (by omega)
      simp only [if_pos hlt, hd, Option.map_some']
      refine ⟨_, rfl, ?_, h, ?_, hprom⟩
      · simp only [List.length_cons, hlen]; omega
      · cases hda : d.attempts with
        | nil => rw [hda] at hlen; simp at hlen
        | cons b t => rw [hda] at hlast; simpa [List.getLast?_cons_cons] using hlast
    · have heq : retry = retryLimit := by omega
      subst heq
      simp only [if_neg hlt]
      exact ⟨_, rfl, by simp, _, rfl, rfl⟩

/-- C6. Retry exhaustion: for every retry limit `L ≥ 0`, a `getResponse` call started
with `retry = 0` whose every attempt raises a transport exception makes exactly
`L + 1` attempts and then completes the promise with the error status that carries
the text of the exception of the last attempt. -/
theorem getResponse_retry_exhaustion {α : Type} (env : MetaEnv)
    (respGen : RpcResponse → StatusOr α) (hosts : MetaHosts) (toLeader : Bool)
    (L : Int) (what : Int → HostAddr → String)
    (hL : 0 ≤ L) (hexc : ∀ i h, env.remoteFunc i h = .exception (what i h)) :
    ∃ d, getResponse env respGen hosts toLeader 0 L = some d ∧
      d.attempts.length = L.toNat + 1 ∧
      ∃ h, d.attempts.getLast? = some h ∧
        d.promise = .status (.Error ("RPC failure in MetaClient: " ++ what L h)) := by
  have := getResponse_all_throw env respGen toLeader L what hexc ((L - 0).toNat + 1) hosts 0
    hL (by omega)
  simpa [getResponse] using this

theorem getResponse_retry_exhaustion_witness :
    (0 : Int) ≤ 2 ∧
    (∀ i h, envAlwaysThrows.remoteFunc i h = .exception ((fun _ _ => "timeout") i h)) ∧
    ∃ d, getResponse envAlwaysThrows bodyOf sampleHosts false 0 2 = some d ∧
      d.attempts.length = (2 : Int).toNat + 1 ∧
      ∃ h, d.attempts.getLast? = some h ∧
        d.promise = .status (.Error ("RPC failure in MetaClient: " ++ (fun _ _ => "timeout") (2 : Int) h)) :=
  ⟨by decide, fun _ _ => rfl,
    getResponse_retry_exhaustion envAlwaysThrows bodyOf sampleHosts false 2
      (fun _ _ => "timeout") (by decide) (fun _ _ => rfl)⟩

/-- With retry limit 2 a call whose every attempt throws makes three attempts. -/
theorem getResponse_three_attempts :
    getResponse envAlwaysThrows bodyOf sampleHosts false 0 2 = some
      { attempts := [meta1, meta1, meta1],
        promise := .status (.Error "RPC failure in MetaClient: timeout"),
        hosts := sampleHosts } := by
  decide

/-- C7 as stated fails in non-leader mode: the active endpoint `meta1` answers
`E_LEADER_CHANGED` with the hint `meta2`, and the next attempt goes to `meta1` again. -/
theorem getResponse_redirect_ignored_for_active :
    (getResponse envRedirect bodyOf sampleHosts false 0 1).map (fun d => d.attempts)
      = some [meta1, meta1] := by
  decide

/-- C7, amended. When an attempt is answered `E_LEADER_CHANGED` with a non-empty hint
host and retry budget remains, the leader endpoint becomes the hint and the call
makes a next attempt; that attempt is sent to the hinted host for a call in leader
mode, and to the unchanged active endpoint for a call in non-leader mode. -/
theorem getResponse_leader_redirect {α : Type} (env : MetaEnv)
    (respGen : RpcResponse → StatusOr α) (hosts : MetaHosts) (toLeader : Bool)
    (retry retryLimit : Int) (resp : RpcResponse)
    (hresp : env.remoteFunc retry (if toLeader then hosts.leader_ else hosts.active_)
      = .value resp)
    (hcode : resp.code = MetaErrorCode.E_LEADER_CHANGED) (hhint : resp.leader.host ≠ "")
    (hbudget : retry < retryLimit) :
    (hosts.updateLeader resp.leader (env.rand retry)).leader_ = resp.leader ∧
    (hosts.updateLeader resp.leader (env.rand retry)).active_ = hosts.active_ ∧
    ∃ d rest, getResponse env respGen hosts toLeader retry retryLimit = some d ∧
      d.attempts = (if toLeader then hosts.leader_ else hosts.active_)
        :: (if toLeader then resp.leader else hosts.active_) :: rest := by
  have hne : resp.leader ≠ ⟨"", 0⟩ := fun h => hhint (by rw [h])
  have hl : (hosts.updateLeader resp.leader (env.rand retry)) = { hosts with leader_ := resp.leader } := by
    simp only [MetaHosts.updateLeader, if_pos hne]
  refine ⟨by rw [hl], by rw [hl], ?_⟩
  rw [getResponse_leader_changed_retry env respGen hosts toLeader retry retryLimit resp hresp
    hcode hbudget]
  obtain ⟨d, rest, hd, hatt⟩ := getResponseAux_total env respGen toLeader retryLimit
    ((retryLimit - (retry + 1)).toNat + 1)
    (hosts.updateLeader resp.leader (env.rand retry)) (retry + 1) (by omega)
  simp only [getResponse, hd, Option.map_some']
  refine ⟨_, rest, rfl, ?_⟩
  rw [hl] at hatt
  simp only [hatt]

theorem getResponse_leader_redirect_witness :
    envRedirect.remoteFunc 0 (if true then sampleHosts.leader_ else sampleHosts.active_)
      = .value { code := .E_LEADER_CHANGED, leader := meta2, body := "" } ∧
    (sampleHosts.updateLeader meta2 (envRedirect.rand 0)).leader_ = meta2 ∧
    (sampleHosts.updateLeader meta2 (envRedirect.rand 0)).active_ = sampleHosts.active_ ∧
    ∃ d rest, getResponse envRedirect bodyOf sampleHosts true 0 1 = some d ∧
      d.attempts = (if true then sampleHosts.leader_ else sampleHosts.active_)
        :: (if true then meta2 else sampleHosts.active_) :: rest :=
  ⟨by decide,
    getResponse_leader_redirect envRedirect bodyOf sampleHosts true 0 1
      { code := .E_LEADER_CHANGED, leader := meta2, body := "" }
      (by decide) rfl (by decide) (by decide)⟩

/-- In leader mode the redirected call reaches the hinted host and succeeds there. -/
theorem getResponse_redirect_followed_for_leader :
    getResponse envRedirect bodyOf sampleHosts true 0 1 = some
      { attempts := [meta1, meta2], promise := .value "done",
        hosts := { sampleHosts with leader_ := meta2 } } := by
  decide

/-- C8. An attempt answered `SUCCEEDED` completes the call with the value of the
response transform; an attempt answered with a code other than `SUCCEEDED` and
`E_LEADER_CHANGED` completes the call with the status `handleResponse` maps the code
to, which is not OK; in both cases this attempt is the only one, whatever retry
budget remains, and the endpoints are unchanged. -/
theorem getResponse_final_answer {α : Type} (env : MetaEnv)
    (respGen : RpcResponse → StatusOr α) (hosts : MetaHosts) (toLeader : Bool)
    (retry retryLimit : Int) (resp : RpcResponse)
    (hresp : env.remoteFunc retry (if toLeader then hosts.leader_ else hosts.active_)
      = .value resp) :
    (resp.code = MetaErrorCode.SUCCEEDED →
      getResponse env respGen hosts toLeader retry retryLimit = some
        { attempts := [if toLeader then hosts.leader_ else hosts.active_],
          promise := respGen resp, hosts := hosts }) ∧
    (resp.code ≠ MetaErrorCode.SUCCEEDED → resp.code ≠ MetaErrorCode.E_LEADER_CHANGED →
      getResponse env respGen hosts toLeader retry retryLimit = some
        { attempts := [if toLeader then hosts.leader_ else hosts.active_],
          promise := .status (handleResponse resp.code), hosts := hosts } ∧
      handleResponse resp.code ≠ Status.OK) := by
  refine ⟨fun hs => ?_, fun hs hl => ⟨?_, ?_⟩⟩
  · simp only [getResponse, getResponseAux, hresp, if_pos hs]
  · simp only [getResponse, getResponseAux, hresp, if_neg hs, if_neg hl]
  · cases hc : resp.code <;> first | exact absurd hc hs | simp [handleResponse]

theorem getResponse_final_answer_witness :
    envRedirect.remoteFunc 0 (if true then { sampleHosts with leader_ := meta2 }.leader_
        else sampleHosts.active_)
      = .value { code := .SUCCEEDED, leader := ⟨"", 0⟩, body := "done" } ∧
    getResponse envRedirect bodyOf { sampleHosts with leader_ := meta2 } true 0 3 = some
      { attempts := [meta2], promise := .value "done",
        hosts := { sampleHosts with leader_ := meta2 } } :=
  ⟨by decide,
    (getResponse_final_answer envRedirect bodyOf { sampleHosts with leader_ := meta2 } true 0 3
      { code := .SUCCEEDED, leader := ⟨"", 0⟩, body := "done" } (by decide)).1 rfl⟩

/-- C9 as stated fails: with retry limit 1 and every host answering
`E_LEADER_CHANGED`, the call is retried once and then delivers the `LeaderChanged`
status to its caller. -/
theorem getResponse_delivers_leader_changed :
    getResponse envNoLeader bodyOf sampleHosts true 0 1 = some
      { attempts := [meta1, meta2],
        promise := .status (.LeaderChanged "Leader changed!"),
        hosts := { sampleHosts with leader_ := meta1 } } := by
  decide

/-- C9, amended. A call whose attempt is answered `E_LEADER_CHANGED` completes; the
answer is retried internally while retry budget remains; once the budget is exhausted
the call ends with this attempt and delivers the `LeaderChanged` status
("Leader changed!") to its caller. -/
theorem getResponse_leader_changed_outcome {α : Type} (env : MetaEnv)
    (respGen : RpcResponse → StatusOr α) (hosts : MetaHosts) (toLeader : Bool)
    (retry retryLimit : Int) (resp : RpcResponse)
    (hresp : env.remoteFunc retry (if toLeader then hosts.leader_ else hosts.active_)
      = .value resp)
    (hcode : resp.code = MetaErrorCode.E_LEADER_CHANGED) :
    (∃ d, getResponse env respGen hosts toLeader retry retryLimit = some d) ∧
    (retry < retryLimit →
      getResponse env respGen hosts toLeader retry retryLimit
        = (getResponse env respGen (hosts.updateLeader resp.leader (env.rand retry)) toLeader
            (retry + 1) retryLimit).map
            (fun d => { d with attempts :=
              (if toLeader then hosts.leader_ else hosts.active_) :: d.attempts })) ∧
    (¬ retry < retryLimit →
      getResponse env respGen hosts toLeader retry retryLimit = some
        { attempts := [if toLeader then hosts.leader_ else hosts.active_],
          promise := .status (.LeaderChanged "Leader changed!"),
          hosts := hosts.updateLeader resp.leader (env.rand retry) }) := by
  refine ⟨?_, fun hlt => getResponse_leader_changed_retry env respGen hosts toLeader retry
    retryLimit resp hresp hcode hlt, fun hlt => ?_⟩
  · obtain ⟨d, _, hd, _⟩ := getResponseAux_total env respGen toLeader retryLimit
      ((retryLimit - retry).toNat + 1) hosts retry (by omega)
    exact ⟨d, hd⟩
  have hs : resp.code ≠ MetaErrorCode.SUCCEEDED := by rw [hcode]; decide
  simp only [getResponse, getResponseAux, hresp, if_neg hs, if_pos hcode, if_neg hlt]
  rw [hcode]
  rfl

theorem getResponse_leader_changed_outcome_witness :
    envNoLeader.remoteFunc 1 (if true then { sampleHosts with leader_ := meta2 }.leader_
        else sampleHosts.active_)
      = .value { code := .E_LEADER_CHANGED, leader := meta1, body := "" } ∧
    ¬ ((1 : Int) < 1) ∧
    getResponse envNoLeader bodyOf { sampleHosts with leader_ := meta2 } true 1 1 = some
      { attempts := [if true then { sampleHosts with leader_ := meta2 }.leader_
                     else sampleHosts.active_],
        promise := .status (.LeaderChanged "Leader changed!"),
        hosts := MetaHosts.updateLeader { sampleHosts with leader_ := meta2 } meta1
                   (envNoLeader.rand 1) } :=
  ⟨by decide, by decide,
    (getResponse_leader_changed_outcome envNoLeader bodyOf { sampleHosts with leader_ := meta2 }
      true 1 1 { code := .E_LEADER_CHANGED, leader := meta1, body := "" }
      (by decide) rfl).2.2 (by decide)⟩

/-! ### The full load -/

/-- `loadUsersAndRoles` writes the two user maps only, and nothing when it fails. -/
theorem loadUsersAndRoles_frame (srv : MetaServer) (st : MetaClientState) :
    ((loadUsersAndRoles srv st).1 = false → (loadUsersAndRoles srv st).2 = st) ∧
    ∃ r p, (loadUsersAndRoles srv st).2 = { st with userRolesMap_ := r, userPasswordMap_ := p } := by
  unfold loadUsersAndRoles
  cases h1 : srv.listUsers with
  | status e => exact ⟨fun _ => rfl, st.userRolesMap_, st.userPasswordMap_, rfl⟩
  | value users =>
    simp only []
    cases h2 : loadUserRoles srv users [] [] with
    | none => exact ⟨fun _ => rfl, st.userRolesMap_, st.userPasswordMap_, rfl⟩
    | some rp =>
      obtain ⟨r, p⟩ := rp
      exact ⟨fun h => by simp at h, r, p, rfl⟩

/-- C10 as stated fails: the users are listed, then listing the spaces fails; `loadData`
returns false and the user-password map (empty before) holds the listed user. -/
theorem loadData_failure_keeps_loaded_users :
    (loadData partHostsNe usersOnlyServer emptyClient).map
        (fun r => (r.1, r.2.userPasswordMap_, r.2.userRolesMap_))
      = .ok (false, [("root", "pw")],
             [("root", [{ user_id := "root", space_id := 0, role_type := 1 }])]) ∧
    emptyClient.userPasswordMap_ = [] ∧ emptyClient.userRolesMap_ = [] := by
  decide

/-- C10, amended. If `loadData` returns false, the space cache, the derived
name/id/version maps, the ready flag and the listener calls equal their values before
the call; when the failure is the thread-pool check the whole state is unchanged, and
otherwise the user-role and user-password maps are the ones `loadUsersAndRoles` leaves:
unchanged when loading the users failed, the freshly loaded ones when a later step
failed. -/
theorem loadData_failure_frame (differs : PartHosts → PartHosts → Bool) (srv : MetaServer)
    (st st' : MetaClientState) (h : loadData differs srv st = .ok (false, st')) :
    st'.localCache_ = st.localCache_ ∧
    st'.spaceIndexByName_ = st.spaceIndexByName_ ∧
    st'.spaceTagIndexByName_ = st.spaceTagIndexByName_ ∧
    st'.spaceEdgeIndexByName_ = st.spaceEdgeIndexByName_ ∧
    st'.spaceEdgeIndexByType_ = st.spaceEdgeIndexByType_ ∧
    st'.spaceTagIndexById_ = st.spaceTagIndexById_ ∧
    st'.spaceNewestTagVerMap_ = st.spaceNewestTagVerMap_ ∧
    st'.spaceNewestEdgeVerMap_ = st.spaceNewestEdgeVerMap_ ∧
    st'.spaceAllEdgeMap_ = st.spaceAllEdgeMap_ ∧
    st'.ready_ = st.ready_ ∧
    st'.listenerCalls = st.listenerCalls ∧
    (st.numThreads ≤ 0 → st' = st) ∧
    (0 < st.numThreads →
      st'.userRolesMap_ = (loadUsersAndRoles srv st).2.userRolesMap_ ∧
      st'.userPasswordMap_ = (loadUsersAndRoles srv st).2.userPasswordMap_) := by
  unfold loadData at h
  by_cases hn : st.numThreads ≤ 0
  · rw [if_pos hn] at h
    have hst : st' = st := by
      injection h with h; injection h with _ h; exact h.symm
    subst hst
    exact ⟨rfl, rfl, rfl, rfl, rfl, rfl, rfl, rfl, rfl, rfl, rfl, fun _ => rfl, fun hp => by omega⟩
  · rw [if_neg hn] at h
    obtain ⟨hfail, r, p, hu⟩ := loadUsersAndRoles_frame srv st
    -- every way to return false leaves `st1` with, at most, other index-name maps
    have key : ∃ t e, st' = { (loadUsersAndRoles srv st).2 with
        tagNameIndexMap_ := t, edgeNameIndexMap_ := e } := by
      rcases hlu : loadUsersAndRoles srv st with ⟨b, st1⟩
      rw [hlu] at h
      cases b with
      | false =>
        simp only [Except.ok.injEq, Prod.mk.injEq, true_and] at h
        exact ⟨_, _, by rw [← h]⟩
      | true =>
        simp only at h
        cases hls : srv.listSpaces with
        | status e =>
          rw [hls] at h
          simp only [Except.ok.injEq, Prod.mk.injEq, true_and] at h
          exact ⟨_, _, by rw [← h]⟩
        | value spaces =>
          rw [hls] at h
          simp only at h
          cases hsp : loadSpaces srv spaces LoadAcc.empty st1.tagNameIndexMap_
              st1.edgeNameIndexMap_ with
          | error e => rw [hsp] at h; simp at h
          | ok prog =>
            rw [hsp] at h
            obtain ⟨acc, t, e⟩ := prog
            cases acc with
            | none =>
              simp only [Except.ok.injEq, Prod.mk.injEq, true_and] at h
              exact ⟨t, e, by rw [← h]⟩
            | some acc =>
              simp only at h
              split at h
              · simp at h
              · simp at h
    obtain ⟨t, e, hst⟩ := key
    rw [hu] at hst
    subst hst
    refine ⟨rfl, rfl, rfl, rfl, rfl, rfl, rfl, rfl, rfl, rfl, rfl, fun hp => absurd hp hn, fun _ => ?_⟩
    rw [hu]
    exact ⟨rfl, rfl⟩

theorem loadData_failure_frame_witness :
    loadData partHostsNe usersOnlyServer emptyClient = .ok (false,
      { emptyClient with
        userRolesMap_ := [("root", [{ user_id := "root", space_id := 0, role_type := 1 }])],
        userPasswordMap_ := [("root", "pw")] }) ∧
    ({ emptyClient with
        userRolesMap_ := [("root", [{ user_id := "root", space_id := 0, role_type := 1 }])],
        userPasswordMap_ := [("root", "pw")] } : MetaClientState).localCache_
      = emptyClient.localCache_ :=
  ⟨by decide,
    (loadData_failure_frame partHostsNe usersOnlyServer emptyClient
      { emptyClient with
        userRolesMap_ := [("root", [{ user_id := "root", space_id := 0, role_type := 1 }])],
        userPasswordMap_ := [("root", "pw")] } (by decide)).1⟩

/-- A successful `loadData`: the spaces were listed, the loop over them ran to its end,
and the client holds the containers the loop built, with the ready flag set. -/
theorem loadData_success (differs : PartHosts → PartHosts → Bool) (srv : MetaServer)
    (st st' : MetaClientState) (h : loadData differs srv st = .ok (true, st')) :
    ∃ spaces acc t e, srv.listSpaces = .value spaces ∧
      loadSpaces srv spaces LoadAcc.empty st.tagNameIndexMap_ st.edgeNameIndexMap_
        = .ok ⟨some acc, t, e⟩ ∧
      st'.localCache_ = acc.cache ∧
      st'.spaceIndexByName_ = acc.spaceIndexByName ∧
      st'.spaceTagIndexByName_ = acc.maps.tagNameIdMap ∧
      st'.spaceTagIndexById_ = acc.maps.tagIdNameMap ∧
      st'.spaceEdgeIndexByName_ = acc.maps.edgeNameTypeMap ∧
      st'.spaceEdgeIndexByType_ = acc.maps.edgeTypeNameMap ∧
      st'.spaceNewestTagVerMap_ = acc.maps.newestTagVerMap ∧
      st'.spaceNewestEdgeVerMap_ = acc.maps.newestEdgeVerMap ∧
      st'.spaceAllEdgeMap_ = acc.maps.allEdgeMap ∧
      st'.tagNameIndexMap_ = t ∧ st'.edgeNameIndexMap_ = e ∧
      st'.ready_ = true := by
  unfold loadData at h
  by_cases hn : st.numThreads ≤ 0
  · rw [if_pos hn] at h; simp at h
  · rw [if_neg hn] at h
    obtain ⟨_, r, p, hu⟩ := loadUsersAndRoles_frame srv st
    rcases hlu : loadUsersAndRoles srv st with ⟨b, st1⟩
    rw [hlu] at h hu
    simp only at hu
    cases b with
    | false => simp at h
    | true =>
      simp only at h
      cases hls : srv.listSpaces with
      | status e => rw [hls] at h; simp at h
      | value spaces =>
        rw [hls] at h
        simp only at h
        cases hsp : loadSpaces srv spaces LoadAcc.empty st1.tagNameIndexMap_
            st1.edgeNameIndexMap_ with
        | error e => rw [hsp] at h; simp at h
        | ok prog =>
          rw [hsp] at h
          obtain ⟨acc, t, e⟩ := prog
          cases acc with
          | none => simp at h
          | some acc =>
            simp only at h
            split at h
            · simp at h
            · simp only [Except.ok.injEq, Prod.mk.injEq, true_and] at h
              subst h
              subst hu
              exact ⟨spaces, acc, t, e, rfl, hsp, rfl, rfl, rfl, rfl, rfl, rfl, rfl, rfl, rfl,
                rfl, rfl, rfl⟩

/-- A failed `loadData` leaves the ready flag as it was. -/
theorem loadData_failure_ready (differs : PartHosts → PartHosts → Bool) (srv : MetaServer)
    (st st' : MetaClientState) (h : loadData differs srv st = .ok (false, st')) :
    st'.ready_ = st.ready_ := by
  unfold loadData at h
  by_cases hn : st.numThreads ≤ 0
  · rw [if_pos hn] at h
    simp only [Except.ok.injEq, Prod.mk.injEq, true_and] at h
    rw [← h]
  · rw [if_neg hn] at h
    obtain ⟨_, r, p, hu⟩ := loadUsersAndRoles_frame srv st
    rcases hlu : loadUsersAndRoles srv st with ⟨b, st1⟩
    rw [hlu] at h hu
    simp only at hu
    subst hu
    cases b with
    | false =>
      simp only [Except.ok.injEq, Prod.mk.injEq, true_and] at h
      rw [← h]
    | true =>
      simp only at h
      cases hls : srv.listSpaces with
      | status e =>
        rw [hls] at h
        simp only [Except.ok.injEq, Prod.mk.injEq, true_and] at h
        rw [← h]
      | value spaces =>
        rw [hls] at h
        simp only at h
        split at h
        · simp at h
        · simp only [Except.ok.injEq, Prod.mk.injEq, true_and] at h
          rw [← h]
        · split at h
          · simp at h
          · simp at h

/-- C11. For every sequence of full loads that run to their end, the ready flag
afterwards is true exactly when it was true before or one of the loads succeeded: a
successful load sets it to true, a failed load leaves it exactly as it was, and no
load changes it from true to false. -/
theorem loadData_ready_monotone (differs : PartHosts → PartHosts → Bool)
    (srvs : List MetaServer) (st st' : MetaClientState) (bs : List Bool)
    (h : loadDataSeq differs srvs st = .ok (bs, st')) :
    st'.ready_ = (st.ready_ || bs.contains true) ∧
    (st.ready_ = true → st'.ready_ = true) ∧
    (true ∈ bs → st'.ready_ = true) ∧
    ((∀ b ∈ bs, b = false) → st'.ready_ = st.ready_) := by
  have key : st'.ready_ = (st.ready_ || bs.contains true) := by
    induction srvs generalizing st bs with
    | nil =>
      simp only [loadDataSeq, Except.ok.injEq, Prod.mk.injEq] at h
      obtain ⟨hb, hs⟩ := h
      subst hb; subst hs
      simp
    | cons srv rest ih =>
      simp only [loadDataSeq] at h
      cases h1 : loadData differs srv st with
      | error e => rw [h1] at h; simp at h
      | ok r =>
        obtain ⟨b, st1⟩ := r
        rw [h1] at h
        simp only at h
        cases h2 : loadDataSeq differs rest st1 with
        | error e => rw [h2] at h; simp at h
        | ok r2 =>
          obtain ⟨bs2, st2⟩ := r2
          rw [h2] at h
          simp only [Except.ok.injEq, Prod.mk.injEq] at h
          obtain ⟨hb, hs⟩ := h
          subst hb; subst hs
          have hrec := ih st1 bs2 h2
          cases b with
          | false =>
            have := loadData_failure_ready differs srv st st1 h1
            rw [hrec, this]
            simp
          | true =>
            obtain ⟨_, _, _, _, _, _, _, _, _, _, _, _, _, _, _, _, _, hr⟩ :=
              loadData_success differs srv st st1 h1
            rw [hrec, hr]
            simp
  refine ⟨key, fun hr => ?_, fun hm => ?_, fun hall => ?_⟩
  · rw [key, hr]; rfl
  · rw [key]
    have : bs.contains true = true := by simpa using hm
    rw [this]; simp
  · rw [key]
    have : bs.contains true = false := by
      cases hc : bs.contains true with
      | false => rfl
      | true =>
        have hm : true ∈ bs := by simpa using hc
        exact absurd (hall true hm) (by decide)
    rw [this]; simp

theorem loadData_ready_monotone_witness :
    loadDataSeq partHostsNe [emptyServer, usersOnlyServer] emptyClient
      = .ok ([true, false],
          { emptyClient with
            userRolesMap_ := [("root", [{ user_id := "root", space_id := 0, role_type := 1 }])],
            userPasswordMap_ := [("root", "pw")], ready_ := true }) ∧
    ({ emptyClient with
        userRolesMap_ := [("root", [{ user_id := "root", space_id := 0, role_type := 1 }])],
        userPasswordMap_ := [("root", "pw")], ready_ := true } : MetaClientState).ready_
      = (emptyClient.ready_ || [true, false].contains true) :=
  ⟨by decide,
    (loadData_ready_monotone partHostsNe [emptyServer, usersOnlyServer] emptyClient
      { emptyClient with
        userRolesMap_ := [("root", [{ user_id := "root", space_id := 0, role_type := 1 }])],
        userPasswordMap_ := [("root", "pw")], ready_ := true } [true, false] (by decide)).1⟩

/-! ### The cache accessors -/

/-- C12 as stated fails: on a ready client whose cache does not hold space 7,
`getTagSchemaFromCache` and `getEdgeSchemaFromCache` return a success value, the empty
schema handle. -/
theorem getSchemaFromCache_absent_space_succeeds :
    umFind readyClient.localCache_ 7 = none ∧
    getTagSchemaFromCache readyClient 7 1 0 = .value none ∧
    getEdgeSchemaFromCache readyClient 7 1 0 = .value none ∧
    (getTagSchemaFromCache readyClient 7 1 0).ok = true := by
  decide

/-- C12, amended. For a space id that is not in the cache: `getPartHostsFromCache` and
`partsNum`, which do not test readiness, return the error "Space not found, spaceid:
<id>"; before readiness each of the other nine accessors returns the error "Not
ready!"; after readiness `getTagIndexFromCache`, `getEdgeIndexFromCache`,
`getTagIndexesFromCache` and `getEdgeIndexesFromCache` return `SpaceNotFound`,
`getSpaceVidLen`, `getAllVerTagSchema` and `getAllVerEdgeSchema` return an error whose
message says that the space was not found, and `getTagSchemaFromCache` and
`getEdgeSchemaFromCache` return a success value holding the empty schema handle. -/
theorem accessors_absent_space (st : MetaClientState) (s : GraphSpaceID)
    (hs : umFind st.localCache_ s = none) :
    (∀ partId, getPartHostsFromCache st.localCache_ s partId
        = .status (.Error ("Space not found, spaceid: " ++ toString s))) ∧
    partsNum st.localCache_ s = .status (.Error ("Space not found, spaceid: " ++ toString s)) ∧
    (st.ready_ = false →
      getSpaceVidLen st s = .status notReady ∧
      (∀ id ver, getTagSchemaFromCache st s id ver = .status notReady) ∧
      (∀ id ver, getEdgeSchemaFromCache st s id ver = .status notReady) ∧
      getAllVerTagSchema st s = .status notReady ∧
      getAllVerEdgeSchema st s = .status notReady ∧
      (∀ id, getTagIndexFromCache st s id = .status notReady) ∧
      (∀ id, getEdgeIndexFromCache st s id = .status notReady) ∧
      getTagIndexesFromCache st s = .status notReady ∧
      getEdgeIndexesFromCache st s = .status notReady) ∧
    (st.ready_ = true →
      getSpaceVidLen st s = .status (.Error ("Space " ++ toString s ++ " not found")) ∧
      (∀ id ver, getTagSchemaFromCache st s id ver = .value none) ∧
      (∀ id ver, getEdgeSchemaFromCache st s id ver = .value none) ∧
      getAllVerTagSchema st s = .status (.Error ("Space not " ++ toString s ++ " found")) ∧
      getAllVerEdgeSchema st s = .status (.Error ("Space not " ++ toString s ++ " found")) ∧
      (∀ id, getTagIndexFromCache st s id = .status .SpaceNotFound) ∧
      (∀ id, getEdgeIndexFromCache st s id = .status .SpaceNotFound) ∧
      getTagIndexesFromCache st s = .status .SpaceNotFound ∧
      getEdgeIndexesFromCache st s = .status .SpaceNotFound) := by
  refine ⟨fun partId => ?_, ?_, fun hr => ?_, fun hr => ?_⟩
  · simp only [getPartHostsFromCache, hs]
  · simp only [partsNum, hs]
  · simp [getSpaceVidLen, getTagSchemaFromCache, getEdgeSchemaFromCache, getAllVerTagSchema,
      getAllVerEdgeSchema, getTagIndexFromCache, getEdgeIndexFromCache, getTagIndexesFromCache,
      getEdgeIndexesFromCache, hr]
  · simp [getSpaceVidLen, getTagSchemaFromCache, getEdgeSchemaFromCache, getAllVerTagSchema,
      getAllVerEdgeSchema, getTagIndexFromCache, getEdgeIndexFromCache, getTagIndexesFromCache,
      getEdgeIndexesFromCache, hr, hs]

theorem accessors_absent_space_witness :
    umFind readyClient.localCache_ 7 = none ∧
    partsNum readyClient.localCache_ 7 = .status (.Error ("Space not found, spaceid: " ++ toString (7 : Int))) ∧
    getEdgeIndexesFromCache readyClient 7 = .status .SpaceNotFound :=
  ⟨by decide, (accessors_absent_space readyClient 7 (by decide)).2.1,
    ((accessors_absent_space readyClient 7 (by decide)).2.2.2 rfl).2.2.2.2.2.2.2.2⟩

/-- C13 as stated fails: before the first successful load `checkTagIndexed` returns
`SpaceNotFound` and `partsNum` returns "Space not found", not the "Not ready!" error. -/
theorem accessors_without_ready_test :
    emptyClient.ready_ = false ∧
    checkTagIndexed emptyClient.localCache_ 1 1 = .SpaceNotFound ∧
    Status.SpaceNotFound ≠ notReady ∧
    partsNum emptyClient.localCache_ 1 = .status (.Error "Space not found, spaceid: 1") ∧
    Status.Error "Space not found, spaceid: 1" ≠ notReady := by
  decide

/-- C13, amended. While the ready flag is false, every cache-read accessor that tests
the flag returns the error "Not ready!" and no other. `partsNum`, `partId`,
`getPartHostsFromCache`, `checkPartExistInCache`, `checkSpaceExistInCache`,
`checkTagIndexed` and `checkEdgeIndexed` do not test the flag and answer from the cache
contents: on the still-empty cache the first three return the error "Space not found,
spaceid: <id>" and the four checks return `SpaceNotFound`. -/
theorem accessors_before_ready (st : MetaClientState) (hr : st.ready_ = false) :
    ((∀ name, getSpaceIdByNameFromCache st name = .status notReady) ∧
     (∀ s name, getTagIDByNameFromCache st s name = .status notReady) ∧
     (∀ s id, getTagNameByIdFromCache st s id = .status notReady) ∧
     (∀ s name, getEdgeTypeByNameFromCache st s name = .status notReady) ∧
     (∀ s t, getEdgeNameByTypeFromCache st s t = .status notReady) ∧
     (∀ s, getAllEdgeFromCache st s = .status notReady) ∧
     (∀ s, getSpaceVidLen st s = .status notReady) ∧
     (∀ s id ver, getTagSchemaFromCache st s id ver = .status notReady) ∧
     (∀ s id ver, getEdgeSchemaFromCache st s id ver = .status notReady) ∧
     (∀ s, getAllVerTagSchema st s = .status notReady) ∧
     (∀ s, getAllVerEdgeSchema st s = .status notReady) ∧
     (∀ s name, getTagIndexByNameFromCache st s name = .status notReady) ∧
     (∀ s name, getEdgeIndexByNameFromCache st s name = .status notReady) ∧
     (∀ s id, getTagIndexFromCache st s id = .status notReady) ∧
     (∀ s id, getEdgeIndexFromCache st s id = .status notReady) ∧
     (∀ s name, getRelatedTagIDByIndexNameFromCache st s name = .status notReady) ∧
     (∀ s name, getRelatedEdgeTypeByIndexNameFromCache st s name = .status notReady) ∧
     (∀ s, getTagIndexesFromCache st s = .status notReady) ∧
     (∀ s, getEdgeIndexesFromCache st s = .status notReady) ∧
     (∀ s id, getLatestTagVersionFromCache st s id = .status notReady) ∧
     (∀ s id, getLatestEdgeVersionFromCache st s id = .status notReady)) ∧
    (st.localCache_ = [] →
      (∀ s, partsNum st.localCache_ s
          = .status (.Error ("Space not found, spaceid: " ++ toString s))) ∧
      (∀ fnv64_buf s id, partId fnv64_buf st.localCache_ s id
          = .ok (.status (.Error ("Space not found, spaceid: " ++ toString s)))) ∧
      (∀ s p, getPartHostsFromCache st.localCache_ s p
          = .status (.Error ("Space not found, spaceid: " ++ toString s))) ∧
      (∀ host s p, checkPartExistInCache st.localCache_ host s p = .SpaceNotFound) ∧
      (∀ host s, checkSpaceExistInCache st.localCache_ host s = .SpaceNotFound) ∧
      (∀ s id, checkTagIndexed st.localCache_ s id = .SpaceNotFound) ∧
      (∀ s t, checkEdgeIndexed st.localCache_ s t = .SpaceNotFound)) := by
  refine ⟨?_, fun hc => ?_⟩
  · simp [getSpaceIdByNameFromCache, getTagIDByNameFromCache, getTagNameByIdFromCache,
      getEdgeTypeByNameFromCache, getEdgeNameByTypeFromCache, getAllEdgeFromCache,
      getSpaceVidLen, getTagSchemaFromCache, getEdgeSchemaFromCache, getAllVerTagSchema,
      getAllVerEdgeSchema, getTagIndexByNameFromCache, getEdgeIndexByNameFromCache,
      getTagIndexFromCache, getEdgeIndexFromCache, getRelatedTagIDByIndexNameFromCache,
      getRelatedEdgeTypeByIndexNameFromCache, getTagIndexesFromCache, getEdgeIndexesFromCache,
      getLatestTagVersionFromCache, getLatestEdgeVersionFromCache, hr]
  · simp [partsNum, partId, getPartHostsFromCache, checkPartExistInCache,
      checkSpaceExistInCache, checkTagIndexed, checkEdgeIndexed, hc, umFind]

theorem accessors_before_ready_witness :
    emptyClient.ready_ = false ∧
    getSpaceVidLen emptyClient 1 = .status notReady :=
  ⟨by decide, (accessors_before_ready emptyClient (by decide)).1.2.2.2.2.2.2.1 1⟩

/-! ### More unordered-map lemmas -/

section UnorderedMapLemmas2
variable {K V : Type} [DecidableEq K]

theorem umFind_some_mem (m : List (K × V)) (k : K) (v : V) (h : umFind m k = some v) :
    (k, v) ∈ m := by
  induction m with
  | nil => simp [umFind] at h
  | cons p rest ih =>
    obtain ⟨k', v'⟩ := p
    by_cases hk : k' = k
    · subst hk
      simp only [umFind, if_true, Option.some.injEq] at h
      subst h
      exact List.mem_cons_self _ _
    · simp only [umFind, if_neg hk] at h
      exact List.mem_cons_of_mem _ (ih h)

theorem umFind_of_mem_nodup (m : List (K × V)) (k : K) (v : V)
    (hnd : (m.map Prod.fst).Nodup) (h : (k, v) ∈ m) : umFind m k = some v := by
  induction m with
  | nil => simp at h
  | cons p rest ih =>
    obtain ⟨k', v'⟩ := p
    have hnd' : k' ∉ rest.map Prod.fst ∧ (rest.map Prod.fst).Nodup := List.nodup_cons.1 hnd
    rcases List.mem_cons.1 h with heq | hmem
    · cases heq
      simp [umFind]
    · have hne : k' ≠ k := by
        intro e
        subst e
        exact hnd'.1 (List.mem_map.2 ⟨(k', v), hmem, rfl⟩)
      simp only [umFind, if_neg hne]
      exact ih hnd'.2 hmem

theorem umAssign_keys (m : List (K × V)) (k : K) (v : V) :
    (umAssign m k v).map Prod.fst
      = if k ∈ m.map Prod.fst then m.map Prod.fst else m.map Prod.fst ++ [k] := by
  induction m with
  | nil => simp [umAssign]
  | cons p rest ih =>
    obtain ⟨k', v'⟩ := p
    by_cases hk : k' = k
    · subst hk
      simp [umAssign]
    · have hk' : ¬ k = k' := fun e => hk e.symm
      simp only [umAssign, if_neg hk, List.map_cons, ih, List.mem_cons, hk', false_or]
      split <;> simp

theorem umAssign_keys_nodup (m : List (K × V)) (k : K) (v : V)
    (hnd : (m.map Prod.fst).Nodup) : ((umAssign m k v).map Prod.fst).Nodup := by
  rw [umAssign_keys]
  split
  · exact hnd
  · rename_i hk
    rw [List.nodup_append]
    refine ⟨hnd, by simp, ?_⟩
    intro a ha hb
    have : a = k := by simpa using hb
    subst this
    exact hk ha

theorem mem_keys_umAssign (m : List (K × V)) (k k' : K) (v : V) :
    k' ∈ (umAssign m k v).map Prod.fst ↔ k' = k ∨ k' ∈ m.map Prod.fst := by
  rw [umAssign_keys]
  split
  · rename_i hk
    constructor
    · exact fun h => Or.inr h
    · rintro (h | h)
      · subst h; exact hk
      · exact h
  · simp only [List.mem_append, List.mem_singleton]
    constructor
    · rintro (h | h)
      · exact Or.inr h
      · exact Or.inl h
    · rintro (h | h)
      · exact Or.inr h
      · exact Or.inl h

theorem mem_umAssign (m : List (K × V)) (k : K) (v : V) (x : K × V)
    (hnd : (m.map Prod.fst).Nodup) (h : x ∈ umAssign m k v) :
    x = (k, v) ∨ (x ∈ m ∧ x.1 ≠ k) := by
  induction m with
  | nil => simp [umAssign] at h; exact Or.inl h
  | cons p rest ih =>
    obtain ⟨k', v'⟩ := p
    have hnd' : k' ∉ rest.map Prod.fst ∧ (rest.map Prod.fst).Nodup := List.nodup_cons.1 hnd
    by_cases hk : k' = k
    · subst hk
      simp only [umAssign, if_true, List.mem_cons] at h
      rcases h with h | h
      · exact Or.inl h
      · refine Or.inr ⟨List.mem_cons_of_mem _ h, fun e => hnd'.1 ?_⟩
        exact List.mem_map.2 ⟨x, h, e⟩
    · simp only [umAssign, if_neg hk, List.mem_cons] at h
      rcases h with h | h
      · subst h
        exact Or.inr ⟨List.mem_cons_self _ _, hk⟩
      · rcases ih hnd'.2 h with h1 | ⟨h1, h2⟩
        · exact Or.inl h1
        · exact Or.inr ⟨List.mem_cons_of_mem _ h1, h2⟩

theorem umAssign_umAssign (m : List (K × V)) (k : K) (a b : V) :
    umAssign (umAssign m k a) k b = umAssign m k b := by
  induction m with
  | nil => simp [umAssign]
  | cons p rest ih =>
    obtain ⟨k', v'⟩ := p
    by_cases hk : k' = k
    · subst hk; simp [umAssign]
    · simp [umAssign, hk, ih]

end UnorderedMapLemmas2

/-! ### The partition map of a host (`doGetPartsMap`) -/

theorem foldl_invariant {α β : Type} (P : β → Prop) (f : β → α → β) (l : List α) (init : β)
    (h0 : P init) (hstep : ∀ acc x, x ∈ l → P acc → P (f acc x)) : P (l.foldl f init) := by
  induction l generalizing init with
  | nil => exact h0
  | cons x rest ih =>
    rw [List.foldl_cons]
    exact ih (f init x) (hstep init x (List.mem_cons_self _ _) h0)
      (fun acc y hy => hstep acc y (List.mem_cons_of_mem _ hy))

/-- Every partition that `reverse` lists under a host is a key of the allocation. -/
theorem reverse_consistent (parts : PartsAlloc) (host : HostAddr) (ps : List PartitionID)
    (h : umFind (reverse parts) host = some ps) :
    ∀ p ∈ ps, ∃ hs, umFind parts p = some hs := by
  have inv : ∀ h' ps', umFind (reverse parts) h' = some ps' → ∀ p ∈ ps', p ∈ parts.map Prod.fst := by
    unfold reverse
    refine foldl_invariant
      (fun hosts => ∀ h' ps', umFind hosts h' = some ps' → ∀ p ∈ ps', p ∈ parts.map Prod.fst)
      _ parts [] (by intro h' ps' hf; simp [umFind] at hf) ?_
    intro acc partHost hmem hacc
    refine foldl_invariant
      (fun hosts => ∀ h' ps', umFind hosts h' = some ps' → ∀ p ∈ ps', p ∈ parts.map Prod.fst)
      _ partHost.2 acc hacc ?_
    intro acc2 h2 _ hacc2 h' ps' hf p hp
    rw [umFind_umAssign] at hf
    by_cases he : h' = h2
    · rw [if_pos he] at hf
      simp only [Option.some.injEq] at hf
      subst hf
      rcases List.mem_append.1 hp with hp | hp
      · cases hold : umFind acc2 h2 with
        | none => rw [hold] at hp; simp at hp
        | some old =>
          rw [hold] at hp
          exact hacc2 h2 old hold p hp
      · have : p = partHost.1 := by simpa using hp
        subst this
        exact List.mem_map.2 ⟨partHost, hmem, rfl⟩
    · rw [if_neg he] at hf
      exact hacc2 h' ps' hf p hp
  intro p hp
  exact umFind_isSome_of_mem parts p (inv host ps h p hp)

theorem assignParts_cons (s : GraphSpaceID) (alloc : PartsAlloc)
    (inner : List (PartitionID × PartHosts)) (p : PartitionID) (ps : List PartitionID) :
    assignParts s alloc inner (p :: ps)
      = assignParts s alloc
          (umAssign inner p { spaceId_ := s, partId_ := p, hosts_ := (umFind alloc p).getD [] })
          ps := rfl

theorem assignParts_keys_nodup (s : GraphSpaceID) (alloc : PartsAlloc)
    (ps : List PartitionID) (inner : List (PartitionID × PartHosts))
    (h : (inner.map Prod.fst).Nodup) : ((assignParts s alloc inner ps).map Prod.fst).Nodup := by
  induction ps generalizing inner with
  | nil => exact h
  | cons p rest ih =>
    rw [assignParts_cons]
    exact ih _ (umAssign_keys_nodup inner p _ h)

theorem mem_keys_assignParts (s : GraphSpaceID) (alloc : PartsAlloc)
    (ps : List PartitionID) (inner : List (PartitionID × PartHosts)) (p : PartitionID) :
    p ∈ (assignParts s alloc inner ps).map Prod.fst ↔ p ∈ ps ∨ p ∈ inner.map Prod.fst := by
  induction ps generalizing inner with
  | nil => simp [assignParts]
  | cons q rest ih =>
    rw [assignParts_cons, ih, mem_keys_umAssign]
    simp only [List.mem_cons]
    tauto

theorem assignParts_values (s : GraphSpaceID) (alloc : PartsAlloc)
    (ps : List PartitionID) (inner : List (PartitionID × PartHosts))
    (hnd : (inner.map Prod.fst).Nodup)
    (hin : ∀ q ∈ inner, q.2 = { spaceId_ := s, partId_ := q.1, hosts_ := (umFind alloc q.1).getD [] }) :
    ∀ q ∈ assignParts s alloc inner ps,
      q.2 = { spaceId_ := s, partId_ := q.1, hosts_ := (umFind alloc q.1).getD [] } := by
  induction ps generalizing inner with
  | nil => exact hin
  | cons p rest ih =>
    rw [assignParts_cons]
    refine ih _ (umAssign_keys_nodup inner p _ hnd) ?_
    intro q hq
    rcases mem_umAssign inner p _ q hnd hq with h | ⟨h, _⟩
    · subst h; rfl
    · exact hin q h

/-- The inner loop of `doGetPartsMap` for the entry of one space, when every listed
partition is in the allocation of the space. -/
theorem doGetPartsMap_inner (entry : GraphSpaceID × SpaceInfoCache) (ps : List PartitionID)
    (pm : PartsMap)
    (hcons : ∀ p ∈ ps, ∃ hs, umFind entry.2.partsAlloc_ p = some hs) :
    foldlE (fun (pm : PartsMap) (partId : PartitionID) =>
        match umFind entry.2.partsAlloc_ partId with
        | none => Except.error Fault.checkFailed
        | some hosts =>
          Except.ok (umAssign pm entry.1
            (umAssign ((umFind pm entry.1).getD []) partId
              { spaceId_ := entry.1, partId_ := partId, hosts_ := hosts })))
      pm ps
    = .ok (if ps = [] then pm
           else umAssign pm entry.1
             (assignParts entry.1 entry.2.partsAlloc_ ((umFind pm entry.1).getD []) ps)) := by
  induction ps generalizing pm with
  | nil => simp [foldlE]
  | cons p rest ih =>
    obtain ⟨hs, hhs⟩ := hcons p (List.mem_cons_self _ _)
    simp only [foldlE, hhs]
    rw [ih _ (fun q hq => hcons q (List.mem_cons_of_mem _ hq))]
    simp only [umFind_umAssign, if_true, Option.getD_some, umAssign_umAssign, assignParts_cons,
      hhs, reduceCtorEq, if_false]
    by_cases hr : rest = []
    · subst hr
      simp [assignParts]
    · simp [hr]

theorem partsMapEntry_append (host : HostAddr) (done : LocalCache)
    (e : GraphSpaceID × SpaceInfoCache) (hnew : e.1 ∉ done.map Prod.fst) (s : GraphSpaceID) :
    partsMapEntry host (done ++ [e]) s
      = if s = e.1 then
          (match umFind e.2.partsOnHost_ host with
           | none => none
           | some ps => if ps = [] then none else some (assignParts e.1 e.2.partsAlloc_ [] ps))
        else partsMapEntry host done s := by
  obtain ⟨s0, info⟩ := e
  have hnone : umFind done s0 = none := (umFind_eq_none_iff done s0).2 hnew
  unfold partsMapEntry
  rw [umFind_append]
  by_cases hs : s = s0
  · subst hs
    simp [hnone, umFind]
  · have hs' : ¬ s0 = s := fun e => hs e.symm
    simp only [if_neg hs]
    cases hd : umFind done s with
    | some v => rfl
    | none => simp [umFind, hs']

/-- The loop of `doGetPartsMap` over the cache, when the space ids are distinct and
every partition listed for the host is in the allocation of its space: it does not
fail, and it holds for every space what `partsMapEntry` says. -/
theorem doGetPartsMap_outer (host : HostAddr) (rest : LocalCache) :
    ∀ (done : LocalCache) (pm : PartsMap),
      ((done ++ rest).map Prod.fst).Nodup →
      (∀ s, umFind pm s = partsMapEntry host done s) →
      (pm.map Prod.fst).Nodup →
      (∀ e ∈ rest, ∀ ps, umFind e.2.partsOnHost_ host = some ps →
        ∀ p ∈ ps, ∃ hs, umFind e.2.partsAlloc_ p = some hs) →
      ∃ pm', foldlE (fun (partMap : PartsMap) (entry : GraphSpaceID × SpaceInfoCache) =>
          match umFind entry.2.partsOnHost_ host with
          | none => Except.ok partMap
          | some parts =>
            foldlE (fun (pm : PartsMap) (partId : PartitionID) =>
              match umFind entry.2.partsAlloc_ partId with
              | none => Except.error Fault.checkFailed
              | some hosts =>
                Except.ok (umAssign pm entry.1
                  (umAssign ((umFind pm entry.1).getD []) partId
                    { spaceId_ := entry.1, partId_ := partId, hosts_ := hosts })))
              partMap parts) pm rest = .ok pm' ∧
        (∀ s, umFind pm' s = partsMapEntry host (done ++ rest) s) ∧
        (pm'.map Prod.fst).Nodup := by
  induction rest with
  | nil =>
    intro done pm _ hpm hnd _
    exact ⟨pm, rfl, by simpa using hpm, hnd⟩
  | cons e rest ih =>
    intro done pm hkeys hpm hnd hcons
    have hkeys' : (((done ++ [e]) ++ rest).map Prod.fst).Nodup := by
      simpa [List.append_assoc] using hkeys
    have hnew : e.1 ∉ done.map Prod.fst := by
      have h1 : ((done ++ [e]).map Prod.fst).Nodup := by
        rw [List.map_append] at hkeys'
        exact (List.nodup_append.1 hkeys').1
      rw [List.map_append, List.nodup_append] at h1
      intro hmem
      exact h1.2.2 hmem (by simp)
    have hpm0 : umFind pm e.1 = none := by
      rw [hpm]
      unfold partsMapEntry
      rw [(umFind_eq_none_iff done e.1).2 hnew]
    have hcons' : ∀ e' ∈ rest, ∀ ps, umFind e'.2.partsOnHost_ host = some ps →
        ∀ p ∈ ps, ∃ hs, umFind e'.2.partsAlloc_ p = some hs :=
      fun e' he' => hcons e' (List.mem_cons_of_mem _ he')
    simp only [foldlE]
    cases hps : umFind e.2.partsOnHost_ host with
    | none =>
      simp only []
      obtain ⟨pm', hrun, hfind, hnd'⟩ := ih (done ++ [e]) pm hkeys' (by
        intro s
        rw [partsMapEntry_append host done e hnew s, hps]
        by_cases hs : s = e.1
        · rw [if_pos hs, hs, hpm0]
        · rw [if_neg hs, hpm]) hnd hcons'
      refine ⟨pm', hrun, ?_, hnd'⟩
      intro s
      rw [hfind]
      simp [List.append_assoc]
    | some ps =>
      simp only []
      rw [doGetPartsMap_inner e ps pm (hcons e (List.mem_cons_self _ _) ps hps)]
      simp only []
      obtain ⟨pm', hrun, hfind, hnd'⟩ := ih (done ++ [e])
        (if ps = [] then pm
          else umAssign pm e.1 (assignParts e.1 e.2.partsAlloc_ ((umFind pm e.1).getD []) ps))
        hkeys' (by
          intro s
          rw [partsMapEntry_append host done e hnew s, hps]
          by_cases hp : ps = []
          · simp only [if_pos hp]
            by_cases hs : s = e.1
            · rw [if_pos hs, hs, hpm0]
            · rw [if_neg hs, hpm]
          · simp only [if_neg hp, umFind_umAssign, hpm0, Option.getD_none]
            by_cases hs : s = e.1
            · rw [if_pos hs, if_pos hs]
            · rw [if_neg hs, if_neg hs, hpm]) (by
          by_cases hp : ps = []
          · simp only [if_pos hp]; exact hnd
          · simp only [if_neg hp]; exact umAssign_keys_nodup _ _ _ hnd) hcons'
      refine ⟨pm', hrun, ?_, hnd'⟩
      intro s
      rw [hfind]
      simp [List.append_assoc]

/-- `doGetPartsMap` on a snapshot: it returns, its spaces are distinct, and it holds
for every space what `partsMapEntry` says. -/
theorem doGetPartsMap_snapshot (host : HostAddr) (cache : LocalCache) (hs : IsSnapshot cache) :
    ∃ pm, doGetPartsMap host cache = .ok pm ∧
      (∀ s, umFind pm s = partsMapEntry host cache s) ∧ (pm.map Prod.fst).Nodup := by
  have := doGetPartsMap_outer host cache [] [] (by simpa using hs.keys)
    (by intro s; simp [umFind, partsMapEntry]) (by simp)
    (by
      intro e he ps hps
      rw [hs.hosts e he] at hps
      exact reverse_consistent e.2.partsAlloc_ host ps hps)
  simpa [doGetPartsMap] using this

/-- The entries `doGetPartsMap` holds for a space: distinct partitions, exactly the
ones the snapshot lists for the host in that space, each with the space id, its own
id and the replica hosts of the snapshot. -/
theorem partsMapEntry_facts (host : HostAddr) (cache : LocalCache) (s : GraphSpaceID)
    (parts : List (PartitionID × PartHosts)) (h : partsMapEntry host cache s = some parts) :
    (parts.map Prod.fst).Nodup ∧
    (∀ p, p ∈ parts.map Prod.fst ↔ p ∈ localParts cache host s) ∧
    (∀ q ∈ parts, q.2 = { spaceId_ := s, partId_ := q.1, hosts_ := replicaHosts cache s q.1 }) ∧
    localParts cache host s ≠ [] := by
  unfold partsMapEntry at h
  unfold localParts replicaHosts
  cases hc : umFind cache s with
  | none => rw [hc] at h; simp at h
  | some info =>
    rw [hc] at h
    simp only at h
    cases hps : umFind info.partsOnHost_ host with
    | none => rw [hps] at h; simp at h
    | some ps =>
      rw [hps] at h
      simp only at h
      by_cases hp : ps = []
      · rw [if_pos hp] at h; simp at h
      · rw [if_neg hp] at h
        simp only [Option.some.injEq] at h
        subst h
        simp only [hps, Option.getD_some]
        refine ⟨assignParts_keys_nodup s _ ps [] (by simp), fun p => ?_, ?_, hp⟩
        · rw [mem_keys_assignParts]; simp
        · exact assignParts_values s _ ps [] (by simp) (by simp)

theorem partsMapEntry_none (host : HostAddr) (cache : LocalCache) (s : GraphSpaceID)
    (h : partsMapEntry host cache s = none) : localParts cache host s = [] := by
  unfold partsMapEntry at h
  unfold localParts
  cases hc : umFind cache s with
  | none => rfl
  | some info =>
    rw [hc] at h
    simp only at h
    cases hps : umFind info.partsOnHost_ host with
    | none => simp [hps]
    | some ps =>
      rw [hps] at h
      simp only at h
      by_cases hp : ps = []
      · simpa [hps] using hp
      · rw [if_neg hp] at h; simp at h

/-! ### The listener calls of `diff` -/

section FlatMapLemmas
variable {K V E F : Type} [DecidableEq K]

/-- Filtering the events of a loop over a map down to those of one key: only the entry
of that key contributes. -/
theorem flatMap_filter_key (m : List (K × V)) (f : K × V → List E) (P : E → Bool) (k : K)
    (hnd : (m.map Prod.fst).Nodup)
    (hother : ∀ e ∈ m, e.1 ≠ k → (f e).filter P = [])
    (hself : ∀ v, (k, v) ∈ m → (f (k, v)).filter P = f (k, v)) :
    (m.flatMap f).filter P = ((umFind m k).map fun v => f (k, v)).getD [] := by
  induction m with
  | nil => simp [umFind]
  | cons e rest ih =>
    obtain ⟨k', v'⟩ := e
    have hnd' : k' ∉ rest.map Prod.fst ∧ (rest.map Prod.fst).Nodup := List.nodup_cons.1 hnd
    have ihr := ih hnd'.2 (fun e he => hother e (List.mem_cons_of_mem _ he))
      (fun v hv => hself v (List.mem_cons_of_mem _ hv))
    rw [List.flatMap_cons, List.filter_append, ihr]
    by_cases hk : k' = k
    · subst hk
      rw [hself v' (List.mem_cons_self _ _), (umFind_eq_none_iff rest k').2 hnd'.1]
      simp [umFind]
    · rw [hother (k', v') (List.mem_cons_self _ _) hk]
      simp [umFind, hk]

theorem flatMap_filterMap_key (m : List (K × V)) (f : K × V → List E) (g : E → Option F)
    (k : K) (hnd : (m.map Prod.fst).Nodup)
    (hother : ∀ e ∈ m, e.1 ≠ k → (f e).filterMap g = []) :
    (m.flatMap f).filterMap g
      = ((umFind m k).map fun v => (f (k, v)).filterMap g).getD [] := by
  induction m with
  | nil => simp [umFind]
  | cons e rest ih =>
    obtain ⟨k', v'⟩ := e
    have hnd' : k' ∉ rest.map Prod.fst ∧ (rest.map Prod.fst).Nodup := List.nodup_cons.1 hnd
    have ihr := ih hnd'.2 (fun e he => hother e (List.mem_cons_of_mem _ he))
    rw [List.flatMap_cons, List.filterMap_append, ihr]
    by_cases hk : k' = k
    · subst hk
      rw [(umFind_eq_none_iff rest k').2 hnd'.1]
      simp [umFind]
    · rw [hother (k', v') (List.mem_cons_self _ _) hk]
      simp [umFind, hk]

/-- A selection of keys of a map with distinct keys: the selected keys are distinct,
and a key is selected exactly when its entry is. -/
theorem filterMap_keys (m : List (K × V)) (sel : K × V → Bool)
    (hnd : (m.map Prod.fst).Nodup) :
    (m.filterMap (fun e => if sel e then some e.1 else none)).Nodup ∧
    ∀ k, k ∈ m.filterMap (fun e => if sel e then some e.1 else none)
      ↔ ∃ v, umFind m k = some v ∧ sel (k, v) = true := by
  induction m with
  | nil => simp [umFind]
  | cons e rest ih =>
    obtain ⟨k', v'⟩ := e
    have hnd' : k' ∉ rest.map Prod.fst ∧ (rest.map Prod.fst).Nodup := List.nodup_cons.1 hnd
    obtain ⟨ih1, ih2⟩ := ih hnd'.2
    have hsub : ∀ k, k ∈ rest.filterMap (fun e => if sel e then some e.1 else none) →
        k ∈ rest.map Prod.fst := by
      intro k hk
      obtain ⟨v, hv, _⟩ := (ih2 k).1 hk
      exact List.mem_map.2 ⟨(k, v), umFind_some_mem rest k v hv, rfl⟩
    constructor
    · rw [List.filterMap_cons]
      cases hsel : sel (k', v') with
      | false => simpa using ih1
      | true =>
        simp only [if_true]
        exact List.nodup_cons.2 ⟨fun h => hnd'.1 (hsub k' h), ih1⟩
    · intro k
      rw [List.filterMap_cons]
      by_cases hk : k' = k
      · subst hk
        have hnot : k' ∉ rest.filterMap (fun e => if sel e then some e.1 else none) :=
          fun h => hnd'.1 (hsub k' h)
        cases hsel : sel (k', v') with
        | false => simp [umFind, hsel, hnot]
        | true => simp [umFind, hsel]
      · have hk' : ¬ k = k' := fun e => hk e.symm
        cases hsel : sel (k', v') with
        | false => simp [umFind, hk, ih2]
        | true => simp [umFind, hk, hk', ih2]

end FlatMapLemmas

theorem diffAdded_eq (differs : PartHosts → PartHosts → Bool) (oldPM newPM : PartsMap) :
    diffAdded differs oldPM newPM = newPM.flatMap (addedEvents differs oldPM) := rfl

theorem diffRemoved_eq (oldPM newPM : PartsMap) :
    diffRemoved oldPM newPM = oldPM.flatMap (removedEvents newPM) := rfl

theorem flatMap_nil_of_forall {α β : Type} (l : List α) (f : α → List β)
    (h : ∀ x ∈ l, f x = []) : l.flatMap f = [] := by
  induction l with
  | nil => rfl
  | cons x rest ih =>
    rw [List.flatMap_cons, h x (List.mem_cons_self _ _),
      ih (fun y hy => h y (List.mem_cons_of_mem _ hy))]
    rfl

/-- The entry of a partition map for a space is what `partsMapEntry` says. -/
theorem PartsMapOf.entry {host : HostAddr} {cache : LocalCache} {pm : PartsMap}
    (h : PartsMapOf host cache pm) (e : GraphSpaceID × List (PartitionID × PartHosts))
    (he : e ∈ pm) : partsMapEntry host cache e.1 = some e.2 := by
  rw [← h.find e.1]
  exact umFind_of_mem_nodup pm e.1 e.2 h.keys he

/-- `diff` on two snapshots with a listener registered: both partition maps are
computed, and the calls are those of the first loop followed by those of the second. -/
theorem diff_snapshot (differs : PartHosts → PartHosts → Bool) (host : HostAddr)
    (old new : LocalCache) (ho : IsSnapshot old) (hn : IsSnapshot new) :
    ∃ oldPM newPM, diff differs true host old new
        = .ok (diffAdded differs oldPM newPM ++ diffRemoved oldPM newPM) ∧
      PartsMapOf host old oldPM ∧ PartsMapOf host new newPM := by
  obtain ⟨oldPM, ho1, ho2, ho3⟩ := doGetPartsMap_snapshot host old ho
  obtain ⟨newPM, hn1, hn2, hn3⟩ := doGetPartsMap_snapshot host new hn
  refine ⟨oldPM, newPM, ?_, ⟨ho2, ho3⟩, ⟨hn2, hn3⟩⟩
  simp [diff, ho1, hn1]

/-- C14. For every topology snapshot `C` and every local host, `diff(C, C)` returns
without invoking any listener callback. The comparison of two `PartHosts` is only
required to find a value equal to itself. -/
theorem diff_same_snapshot (differs : PartHosts → PartHosts → Bool) (hasListener : Bool)
    (host : HostAddr) (C : LocalCache)
    (hirr : ∀ x, differs x x = false) (hs : IsSnapshot C) :
    diff differs hasListener host C C = .ok [] := by
  cases hasListener with
  | false => simp [diff]
  | true =>
    obtain ⟨pm, h1, h2, h3⟩ := doGetPartsMap_snapshot host C hs
    have hpm : PartsMapOf host C pm := ⟨h2, h3⟩
    have hadd : diffAdded differs pm pm = [] := by
      rw [diffAdded_eq]
      apply flatMap_nil_of_forall
      intro e he
      have hfind : umFind pm e.1 = some e.2 := umFind_of_mem_nodup pm e.1 e.2 h3 he
      obtain ⟨hnd, _, _, _⟩ := partsMapEntry_facts host C e.1 e.2 (hpm.entry e he)
      simp only [addedEvents, hfind]
      apply flatMap_nil_of_forall
      intro part hpart
      have : umFind e.2 part.1 = some part.2 := umFind_of_mem_nodup e.2 part.1 part.2 hnd hpart
      simp [partAddedOrUpdated, this, hirr]
    have hrem : diffRemoved pm pm = [] := by
      rw [diffRemoved_eq]
      apply flatMap_nil_of_forall
      intro e he
      have hfind : umFind pm e.1 = some e.2 := umFind_of_mem_nodup pm e.1 e.2 h3 he
      obtain ⟨hnd, _, _, _⟩ := partsMapEntry_facts host C e.1 e.2 (hpm.entry e he)
      simp only [removedEvents, hfind]
      apply flatMap_nil_of_forall
      intro part hpart
      have : umFind e.2 part.1 = some part.2 := umFind_of_mem_nodup e.2 part.1 part.2 hnd hpart
      simp [partRemoved, this]
    simp [diff, h1, hadd, hrem]

theorem diff_same_snapshot_witness :
    (∀ x, partHostsDiffer x x = false) ∧ IsSnapshot snapNew ∧
    diff partHostsDiffer true hostA snapNew snapNew = .ok [] :=
  ⟨fun x => by simp [partHostsDiffer], ⟨by decide, by decide⟩,
    diff_same_snapshot partHostsDiffer true hostA snapNew
      (fun x => by simp [partHostsDiffer]) ⟨by decide, by decide⟩⟩

theorem filter_space_of_forall (l : List ListenerEvent) (k s : GraphSpaceID)
    (h : ∀ ev ∈ l, ev.space = k) :
    l.filter (fun e => decide (e.space = s)) = if k = s then l else [] := by
  by_cases hk : k = s
  · rw [if_pos hk]
    apply List.filter_eq_self.2
    intro ev hev
    simp [h ev hev, hk]
  · rw [if_neg hk]
    apply List.filter_eq_nil_iff.2
    intro ev hev
    simp [h ev hev, hk]

/-- Every call the first loop makes for an entry is about the space of the entry. -/
theorem addedEvents_space (differs : PartHosts → PartHosts → Bool) (oldPM : PartsMap)
    (e : GraphSpaceID × List (PartitionID × PartHosts))
    (hval : ∀ q ∈ e.2, q.2.spaceId_ = e.1) :
    ∀ ev ∈ addedEvents differs oldPM e, ev.space = e.1 := by
  intro ev hev
  unfold addedEvents at hev
  cases ho : umFind oldPM e.1 with
  | none =>
    rw [ho] at hev
    simp only [List.mem_cons, List.mem_map] at hev
    rcases hev with h | ⟨q, hq, h⟩
    · subst h; rfl
    · subst h; exact hval q hq
  | some oparts =>
    rw [ho] at hev
    simp only [List.mem_flatMap] at hev
    obtain ⟨q, hq, hmem⟩ := hev
    unfold partAddedOrUpdated at hmem
    cases hf : umFind oparts q.1 with
    | none =>
      rw [hf] at hmem
      simp only [List.mem_singleton] at hmem
      subst hmem; exact hval q hq
    | some oph =>
      rw [hf] at hmem
      simp only at hmem
      split at hmem
      · simp only [List.mem_singleton] at hmem
        subst hmem; exact hval q hq
      · simp at hmem

/-- Every call the second loop makes for an entry is about the space of the entry. -/
theorem removedEvents_space (newPM : PartsMap)
    (e : GraphSpaceID × List (PartitionID × PartHosts)) :
    ∀ ev ∈ removedEvents newPM e, ev.space = e.1 := by
  intro ev hev
  unfold removedEvents at hev
  cases hn : umFind newPM e.1 with
  | none =>
    rw [hn] at hev
    simp only [List.mem_append, List.mem_map, List.mem_singleton] at hev
    rcases hev with ⟨q, _, h⟩ | h
    · subst h; rfl
    · subst h; rfl
  | some nparts =>
    rw [hn] at hev
    simp only [List.mem_flatMap] at hev
    obtain ⟨q, _, hmem⟩ := hev
    unfold partRemoved at hmem
    cases hf : umFind nparts q.1 with
    | none =>
      rw [hf] at hmem
      simp only [List.mem_singleton] at hmem
      subst hmem; rfl
    | some nph => rw [hf] at hmem; simp at hmem

theorem PartsMapOf.values {host : HostAddr} {cache : LocalCache} {pm : PartsMap}
    (h : PartsMapOf host cache pm) (e : GraphSpaceID × List (PartitionID × PartHosts))
    (he : e ∈ pm) : ∀ q ∈ e.2, q.2.spaceId_ = e.1 := by
  intro q hq
  obtain ⟨_, _, hv, _⟩ := partsMapEntry_facts host cache e.1 e.2 (h.entry e he)
  rw [hv q hq]

/-- The calls of the first loop that are about space `s`. -/
theorem diffAdded_filter_space (differs : PartHosts → PartHosts → Bool) (host : HostAddr)
    (new : LocalCache) (oldPM newPM : PartsMap) (hn : PartsMapOf host new newPM)
    (s : GraphSpaceID) :
    (diffAdded differs oldPM newPM).filter (fun e => decide (e.space = s))
      = ((umFind newPM s).map fun nparts => addedEvents differs oldPM (s, nparts)).getD [] := by
  rw [diffAdded_eq]
  apply flatMap_filter_key newPM (addedEvents differs oldPM) _ s hn.keys
  · intro e he hne
    rw [filter_space_of_forall _ e.1 s (addedEvents_space differs oldPM e (hn.values e he)),
      if_neg hne]
  · intro v hv
    rw [filter_space_of_forall _ s s
      (addedEvents_space differs oldPM (s, v) (hn.values (s, v) hv)), if_pos rfl]

/-- The calls of the second loop that are about space `s`. -/
theorem diffRemoved_filter_space (oldPM newPM : PartsMap)
    (hk : (oldPM.map Prod.fst).Nodup) (s : GraphSpaceID) :
    (diffRemoved oldPM newPM).filter (fun e => decide (e.space = s))
      = ((umFind oldPM s).map fun oparts => removedEvents newPM (s, oparts)).getD [] := by
  rw [diffRemoved_eq]
  apply flatMap_filter_key oldPM (removedEvents newPM) _ s hk
  · intro e _ hne
    rw [filter_space_of_forall _ e.1 s (removedEvents_space newPM e), if_neg hne]
  · intro v _
    rw [filter_space_of_forall _ s s (removedEvents_space newPM (s, v)), if_pos rfl]

theorem partsMapEntry_absent (host : HostAddr) (cache : LocalCache) (s : GraphSpaceID)
    (h : umFind cache s = none) : partsMapEntry host cache s = none := by
  simp [partsMapEntry, h]

theorem partsMapEntry_local (host : HostAddr) (cache : LocalCache) (s : GraphSpaceID)
    (h : localParts cache host s ≠ []) : ∃ parts, partsMapEntry host cache s = some parts := by
  cases hp : partsMapEntry host cache s with
  | none => exact absurd (partsMapEntry_none host cache s hp) h
  | some parts => exact ⟨parts, rfl⟩

/-- C15 as stated fails: space 5 is present only in the new snapshot, on host B; the
diff for the local host A makes no call about it, so no `onSpaceAdded(5)`. -/
theorem diff_space_added_not_local :
    umFind snapOld 5 = none ∧ (umFind snapNew 5).isSome = true ∧
    (diff partHostsDiffer true hostA snapOld snapNew).map
        (fun evs => evs.filter (fun e => decide (e.space = 5))) = .ok [] := by
  decide

/-- When the local host holds no partition of a space, the space has no entry in the
partition map of the host. -/
theorem partsMapEntry_not_local (host : HostAddr) (cache : LocalCache) (s : GraphSpaceID)
    (h : localParts cache host s = []) : partsMapEntry host cache s = none := by
  cases hp : partsMapEntry host cache s with
  | none => rfl
  | some parts => exact absurd h (partsMapEntry_facts host cache s parts hp).2.2.2

/-- C15, amended. For every pair of snapshots and every space that is present only in
the new snapshot: if the space has at least one partition placed on the local host, the
calls of `diff` about that space are `onSpaceAdded(space)` followed by one `onPartAdded`
for each partition of the space placed on the local host, each partition once; if it
has no partition on the local host, `diff` makes no call about that space. -/
theorem diff_space_added (differs : PartHosts → PartHosts → Bool) (host : HostAddr)
    (old new : LocalCache) (s : GraphSpaceID)
    (ho : IsSnapshot old) (hn : IsSnapshot new)
    (habs : umFind old s = none) :
    ∃ evs : List ListenerEvent,
      diff differs true host old new = .ok evs ∧
      (localParts new host s ≠ [] →
        ∃ parts : List (PartitionID × PartHosts),
          evs.filter (fun e => decide (e.space = s))
            = .onSpaceAdded s :: parts.map (fun q => ListenerEvent.onPartAdded q.2) ∧
          (parts.map Prod.fst).Nodup ∧
          (∀ p, p ∈ parts.map Prod.fst ↔ p ∈ localParts new host s) ∧
          ∀ q ∈ parts,
            q.2 = { spaceId_ := s, partId_ := q.1, hosts_ := replicaHosts new s q.1 }) ∧
      (localParts new host s = [] → evs.filter (fun e => decide (e.space = s)) = []) := by
  obtain ⟨oldPM, newPM, hd, hpo, hpn⟩ := diff_snapshot differs host old new ho hn
  have hfo : umFind oldPM s = none := by rw [hpo.find, partsMapEntry_absent host old s habs]
  refine ⟨_, hd, fun hloc => ?_, fun hloc => ?_⟩
  · obtain ⟨parts, hparts⟩ := partsMapEntry_local host new s hloc
    obtain ⟨h1, h2, h3, _⟩ := partsMapEntry_facts host new s parts hparts
    have hfn : umFind newPM s = some parts := by rw [hpn.find, hparts]
    refine ⟨parts, ?_, h1, h2, h3⟩
    rw [List.filter_append, diffAdded_filter_space differs host new oldPM newPM hpn s,
      diffRemoved_filter_space oldPM newPM hpo.keys s, hfn, hfo]
    simp [addedEvents, hfo]
  · have hfn : umFind newPM s = none := by
      rw [hpn.find, partsMapEntry_not_local host new s hloc]
    rw [List.filter_append, diffAdded_filter_space differs host new oldPM newPM hpn s,
      diffRemoved_filter_space oldPM newPM hpo.keys s, hfn, hfo]
    simp

theorem diff_space_added_witness :
    IsSnapshot snapOld ∧ IsSnapshot snapNew ∧ umFind snapOld 3 = none ∧
    localParts snapNew hostA 3 ≠ [] ∧
    ∃ evs : List ListenerEvent,
      diff partHostsDiffer true hostA snapOld snapNew = .ok evs ∧
      (localParts snapNew hostA 3 ≠ [] →
        ∃ parts : List (PartitionID × PartHosts),
          evs.filter (fun e => decide (e.space = 3))
            = .onSpaceAdded 3 :: parts.map (fun q => ListenerEvent.onPartAdded q.2) ∧
          (parts.map Prod.fst).Nodup ∧
          (∀ p, p ∈ parts.map Prod.fst ↔ p ∈ localParts snapNew hostA 3) ∧
          ∀ q ∈ parts,
            q.2 = { spaceId_ := 3, partId_ := q.1, hosts_ := replicaHosts snapNew 3 q.1 }) ∧
      (localParts snapNew hostA 3 = [] → evs.filter (fun e => decide (e.space = 3)) = []) :=
  ⟨⟨by decide, by decide⟩, ⟨by decide, by decide⟩, by decide, by decide,
    diff_space_added partHostsDiffer hostA snapOld snapNew 3 ⟨by decide, by decide⟩
      ⟨by decide, by decide⟩ (by decide)⟩

/-- C16 as stated fails: space 4 is present only in the old snapshot, on host B; the
diff for the local host A makes no call about it, so no `onSpaceRemoved(4)`. -/
theorem diff_space_removed_not_local :
    umFind snapNew 4 = none ∧ (umFind snapOld 4).isSome = true ∧
    (diff partHostsDiffer true hostA snapOld snapNew).map
        (fun evs => evs.filter (fun e => decide (e.space = 4))) = .ok [] := by
  decide

/-- C16, amended. For every pair of snapshots and every space that is present only in
the old snapshot: if the space had at least one partition placed on the local host, the
calls of `diff` about that space are one `onPartRemoved(space, part)` for each
partition of the space that was placed on the local host, each partition once, followed
by `onSpaceRemoved(space)`; if it had no partition on the local host, `diff` makes no
call about that space. -/
theorem diff_space_removed (differs : PartHosts → PartHosts → Bool) (host : HostAddr)
    (old new : LocalCache) (s : GraphSpaceID)
    (ho : IsSnapshot old) (hn : IsSnapshot new)
    (habs : umFind new s = none) :
    ∃ evs : List ListenerEvent,
      diff differs true host old new = .ok evs ∧
      (localParts old host s ≠ [] →
        ∃ parts : List PartitionID,
          evs.filter (fun e => decide (e.space = s))
            = parts.map (fun p => ListenerEvent.onPartRemoved s p) ++ [.onSpaceRemoved s] ∧
          parts.Nodup ∧
          (∀ p, p ∈ parts ↔ p ∈ localParts old host s)) ∧
      (localParts old host s = [] → evs.filter (fun e => decide (e.space = s)) = []) := by
  obtain ⟨oldPM, newPM, hd, hpo, hpn⟩ := diff_snapshot differs host old new ho hn
  have hfn : umFind newPM s = none := by rw [hpn.find, partsMapEntry_absent host new s habs]
  refine ⟨_, hd, fun hloc => ?_, fun hloc => ?_⟩
  · obtain ⟨parts, hparts⟩ := partsMapEntry_local host old s hloc
    obtain ⟨h1, h2, _, _⟩ := partsMapEntry_facts host old s parts hparts
    have hfo : umFind oldPM s = some parts := by rw [hpo.find, hparts]
    refine ⟨parts.map Prod.fst, ?_, h1, h2⟩
    rw [List.filter_append, diffAdded_filter_space differs host new oldPM newPM hpn s,
      diffRemoved_filter_space oldPM newPM hpo.keys s, hfn, hfo]
    simp [removedEvents, hfn, List.map_map, Function.comp_def]
  · have hfo : umFind oldPM s = none := by
      rw [hpo.find, partsMapEntry_not_local host old s hloc]
    rw [List.filter_append, diffAdded_filter_space differs host new oldPM newPM hpn s,
      diffRemoved_filter_space oldPM newPM hpo.keys s, hfn, hfo]
    simp

theorem diff_space_removed_witness :
    IsSnapshot snapOld ∧ IsSnapshot snapNew ∧ umFind snapNew 2 = none ∧
    localParts snapOld hostA 2 ≠ [] ∧
    ∃ evs : List ListenerEvent,
      diff partHostsDiffer true hostA snapOld snapNew = .ok evs ∧
      (localParts snapOld hostA 2 ≠ [] →
        ∃ parts : List PartitionID,
          evs.filter (fun e => decide (e.space = 2))
            = parts.map (fun p => ListenerEvent.onPartRemoved 2 p) ++ [.onSpaceRemoved 2] ∧
          parts.Nodup ∧
          (∀ p, p ∈ parts ↔ p ∈ localParts snapOld hostA 2)) ∧
      (localParts snapOld hostA 2 = [] → evs.filter (fun e => decide (e.space = 2)) = []) :=
  ⟨⟨by decide, by decide⟩, ⟨by decide, by decide⟩, by decide, by decide,
    diff_space_removed partHostsDiffer hostA snapOld snapNew 2 ⟨by decide, by decide⟩
      ⟨by decide, by decide⟩ (by decide)⟩

theorem flatMap_filterMap_single {α β γ : Type} (l : List α) (f : α → List β)
    (g : β → Option γ) (h : α → Option γ)
    (hx : ∀ x ∈ l, (f x).filterMap g = (h x).toList) :
    (l.flatMap f).filterMap g = l.filterMap h := by
  induction l with
  | nil => rfl
  | cons x rest ih =>
    rw [List.flatMap_cons, List.filterMap_append, hx x (List.mem_cons_self _ _),
      ih (fun y hy => hx y (List.mem_cons_of_mem _ hy)), List.filterMap_cons]
    cases h x <;> rfl

theorem filterMap_nil_of_space {γ : Type} (g : ListenerEvent → Option γ) (s k : GraphSpaceID)
    (hg : ∀ ev, ev.space ≠ s → g ev = none) (l : List ListenerEvent)
    (hl : ∀ ev ∈ l, ev.space = k) (hk : k ≠ s) : l.filterMap g = [] := by
  apply List.filterMap_eq_nil_iff.2
  intro ev hev
  exact hg ev (by rw [hl ev hev]; exact hk)

theorem addedPart_none_of_space (s : GraphSpaceID) (ev : ListenerEvent) (h : ev.space ≠ s) :
    ev.addedPart s = none := by
  cases ev <;> simp_all [ListenerEvent.addedPart, ListenerEvent.space]

theorem removedPart_none_of_space (s : GraphSpaceID) (ev : ListenerEvent) (h : ev.space ≠ s) :
    ev.removedPart s = none := by
  cases ev <;> simp_all [ListenerEvent.removedPart, ListenerEvent.space]

theorem updatedPart_none_of_space (s : GraphSpaceID) (ev : ListenerEvent) (h : ev.space ≠ s) :
    ev.updatedPart s = none := by
  cases ev <;> simp_all [ListenerEvent.updatedPart, ListenerEvent.space]

/-- A projection of the calls of `diff` to one space: only the entries of that space in
the two partition maps contribute. -/
theorem diff_filterMap_space {γ : Type} (differs : PartHosts → PartHosts → Bool)
    (host : HostAddr) (old new : LocalCache) (oldPM newPM : PartsMap)
    (hpo : PartsMapOf host old oldPM) (hpn : PartsMapOf host new newPM)
    (g : ListenerEvent → Option γ) (s : GraphSpaceID)
    (hg : ∀ ev, ev.space ≠ s → g ev = none) :
    (diffAdded differs oldPM newPM ++ diffRemoved oldPM newPM).filterMap g
      = ((umFind newPM s).map fun nparts =>
            (addedEvents differs oldPM (s, nparts)).filterMap g).getD []
        ++ ((umFind oldPM s).map fun oparts =>
            (removedEvents newPM (s, oparts)).filterMap g).getD [] := by
  rw [List.filterMap_append, diffAdded_eq, diffRemoved_eq,
    flatMap_filterMap_key newPM (addedEvents differs oldPM) g s hpn.keys
      (fun e he hne => filterMap_nil_of_space g s e.1 hg _
        (addedEvents_space differs oldPM e (hpn.values e he)) hne),
    flatMap_filterMap_key oldPM (removedEvents newPM) g s hpo.keys
      (fun e _ hne => filterMap_nil_of_space g s e.1 hg _ (removedEvents_space newPM e) hne)]

theorem mem_keys_iff_find {K V : Type} [DecidableEq K] (m : List (K × V)) (k : K) :
    (∃ v, umFind m k = some v) ↔ k ∈ m.map Prod.fst := by
  constructor
  · rintro ⟨v, hv⟩
    exact List.mem_map.2 ⟨(k, v), umFind_some_mem m k v hv, rfl⟩
  · exact umFind_isSome_of_mem m k

/-- The partition-level calls of `diff` about a space in which the local host holds
partitions in both snapshots: which partitions are announced as added, removed and
updated, each at most once. -/
theorem diff_space_parts (differs : PartHosts → PartHosts → Bool) (host : HostAddr)
    (old new : LocalCache) (s : GraphSpaceID)
    (ho : IsSnapshot old) (hn : IsSnapshot new)
    (hlo : localParts old host s ≠ []) (hln : localParts new host s ≠ []) :
    ∃ evs : List ListenerEvent, diff differs true host old new = .ok evs ∧
      (evs.filterMap (ListenerEvent.addedPart s)).Nodup ∧
      (∀ p, p ∈ evs.filterMap (ListenerEvent.addedPart s)
        ↔ p ∈ localParts new host s ∧ p ∉ localParts old host s) ∧
      (evs.filterMap (ListenerEvent.removedPart s)).Nodup ∧
      (∀ p, p ∈ evs.filterMap (ListenerEvent.removedPart s)
        ↔ p ∈ localParts old host s ∧ p ∉ localParts new host s) ∧
      (evs.filterMap (ListenerEvent.updatedPart s)).Nodup ∧
      (∀ p, p ∈ evs.filterMap (ListenerEvent.updatedPart s)
        ↔ p ∈ localParts new host s ∧ p ∈ localParts old host s ∧
          differs { spaceId_ := s, partId_ := p, hosts_ := replicaHosts old s p }
            { spaceId_ := s, partId_ := p, hosts_ := replicaHosts new s p } = true) := by
  obtain ⟨oldPM, newPM, hd, hpo, hpn⟩ := diff_snapshot differs host old new ho hn
  obtain ⟨oparts, hoparts⟩ := partsMapEntry_local host old s hlo
  obtain ⟨nparts, hnparts⟩ := partsMapEntry_local host new s hln
  obtain ⟨ho1, ho2, ho3, _⟩ := partsMapEntry_facts host old s oparts hoparts
  obtain ⟨hn1, hn2, hn3, _⟩ := partsMapEntry_facts host new s nparts hnparts
  have hfo : umFind oldPM s = some oparts := by rw [hpo.find, hoparts]
  have hfn : umFind newPM s = some nparts := by rw [hpn.find, hnparts]
  -- the calls for the partitions of the new map
  have hA1 : (addedEvents differs oldPM (s, nparts)).filterMap (ListenerEvent.addedPart s)
      = nparts.filterMap (fun e => if (umFind oparts e.1).isNone then some e.1 else none) := by
    simp only [addedEvents, hfo]
    apply flatMap_filterMap_single
    intro q hq
    have hv := hn3 q hq
    unfold partAddedOrUpdated
    cases hf : umFind oparts q.1 with
    | none => simp [ListenerEvent.addedPart, hv]
    | some oph =>
      by_cases hdiff : differs oph q.2 = true
      · simp [hdiff, ListenerEvent.addedPart]
      · simp [hdiff]
  have hA2 : (addedEvents differs oldPM (s, nparts)).filterMap (ListenerEvent.removedPart s)
      = [] := by
    apply List.filterMap_eq_nil_iff.2
    intro ev hev
    simp only [addedEvents, hfo, List.mem_flatMap] at hev
    obtain ⟨q, _, hmem⟩ := hev
    unfold partAddedOrUpdated at hmem
    cases hf : umFind oparts q.1 with
    | none => rw [hf] at hmem; simp at hmem; subst hmem; rfl
    | some oph =>
      rw [hf] at hmem
      simp only at hmem
      split at hmem
      · simp at hmem; subst hmem; rfl
      · simp at hmem
  have hA3 : (addedEvents differs oldPM (s, nparts)).filterMap (ListenerEvent.updatedPart s)
      = nparts.filterMap (fun e =>
          if (match umFind oparts e.1 with
              | some oph => differs oph e.2
              | none => false) then some e.1 else none) := by
    simp only [addedEvents, hfo]
    apply flatMap_filterMap_single
    intro q hq
    have hv := hn3 q hq
    unfold partAddedOrUpdated
    cases hf : umFind oparts q.1 with
    | none => simp [ListenerEvent.updatedPart]
    | some oph =>
      by_cases hdiff : differs oph q.2 = true
      · have hd2 := hdiff
        rw [hv] at hd2
        simp [hd2, ListenerEvent.updatedPart, hv]
      · simp [hdiff]
  -- the calls for the partitions of the old map
  have hR1 : (removedEvents newPM (s, oparts)).filterMap (ListenerEvent.removedPart s)
      = oparts.filterMap (fun e => if (umFind nparts e.1).isNone then some e.1 else none) := by
    simp only [removedEvents, hfn]
    apply flatMap_filterMap_single
    intro q _
    unfold partRemoved
    cases hf : umFind nparts q.1 with
    | none => simp [ListenerEvent.removedPart]
    | some nph => simp
  have hR23 : ∀ ev ∈ removedEvents newPM (s, oparts),
      ev.addedPart s = none ∧ ev.updatedPart s = none := by
    intro ev hev
    simp only [removedEvents, hfn, List.mem_flatMap] at hev
    obtain ⟨q, _, hmem⟩ := hev
    unfold partRemoved at hmem
    cases hf : umFind nparts q.1 with
    | none => rw [hf] at hmem; simp at hmem; subst hmem; exact ⟨rfl, rfl⟩
    | some nph => rw [hf] at hmem; simp at hmem
  have hR2 : (removedEvents newPM (s, oparts)).filterMap (ListenerEvent.addedPart s) = [] :=
    List.filterMap_eq_nil_iff.2 (fun ev hev => (hR23 ev hev).1)
  have hR3 : (removedEvents newPM (s, oparts)).filterMap (ListenerEvent.updatedPart s) = [] :=
    List.filterMap_eq_nil_iff.2 (fun ev hev => (hR23 ev hev).2)
  have hadd := diff_filterMap_space differs host old new oldPM newPM hpo hpn
    (ListenerEvent.addedPart s) s (addedPart_none_of_space s)
  have hrem := diff_filterMap_space differs host old new oldPM newPM hpo hpn
    (ListenerEvent.removedPart s) s (removedPart_none_of_space s)
  have hupd := diff_filterMap_space differs host old new oldPM newPM hpo hpn
    (ListenerEvent.updatedPart s) s (updatedPart_none_of_space s)
  simp only [hfo, hfn, Option.map_some', Option.getD_some, hA1, hA2, hA3, hR1, hR2, hR3,
    List.append_nil, List.nil_append] at hadd hrem hupd
  obtain ⟨hk1, hk2⟩ := filterMap_keys nparts (fun e => (umFind oparts e.1).isNone) hn1
  obtain ⟨hk3, hk4⟩ := filterMap_keys oparts (fun e => (umFind nparts e.1).isNone) ho1
  obtain ⟨hk5, hk6⟩ := filterMap_keys nparts
    (fun e => match umFind oparts e.1 with
      | some oph => differs oph e.2
      | none => false) hn1
  refine ⟨_, hd, ?_, ?_, ?_, ?_, ?_, ?_⟩
  · rw [hadd]; exact hk1
  · intro p
    rw [hadd, hk2, ← hn2, ← ho2, ← mem_keys_iff_find nparts p, ← umFind_eq_none_iff oparts p]
    constructor
    · rintro ⟨v, hv, hsel⟩
      exact ⟨⟨v, hv⟩, by simpa using hsel⟩
    · rintro ⟨⟨v, hv⟩, hnone⟩
      exact ⟨v, hv, by simpa using hnone⟩
  · rw [hrem]; exact hk3
  · intro p
    rw [hrem, hk4, ← hn2, ← ho2, ← mem_keys_iff_find oparts p, ← umFind_eq_none_iff nparts p]
    constructor
    · rintro ⟨v, hv, hsel⟩
      exact ⟨⟨v, hv⟩, by simpa using hsel⟩
    · rintro ⟨⟨v, hv⟩, hnone⟩
      exact ⟨v, hv, by simpa using hnone⟩
  · rw [hupd]; exact hk5
  · intro p
    rw [hupd, hk6, ← hn2, ← ho2, ← mem_keys_iff_find nparts p, ← mem_keys_iff_find oparts p]
    constructor
    · rintro ⟨v, hv, hsel⟩
      cases hf : umFind oparts p with
      | none => rw [hf] at hsel; simp at hsel
      | some oph =>
        rw [hf] at hsel
        simp only at hsel
        have hv' := hn3 (p, v) (umFind_some_mem nparts p v hv)
        have ho' := ho3 (p, oph) (umFind_some_mem oparts p oph hf)
        simp only at hv' ho'
        rw [hv', ho'] at hsel
        exact ⟨⟨v, hv⟩, ⟨oph, rfl⟩, hsel⟩
    · rintro ⟨⟨v, hv⟩, ⟨oph, hf⟩, hdiff⟩
      refine ⟨v, hv, ?_⟩
      have hv' := hn3 (p, v) (umFind_some_mem nparts p v hv)
      have ho' := ho3 (p, oph) (umFind_some_mem oparts p oph hf)
      simp only at hv' ho'
      simp only [hf]
      rw [hv', ho']
      exact hdiff

/-- C17. For every space in which the local host holds partitions in both the old and
the new snapshot, `diff` announces with `onPartAdded` exactly the local partitions of
the new snapshot that are not local partitions of the old one, and with
`onPartRemoved` exactly the local partitions of the old snapshot that are not local
partitions of the new one, each exactly once. -/
theorem diff_parts_added_removed (differs : PartHosts → PartHosts → Bool) (host : HostAddr)
    (old new : LocalCache) (s : GraphSpaceID)
    (ho : IsSnapshot old) (hn : IsSnapshot new)
    (hlo : localParts old host s ≠ []) (hln : localParts new host s ≠ []) :
    ∃ evs : List ListenerEvent, diff differs true host old new = .ok evs ∧
      (evs.filterMap (ListenerEvent.addedPart s)).Nodup ∧
      (∀ p, p ∈ evs.filterMap (ListenerEvent.addedPart s)
        ↔ p ∈ localParts new host s ∧ p ∉ localParts old host s) ∧
      (evs.filterMap (ListenerEvent.removedPart s)).Nodup ∧
      (∀ p, p ∈ evs.filterMap (ListenerEvent.removedPart s)
        ↔ p ∈ localParts old host s ∧ p ∉ localParts new host s) := by
  obtain ⟨evs, hd, h1, h2, h3, h4, _, _⟩ := diff_space_parts differs host old new s ho hn hlo hln
  exact ⟨evs, hd, h1, h2, h3, h4⟩

theorem diff_parts_added_removed_witness :
    IsSnapshot snapOld ∧ IsSnapshot snapNew ∧
    localParts snapOld hostA 1 ≠ [] ∧ localParts snapNew hostA 1 ≠ [] ∧
    ∃ evs : List ListenerEvent, diff partHostsDiffer true hostA snapOld snapNew = .ok evs ∧
      (evs.filterMap (ListenerEvent.addedPart 1)).Nodup ∧
      (∀ p, p ∈ evs.filterMap (ListenerEvent.addedPart 1)
        ↔ p ∈ localParts snapNew hostA 1 ∧ p ∉ localParts snapOld hostA 1) ∧
      (evs.filterMap (ListenerEvent.removedPart 1)).Nodup ∧
      (∀ p, p ∈ evs.filterMap (ListenerEvent.removedPart 1)
        ↔ p ∈ localParts snapOld hostA 1 ∧ p ∉ localParts snapNew hostA 1) :=
  ⟨⟨by decide, by decide⟩, ⟨by decide, by decide⟩, by decide, by decide,
    diff_parts_added_removed partHostsDiffer hostA snapOld snapNew 1 ⟨by decide, by decide⟩
      ⟨by decide, by decide⟩ (by decide) (by decide)⟩

/-- The calls of `diff` between the two sample snapshots for host A: partition 1 of
space 1, whose replicas are only reordered, is not announced. -/
theorem diff_sample_events :
    diff partHostsDiffer true hostA snapOld snapNew = .ok
      [.onPartUpdated { spaceId_ := 1, partId_ := 2, hosts_ := [hostA, hostC] },
       .onPartAdded { spaceId_ := 1, partId_ := 4, hosts_ := [hostA] },
       .onSpaceAdded 3,
       .onPartAdded { spaceId_ := 3, partId_ := 1, hosts_ := [hostA] },
       .onPartAdded { spaceId_ := 3, partId_ := 2, hosts_ := [hostA, hostB] },
       .onPartRemoved 1 5,
       .onPartRemoved 2 1,
       .onSpaceRemoved 2] := by
  decide

theorem partHostsDiffer_iff (a b : PartHosts) :
    partHostsDiffer a b = true ↔ ¬ (∀ h, h ∈ a.hosts_ ↔ h ∈ b.hosts_) := by
  unfold partHostsDiffer
  simp only [Bool.not_eq_true', Bool.and_eq_false_iff, List.all_eq_false, decide_eq_true_eq]
  constructor
  · rintro (⟨h, h1, h2⟩ | ⟨h, h1, h2⟩)
    · exact fun hall => h2 ((hall h).1 h1)
    · exact fun hall => h2 ((hall h).2 h1)
  · intro hne
    by_contra hcon
    push_neg at hcon
    exact hne (fun h => ⟨hcon.1 h, hcon.2 h⟩)

/-- C18. With the comparison of the spec (host-set equality): for every partition that
the local host holds in both snapshots, `diff` announces it with `onPartUpdated` if and
only if the set of its replica hosts differs between the old and the new snapshot, and
at most once; a partition whose replica list in the new snapshot is a reordering of the
old one is announced by no call at all. -/
theorem diff_part_updated (host : HostAddr) (old new : LocalCache) (s : GraphSpaceID)
    (p : PartitionID) (ho : IsSnapshot old) (hn : IsSnapshot new)
    (hpo : p ∈ localParts old host s) (hpn : p ∈ localParts new host s) :
    ∃ evs : List ListenerEvent, diff partHostsDiffer true host old new = .ok evs ∧
      (p ∈ evs.filterMap (ListenerEvent.updatedPart s)
        ↔ ¬ (∀ h, h ∈ replicaHosts old s p ↔ h ∈ replicaHosts new s p)) ∧
      (evs.filterMap (ListenerEvent.updatedPart s)).Nodup ∧
      ((replicaHosts new s p).Perm (replicaHosts old s p) →
        p ∉ evs.filterMap (ListenerEvent.updatedPart s) ∧
        p ∉ evs.filterMap (ListenerEvent.addedPart s) ∧
        p ∉ evs.filterMap (ListenerEvent.removedPart s)) := by
  have hlo : localParts old host s ≠ [] := List.ne_nil_of_mem hpo
  have hln : localParts new host s ≠ [] := List.ne_nil_of_mem hpn
  obtain ⟨evs, hd, _, h2, _, h4, h5, h6⟩ :=
    diff_space_parts partHostsDiffer host old new s ho hn hlo hln
  have hiff : p ∈ evs.filterMap (ListenerEvent.updatedPart s)
      ↔ ¬ (∀ h, h ∈ replicaHosts old s p ↔ h ∈ replicaHosts new s p) := by
    rw [h6, partHostsDiffer_iff]
    exact ⟨fun h => h.2.2, fun h => ⟨hpn, hpo, h⟩⟩
  refine ⟨evs, hd, hiff, h5, fun hperm => ⟨?_, ?_, ?_⟩⟩
  · rw [hiff]
    exact fun hne => hne (fun h => (hperm.mem_iff).symm)
  · rw [h2]; exact fun h => h.2 hpo
  · rw [h4]; exact fun h => h.2 hpn

theorem diff_part_updated_witness :
    IsSnapshot snapOld ∧ IsSnapshot snapNew ∧
    (1 : PartitionID) ∈ localParts snapOld hostA 1 ∧ (1 : PartitionID) ∈ localParts snapNew hostA 1 ∧
    ∃ evs : List ListenerEvent, diff partHostsDiffer true hostA snapOld snapNew = .ok evs ∧
      ((1 : PartitionID) ∈ evs.filterMap (ListenerEvent.updatedPart 1)
        ↔ ¬ (∀ h, h ∈ replicaHosts snapOld 1 1 ↔ h ∈ replicaHosts snapNew 1 1)) ∧
      (evs.filterMap (ListenerEvent.updatedPart 1)).Nodup ∧
      ((replicaHosts snapNew 1 1).Perm (replicaHosts snapOld 1 1) →
        (1 : PartitionID) ∉ evs.filterMap (ListenerEvent.updatedPart 1) ∧
        (1 : PartitionID) ∉ evs.filterMap (ListenerEvent.addedPart 1) ∧
        (1 : PartitionID) ∉ evs.filterMap (ListenerEvent.removedPart 1)) :=
  ⟨⟨by decide, by decide⟩, ⟨by decide, by decide⟩, by decide, by decide,
    diff_part_updated hostA snapOld snapNew 1 1 ⟨by decide, by decide⟩
      ⟨by decide, by decide⟩ (by decide) (by decide)⟩

/-! ### The schema loops of `loadSchemas` -/

theorem foldlE_cons_ok {σ β : Type} (f : σ → β → Except Fault σ) (a r : σ) (x : β)
    (rest : List β) (h : foldlE f a (x :: rest) = .ok r) :
    ∃ b, f a x = .ok b ∧ foldlE f b rest = .ok r := by
  unfold foldlE at h
  cases hf : f a x with
  | error e => rw [hf] at h; simp at h
  | ok b => rw [hf] at h; exact ⟨b, rfl, h⟩

theorem foldlE_append_ok {σ β : Type} (f : σ → β → Except Fault σ) (xs ys : List β) :
    ∀ (a r : σ), foldlE f a (xs ++ ys) = .ok r →
      ∃ b, foldlE f a xs = .ok b ∧ foldlE f b ys = .ok r := by
  induction xs with
  | nil => intro a r h; exact ⟨a, rfl, h⟩
  | cons x rest ih =>
    intro a r h
    obtain ⟨b, hb, hr⟩ := foldlE_cons_ok f a r x (rest ++ ys) h
    obtain ⟨c, hc, hr2⟩ := ih b r hr
    refine ⟨c, ?_, hr2⟩
    unfold foldlE
    rw [hb]
    exact hc

theorem newestOf_append (a b : List SchemaVer) :
    ∀ o, newestOf o (a ++ b) = newestOf (newestOf o a) b := by
  induction a with
  | nil => intro o; cases o <;> simp [newestOf]
  | cons v rest ih =>
    intro o
    cases o with
    | none => simp [newestOf, ih]
    | some c => simp [newestOf, ih]

theorem newestOf_some (L : List SchemaVer) :
    ∀ c : SchemaVer, ∃ v, newestOf (some c) L = some v ∧ (v = c ∨ v ∈ L) ∧ c ≤ v ∧
      ∀ w ∈ L, w ≤ v := by
  induction L with
  | nil => intro c; exact ⟨c, rfl, Or.inl rfl, le_refl _, by simp⟩
  | cons x rest ih =>
    intro c
    obtain ⟨v, hv, hmem, hle, hall⟩ := ih (if c < x then x else c)
    refine ⟨v, by simpa [newestOf] using hv, ?_, ?_, ?_⟩
    · rcases hmem with h | h
      · by_cases hc : c < x
        · rw [if_pos hc] at h; exact Or.inr (by simp [h])
        · rw [if_neg hc] at h; exact Or.inl h
      · exact Or.inr (List.mem_cons_of_mem _ h)
    · by_cases hc : c < x
      · rw [if_pos hc] at hle; exact le_trans (le_of_lt hc) hle
      · rw [if_neg hc] at hle; exact hle
    · intro w hw
      rcases List.mem_cons.1 hw with h | h
      · subst h
        by_cases hc : c < w
        · rw [if_pos hc] at hle; exact hle
        · rw [if_neg hc] at hle; exact le_trans (not_lt.1 hc) hle
      · exact hall w h

theorem newestOf_none (L : List SchemaVer) (hne : L ≠ []) :
    ∃ v, newestOf none L = some v ∧ v ∈ L ∧ ∀ w ∈ L, w ≤ v := by
  cases L with
  | nil => exact absurd rfl hne
  | cons x rest =>
    obtain ⟨v, hv, hmem, hle, hall⟩ := newestOf_some rest x
    refine ⟨v, by simpa [newestOf] using hv, ?_, ?_⟩
    · rcases hmem with h | h
      · simp [h]
      · exact List.mem_cons_of_mem _ h
    · intro w hw
      rcases List.mem_cons.1 hw with h | h
      · subst h; exact hle
      · exact hall w h

theorem umFind_updateNewestVer (m : List ((GraphSpaceID × Int) × SchemaVer))
    (key k : GraphSpaceID × Int) (v : SchemaVer) :
    umFind (updateNewestVer m key v) k
      = if k = key then newestOf (umFind m key) [v] else umFind m k := by
  unfold updateNewestVer
  cases hk : umFind m key with
  | none =>
    simp only [umFind_umEmplace]
    by_cases h : k = key
    · subst h; simp [hk, newestOf]
    · cases hk2 : umFind m k <;> simp [h]
  | some c =>
    by_cases hc : c < v
    · simp only [if_pos hc, umFind_umAssign, newestOf]
    · simp only [if_neg hc, newestOf]
      by_cases h : k = key
      · subst h; simp [hk]
      · simp [h]

/-- What one successful iteration of the tag loop does. -/
theorem loadTagItem_ok (s : GraphSpaceID) (st st1 : TagLoop) (x : TagItem)
    (h : loadTagItem s st x = .ok st1) :
    storeSchema st.tagSchemas x.tag_id x.version (decide (x.tag_id ≠ st.lastTagId))
        (buildSchema x.version x.schema) = .ok st1.tagSchemas ∧
      st1.lastTagId = x.tag_id ∧
      st1.maps.newestTagVerMap
        = updateNewestVer st.maps.newestTagVerMap (s, x.tag_id) x.version := by
  unfold loadTagItem at h
  simp only at h
  cases hs : storeSchema st.tagSchemas x.tag_id x.version (decide (x.tag_id ≠ st.lastTagId))
      (buildSchema x.version x.schema) with
  | error e => rw [hs] at h; simp at h
  | ok ts =>
    rw [hs] at h
    simp only [Except.ok.injEq] at h
    subst h
    refine ⟨rfl, ?_, rfl⟩
    by_cases hl : x.tag_id = st.lastTagId
    · simp [hl]
    · simp [hl]

theorem loadTagItems_newest (s : GraphSpaceID) (items : List TagItem) :
    ∀ (init r : TagLoop), foldlE (loadTagItem s) init items = .ok r →
      ∀ k : GraphSpaceID × TagID, umFind r.maps.newestTagVerMap k
        = newestOf (umFind init.maps.newestTagVerMap k)
            (if k.1 = s then tagVersions items k.2 else []) := by
  induction items with
  | nil =>
    intro init r h k
    simp only [foldlE, Except.ok.injEq] at h
    subst h
    cases umFind init.maps.newestTagVerMap k <;> simp [tagVersions, newestOf]
  | cons x rest ih =>
    intro init r h k
    obtain ⟨b, hb, hr⟩ := foldlE_cons_ok _ _ _ _ _ h
    obtain ⟨_, _, hm⟩ := loadTagItem_ok s init b x hb
    rw [ih b r hr k, hm, umFind_updateNewestVer]
    by_cases hk : k = (s, x.tag_id)
    · subst hk
      simp only [if_true, tagVersions, List.filter_cons, decide_True, List.map_cons]
      exact (newestOf_append [x.version] _ _).symm
    · rw [if_neg hk]
      by_cases hs : k.1 = s
      · have hne : ¬ x.tag_id = k.2 := by
          intro e
          exact hk (Prod.ext hs e.symm)
        simp [hs, tagVersions, List.filter_cons, hne]
      · simp [hs]

theorem loadEdgeItem_newestTag (s : GraphSpaceID) (st st1 : EdgeLoop) (x : EdgeItem)
    (h : loadEdgeItem s st x = .ok st1) :
    st1.maps.newestTagVerMap = st.maps.newestTagVerMap := by
  unfold loadEdgeItem at h
  simp only at h
  split at h
  · simp at h
  · split at h
    · simp only [Except.ok.injEq] at h; subst h; rfl
    · split at h
      · simp only [Except.ok.injEq] at h; subst h; rfl
      · simp only [Except.ok.injEq] at h; subst h; rfl

theorem loadEdgeItems_newestTag (s : GraphSpaceID) (items : List EdgeItem) :
    ∀ (init r : EdgeLoop), foldlE (loadEdgeItem s) init items = .ok r →
      r.maps.newestTagVerMap = init.maps.newestTagVerMap := by
  induction items with
  | nil => intro init r h; simp only [foldlE, Except.ok.injEq] at h; subst h; rfl
  | cons x rest ih =>
    intro init r h
    obtain ⟨b, hb, hr⟩ := foldlE_cons_ok _ _ _ _ _ h
    rw [ih b r hr, loadEdgeItem_newestTag s init b x hb]

/-- What a successful `loadSchemas` leaves for the tags. -/
theorem loadSchemas_ok (srv : MetaServer) (s : GraphSpaceID) (c c1 : SpaceInfoCache)
    (maps maps1 : SchemaMaps) (h : loadSchemas srv s c maps = .ok (some (c1, maps1))) :
    ∃ items tags, srv.listTagSchemas s = .value items ∧
      foldlE (loadTagItem s) { tagSchemas := [], lastTagId := -1, maps := maps } items
        = .ok tags ∧
      c1.tagSchemas_ = tags.tagSchemas ∧
      maps1.newestTagVerMap = tags.maps.newestTagVerMap := by
  unfold loadSchemas at h
  cases ht : srv.listTagSchemas s with
  | status e => rw [ht] at h; simp at h
  | value items =>
    rw [ht] at h
    simp only at h
    cases he : srv.listEdgeSchemas s with
    | status e => rw [he] at h; simp at h
    | value eitems =>
      rw [he] at h
      simp only at h
      cases hf : foldlE (loadTagItem s) { tagSchemas := [], lastTagId := -1, maps := maps } items with
      | error e => rw [hf] at h; simp at h
      | ok tags =>
        rw [hf] at h
        simp only at h
        cases hg : foldlE (loadEdgeItem s)
            { edgeSchemas := [], lastEdgeType := -1, lastTagId := tags.lastTagId, edges := [],
              maps := tags.maps } eitems with
        | error e => rw [hg] at h; simp at h
        | ok edges =>
          rw [hg] at h
          simp only [Except.ok.injEq, Option.some.injEq, Prod.mk.injEq] at h
          obtain ⟨h1, h2⟩ := h
          subst h1 h2
          exact ⟨items, tags, rfl, hf, rfl, loadEdgeItems_newestTag s eitems _ _ hg⟩

/-- What a successful iteration of the loop over the spaces leaves for the tags. -/
theorem loadSpace_ok (srv : MetaServer) (acc acc1 : LoadAcc) (t e t1 e1 : NameIndexMap)
    (sp : GraphSpaceID × String) (h : loadSpace srv acc t e sp = .ok ⟨some acc1, t1, e1⟩) :
    ∃ items tags info, srv.listTagSchemas sp.1 = .value items ∧
      foldlE (loadTagItem sp.1) { tagSchemas := [], lastTagId := -1, maps := acc.maps } items
        = .ok tags ∧
      info.tagSchemas_ = tags.tagSchemas ∧
      acc1.maps.newestTagVerMap = tags.maps.newestTagVerMap ∧
      acc1.cache = umEmplace acc.cache sp.1 info := by
  unfold loadSpace at h
  simp only at h
  cases hp : srv.getPartsAlloc sp.1 with
  | status x => rw [hp] at h; simp at h
  | value alloc =>
    rw [hp] at h
    simp only at h
    cases hl : loadSchemas srv sp.1
        { spaceName := sp.2, partsAlloc_ := alloc, partsOnHost_ := reverse alloc,
          tagSchemas_ := [], edgeSchemas_ := [], tagIndexes_ := [], edgeIndexes_ := [],
          vertexIdLen_ := -1 } acc.maps with
    | error x => rw [hl] at h; simp at h
    | ok o =>
      rw [hl] at h
      cases o with
      | none => simp at h
      | some pr =>
        obtain ⟨c1, maps1⟩ := pr
        simp only at h
        obtain ⟨items, tags, hi, hf, hc, hm⟩ := loadSchemas_ok srv sp.1 _ c1 acc.maps maps1 hl
        unfold loadIndexes at h
        cases hti : srv.listTagIndexes sp.1 with
        | status x => rw [hti] at h; simp at h
        | value ti =>
          rw [hti] at h
          simp only at h
          cases hei : srv.listEdgeIndexes sp.1 with
          | status x => rw [hei] at h; simp at h
          | value ei =>
            rw [hei] at h
            simp only at h
            cases hg : srv.getSpace c1.spaceName with
            | status x => rw [hg] at h; simp at h
            | value item =>
              rw [hg] at h
              simp only [Except.ok.injEq, LoadProgress.mk.injEq, Option.some.injEq] at h
              obtain ⟨h1, _, _⟩ := h
              subst h1
              exact ⟨items, tags,
                { c1 with tagIndexes_ := (loadIndexItems sp.1 ti t).2,
                          edgeIndexes_ := (loadIndexItems sp.1 ei e).2,
                          vertexIdLen_ := item.properties.vid_size }, hi, hf, hc, hm, rfl⟩

theorem tagItemsOf_eq (srv : MetaServer) (s : GraphSpaceID) (items : List TagItem)
    (h : srv.listTagSchemas s = .value items) : tagItemsOf srv s = items := by
  simp [tagItemsOf, h]

theorem loadSpaces_cons_ok (srv : MetaServer) (sp : GraphSpaceID × String)
    (rest : List (GraphSpaceID × String)) (acc acc2 : LoadAcc) (t e t2 e2 : NameIndexMap)
    (h : loadSpaces srv (sp :: rest) acc t e = .ok ⟨some acc2, t2, e2⟩) :
    ∃ acc1 t1 e1, loadSpace srv acc t e sp = .ok ⟨some acc1, t1, e1⟩ ∧
      loadSpaces srv rest acc1 t1 e1 = .ok ⟨some acc2, t2, e2⟩ := by
  unfold loadSpaces at h
  cases hl : loadSpace srv acc t e sp with
  | error x => rw [hl] at h; simp at h
  | ok pr =>
    obtain ⟨o, t1, e1⟩ := pr
    rw [hl] at h
    cases o with
    | none => simp at h
    | some acc1 => exact ⟨acc1, t1, e1, rfl, h⟩

/-- The newest-version map after the loop over the spaces: every key holds the newest
of what it held before and the versions listed for it, space by space. -/
theorem loadSpaces_newest (srv : MetaServer) (spaces : List (GraphSpaceID × String)) :
    ∀ (acc acc2 : LoadAcc) (t e t2 e2 : NameIndexMap),
      loadSpaces srv spaces acc t e = .ok ⟨some acc2, t2, e2⟩ →
      ∀ k : GraphSpaceID × TagID, umFind acc2.maps.newestTagVerMap k
        = newestOf (umFind acc.maps.newestTagVerMap k)
            (spaces.flatMap fun sp =>
              if k.1 = sp.1 then tagVersions (tagItemsOf srv sp.1) k.2 else []) := by
  induction spaces with
  | nil =>
    intro acc acc2 t e t2 e2 h k
    simp only [loadSpaces, Except.ok.injEq, LoadProgress.mk.injEq, Option.some.injEq] at h
    obtain ⟨h1, _, _⟩ := h
    subst h1
    cases umFind acc.maps.newestTagVerMap k <;> simp [newestOf]
  | cons sp rest ih =>
    intro acc acc2 t e t2 e2 h k
    obtain ⟨acc1, t1, e1, h1, h2⟩ := loadSpaces_cons_ok srv sp rest acc acc2 t e t2 e2 h
    obtain ⟨items, tags, info, hi, hf, _, hm, _⟩ := loadSpace_ok srv acc acc1 t e t1 e1 sp h1
    rw [ih acc1 acc2 t1 e1 t2 e2 h2 k, hm, loadTagItems_newest sp.1 items _ tags hf k,
      List.flatMap_cons, newestOf_append, tagItemsOf_eq srv sp.1 items hi]

theorem mem_tagVersions (items : List TagItem) (T : TagID) (w : SchemaVer) :
    w ∈ tagVersions items T ↔ ∃ it ∈ items, it.tag_id = T ∧ it.version = w := by
  simp [tagVersions, and_assoc]

/-- C19. After a successful load, for a listed space whose tag listing gives tag `T`
with one or more versions, `getLatestTagVersionFromCache(space, T)` returns a version
with which `T` is listed and that is at least every version with which `T` is listed,
in whatever order the items come. -/
theorem getLatestTagVersion_is_max (differs : PartHosts → PartHosts → Bool) (srv : MetaServer)
    (st st' : MetaClientState) (spaces : List (GraphSpaceID × String)) (s : GraphSpaceID)
    (items : List TagItem) (T : TagID)
    (h : loadData differs srv st = .ok (true, st'))
    (hl : srv.listSpaces = .value spaces) (hs : s ∈ spaces.map Prod.fst)
    (hi : srv.listTagSchemas s = .value items)
    (hT : T ∈ items.map (fun it => it.tag_id)) :
    ∃ v, getLatestTagVersionFromCache st' s T = .value v ∧
      v ∈ tagVersions items T ∧ ∀ w ∈ tagVersions items T, w ≤ v := by
  obtain ⟨spaces', acc, t, e, hl', hload, _, _, _, _, _, _, hnew, _, _, _, _, hready⟩ :=
    loadData_success differs srv st st' h
  rw [hl] at hl'
  have hsp : spaces' = spaces := (StatusOr.value.inj hl').symm
  subst hsp
  have hk := loadSpaces_newest srv spaces' _ _ _ _ _ _ hload (s, T)
  have hmem : ∀ w, w ∈ (spaces'.flatMap fun sp =>
      if (s, T).1 = sp.1 then tagVersions (tagItemsOf srv sp.1) (s, T).2 else [])
      ↔ w ∈ tagVersions items T := by
    intro w
    simp only [List.mem_flatMap]
    constructor
    · rintro ⟨sp, _, hw⟩
      by_cases hsp : s = sp.1
      · rw [if_pos hsp, ← hsp, tagItemsOf_eq srv s items hi] at hw
        exact hw
      · rw [if_neg hsp] at hw; simp at hw
    · intro hw
      obtain ⟨sp, hsp, hsp1⟩ := List.mem_map.1 hs
      refine ⟨sp, hsp, ?_⟩
      have : s = sp.1 := hsp1.symm
      rw [if_pos this, ← this, tagItemsOf_eq srv s items hi]
      exact hw
  have hne : (spaces'.flatMap fun sp =>
      if (s, T).1 = sp.1 then tagVersions (tagItemsOf srv sp.1) (s, T).2 else []) ≠ [] := by
    obtain ⟨it, hit, hitT⟩ := List.mem_map.1 hT
    have : it.version ∈ tagVersions items T :=
      (mem_tagVersions items T it.version).2 ⟨it, hit, hitT, rfl⟩
    exact List.ne_nil_of_mem ((hmem it.version).2 this)
  obtain ⟨v, hv, hvm, hvall⟩ := newestOf_none _ hne
  refine ⟨v, ?_, (hmem v).1 hvm, fun w hw => hvall w ((hmem w).2 hw)⟩
  have hfind : umFind st'.spaceNewestTagVerMap_ (s, T) = some v := by
    rw [hnew, hk]
    exact hv
  simp [getLatestTagVersionFromCache, hready, hfind]

theorem getLatestTagVersion_is_max_witness :
    loadData partHostsDiffer (schemaServer [tagT0, tagU0, tagT1]) emptyClient
      = .ok (true,
          stateAfter (loadData partHostsDiffer (schemaServer [tagT0, tagU0, tagT1]) emptyClient)) ∧
    ∃ v, getLatestTagVersionFromCache
        (stateAfter (loadData partHostsDiffer (schemaServer [tagT0, tagU0, tagT1]) emptyClient))
        1 2 = .value v ∧
      v ∈ tagVersions [tagT0, tagU0, tagT1] 2 ∧ ∀ w ∈ tagVersions [tagT0, tagU0, tagT1] 2, w ≤ v :=
  ⟨by decide,
    getLatestTagVersion_is_max partHostsDiffer (schemaServer [tagT0, tagU0, tagT1]) emptyClient
      _ [(1, "s1")] 1 [tagT0, tagU0, tagT1] 2 (by decide) rfl (by decide) rfl (by decide)⟩

/-- The sample of C19: versions 0 and 1 of tag "T", listed oldest first around another
tag, give 1. -/
theorem getLatestTagVersion_sample :
    getLatestTagVersionFromCache
      (stateAfter (loadData partHostsDiffer (schemaServer [tagT0, tagU0, tagT1]) emptyClient))
      1 2 = .value 1 := by
  decide

/-! ### The version arrays of the tag loop -/

/-- A successful store leaves the arrays of the other ids alone and, for the id
itself, writes the slot into the (possibly resized) old array. -/
theorem storeSchema_ok (m m1 : List (Int × List (Option NebulaSchemaProvider))) (id : Int)
    (ver : SchemaVer) (dr : Bool) (sch : NebulaSchemaProvider)
    (h : storeSchema m id ver dr sch = .ok m1) :
    (∀ id1, id1 ≠ id → umFind m1 id1 = umFind m id1) ∧
    ∃ vec, umFind m1 id = some vec ∧ ver.toNat < vec.length ∧
      vec[ver.toNat]? = some (some sch) ∧
      (dr = false → vec = ((umFind m id).getD []).set ver.toNat (some sch)) ∧
      (dr = true →
        vec = (resizeVec ((umFind m id).getD []) (ver + 1).toNat).set ver.toNat (some sch)) := by
  unfold storeSchema at h
  simp only at h
  by_cases hc : dr = true ∧ (ver + 1 < 0 ∨ 9223372036854775807 < ver + 1)
  · rw [if_pos hc] at h; simp at h
  · rw [if_neg hc] at h
    by_cases hr : 0 ≤ ver ∧ ver.toNat <
        (if dr = true then resizeVec ((umFind m id).getD []) (ver + 1).toNat
          else (umFind m id).getD []).length
    · rw [if_pos hr] at h
      simp only [Except.ok.injEq] at h
      subst h
      refine ⟨fun id1 hne => ?_,
        (if dr = true then resizeVec ((umFind m id).getD []) (ver + 1).toNat
          else (umFind m id).getD []).set ver.toNat (some sch), ?_, ?_, ?_, ?_, ?_⟩
      · rw [umFind_umAssign, if_neg hne]
      · rw [umFind_umAssign, if_pos rfl]
      · rw [List.length_set]; exact hr.2
      · rw [List.getElem?_set_self hr.2]
      · intro hd; rw [hd]; simp
      · intro hd; rw [hd]; simp
    · rw [if_neg hr] at h; simp at h

theorem resizeVec_length {α : Type} (v : List (Option α)) (n : Nat) :
    (resizeVec v n).length = n := by
  simp only [resizeVec, List.length_append, List.length_take, List.length_replicate]
  omega

theorem resizeVec_getElem_lt {α : Type} (v : List (Option α)) (n i : Nat) (hi : i < n)
    (hv : i < v.length) : (resizeVec v n)[i]? = v[i]? := by
  unfold resizeVec
  rw [List.getElem?_append_left (by simp; omega), List.getElem?_take_of_lt hi]

/-- The items of other tags leave the version array of a tag alone, and the loop
variable `lastTagId` ends on another tag. -/
theorem loadTagItems_other (s : GraphSpaceID) (T : TagID) (items : List TagItem) :
    ∀ (init r : TagLoop), foldlE (loadTagItem s) init items = .ok r →
      (∀ it ∈ items, it.tag_id ≠ T) →
      umFind r.tagSchemas T = umFind init.tagSchemas T ∧
      ((init.lastTagId ≠ T ∨ items ≠ []) → r.lastTagId ≠ T) := by
  induction items with
  | nil =>
    intro init r h _
    simp only [foldlE, Except.ok.injEq] at h
    subst h
    exact ⟨rfl, fun hor => hor.elim id (fun hne => absurd rfl hne)⟩
  | cons x rest ih =>
    intro init r h hall
    obtain ⟨b, hb, hr⟩ := foldlE_cons_ok _ _ _ _ _ h
    obtain ⟨hstore, hlast, _⟩ := loadTagItem_ok s init b x hb
    have hx : x.tag_id ≠ T := hall x (List.mem_cons_self _ _)
    obtain ⟨hother, _, _, _⟩ := storeSchema_ok _ _ _ _ _ _ hstore
    obtain ⟨h1, h2⟩ := ih b r hr (fun it hit => hall it (List.mem_cons_of_mem _ hit))
    refine ⟨?_, fun _ => h2 (Or.inl (by rw [hlast]; exact hx))⟩
    rw [h1]
    exact hother T (fun e => hx e.symm)

/-- Version 1 of a tag listed right before its version 0: both slots are filled. -/
theorem loadTagItem_newest_first (s : GraphSpaceID) (T : TagID) (a1 a0 : TagItem)
    (b c d : TagLoop) (h1t : a1.tag_id = T) (h1v : a1.version = 1)
    (h0t : a0.tag_id = T) (h0v : a0.version = 0)
    (hc : loadTagItem s b a1 = .ok c) (hd : loadTagItem s c a0 = .ok d) :
    ∃ vec, umFind d.tagSchemas T = some vec ∧
      vec[0]? = some (some (buildSchema 0 a0.schema)) ∧
      vec[1]? = some (some (buildSchema 1 a1.schema)) := by
  obtain ⟨hs1, hl1, _⟩ := loadTagItem_ok s b c a1 hc
  obtain ⟨hs0, _, _⟩ := loadTagItem_ok s c d a0 hd
  rw [h1t, h1v] at hs1
  rw [h0t, h0v, hl1, h1t] at hs0
  obtain ⟨_, vec1, hf1, hlen1, hslot1, _, _⟩ := storeSchema_ok _ _ _ _ _ _ hs1
  obtain ⟨_, vec0, hf0, hlen0, hslot0, hkeep, _⟩ := storeSchema_ok _ _ _ _ _ _ hs0
  have hv : vec0 = vec1.set 0 (some (buildSchema 0 a0.schema)) := by
    have := hkeep (by simp)
    rw [hf1] at this
    exact this
  have h2 : (1 : Int).toNat = 1 := rfl
  have h3 : (0 : Int).toNat = 0 := rfl
  rw [h2] at hslot1
  rw [h3] at hslot0
  refine ⟨vec0, hf0, hslot0, ?_⟩
  rw [hv, List.getElem?_set_ne (by decide)]
  exact hslot1

/-- Version 0 of a tag, items of other tags, then its version 1: both slots are
filled. -/
theorem loadTagItem_oldest_first (s : GraphSpaceID) (T : TagID) (a0 a1 : TagItem)
    (mid : List TagItem) (b c d e : TagLoop) (h1t : a1.tag_id = T) (h1v : a1.version = 1)
    (h0t : a0.tag_id = T) (h0v : a0.version = 0)
    (hmid : ∀ it ∈ mid, it.tag_id ≠ T) (hne : mid ≠ [])
    (hc : loadTagItem s b a0 = .ok c) (hd : foldlE (loadTagItem s) c mid = .ok d)
    (he : loadTagItem s d a1 = .ok e) :
    ∃ vec, umFind e.tagSchemas T = some vec ∧
      vec[0]? = some (some (buildSchema 0 a0.schema)) ∧
      vec[1]? = some (some (buildSchema 1 a1.schema)) := by
  obtain ⟨hs0, _, _⟩ := loadTagItem_ok s b c a0 hc
  obtain ⟨hs1, _, _⟩ := loadTagItem_ok s d e a1 he
  obtain ⟨hsame, hlast⟩ := loadTagItems_other s T mid c d hd hmid
  have hlast1 : d.lastTagId ≠ T := hlast (Or.inr hne)
  rw [h0t, h0v] at hs0
  rw [h1t, h1v] at hs1
  obtain ⟨_, vec0, hf0, hlen0, hslot0, _, _⟩ := storeSchema_ok _ _ _ _ _ _ hs0
  obtain ⟨_, vec1, hf1, hlen1, hslot1, _, hres⟩ := storeSchema_ok _ _ _ _ _ _ hs1
  have hdr : decide (T ≠ d.lastTagId) = true := by
    simp only [ne_eq, decide_not, Bool.not_eq_true', decide_eq_false_iff_not]
    exact fun e => hlast1 e.symm
  have hv := hres hdr
  rw [hsame, hf0] at hv
  have h2 : (1 : Int).toNat = 1 := rfl
  have h3 : (0 : Int).toNat = 0 := rfl
  have h4 : ((1 : Int) + 1).toNat = 2 := rfl
  rw [h2, h4] at hv
  rw [h2] at hslot1
  rw [h3] at hslot0 hlen0
  simp only [Option.getD_some] at hv
  refine ⟨vec1, hf1, ?_, hslot1⟩
  rw [hv, List.getElem?_set_ne (by decide), resizeVec_getElem_lt _ 2 0 (by decide) hlen0]
  exact hslot0

theorem schemaAt_of_slot (schemas : List (Int × List (Option NebulaSchemaProvider)))
    (id : Int) (vec : List (Option NebulaSchemaProvider)) (i : Nat) (sch : NebulaSchemaProvider)
    (hi : i < 18446744073709551616)
    (hf : umFind schemas id = some vec) (hs : vec[i]? = some (some sch)) :
    schemaAt schemas id (i : Int) = some sch := by
  have hlt : i < vec.length := by
    by_contra hcon
    rw [List.getElem?_eq_none (not_lt.1 hcon)] at hs
    simp at hs
  have hu : toUInt64 (i : Int) = i := by
    unfold toUInt64
    have : ((i : Int) % 18446744073709551616).toNat = i := by omega
    simpa using this
  unfold schemaAt
  rw [hf]
  simp only [hu]
  rw [if_neg (not_le.2 hlt), List.getD_eq_getElem?_getD, hs]
  rfl

/-- The cache after the loop over the spaces: every listed space has an entry, and
every new entry holds the tag arrays built from the tag listing of its space. -/
theorem loadSpaces_cache (srv : MetaServer) (spaces : List (GraphSpaceID × String)) :
    ∀ (acc acc2 : LoadAcc) (t e t2 e2 : NameIndexMap),
      loadSpaces srv spaces acc t e = .ok ⟨some acc2, t2, e2⟩ →
      (∀ s info, umFind acc2.cache s = some info →
        umFind acc.cache s = some info ∨ LoadedTags srv s info) ∧
      (∀ s info, umFind acc.cache s = some info → umFind acc2.cache s = some info) ∧
      (∀ sp ∈ spaces, ∃ info, umFind acc2.cache sp.1 = some info) := by
  induction spaces with
  | nil =>
    intro acc acc2 t e t2 e2 h
    simp only [loadSpaces, Except.ok.injEq, LoadProgress.mk.injEq, Option.some.injEq] at h
    obtain ⟨h1, _, _⟩ := h
    subst h1
    exact ⟨fun s info hf => Or.inl hf, fun s info hf => hf, by simp⟩
  | cons sp rest ih =>
    intro acc acc2 t e t2 e2 h
    obtain ⟨acc1, t1, e1, h1, h2⟩ := loadSpaces_cons_ok srv sp rest acc acc2 t e t2 e2 h
    obtain ⟨items, tags, info0, hi, hf, hts, _, hcache⟩ :=
      loadSpace_ok srv acc acc1 t e t1 e1 sp h1
    obtain ⟨ihA, ihB, ihC⟩ := ih acc1 acc2 t1 e1 t2 e2 h2
    have hsome : ∀ s c, umFind acc.cache s = some c → umFind acc1.cache s = some c := by
      intro s c hc; rw [hcache, umFind_umEmplace, hc]
    have hnone : ∀ s, umFind acc.cache s = none →
        umFind acc1.cache s = if s = sp.1 then some info0 else none := by
      intro s hc; rw [hcache, umFind_umEmplace, hc]
    refine ⟨?_, ?_, ?_⟩
    · intro s info hs
      rcases ihA s info hs with h3 | h3
      · cases ha : umFind acc.cache s with
        | some c => rw [hsome s c ha] at h3; exact Or.inl h3
        | none =>
          rw [hnone s ha] at h3
          by_cases hsp : s = sp.1
          · simp only [if_pos hsp, Option.some.injEq] at h3
            subst h3
            subst hsp
            exact Or.inr ⟨items, acc.maps, tags, hi, hf, hts⟩
          · simp [hsp] at h3
      · exact Or.inr h3
    · intro s info hs
      exact ihB s info (hsome s info hs)
    · intro sp1 hsp1
      rcases List.mem_cons.1 hsp1 with h3 | h3
      · subst h3
        cases ha : umFind acc.cache sp1.1 with
        | some c => exact ⟨c, ihB _ _ (hsome _ c ha)⟩
        | none => exact ⟨info0, ihB _ _ (by rw [hnone _ ha]; simp)⟩
      · exact ihC sp1 h3

/-- After a successful load the cache entry of every listed space holds the tag arrays
built from the tag listing of the space. -/
theorem loadData_tagSchemas (differs : PartHosts → PartHosts → Bool) (srv : MetaServer)
    (st st1 : MetaClientState) (spaces : List (GraphSpaceID × String)) (s : GraphSpaceID)
    (h : loadData differs srv st = .ok (true, st1))
    (hl : srv.listSpaces = .value spaces) (hs : s ∈ spaces.map Prod.fst) :
    st1.ready_ = true ∧ ∃ info, umFind st1.localCache_ s = some info ∧ LoadedTags srv s info := by
  obtain ⟨spaces1, acc, t, e, hl1, hload, hcache, _, _, _, _, _, _, _, _, _, _, hready⟩ :=
    loadData_success differs srv st st1 h
  rw [hl] at hl1
  have hsp : spaces1 = spaces := (StatusOr.value.inj hl1).symm
  subst hsp
  obtain ⟨hA, _, hC⟩ := loadSpaces_cache srv spaces1 _ _ _ _ _ _ hload
  obtain ⟨sp, hsp, hsp1⟩ := List.mem_map.1 hs
  obtain ⟨info, hinfo⟩ := hC sp hsp
  rw [hsp1] at hinfo
  refine ⟨hready, info, by rw [hcache]; exact hinfo, ?_⟩
  rcases hA s info hinfo with h3 | h3
  · simp [LoadAcc.empty, umFind] at h3
  · exact h3

/-- C20 as stated fails: the tag listing of the sample space gives tag "T" (id 2) with
version 1, then tag "U", then "T" with version 0. The load succeeds, but the second
resize of the array of "T" cuts it to one slot, so `getTagSchemaFromCache(1, T, 1)`
returns the empty handle and the version-1 schema is lost. -/
theorem getTagSchema_interleaved_loses_version :
    loadData partHostsDiffer (schemaServer [tagT1, tagU0, tagT0]) emptyClient
      = .ok (true,
          stateAfter (loadData partHostsDiffer (schemaServer [tagT1, tagU0, tagT0]) emptyClient)) ∧
    getTagSchemaFromCache
      (stateAfter (loadData partHostsDiffer (schemaServer [tagT1, tagU0, tagT0]) emptyClient))
      1 2 1 = .value none ∧
    getTagSchemaFromCache
      (stateAfter (loadData partHostsDiffer (schemaServer [tagT1, tagU0, tagT0]) emptyClient))
      1 2 1 ≠ .value (some (buildSchema 1 tagT1.schema)) := by
  decide

/-- With version 0 listed right before version 1 the tag loop writes past the end of
the one-slot array: the load does not complete. -/
theorem loadData_oldest_first_adjacent_faults :
    loadData partHostsDiffer (schemaServer [tagT0, tagT1]) emptyClient
      = .error .outOfRange := by
  decide

/-- C20, amended. After a successful load, for a listed space whose tag listing gives
tag `T` with versions 0 and 1 and no item of `T` after the two, either version 1 right
before version 0, or version 0 first with one or more items between the two, all of
other tags: `getTagSchemaFromCache(space, T, 0)` returns the schema built from the
version-0 item and `getTagSchemaFromCache(space, T, 1)` the schema built from the
version-1 item. -/
theorem getTagSchema_both_versions (differs : PartHosts → PartHosts → Bool) (srv : MetaServer)
    (st st1 : MetaClientState) (spaces : List (GraphSpaceID × String)) (s : GraphSpaceID)
    (pre mid post : List TagItem) (a0 a1 : TagItem) (T : TagID)
    (h : loadData differs srv st = .ok (true, st1))
    (hl : srv.listSpaces = .value spaces) (hs : s ∈ spaces.map Prod.fst)
    (h0 : a0.tag_id = T ∧ a0.version = 0) (h1 : a1.tag_id = T ∧ a1.version = 1)
    (hmid : ∀ it ∈ mid, it.tag_id ≠ T)
    (hpost : ∀ it ∈ post, it.tag_id ≠ T)
    (hi : srv.listTagSchemas s = .value (pre ++ a1 :: a0 :: post) ∨
      (mid ≠ [] ∧ srv.listTagSchemas s = .value (pre ++ a0 :: (mid ++ a1 :: post)))) :
    getTagSchemaFromCache st1 s T 0 = .value (some (buildSchema 0 a0.schema)) ∧
    getTagSchemaFromCache st1 s T 1 = .value (some (buildSchema 1 a1.schema)) := by
  obtain ⟨hready, info, hinfo, items, maps, tags, hitems, hfold, hts⟩ :=
    loadData_tagSchemas differs srv st st1 spaces s h hl hs
  have hvec : ∃ vec, umFind info.tagSchemas_ T = some vec ∧
      vec[0]? = some (some (buildSchema 0 a0.schema)) ∧
      vec[1]? = some (some (buildSchema 1 a1.schema)) := by
    rw [hts]
    rcases hi with hi | ⟨hne, hi⟩
    · rw [hi] at hitems
      have hit := StatusOr.value.inj hitems
      rw [← hit] at hfold
      obtain ⟨b, _, hb⟩ := foldlE_append_ok _ _ _ _ _ hfold
      obtain ⟨c, hc, hc2⟩ := foldlE_cons_ok _ _ _ _ _ hb
      obtain ⟨d, hd, hd2⟩ := foldlE_cons_ok _ _ _ _ _ hc2
      obtain ⟨vec, hv, hv0, hv1⟩ :=
        loadTagItem_newest_first s T a1 a0 b c d h1.1 h1.2 h0.1 h0.2 hc hd
      obtain ⟨hsame, _⟩ := loadTagItems_other s T post d tags hd2 hpost
      exact ⟨vec, by rw [hsame]; exact hv, hv0, hv1⟩
    · rw [hi] at hitems
      have hit := StatusOr.value.inj hitems
      rw [← hit] at hfold
      obtain ⟨b, _, hb⟩ := foldlE_append_ok _ _ _ _ _ hfold
      obtain ⟨c, hc, hc2⟩ := foldlE_cons_ok _ _ _ _ _ hb
      obtain ⟨d, hd, hd2⟩ := foldlE_append_ok _ _ _ _ _ hc2
      obtain ⟨e, he, he2⟩ := foldlE_cons_ok _ _ _ _ _ hd2
      obtain ⟨vec, hv, hv0, hv1⟩ :=
        loadTagItem_oldest_first s T a0 a1 mid b c d e h1.1 h1.2 h0.1 h0.2 hmid hne hc hd he
      obtain ⟨hsame, _⟩ := loadTagItems_other s T post e tags he2 hpost
      exact ⟨vec, by rw [hsame]; exact hv, hv0, hv1⟩
  obtain ⟨vec, hv, hv0, hv1⟩ := hvec
  have e0 := schemaAt_of_slot info.tagSchemas_ T vec 0 _ (by decide) hv hv0
  have e1 := schemaAt_of_slot info.tagSchemas_ T vec 1 _ (by decide) hv hv1
  simp only [Nat.cast_zero, Nat.cast_one] at e0 e1
  simp only [getTagSchemaFromCache, hready, hinfo, e0, e1]
  simp

theorem getTagSchema_both_versions_witness :
    loadData partHostsDiffer (schemaServer [tagU0, tagT1, tagT0]) emptyClient
      = .ok (true,
          stateAfter (loadData partHostsDiffer (schemaServer [tagU0, tagT1, tagT0]) emptyClient)) ∧
    getTagSchemaFromCache
      (stateAfter (loadData partHostsDiffer (schemaServer [tagU0, tagT1, tagT0]) emptyClient))
      1 2 0 = .value (some (buildSchema 0 tagT0.schema)) ∧
    getTagSchemaFromCache
      (stateAfter (loadData partHostsDiffer (schemaServer [tagU0, tagT1, tagT0]) emptyClient))
      1 2 1 = .value (some (buildSchema 1 tagT1.schema)) :=
  ⟨by decide,
    getTagSchema_both_versions partHostsDiffer (schemaServer [tagU0, tagT1, tagT0]) emptyClient
      _ [(1, "s1")] 1 [tagU0] [] [] tagT0 tagT1 2 (by decide) rfl (by decide)
      ⟨rfl, rfl⟩ ⟨rfl, rfl⟩ (by decide) (by decide) (Or.inl rfl)⟩

/-- The other order the amended C20 covers: version 0, an item of another tag, then
version 1. -/
theorem getTagSchema_oldest_first_sample :
    getTagSchemaFromCache
      (stateAfter (loadData partHostsDiffer (schemaServer [tagT0, tagU0, tagT1]) emptyClient))
      1 2 0 = .value (some (buildSchema 0 tagT0.schema)) ∧
    getTagSchemaFromCache
      (stateAfter (loadData partHostsDiffer (schemaServer [tagT0, tagU0, tagT1]) emptyClient))
      1 2 1 = .value (some (buildSchema 1 tagT1.schema)) := by
  decide

/-! ### The edge loop of `loadSchemas` -/

/-- C21. The edge loop never assigns `lastEdgeType` (it assigns `lastTagId`), so every
item resizes the array of its edge type to its own version + 1. With edge type "E"
(type 5) listed newest first, version 1 then version 0, the load succeeds, but the
cached array of "E" has length 1, not 2, and `getEdgeSchemaFromCache(1, E, 1)` returns
the empty handle instead of the version-1 schema. -/
theorem getEdgeSchema_newest_first_truncated :
    loadData partHostsDiffer (edgeServer [edgeE1, edgeE0]) emptyClient
      = .ok (true,
          stateAfter (loadData partHostsDiffer (edgeServer [edgeE1, edgeE0]) emptyClient)) ∧
    getAllVerEdgeSchema
      (stateAfter (loadData partHostsDiffer (edgeServer [edgeE1, edgeE0]) emptyClient)) 1
      = .value [(5, [some (buildSchema 0 edgeE0.schema)])] ∧
    getEdgeSchemaFromCache
      (stateAfter (loadData partHostsDiffer (edgeServer [edgeE1, edgeE0]) emptyClient)) 1 5 1
      = .value none ∧
    getEdgeSchemaFromCache
      (stateAfter (loadData partHostsDiffer (edgeServer [edgeE1, edgeE0]) emptyClient)) 1 5 0
      = .value (some (buildSchema 0 edgeE0.schema)) := by
  decide

/-- C22. The `continue` of the edge loop skips the "get the latest edge version" step
for every item of an edge type that was listed before. With edge type "E" (type 5)
listed with version 0 and then version 1, the load succeeds and both schemas are
cached, but `getLatestEdgeVersionFromCache(1, E)` returns 0, not the maximum 1. -/
theorem getLatestEdgeVersion_first_listed :
    loadData partHostsDiffer (edgeServer [edgeE0, edgeE1]) emptyClient
      = .ok (true,
          stateAfter (loadData partHostsDiffer (edgeServer [edgeE0, edgeE1]) emptyClient)) ∧
    getLatestEdgeVersionFromCache
      (stateAfter (loadData partHostsDiffer (edgeServer [edgeE0, edgeE1]) emptyClient)) 1 5
      = .value 0 ∧
    getEdgeSchemaFromCache
      (stateAfter (loadData partHostsDiffer (edgeServer [edgeE0, edgeE1]) emptyClient)) 1 5 1
      = .value (some (buildSchema 1 edgeE1.schema)) ∧
    getLatestTagVersionFromCache
      (stateAfter (loadData partHostsDiffer (schemaServer [tagT0, tagU0, tagT1]) emptyClient))
      1 2 = .value 1 := by
  decide

/-- A successful `loadSchemas`, taken apart. -/
theorem loadSchemas_inv (srv : MetaServer) (s : GraphSpaceID) (c c1 : SpaceInfoCache)
    (maps maps1 : SchemaMaps) (h : loadSchemas srv s c maps = .ok (some (c1, maps1))) :
    ∃ titems eitems tags edges, srv.listTagSchemas s = .value titems ∧
      srv.listEdgeSchemas s = .value eitems ∧
      foldlE (loadTagItem s) { tagSchemas := [], lastTagId := -1, maps := maps } titems
        = .ok tags ∧
      foldlE (loadEdgeItem s)
        { edgeSchemas := [], lastEdgeType := -1, lastTagId := tags.lastTagId, edges := [],
          maps := tags.maps } eitems = .ok edges ∧
      c1 = { c with tagSchemas_ := tags.tagSchemas, edgeSchemas_ := edges.edgeSchemas } ∧
      maps1 = edges.maps := by
  unfold loadSchemas at h
  cases ht : srv.listTagSchemas s with
  | status e => rw [ht] at h; simp at h
  | value items =>
    rw [ht] at h
    simp only at h
    cases he : srv.listEdgeSchemas s with
    | status e => rw [he] at h; simp at h
    | value eitems =>
      rw [he] at h
      simp only at h
      cases hf : foldlE (loadTagItem s) { tagSchemas := [], lastTagId := -1, maps := maps } items with
      | error e => rw [hf] at h; simp at h
      | ok tags =>
        rw [hf] at h
        simp only at h
        cases hg : foldlE (loadEdgeItem s)
            { edgeSchemas := [], lastEdgeType := -1, lastTagId := tags.lastTagId, edges := [],
              maps := tags.maps } eitems with
        | error e => rw [hg] at h; simp at h
        | ok edges =>
          rw [hg] at h
          simp only [Except.ok.injEq, Option.some.injEq, Prod.mk.injEq] at h
          obtain ⟨h1, h2⟩ := h
          exact ⟨items, eitems, tags, edges, rfl, rfl, hf, hg, h1.symm, h2.symm⟩

/-- A successful iteration of the loop over the spaces, taken apart. -/
theorem loadSpace_inv (srv : MetaServer) (acc acc1 : LoadAcc) (t e t1 e1 : NameIndexMap)
    (sp : GraphSpaceID × String) (h : loadSpace srv acc t e sp = .ok ⟨some acc1, t1, e1⟩) :
    ∃ c c1 info, loadSchemas srv sp.1 c acc.maps = .ok (some (c1, acc1.maps)) ∧
      acc1.cache = umEmplace acc.cache sp.1 info ∧
      acc1.spaceIndexByName = umEmplace acc.spaceIndexByName sp.2 sp.1 := by
  unfold loadSpace at h
  simp only at h
  cases hp : srv.getPartsAlloc sp.1 with
  | status x => rw [hp] at h; simp at h
  | value alloc =>
    rw [hp] at h
    simp only at h
    cases hl : loadSchemas srv sp.1
        { spaceName := sp.2, partsAlloc_ := alloc, partsOnHost_ := reverse alloc,
          tagSchemas_ := [], edgeSchemas_ := [], tagIndexes_ := [], edgeIndexes_ := [],
          vertexIdLen_ := -1 } acc.maps with
    | error x => rw [hl] at h; simp at h
    | ok o =>
      rw [hl] at h
      cases o with
      | none => simp at h
      | some pr =>
        obtain ⟨c1, maps1⟩ := pr
        simp only at h
        unfold loadIndexes at h
        cases hti : srv.listTagIndexes sp.1 with
        | status x => rw [hti] at h; simp at h
        | value ti =>
          rw [hti] at h
          simp only at h
          cases hei : srv.listEdgeIndexes sp.1 with
          | status x => rw [hei] at h; simp at h
          | value ei =>
            rw [hei] at h
            simp only at h
            cases hg : srv.getSpace c1.spaceName with
            | status x => rw [hg] at h; simp at h
            | value item =>
              rw [hg] at h
              simp only [Except.ok.injEq, LoadProgress.mk.injEq, Option.some.injEq] at h
              obtain ⟨h1, _, _⟩ := h
              subst h1
              exact ⟨_, c1, _, hl, rfl, rfl⟩

theorem loadTagItems_allEdge (s : GraphSpaceID) (items : List TagItem) :
    ∀ (init r : TagLoop), foldlE (loadTagItem s) init items = .ok r →
      r.maps.allEdgeMap = init.maps.allEdgeMap := by
  induction items with
  | nil => intro init r h; simp only [foldlE, Except.ok.injEq] at h; subst h; rfl
  | cons x rest ih =>
    intro init r h
    obtain ⟨b, hb, hr⟩ := foldlE_cons_ok _ _ _ _ _ h
    rw [ih b r hr]
    unfold loadTagItem at hb
    simp only at hb
    split at hb
    · simp at hb
    · simp only [Except.ok.injEq] at hb; subst hb; rfl

/-- One successful iteration of the edge loop, for the list of edge names and the set
of edge types seen. -/
theorem loadEdgeItem_allEdge (s : GraphSpaceID) (st st1 : EdgeLoop) (x : EdgeItem)
    (h : loadEdgeItem s st x = .ok st1)
    (hinv : umFind st.maps.allEdgeMap s = none → st.edges = []) :
    (∀ s1, s1 ≠ s → umFind st1.maps.allEdgeMap s1 = umFind st.maps.allEdgeMap s1) ∧
    st1.edges = (if (s, x.edge_type) ∈ st.edges then st.edges
                 else st.edges ++ [(s, x.edge_type)]) ∧
    umFind st1.maps.allEdgeMap s = some ((umFind st.maps.allEdgeMap s).getD [] ++
      (if (s, x.edge_type) ∈ st.edges then [] else [x.edge_name])) := by
  unfold loadEdgeItem at h
  simp only at h
  split at h
  · simp at h
  · cases hf : umFind st.maps.allEdgeMap s with
    | none =>
      have he := hinv hf
      rw [hf] at h
      simp only [Except.ok.injEq] at h
      subst h
      simp only [he, List.not_mem_nil, if_false, List.nil_append, Option.getD_none]
      refine ⟨fun s1 hne => ?_, trivial, ?_⟩
      · rw [umFind_umEmplace]
        cases umFind st.maps.allEdgeMap s1 <;> simp [hne]
      · rw [umFind_umEmplace, hf]; simp
    | some names =>
      rw [hf] at h
      simp only at h
      by_cases hm : (s, x.edge_type) ∈ st.edges
      · rw [if_pos hm] at h
        simp only [Except.ok.injEq] at h
        subst h
        simp [hm, hf]
      · rw [if_neg hm] at h
        simp only [Except.ok.injEq] at h
        subst h
        simp only [hm, if_false, Option.getD_some]
        refine ⟨fun s1 hne => ?_, trivial, ?_⟩
        · rw [umFind_umAssign, if_neg hne]
        · rw [umFind_umAssign, if_pos rfl]

theorem newEdgeNames_single (s : GraphSpaceID) (seen : List (GraphSpaceID × EdgeType))
    (x : EdgeItem) :
    newEdgeNames s seen [x] = if (s, x.edge_type) ∈ seen then [] else [x.edge_name] := by
  by_cases hm : (s, x.edge_type) ∈ seen <;> simp [newEdgeNames, hm]

/-- The edge loop, for the list of edge names of the space. -/
theorem loadEdgeItems_allEdge (s : GraphSpaceID) (items : List EdgeItem) :
    ∀ (init r : EdgeLoop), foldlE (loadEdgeItem s) init items = .ok r →
      (umFind init.maps.allEdgeMap s = none → init.edges = []) →
      (∀ s1, s1 ≠ s → umFind r.maps.allEdgeMap s1 = umFind init.maps.allEdgeMap s1) ∧
      umFind r.maps.allEdgeMap s = if items = [] then umFind init.maps.allEdgeMap s
        else some ((umFind init.maps.allEdgeMap s).getD [] ++ newEdgeNames s init.edges items) := by
  induction items with
  | nil =>
    intro init r h _
    simp only [foldlE, Except.ok.injEq] at h
    subst h
    exact ⟨fun _ _ => rfl, by simp⟩
  | cons x rest ih =>
    intro init r h hinv
    obtain ⟨b, hb, hr⟩ := foldlE_cons_ok _ _ _ _ _ h
    obtain ⟨h1, h2, h3⟩ := loadEdgeItem_allEdge s init b x hb hinv
    obtain ⟨h4, h5⟩ := ih b r hr (fun hn => by rw [h3] at hn; simp at hn)
    refine ⟨fun s1 hne => by rw [h4 s1 hne, h1 s1 hne], ?_⟩
    rw [h5, if_neg (List.cons_ne_nil _ _)]
    by_cases hrest : rest = []
    · subst hrest
      rw [if_pos rfl, h3, newEdgeNames_single]
    · rw [if_neg hrest, h3, h2]
      by_cases hm : (s, x.edge_type) ∈ init.edges
      · simp [hm, newEdgeNames]
      · simp [hm, newEdgeNames]

theorem edgeItemsOf_eq (srv : MetaServer) (s : GraphSpaceID) (items : List EdgeItem)
    (h : srv.listEdgeSchemas s = .value items) : edgeItemsOf srv s = items := by
  simp [edgeItemsOf, h]

/-- One successful iteration of the loop over the spaces, for the all-edge-names
map. -/
theorem loadSpace_allEdge (srv : MetaServer) (acc acc1 : LoadAcc) (t e t1 e1 : NameIndexMap)
    (sp : GraphSpaceID × String) (h : loadSpace srv acc t e sp = .ok ⟨some acc1, t1, e1⟩)
    (hnone : umFind acc.maps.allEdgeMap sp.1 = none) :
    ∀ s1, umFind acc1.maps.allEdgeMap s1
      = if s1 = sp.1 then edgeNamesAfter none sp.1 (edgeItemsOf srv sp.1)
        else umFind acc.maps.allEdgeMap s1 := by
  obtain ⟨c, c1, info, hl, _, _⟩ := loadSpace_inv srv acc acc1 t e t1 e1 sp h
  obtain ⟨titems, eitems, tags, edges, _, hei, hft, hfe, _, hmaps⟩ :=
    loadSchemas_inv srv sp.1 c c1 acc.maps acc1.maps hl
  have htag := loadTagItems_allEdge sp.1 titems _ tags hft
  simp only at htag
  obtain ⟨h1, h2⟩ := loadEdgeItems_allEdge sp.1 eitems _ edges hfe (fun _ => rfl)
  simp only at h1 h2
  intro s1
  rw [hmaps, edgeItemsOf_eq srv sp.1 eitems hei]
  by_cases hs : s1 = sp.1
  · subst hs
    rw [if_pos rfl, h2, htag, hnone]
    simp [edgeNamesAfter]
  · rw [if_neg hs, h1 s1 hs, htag]

/-- The all-edge-names map after the loop over spaces with distinct ids that had no
entry before: every listed space with edge items holds the first-listed name of each
of its edge types. -/
theorem loadSpaces_allEdge (srv : MetaServer) (spaces : List (GraphSpaceID × String)) :
    ∀ (acc acc2 : LoadAcc) (t e t2 e2 : NameIndexMap),
      loadSpaces srv spaces acc t e = .ok ⟨some acc2, t2, e2⟩ →
      (spaces.map Prod.fst).Nodup →
      (∀ sp ∈ spaces, umFind acc.maps.allEdgeMap sp.1 = none) →
      ∀ s1, umFind acc2.maps.allEdgeMap s1
        = if s1 ∈ spaces.map Prod.fst then edgeNamesAfter none s1 (edgeItemsOf srv s1)
          else umFind acc.maps.allEdgeMap s1 := by
  induction spaces with
  | nil =>
    intro acc acc2 t e t2 e2 h _ _ s1
    simp only [loadSpaces, Except.ok.injEq, LoadProgress.mk.injEq, Option.some.injEq] at h
    obtain ⟨h1, _, _⟩ := h
    subst h1
    simp
  | cons sp rest ih =>
    intro acc acc2 t e t2 e2 h hnd hnone s1
    obtain ⟨acc1, t1, e1, h1, h2⟩ := loadSpaces_cons_ok srv sp rest acc acc2 t e t2 e2 h
    have hstep := loadSpace_allEdge srv acc acc1 t e t1 e1 sp h1
      (hnone sp (List.mem_cons_self _ _))
    rw [List.map_cons, List.nodup_cons] at hnd
    have hrest : ∀ sp1 ∈ rest, umFind acc1.maps.allEdgeMap sp1.1 = none := by
      intro sp1 hsp1
      have hne : sp1.1 ≠ sp.1 := by
        intro e1
        exact hnd.1 (by rw [← e1]; exact List.mem_map_of_mem _ hsp1)
      rw [hstep sp1.1, if_neg hne]
      exact hnone sp1 (List.mem_cons_of_mem _ hsp1)
    rw [ih acc1 acc2 t1 e1 t2 e2 h2 hnd.2 hrest s1, hstep s1]
    by_cases hs : s1 = sp.1
    · subst hs
      simp [hnd.1]
    · by_cases hr : s1 ∈ rest.map Prod.fst
      · simp [hr]
      · have : s1 ∉ (sp :: rest).map Prod.fst := by
          simp only [List.map_cons, List.mem_cons, not_or]
          exact ⟨hs, hr⟩
        rw [if_neg hr, if_neg hs, if_neg this]

/-- The appended names come one from each edge type listed and not seen before: they
are the names of a sublist of the items whose edge types are distinct and cover every
listed edge type that was not seen. -/
theorem newEdgeNames_firsts (s : GraphSpaceID) (items : List EdgeItem) :
    ∀ seen : List (GraphSpaceID × EdgeType),
      ∃ firsts : List EdgeItem, newEdgeNames s seen items = firsts.map (fun it => it.edge_name) ∧
        firsts.Sublist items ∧ (firsts.map (fun it => it.edge_type)).Nodup ∧
        (∀ f ∈ firsts, (s, f.edge_type) ∉ seen) ∧
        (∀ it ∈ items, (s, it.edge_type) ∈ seen ∨
          it.edge_type ∈ firsts.map (fun it => it.edge_type)) := by
  induction items with
  | nil => intro seen; exact ⟨[], rfl, List.Sublist.refl _, List.nodup_nil, by simp, by simp⟩
  | cons x rest ih =>
    intro seen
    by_cases hm : (s, x.edge_type) ∈ seen
    · obtain ⟨firsts, h1, h2, h3, h4, h5⟩ := ih seen
      refine ⟨firsts, by simp [newEdgeNames, hm, h1], h2.cons _, h3, h4, ?_⟩
      intro it hit
      rcases List.mem_cons.1 hit with e | hit1
      · subst e; exact Or.inl hm
      · exact h5 it hit1
    · obtain ⟨firsts, h1, h2, h3, h4, h5⟩ := ih (seen ++ [(s, x.edge_type)])
      refine ⟨x :: firsts, by simp [newEdgeNames, hm, h1], h2.cons₂ _, ?_, ?_, ?_⟩
      · rw [List.map_cons, List.nodup_cons]
        refine ⟨?_, h3⟩
        intro hx
        obtain ⟨f, hf, hfe⟩ := List.mem_map.1 hx
        apply h4 f hf
        rw [hfe]
        exact List.mem_append_right _ (List.mem_singleton_self _)
      · intro f hf
        rcases List.mem_cons.1 hf with e | hf1
        · subst e; exact hm
        · exact fun hc => h4 f hf1 (List.mem_append_left _ hc)
      · intro it hit
        rcases List.mem_cons.1 hit with e | hit1
        · subst e; exact Or.inr (by simp)
        · rcases h5 it hit1 with h6 | h6
          · rcases List.mem_append.1 h6 with h7 | h7
            · exact Or.inl h7
            · right
              simp only [List.mem_singleton, Prod.mk.injEq, true_and] at h7
              simp [h7]
          · exact Or.inr (List.mem_cons_of_mem _ h6)

/-- C23. After a successful load of spaces with distinct ids, for every listed space
with at least one edge item, `getAllEdgeFromCache(space)` returns one name for each
listed edge type and nothing else: the names of a sublist of the listed items that has
exactly one item (the first listed) of every listed edge type, however many versions
of the edge type are listed. -/
theorem getAllEdge_one_name_per_type (differs : PartHosts → PartHosts → Bool)
    (srv : MetaServer) (st st1 : MetaClientState) (spaces : List (GraphSpaceID × String))
    (s : GraphSpaceID) (items : List EdgeItem)
    (h : loadData differs srv st = .ok (true, st1))
    (hl : srv.listSpaces = .value spaces) (hnd : (spaces.map Prod.fst).Nodup)
    (hs : s ∈ spaces.map Prod.fst)
    (hi : srv.listEdgeSchemas s = .value items) (hne : items ≠ []) :
    ∃ firsts : List EdgeItem,
      getAllEdgeFromCache st1 s = .value (firsts.map (fun it => it.edge_name)) ∧
      firsts.Sublist items ∧ (firsts.map (fun it => it.edge_type)).Nodup ∧
      (∀ it ∈ items, it.edge_type ∈ firsts.map (fun it => it.edge_type)) ∧
      firsts.map (fun it => it.edge_name) = newEdgeNames s [] items := by
  obtain ⟨spaces1, acc, t, e, hl1, hload, _, _, _, _, _, _, _, _, hall, _, _, hready⟩ :=
    loadData_success differs srv st st1 h
  rw [hl] at hl1
  have hsp : spaces1 = spaces := (StatusOr.value.inj hl1).symm
  subst hsp
  have hfind := loadSpaces_allEdge srv spaces1 _ _ _ _ _ _ hload hnd
    (fun sp _ => by simp [LoadAcc.empty, umFind]) s
  rw [if_pos hs, edgeItemsOf_eq srv s items hi] at hfind
  simp only [edgeNamesAfter, if_neg hne, Option.getD_none, List.nil_append] at hfind
  obtain ⟨firsts, h1, h2, h3, _, h5⟩ := newEdgeNames_firsts s items []
  refine ⟨firsts, ?_, h2, h3, ?_, h1.symm⟩
  · rw [← h1]
    simp [getAllEdgeFromCache, hready, hall, hfind]
  · intro it hit
    rcases h5 it hit with h6 | h6
    · simp at h6
    · exact h6

theorem getAllEdge_one_name_per_type_witness :
    loadData partHostsDiffer (edgeServer [edgeE1, edgeF0, edgeE0]) emptyClient
      = .ok (true,
          stateAfter
            (loadData partHostsDiffer (edgeServer [edgeE1, edgeF0, edgeE0]) emptyClient)) ∧
    ∃ firsts : List EdgeItem,
      getAllEdgeFromCache
        (stateAfter (loadData partHostsDiffer (edgeServer [edgeE1, edgeF0, edgeE0]) emptyClient))
        1 = .value (firsts.map (fun it => it.edge_name)) ∧
      firsts.Sublist [edgeE1, edgeF0, edgeE0] ∧ (firsts.map (fun it => it.edge_type)).Nodup ∧
      (∀ it ∈ [edgeE1, edgeF0, edgeE0], it.edge_type ∈ firsts.map (fun it => it.edge_type)) ∧
      firsts.map (fun it => it.edge_name) = newEdgeNames 1 [] [edgeE1, edgeF0, edgeE0] :=
  ⟨by decide,
    getAllEdge_one_name_per_type partHostsDiffer (edgeServer [edgeE1, edgeF0, edgeE0])
      emptyClient _ [(1, "s1")] 1 [edgeE1, edgeF0, edgeE0] (by decide) rfl (by decide)
      (by decide) rfl (by decide)⟩

/-- The sample of C23: edge type "E" listed with two versions around "F" is named
once. -/
theorem getAllEdge_sample :
    getAllEdgeFromCache
      (stateAfter (loadData partHostsDiffer (edgeServer [edgeE1, edgeF0, edgeE0]) emptyClient))
      1 = .value ["E", "F"] := by
  decide

/-! ### The leader cache of the storage client -/

theorem invalidLeader_eq_filter (leaders_ : LeaderMap) (spaceId : GraphSpaceID)
    (partId : PartitionID) :
    invalidLeader leaders_ spaceId partId
      = leaders_.filter (fun e => !decide (e.1 = (spaceId, partId))) := by
  unfold invalidLeader
  cases h : umFind leaders_ (spaceId, partId) with
  | some v => rfl
  | none =>
    have hk := (umFind_eq_none_iff leaders_ (spaceId, partId)).1 h
    symm
    rw [List.filter_eq_self]
    intro e he
    have : e.1 ≠ (spaceId, partId) := fun hc => hk (by rw [← hc]; exact List.mem_map_of_mem _ he)
    simp [this]

/-- C25. `invalidLeader(space, part)` on a leader cache without an entry for
(space, part) leaves the cache as it is; in general the cache afterwards has no entry
for (space, part), every other key is looked up as before, the entries kept are the
old ones in their order, at most one entry is gone, and a second application changes
nothing. -/
theorem invalidLeader_idempotent (leaders_ : LeaderMap) (spaceId : GraphSpaceID)
    (partId : PartitionID) (hnd : (leaders_.map Prod.fst).Nodup) :
    (umFind leaders_ (spaceId, partId) = none →
      invalidLeader leaders_ spaceId partId = leaders_) ∧
    umFind (invalidLeader leaders_ spaceId partId) (spaceId, partId) = none ∧
    (∀ key, key ≠ (spaceId, partId) →
      umFind (invalidLeader leaders_ spaceId partId) key = umFind leaders_ key) ∧
    invalidLeader leaders_ spaceId partId
      = leaders_.filter (fun e => !decide (e.1 = (spaceId, partId))) ∧
    leaders_.length ≤ (invalidLeader leaders_ spaceId partId).length + 1 ∧
    invalidLeader (invalidLeader leaders_ spaceId partId) spaceId partId
      = invalidLeader leaders_ spaceId partId := by
  have hnone : umFind (invalidLeader leaders_ spaceId partId) (spaceId, partId) = none := by
    rw [umFind_invalidLeader, if_pos rfl]
  refine ⟨fun h => by simp [invalidLeader, h], hnone,
    fun key hk => by rw [umFind_invalidLeader, if_neg hk],
    invalidLeader_eq_filter leaders_ spaceId partId, ?_, ?_⟩
  · rw [invalidLeader_eq_filter]
    have hlen : (leaders_.filter (fun e => !decide (e.1 = (spaceId, partId)))).length
        = ((leaders_.map Prod.fst).filter (fun k => !decide (k = (spaceId, partId)))).length := by
      rw [List.filter_map, List.length_map]
      rfl
    rw [hlen]
    by_cases hm : (spaceId, partId) ∈ leaders_.map Prod.fst
    · have := filter_ne_length (leaders_.map Prod.fst) (spaceId, partId) hnd hm
      rw [List.length_map] at this
      omega
    · rw [List.filter_eq_self.2 (fun k hk => by
        have : k ≠ (spaceId, partId) := fun hc => hm (hc ▸ hk)
        simp [this]), List.length_map]
      omega
  · generalize invalidLeader leaders_ spaceId partId = l at hnone
    simp [invalidLeader, hnone]

theorem invalidLeader_idempotent_witness :
    ([((1, 1), hostA), ((1, 2), hostB)].map Prod.fst : List (GraphSpaceID × PartitionID)).Nodup ∧
    invalidLeader [((1, 1), hostA), ((1, 2), hostB)] 1 2 = [((1, 1), hostA)] ∧
    invalidLeader (invalidLeader [((1, 1), hostA), ((1, 2), hostB)] 1 2) 1 2
      = invalidLeader [((1, 1), hostA), ((1, 2), hostB)] 1 2 :=
  ⟨by decide, by decide,
    (invalidLeader_idempotent [((1, 1), hostA), ((1, 2), hostB)] 1 2 (by decide)).2.2.2.2.2⟩

/-! ### The key-value calls -/

/-- C29. `get` and `remove` with an empty key, `scan` and `removeRange` with an empty
start or an empty end, and each of the four with a segment that `checkSegment`
rejects, return the error "arguments invalid!" and send no RPC attempt (the endpoints
stay as they are); so does every call with the empty segment when `checkSegment`
rejects the empty segment. -/
theorem kv_arguments_invalid (checkSegment : String → Bool)
    (getValues : RpcResponse → List String) (env : MetaEnv) (hosts : MetaHosts)
    (retryLimit : Int) (segment key start endKey : String) :
    (checkSegment segment = false ∨ key = "" →
      MetaClient.get checkSegment env hosts retryLimit segment key
        = some { attempts := [], promise := .status (.Error "arguments invalid!"),
                 hosts := hosts } ∧
      MetaClient.remove checkSegment env hosts retryLimit segment key
        = some { attempts := [], promise := .status (.Error "arguments invalid!"),
                 hosts := hosts }) ∧
    (checkSegment segment = false ∨ start = "" ∨ endKey = "" →
      MetaClient.scan checkSegment getValues env hosts retryLimit segment start endKey
        = some { attempts := [], promise := .status (.Error "arguments invalid!"),
                 hosts := hosts } ∧
      MetaClient.removeRange checkSegment env hosts retryLimit segment start endKey
        = some { attempts := [], promise := .status (.Error "arguments invalid!"),
                 hosts := hosts }) ∧
    (checkSegment "" = false →
      MetaClient.get checkSegment env hosts retryLimit "" key
        = some { attempts := [], promise := .status (.Error "arguments invalid!"),
                 hosts := hosts } ∧
      MetaClient.remove checkSegment env hosts retryLimit "" key
        = some { attempts := [], promise := .status (.Error "arguments invalid!"),
                 hosts := hosts } ∧
      MetaClient.scan checkSegment getValues env hosts retryLimit "" start endKey
        = some { attempts := [], promise := .status (.Error "arguments invalid!"),
                 hosts := hosts } ∧
      MetaClient.removeRange checkSegment env hosts retryLimit "" start endKey
        = some { attempts := [], promise := .status (.Error "arguments invalid!"),
                 hosts := hosts }) := by
  refine ⟨fun h => ⟨?_, ?_⟩, fun h => ⟨?_, ?_⟩, fun h => ⟨?_, ?_, ?_, ?_⟩⟩
  · simp only [MetaClient.get, if_pos h, argumentsInvalid]
  · simp only [MetaClient.remove, if_pos h, argumentsInvalid]
  · simp only [MetaClient.scan, if_pos h, argumentsInvalid]
  · simp only [MetaClient.removeRange, if_pos h, argumentsInvalid]
  · simp only [MetaClient.get, h, true_or, if_true, argumentsInvalid]
  · simp only [MetaClient.remove, h, true_or, if_true, argumentsInvalid]
  · simp only [MetaClient.scan, h, true_or, if_true, argumentsInvalid]
  · simp only [MetaClient.removeRange, h, true_or, if_true, argumentsInvalid]

theorem kv_arguments_invalid_witness :
    (nonEmptySegment "seg" = false ∨ "" = "") ∧
    MetaClient.get nonEmptySegment envAnswers sampleHosts 3 "seg" ""
      = some { attempts := [], promise := .status (.Error "arguments invalid!"),
               hosts := sampleHosts } ∧
    MetaClient.remove nonEmptySegment envAnswers sampleHosts 3 "seg" ""
      = some { attempts := [], promise := .status (.Error "arguments invalid!"),
               hosts := sampleHosts } :=
  ⟨Or.inr rfl,
    (kv_arguments_invalid nonEmptySegment (fun _ => []) envAnswers sampleHosts 3 "seg" "" "a"
      "b").1 (Or.inr rfl)⟩

/-- A call of `get` with a valid segment and key does send an attempt. -/
theorem kv_get_sample :
    MetaClient.get nonEmptySegment envAnswers sampleHosts 3 "seg" "k"
      = some { attempts := [meta1], promise := .value "v", hosts := sampleHosts } := by
  decide

/-- C30 as stated fails: `multiGet` with the keys `[""]` and `multiPut` with the pair
`("", "x")` pass the local check, which only tests that the list is not empty, and
send an RPC attempt. -/
theorem multiGet_empty_key_is_sent :
    MetaClient.multiGet nonEmptySegment (fun r => [r.body]) envAnswers sampleHosts 3 "seg" [""]
      = some { attempts := [meta1], promise := .value ["v"], hosts := sampleHosts } ∧
    MetaClient.multiPut nonEmptySegment envAnswers sampleHosts 3 "seg" [("", "x")]
      = some { attempts := [meta1], promise := .value true, hosts := sampleHosts } := by
  decide

/-- C30, amended. `multiGet` and `multiPut` return the error "arguments invalid!"
without sending an RPC attempt exactly when `checkSegment` rejects the segment or the
list of keys, respectively of pairs, is empty; with an accepted segment and a
non-empty list, whatever its keys, the call is handed to `getResponse` and a first
attempt is sent. -/
theorem multi_arguments_invalid (checkSegment : String → Bool)
    (getValues : RpcResponse → List String) (env : MetaEnv) (hosts : MetaHosts)
    (retryLimit : Int) (segment : String) (keys : List String)
    (pairs : List (String × String)) :
    (checkSegment segment = false ∨ keys = [] →
      MetaClient.multiGet checkSegment getValues env hosts retryLimit segment keys
        = some { attempts := [], promise := .status (.Error "arguments invalid!"),
                 hosts := hosts }) ∧
    (checkSegment segment = false ∨ pairs = [] →
      MetaClient.multiPut checkSegment env hosts retryLimit segment pairs
        = some { attempts := [], promise := .status (.Error "arguments invalid!"),
                 hosts := hosts }) ∧
    (checkSegment segment = true → keys ≠ [] →
      ∃ d rest, MetaClient.multiGet checkSegment getValues env hosts retryLimit segment keys
          = some d ∧ d.attempts = hosts.active_ :: rest) ∧
    (checkSegment segment = true → pairs ≠ [] →
      ∃ d rest, MetaClient.multiPut checkSegment env hosts retryLimit segment pairs
          = some d ∧ d.attempts = hosts.leader_ :: rest) := by
  refine ⟨fun h => ?_, fun h => ?_, fun hs hk => ?_, fun hs hk => ?_⟩
  · simp only [MetaClient.multiGet, if_pos h, argumentsInvalid]
  · simp only [MetaClient.multiPut, if_pos h, argumentsInvalid]
  · have hn : ¬ (checkSegment segment = false ∨ keys = []) := by
      rintro (h | h)
      · rw [hs] at h; exact absurd h (by decide)
      · exact hk h
    obtain ⟨d, rest, hd, ha⟩ := getResponseAux_total env
      (fun resp => StatusOr.value (getValues resp)) false retryLimit
      ((retryLimit - 0).toNat + 1) hosts 0 (Nat.lt_succ_self _)
    refine ⟨d, rest, ?_, by simpa using ha⟩
    simp only [MetaClient.multiGet, if_neg hn, getResponse]
    exact hd
  · have hn : ¬ (checkSegment segment = false ∨ pairs = []) := by
      rintro (h | h)
      · rw [hs] at h; exact absurd h (by decide)
      · exact hk h
    obtain ⟨d, rest, hd, ha⟩ := getResponseAux_total env
      (fun resp => StatusOr.value (decide (resp.code = MetaErrorCode.SUCCEEDED))) true
      retryLimit ((retryLimit - 0).toNat + 1) hosts 0 (Nat.lt_succ_self _)
    refine ⟨d, rest, ?_, by simpa using ha⟩
    simp only [MetaClient.multiPut, if_neg hn, getResponse]
    exact hd

theorem multi_arguments_invalid_witness :
    (nonEmptySegment "seg" = false ∨ ([] : List String) = []) ∧
    MetaClient.multiGet nonEmptySegment (fun r => [r.body]) envAnswers sampleHosts 3 "seg" []
      = some { attempts := [], promise := .status (.Error "arguments invalid!"),
               hosts := sampleHosts } :=
  ⟨Or.inr rfl,
    (multi_arguments_invalid nonEmptySegment (fun r => [r.body]) envAnswers sampleHosts 3 "seg"
      [] []).1 (Or.inr rfl)⟩

theorem rand32_lt (draw n : Nat) (hn : 0 < n) : rand32 draw n < n := by
  unfold rand32
  rw [if_neg (by omega)]
  exact Nat.mod_lt _ hn

theorem toUInt32_length {α : Type} (l : List α) (h : l.length < 4294967296) :
    toUInt32 (l.length : Int) = l.length := by
  unfold toUInt32
  omega

/-- The flags after the lazy load step of a call on a client that is not inside a
pass. -/
theorem StorageClient.loadLeader_flags (c : StorageClient) (env : LeaderEnv)
    (hl : c.isLoadingLeader_ = false) :
    (c.loadLeader env).2 = !c.loadLeaderBefore_ ∧
    (c.loadLeader env).1.loadLeaderBefore_ = (c.loadLeaderBefore_ || env.metaLeaders.ok) ∧
    (c.loadLeader env).1.isLoadingLeader_ = false := by
  unfold StorageClient.loadLeader
  by_cases hb : c.loadLeaderBefore_ = true
  · simp [hb, hl]
  · have hb2 : c.loadLeaderBefore_ = false := by simpa using hb
    cases hm : env.metaLeaders with
    | status x => simp [hb2, hl, StatusOr.ok]
    | value m => simp [hb2, hl, StatusOr.ok]

theorem StorageClient.loadLeader_done (c : StorageClient) (env : LeaderEnv)
    (hb : c.loadLeaderBefore_ = true) : c.loadLeader env = (c, false) := by
  simp [StorageClient.loadLeader, hb]

/-- A `getLeader` call in terms of the client after its lazy load step. -/
theorem StorageClient.getLeader_cases (c : StorageClient) (env : LeaderEnv)
    (partHosts : PartHosts) (hne : partHosts.hosts_ ≠ [])
    (hlen : partHosts.hosts_.length < 4294967296) :
    (∀ h, umFind (c.loadLeader env).1.leaders_ (partHosts.spaceId_, partHosts.partId_) = some h →
      c.getLeader env partHosts
        = .ok { leader := h, client := (c.loadLeader env).1, loaded := (c.loadLeader env).2 }) ∧
    (umFind (c.loadLeader env).1.leaders_ (partHosts.spaceId_, partHosts.partId_) = none →
      ∃ h, h ∈ partHosts.hosts_ ∧
        c.getLeader env partHosts
          = .ok { leader := h,
                  client := { (c.loadLeader env).1 with
                    leaders_ := umAssign (c.loadLeader env).1.leaders_
                      (partHosts.spaceId_, partHosts.partId_) h },
                  loaded := (c.loadLeader env).2 }) := by
  refine ⟨fun h hf => ?_, fun hf => ?_⟩
  · simp only [StorageClient.getLeader, hf]
  · have hpos : 0 < partHosts.hosts_.length := List.length_pos.2 hne
    have hi : rand32 env.rand (toUInt32 (partHosts.hosts_.length : Int))
        < partHosts.hosts_.length := by
      rw [toUInt32_length _ hlen]
      exact rand32_lt _ _ hpos
    refine ⟨partHosts.hosts_[rand32 env.rand (toUInt32 (partHosts.hosts_.length : Int))],
      List.getElem_mem _, ?_⟩
    simp only [StorageClient.getLeader, hf, List.getElem?_eq_getElem hi]

/-- C24 as stated fails. A client that has not yet had a successful load-all-leaders
pass holds host A for partition (1, 1); the `getLeader` call runs the pass, which
replaces the cache by the loaded map, and returns host B. In the same way a second
`getLeader` with nothing in between returns B after the first one chose A on a failed
pass. -/
theorem getLeader_reload_replaces_entry :
    umFind ({ freshStorageClient with leaders_ := [((1, 1), hostA)] } : StorageClient).leaders_
      (1, 1) = some hostA ∧
    ({ freshStorageClient with leaders_ := [((1, 1), hostA)] } : StorageClient).getLeader
        envLeaderB samplePart
      = .ok { leader := hostB,
              client := { leaders_ := [((1, 1), hostB)], loadLeaderBefore_ := true,
                          isLoadingLeader_ := false },
              loaded := true } ∧
    freshStorageClient.getLeader envNotReady samplePart
      = .ok { leader := hostA,
              client := { freshStorageClient with leaders_ := [((1, 1), hostA)] },
              loaded := true } ∧
    hostA ≠ hostB := by
  decide

/-- C24, amended. `getLeader` for a partition with a non-empty replica list first runs
its lazy load step, which leaves a client with a successful pass behind it as it is.
With respect to the cache after that step: an entry for (space, part) is returned and
that cache is kept; without an entry a replica host is returned and the cache
afterwards maps (space, part) to exactly that host, every other key as before. A second
`getLeader` with nothing in between returns the same host and keeps the cache whenever a
pass has succeeded before it or its own pass fails. -/
theorem getLeader_cached_or_chosen (c : StorageClient) (env : LeaderEnv)
    (partHosts : PartHosts) (hne : partHosts.hosts_ ≠ [])
    (hlen : partHosts.hosts_.length < 4294967296) :
    (c.loadLeaderBefore_ = true → c.loadLeader env = (c, false)) ∧
    (∀ h, umFind (c.loadLeader env).1.leaders_ (partHosts.spaceId_, partHosts.partId_) = some h →
      c.getLeader env partHosts
        = .ok { leader := h, client := (c.loadLeader env).1, loaded := (c.loadLeader env).2 }) ∧
    (umFind (c.loadLeader env).1.leaders_ (partHosts.spaceId_, partHosts.partId_) = none →
      ∃ r, c.getLeader env partHosts = .ok r ∧ r.leader ∈ partHosts.hosts_ ∧
        umFind r.client.leaders_ (partHosts.spaceId_, partHosts.partId_) = some r.leader ∧
        (∀ key, key ≠ (partHosts.spaceId_, partHosts.partId_) →
          umFind r.client.leaders_ key = umFind (c.loadLeader env).1.leaders_ key)) ∧
    (∀ r, c.getLeader env partHosts = .ok r → ∀ env2 : LeaderEnv,
      r.client.loadLeaderBefore_ = true ∨
        (r.client.isLoadingLeader_ = false ∧ env2.metaLeaders.ok = false) →
      ∃ r2, r.client.getLeader env2 partHosts = .ok r2 ∧ r2.leader = r.leader ∧
        r2.client.leaders_ = r.client.leaders_) := by
  obtain ⟨hsome, hnone⟩ := StorageClient.getLeader_cases c env partHosts hne hlen
  refine ⟨StorageClient.loadLeader_done c env, hsome, fun hf => ?_, fun r hr env2 h2 => ?_⟩
  · obtain ⟨h, hmem, hg⟩ := hnone hf
    refine ⟨_, hg, hmem, ?_, fun key hk => ?_⟩
    · simp only [umFind_umAssign, if_true]
    · simp only [umFind_umAssign, if_neg hk]
  · have hentry : umFind r.client.leaders_ (partHosts.spaceId_, partHosts.partId_)
        = some r.leader := by
      cases hf : umFind (c.loadLeader env).1.leaders_ (partHosts.spaceId_, partHosts.partId_) with
      | some h =>
        rw [hsome h hf] at hr
        have := Except.ok.inj hr
        subst this
        exact hf
      | none =>
        obtain ⟨h, _, hg⟩ := hnone hf
        rw [hg] at hr
        have := Except.ok.inj hr
        subst this
        simp only [umFind_umAssign, if_true]
    have hsame : (r.client.loadLeader env2).1.leaders_ = r.client.leaders_ := by
      rcases h2 with hb | ⟨hl, hfail⟩
      · rw [StorageClient.loadLeader_done _ _ hb]
      · unfold StorageClient.loadLeader
        cases hm : env2.metaLeaders with
        | value m => rw [hm] at hfail; simp [StatusOr.ok] at hfail
        | status x =>
          by_cases hb : r.client.loadLeaderBefore_ = true
          · simp [hb]
          · simp [hb, hl]
    obtain ⟨hsome2, _⟩ := StorageClient.getLeader_cases r.client env2 partHosts hne hlen
    rw [hsame] at hsome2
    exact ⟨_, hsome2 r.leader hentry, rfl, hsame⟩

theorem getLeader_cached_or_chosen_witness :
    samplePart.hosts_ ≠ [] ∧ samplePart.hosts_.length < 4294967296 ∧
    ∃ r, freshStorageClient.getLeader envLeaderB { samplePart with partId_ := 2 } = .ok r ∧
      r.leader ∈ samplePart.hosts_ ∧ umFind r.client.leaders_ (1, 2) = some r.leader ∧
      (∀ key, key ≠ ((1 : GraphSpaceID), (2 : PartitionID)) →
        umFind r.client.leaders_ key
          = umFind (freshStorageClient.loadLeader envLeaderB).1.leaders_ key) :=
  ⟨by decide, by decide,
    (getLeader_cached_or_chosen freshStorageClient envLeaderB { samplePart with partId_ := 2 }
      (by decide) (by decide)).2.2.1 (by decide)⟩

/-- The flags of one `getLeader` call on a client that is not inside a pass. -/
theorem StorageClient.getLeader_flags (c : StorageClient) (env : LeaderEnv)
    (partHosts : PartHosts) (r : LeaderAnswer) (hl : c.isLoadingLeader_ = false)
    (h : c.getLeader env partHosts = .ok r) :
    r.loaded = !c.loadLeaderBefore_ ∧
    r.client.loadLeaderBefore_ = (c.loadLeaderBefore_ || env.metaLeaders.ok) ∧
    r.client.isLoadingLeader_ = false := by
  obtain ⟨h1, h2, h3⟩ := StorageClient.loadLeader_flags c env hl
  unfold StorageClient.getLeader at h
  simp only at h
  split at h
  · have := Except.ok.inj h
    subst this
    exact ⟨h1, h2, h3⟩
  · split at h
    · simp at h
    · have := Except.ok.inj h
      subst this
      exact ⟨h1, h2, h3⟩

/-- C26 as stated fails: the first `getLeader` call runs the load-all-leaders pass,
the pass fails because the metadata client is not ready, and the second call runs the
pass again. -/
theorem getLeader_pass_repeated_after_failure :
    (freshStorageClient.getLeaderSeq
        [(envNotReady, samplePart), (envLeaderB, samplePart), (envLeaderB, samplePart)]).map
      (fun answers => answers.map fun r => r.loaded) = .ok [true, true, false] := by
  decide

/-- C26, amended. Across every sequence of `getLeader` calls on one storage client, a
call runs the load-all-leaders pass if and only if no pass has succeeded before it:
every call up to and including the first one whose pass succeeds runs the pass, and no
later call does. -/
theorem getLeader_pass_until_success (calls : List (LeaderEnv × PartHosts)) :
    ∀ (c : StorageClient) (answers : List LeaderAnswer),
      c.isLoadingLeader_ = false → c.getLeaderSeq calls = .ok answers →
      answers.length = calls.length ∧
      ∀ i r, answers[i]? = some r →
        r.loaded = !(c.loadLeaderBefore_ ||
          (calls.take i).any fun call => call.1.metaLeaders.ok) := by
  induction calls with
  | nil =>
    intro c answers _ h
    simp only [StorageClient.getLeaderSeq, Except.ok.injEq] at h
    subst h
    simp
  | cons call rest ih =>
    intro c answers hl h
    unfold StorageClient.getLeaderSeq at h
    cases hg : c.getLeader call.1 call.2 with
    | error e => rw [hg] at h; simp at h
    | ok r0 =>
      rw [hg] at h
      simp only at h
      cases hs : StorageClient.getLeaderSeq r0.client rest with
      | error e => rw [hs] at h; simp at h
      | ok rs =>
        rw [hs] at h
        simp only [Except.ok.injEq] at h
        subst h
        obtain ⟨f1, f2, f3⟩ := StorageClient.getLeader_flags c call.1 call.2 r0 hl hg
        obtain ⟨ihlen, ihflags⟩ := ih r0.client rs f3 hs
        refine ⟨by simp [ihlen], fun i r hi => ?_⟩
        cases i with
        | zero =>
          simp only [List.getElem?_cons_zero, Option.some.injEq] at hi
          subst hi
          simp [f1]
        | succ j =>
          simp only [List.getElem?_cons_succ] at hi
          rw [ihflags j r hi, f2]
          simp [List.take_succ_cons, Bool.or_assoc]

theorem getLeader_pass_until_success_witness :
    freshStorageClient.isLoadingLeader_ = false ∧
    freshStorageClient.getLeaderSeq
        [(envNotReady, samplePart), (envLeaderB, samplePart), (envLeaderB, samplePart)]
      = .ok sampleLeaderAnswers ∧
    sampleLeaderAnswers.length = [(envNotReady, samplePart), (envLeaderB, samplePart),
      (envLeaderB, samplePart)].length ∧
    ∀ i r, sampleLeaderAnswers[i]? = some r →
      r.loaded = !(freshStorageClient.loadLeaderBefore_ ||
        ([(envNotReady, samplePart), (envLeaderB, samplePart),
          (envLeaderB, samplePart)].take i).any fun call => call.1.metaLeaders.ok) :=
  ⟨rfl, by decide,
    getLeader_pass_until_success
      [(envNotReady, samplePart), (envLeaderB, samplePart), (envLeaderB, samplePart)]
      freshStorageClient sampleLeaderAnswers rfl (by decide)⟩

/-! ### Grouping by leader -/

theorem umFind_umPush {K V : Type} [DecidableEq K] (m : List (K × List V)) (k k1 : K) (v : V) :
    umFind (umPush m k v) k1
      = if k1 = k then some ((umFind m k).getD [] ++ [v]) else umFind m k1 := by
  unfold umPush
  rw [umFind_umAssign]

/-- Assigning to a key a value whose items are those of the old value and `extra`
adds just `extra` to the items of the map. -/
theorem umAssign_flatMap_perm {K W β : Type} [DecidableEq K] (g : List W → List β)
    (hg : g [] = []) (k : K) (v1 : List W) (extra : List β) :
    ∀ m : List (K × List W), (g v1).Perm (g ((umFind m k).getD []) ++ extra) →
      ((umAssign m k v1).flatMap fun e => g e.2).Perm ((m.flatMap fun e => g e.2) ++ extra) := by
  intro m
  induction m with
  | nil =>
    intro h
    simp only [umFind, Option.getD_none, hg, List.nil_append] at h
    simpa [umAssign] using h
  | cons e rest ih =>
    obtain ⟨k0, v0⟩ := e
    intro h
    by_cases hk : k0 = k
    · subst hk
      simp only [umFind, if_true, Option.getD_some] at h
      simp only [umAssign, if_true, List.flatMap_cons]
      have e1 : (g v1 ++ (rest.flatMap fun e => g e.2)).Perm
          ((g v0 ++ extra) ++ (rest.flatMap fun e => g e.2)) := h.append_right _
      have e2 : ((g v0 ++ extra) ++ (rest.flatMap fun e => g e.2)).Perm
          ((g v0 ++ (rest.flatMap fun e => g e.2)) ++ extra) := by
        rw [List.append_assoc, List.append_assoc]
        exact (List.perm_append_comm).append_left _
      exact e1.trans e2
    · simp only [umFind, if_neg hk] at h
      simp only [umAssign, if_neg hk, List.flatMap_cons, List.append_assoc]
      exact (ih h).append_left _

theorem umPush_flatMap_perm {K V : Type} [DecidableEq K] (m : List (K × List V)) (k : K)
    (v : V) : ((umPush m k v).flatMap Prod.snd).Perm (m.flatMap Prod.snd ++ [v]) := by
  have := umAssign_flatMap_perm (fun l : List V => l) rfl k ((umFind m k).getD [] ++ [v]) [v] m
    (List.Perm.refl _)
  exact this

/-- The grouping of (partition, leader) pairs that the loop of `getHostParts` builds
on top of `hostParts`. -/
theorem groupParts_facts (pairs : List (PartitionID × HostAddr)) :
    ∀ hostParts : List (HostAddr × List PartitionID),
      (∀ h, (umFind (pairs.foldl (fun m pa => umPush m pa.2 pa.1) hostParts) h).getD []
        = (umFind hostParts h).getD [] ++ (pairs.filter fun pa => decide (pa.2 = h)).map Prod.fst) ∧
      ((hostParts.map Prod.fst).Nodup →
        ((pairs.foldl (fun m pa => umPush m pa.2 pa.1) hostParts).map Prod.fst).Nodup) ∧
      (∀ h, h ∈ (pairs.foldl (fun m pa => umPush m pa.2 pa.1) hostParts).map Prod.fst
        ↔ h ∈ hostParts.map Prod.fst ∨ h ∈ pairs.map Prod.snd) ∧
      ((pairs.foldl (fun m pa => umPush m pa.2 pa.1) hostParts).flatMap Prod.snd).Perm
        (hostParts.flatMap Prod.snd ++ pairs.map Prod.fst) := by
  induction pairs with
  | nil => intro hostParts; simp
  | cons pa rest ih =>
    intro hostParts
    obtain ⟨h1, h2, h3, h4⟩ := ih (umPush hostParts pa.2 pa.1)
    simp only [List.foldl_cons]
    refine ⟨fun h => ?_, fun hnd => h2 (umAssign_keys_nodup _ _ _ hnd), fun h => ?_, ?_⟩
    · rw [h1 h, umFind_umPush]
      by_cases hh : h = pa.2
      · subst hh
        simp [List.filter_cons]
      · have hh2 : ¬ pa.2 = h := fun e => hh e.symm
        simp [List.filter_cons, hh, hh2]
    · rw [h3 h]
      unfold umPush
      rw [mem_keys_umAssign]
      simp only [List.map_cons, List.mem_cons]
      tauto
    · have e1 : ((umPush hostParts pa.2 pa.1).flatMap Prod.snd ++ rest.map Prod.fst).Perm
          ((hostParts.flatMap Prod.snd ++ [pa.1]) ++ rest.map Prod.fst) :=
        (umPush_flatMap_perm hostParts pa.2 pa.1).append_right _
      have e2 : (hostParts.flatMap Prod.snd ++ [pa.1]) ++ rest.map Prod.fst
          = hostParts.flatMap Prod.snd ++ (pa :: rest).map Prod.fst := by
        simp [List.append_assoc]
      rw [← e2]
      exact h4.trans e1

theorem StorageClient.after_cons (c : StorageClient) (r : LeaderAnswer)
    (rs : List LeaderAnswer) :
    StorageClient.after c (r :: rs) = StorageClient.after r.client rs := by
  rfl

theorem StorageClient.getLeaderSeq_cons_ok (c : StorageClient) (call : LeaderEnv × PartHosts)
    (rest : List (LeaderEnv × PartHosts)) (answers : List LeaderAnswer)
    (h : c.getLeaderSeq (call :: rest) = .ok answers) :
    ∃ r rs, c.getLeader call.1 call.2 = .ok r ∧
      StorageClient.getLeaderSeq r.client rest = .ok rs ∧ answers = r :: rs := by
  unfold StorageClient.getLeaderSeq at h
  cases hg : c.getLeader call.1 call.2 with
  | error e => rw [hg] at h; simp at h
  | ok r =>
    rw [hg] at h
    simp only at h
    cases hs : StorageClient.getLeaderSeq r.client rest with
    | error e => rw [hs] at h; simp at h
    | ok rs =>
      rw [hs] at h
      exact ⟨r, rs, rfl, hs, (Except.ok.inj h).symm⟩

/-- A sequence of `getLeader` calls for partitions with non-empty replica lists gives
an answer for every call. -/
theorem StorageClient.getLeaderSeq_total (calls : List (LeaderEnv × PartHosts)) :
    ∀ c : StorageClient,
      (∀ call ∈ calls, call.2.hosts_ ≠ [] ∧ call.2.hosts_.length < 4294967296) →
      ∃ answers, c.getLeaderSeq calls = .ok answers ∧ answers.length = calls.length := by
  induction calls with
  | nil => intro c _; exact ⟨[], rfl, rfl⟩
  | cons call rest ih =>
    intro c hall
    obtain ⟨hne, hlen⟩ := hall call (List.mem_cons_self _ _)
    obtain ⟨hsome, hnone⟩ := StorageClient.getLeader_cases c call.1 call.2 hne hlen
    have hr : ∃ r, c.getLeader call.1 call.2 = .ok r := by
      cases hf : umFind (c.loadLeader call.1).1.leaders_ (call.2.spaceId_, call.2.partId_) with
      | some h => exact ⟨_, hsome h hf⟩
      | none => obtain ⟨h, _, hg⟩ := hnone hf; exact ⟨_, hg⟩
    obtain ⟨r, hr⟩ := hr
    obtain ⟨rs, hrs, hl⟩ := ih r.client (fun call1 hc => hall call1 (List.mem_cons_of_mem _ hc))
    refine ⟨r :: rs, ?_, by simp [hl]⟩
    unfold StorageClient.getLeaderSeq
    rw [hr]
    simp only
    rw [hrs]

/-- The loop of `getHostParts` in terms of the sequence of its `getLeader` calls. -/
theorem StorageClient.getHostPartsLoop_ok
    (getPartHosts : GraphSpaceID → PartitionID → StatusOr PartHosts)
    (env : PartitionID → LeaderEnv) (s : GraphSpaceID) (ph : PartitionID → PartHosts)
    (ps : List PartitionID) :
    ∀ (c : StorageClient) (hostParts : List (HostAddr × List PartitionID))
      (answers : List LeaderAnswer),
      (∀ p ∈ ps, getPartHosts s p = .value (ph p)) →
      c.getLeaderSeq (ps.map fun p => (env p, ph p)) = .ok answers →
      StorageClient.getHostPartsLoop getPartHosts env s ps c hostParts
        = .ok (.value ((ps.zip (answers.map fun r => r.leader)).foldl
            (fun m pa => umPush m pa.2 pa.1) hostParts), c.after answers) := by
  induction ps with
  | nil =>
    intro c hostParts answers _ h
    simp only [List.map_nil, StorageClient.getLeaderSeq, Except.ok.injEq] at h
    subst h
    simp [StorageClient.getHostPartsLoop, StorageClient.after]
  | cons p rest ih =>
    intro c hostParts answers hph h
    rw [List.map_cons] at h
    obtain ⟨r, rs, hr, hrs, ha⟩ := StorageClient.getLeaderSeq_cons_ok c _ _ answers h
    subst ha
    simp only at hr
    unfold StorageClient.getHostPartsLoop
    rw [hph p (List.mem_cons_self _ _)]
    simp only
    rw [hr]
    simp only
    rw [ih r.client _ rs (fun q hq => hph q (List.mem_cons_of_mem _ hq)) hrs,
      StorageClient.after_cons]
    simp

theorem mem_partIdsUpTo (n : Nat) (p : PartitionID) :
    p ∈ partIdsUpTo (n : Int) ↔ 1 ≤ p ∧ p ≤ (n : Int) := by
  unfold partIdsUpTo
  rw [List.mem_map, Int.toNat_ofNat]
  constructor
  · rintro ⟨i, hi, hp⟩
    rw [List.mem_range] at hi
    have h1 : ((i : Int) + 1 : Int) = p := hp
    have h2 : (0 : Int) ≤ (i : Int) := Int.ofNat_nonneg i
    have h3 : (i : Int) < (n : Int) := Int.ofNat_lt.2 hi
    constructor
    · have : (1 : Int) ≤ (i : Int) + 1 := by linarith
      rw [← h1]; exact this
    · have : (i : Int) + 1 ≤ (n : Int) := by linarith
      rw [← h1]; exact this
  · rintro ⟨h1, h2⟩
    have h3 : ((p - 1 : Int).toNat : Int) = p - 1 := Int.toNat_of_nonneg (by linarith)
    refine ⟨(p - 1 : Int).toNat, ?_, ?_⟩
    · rw [List.mem_range]
      have : ((p - 1 : Int).toNat : Int) < (n : Int) := by rw [h3]; linarith
      exact Int.ofNat_lt.1 this
    · show (((p - 1 : Int).toNat : Int) + 1 : Int) = p
      rw [h3]; ring

theorem partIdsUpTo_nodup (n : Nat) : (partIdsUpTo (n : Int)).Nodup := by
  unfold partIdsUpTo
  refine List.Nodup.map ?_ (List.nodup_range _)
  intro a b hab
  have h : ((a : Int) + 1 : Int) = (b : Int) + 1 := hab
  have h2 : (a : Int) = (b : Int) := by linarith
  exact Int.ofNat_inj.1 h2

theorem partIdsUpTo_length (n : Nat) : (partIdsUpTo (n : Int)).length = n := by
  simp [partIdsUpTo]

/-- C27. For a cached space whose partitions are exactly 1..N (with N below
`INT32_MAX`, so that the `int` loop variable can pass N), each with a non-empty
replica list, `getHostParts(space)` succeeds; it makes one `getLeader` call per
partition, in the order 1..N, and its result has distinct hosts, holds every partition
id 1..N exactly once overall (the lists together are a permutation of 1..N), lists
under each host exactly the partitions for which `getLeader` returned that host, and
has no host that `getLeader` did not return: when all returned leaders are among the
hosts `H`, the result has at most as many hosts as `H`. -/
theorem getHostParts_covers (c : StorageClient) (env : PartitionID → LeaderEnv)
    (cache : LocalCache) (s : GraphSpaceID) (info : SpaceInfoCache) (N : Nat)
    (hc : umFind cache s = some info)
    (hnd : (info.partsAlloc_.map Prod.fst).Nodup)
    (hkeys : ∀ p : PartitionID, p ∈ info.partsAlloc_.map Prod.fst ↔ 1 ≤ p ∧ p ≤ (N : Int))
    (hN : N < 2147483647)
    (hhosts : ∀ e ∈ info.partsAlloc_, e.2 ≠ [] ∧ e.2.length < 4294967296) :
    ∃ (hostParts : List (HostAddr × List PartitionID)) (answers : List LeaderAnswer),
      c.getHostParts cache (getPartHostsFromCache cache) env s
        = .ok (.value hostParts, c.after answers) ∧
      c.getLeaderSeq ((partIdsUpTo (N : Int)).map fun p =>
          (env p, { spaceId_ := s, partId_ := p, hosts_ := replicaHosts cache s p }))
        = .ok answers ∧
      (hostParts.map Prod.fst).Nodup ∧
      (hostParts.flatMap Prod.snd).Perm (partIdsUpTo (N : Int)) ∧
      (∀ h, (umFind hostParts h).getD []
        = (((partIdsUpTo (N : Int)).zip (answers.map fun r => r.leader)).filter
            fun pa => decide (pa.2 = h)).map Prod.fst) ∧
      (∀ h, h ∈ hostParts.map Prod.fst ↔ h ∈ answers.map fun r => r.leader) ∧
      (∀ H : List HostAddr, (∀ r ∈ answers, r.leader ∈ H) → hostParts.length ≤ H.length) := by
  have hperm : (info.partsAlloc_.map Prod.fst).Perm (partIdsUpTo (N : Int)) :=
    (List.perm_ext_iff_of_nodup hnd (partIdsUpTo_nodup N)).2
      (fun p => by rw [hkeys p, mem_partIdsUpTo])
  have hlen : info.partsAlloc_.length = N := by
    have := hperm.length_eq
    rw [List.length_map, partIdsUpTo_length] at this
    exact this
  have hnum : partsNum cache s = .value (N : Int) := by
    rw [partsNum_eq_size cache s info hc (by omega), hlen]
  have hph : ∀ p ∈ partIdsUpTo (N : Int), ∃ hosts, umFind info.partsAlloc_ p = some hosts ∧
      hosts ≠ [] ∧ hosts.length < 4294967296 := by
    intro p hp
    have hk : p ∈ info.partsAlloc_.map Prod.fst := hperm.mem_iff.2 hp
    obtain ⟨hosts, hf⟩ := umFind_isSome_of_mem _ _ hk
    exact ⟨hosts, hf, hhosts (p, hosts) (umFind_some_mem _ _ _ hf)⟩
  have hget : ∀ p ∈ partIdsUpTo (N : Int), getPartHostsFromCache cache s p
      = .value { spaceId_ := s, partId_ := p, hosts_ := replicaHosts cache s p } := by
    intro p hp
    obtain ⟨hosts, hf, _⟩ := hph p hp
    simp [getPartHostsFromCache, replicaHosts, hc, hf]
  obtain ⟨answers, hseq, halen⟩ := StorageClient.getLeaderSeq_total
    ((partIdsUpTo (N : Int)).map fun p =>
      (env p, { spaceId_ := s, partId_ := p, hosts_ := replicaHosts cache s p })) c
    (by
      intro call hcall
      obtain ⟨p, hp, rfl⟩ := List.mem_map.1 hcall
      obtain ⟨hosts, hf, h1, h2⟩ := hph p hp
      have : replicaHosts cache s p = hosts := by simp [replicaHosts, hc, hf]
      simp only [this]
      exact ⟨h1, h2⟩)
  rw [List.length_map] at halen
  have hloop := StorageClient.getHostPartsLoop_ok (getPartHostsFromCache cache) env s
    (fun p => { spaceId_ := s, partId_ := p, hosts_ := replicaHosts cache s p })
    (partIdsUpTo (N : Int)) c [] answers hget hseq
  obtain ⟨f1, f2, f3, f4⟩ := groupParts_facts
    ((partIdsUpTo (N : Int)).zip (answers.map fun r => r.leader)) []
  have hfst : ((partIdsUpTo (N : Int)).zip (answers.map fun r => r.leader)).map Prod.fst
      = partIdsUpTo (N : Int) :=
    List.map_fst_zip _ _ (by rw [List.length_map, halen])
  have hsnd : ((partIdsUpTo (N : Int)).zip (answers.map fun r => r.leader)).map Prod.snd
      = answers.map fun r => r.leader :=
    List.map_snd_zip _ _ (by rw [List.length_map, halen])
  have hkeysOut : ∀ h, h ∈ (((partIdsUpTo (N : Int)).zip (answers.map fun r => r.leader)).foldl
      (fun m pa => umPush m pa.2 pa.1) []).map Prod.fst ↔ h ∈ answers.map fun r => r.leader := by
    intro h
    rw [f3 h, hsnd]
    simp
  refine ⟨_, answers, ?_, hseq, f2 List.nodup_nil, ?_, ?_, hkeysOut, ?_⟩
  · have hne : ¬ ((N : Int) = 2147483647) := by omega
    simp only [StorageClient.getHostParts, hnum, hloop, if_neg hne]
  · have := f4
    rw [hfst] at this
    simpa using this
  · intro h
    rw [f1 h]
    simp [umFind]
  · intro H hH
    have hsub : (((partIdsUpTo (N : Int)).zip (answers.map fun r => r.leader)).foldl
        (fun m pa => umPush m pa.2 pa.1) []).map Prod.fst ⊆ H := by
      intro h hh
      obtain ⟨r, hr, hrl⟩ := List.mem_map.1 ((hkeysOut h).1 hh)
      rw [← hrl]
      exact hH r hr
    have := ((f2 List.nodup_nil).subperm hsub).length_le
    rw [List.length_map] at this
    exact this

theorem getHostParts_covers_witness :
    umFind scenarioCache 1
      = some (mkSpace "s1" [(1, [hostA, hostB]), (2, [hostB, hostC]), (3, [hostC, hostA]),
                            (4, [hostA, hostB, hostC])]) ∧
    ∃ (hostParts : List (HostAddr × List PartitionID)) (answers : List LeaderAnswer),
      freshStorageClient.getHostParts scenarioCache (getPartHostsFromCache scenarioCache)
          scenarioEnv 1 = .ok (.value hostParts, freshStorageClient.after answers) ∧
      (hostParts.map Prod.fst).Nodup ∧
      (hostParts.flatMap Prod.snd).Perm (partIdsUpTo ((4 : Nat) : Int)) ∧
      (∀ H : List HostAddr, (∀ r ∈ answers, r.leader ∈ H) → hostParts.length ≤ H.length) :=
  ⟨by decide, by
    obtain ⟨hostParts, answers, h1, _, h3, h4, _, _, h7⟩ :=
      getHostParts_covers freshStorageClient scenarioEnv scenarioCache 1
        (mkSpace "s1" [(1, [hostA, hostB]), (2, [hostB, hostC]), (3, [hostC, hostA]),
                       (4, [hostA, hostB, hostC])]) 4 (by decide) (by decide)
        (by
          intro p
          simp only [mkSpace, List.map_cons, List.map_nil, List.mem_cons, List.mem_singleton,
            List.not_mem_nil, or_false]
          have hp : ∀ q : Int, (q = 1 ∨ q = 2 ∨ q = 3 ∨ q = 4) ↔ 1 ≤ q ∧ q ≤ ((4 : Nat) : Int) := by
            intro q; constructor
            · rintro (h | h | h | h) <;> subst h <;> decide
            · rintro ⟨h1, h2⟩
              have h3 : q ≤ 4 := h2
              omega
          exact hp p)
        (by decide) (by decide)
    exact ⟨hostParts, answers, h1, h3, h4, h7⟩⟩

/-- With `INT32_MAX` partitions the loop of `getHostParts` cannot end by its test: a
call that returns a mapping has another partition count. -/
theorem getHostParts_int_max (c : StorageClient) (cache : LocalCache)
    (getPartHosts : GraphSpaceID → PartitionID → StatusOr PartHosts)
    (env : PartitionID → LeaderEnv) (s : GraphSpaceID) (parts : Int)
    (h : partsNum cache s = .value parts)
    (hostParts : List (HostAddr × List PartitionID)) (c1 : StorageClient)
    (hret : c.getHostParts cache getPartHosts env s = .ok (.value hostParts, c1)) :
    parts ≠ 2147483647 := by
  intro hp
  unfold StorageClient.getHostParts at hret
  rw [h] at hret
  simp only at hret
  generalize StorageClient.getHostPartsLoop getPartHosts env s (partIdsUpTo parts) c []
    = r at hret
  rcases r with e | ⟨(st | hp0), c2⟩
  · simp at hret
  · simp at hret
  · simp only [if_pos hp] at hret
    simp at hret

/-- The end-to-end scenario: the 4 partitions on 3 hosts are mapped to 2 of the hosts,
every partition under one host. -/
theorem getHostParts_scenario :
    (freshStorageClient.getHostParts scenarioCache (getPartHostsFromCache scenarioCache)
        scenarioEnv 1).map Prod.fst
      = .ok (.value [(hostB, [1, 2, 4]), (hostA, [3])]) := by
  decide

/-! ### `clusterIdsToHosts` -/

theorem Clusters.bucket_add {α : Type} (clusters : Clusters α) (h0 h : HostAddr)
    (p0 p : PartitionID) (id : α) :
    (clusters.add h0 p0 id).bucket h p
      = clusters.bucket h p ++ (if h = h0 ∧ p = p0 then [id] else []) := by
  unfold Clusters.bucket Clusters.add
  rw [umFind_umAssign]
  by_cases hh : h = h0
  · subst hh
    simp only [if_true, Option.getD_some, umFind_umPush, true_and]
    by_cases hp : p = p0
    · subst hp; simp
    · simp [hp]
  · simp [hh]

theorem Clusters.allIds_add {α : Type} (clusters : Clusters α) (h : HostAddr)
    (p : PartitionID) (id : α) :
    (clusters.add h p id).allIds.Perm (clusters.allIds ++ [id]) := by
  unfold Clusters.allIds Clusters.add
  exact umAssign_flatMap_perm (fun inner : List (PartitionID × List α) => inner.flatMap Prod.snd)
    rfl h _ [id] clusters (umPush_flatMap_perm _ p id)

/-- The buckets and the ids after adding the resolved ids one by one. -/
theorem Clusters.foldl_add {α : Type} (trace : List (Resolved α)) :
    ∀ clusters : Clusters α,
      (∀ h p, (trace.foldl (fun m t => m.add t.answer.leader t.part t.id) clusters).bucket h p
        = clusters.bucket h p
          ++ (trace.filter fun t => decide (t.answer.leader = h ∧ t.part = p)).map
              fun t => t.id) ∧
      (trace.foldl (fun m t => m.add t.answer.leader t.part t.id) clusters).allIds.Perm
        (clusters.allIds ++ trace.map fun t => t.id) := by
  induction trace with
  | nil => intro clusters; simp
  | cons t rest ih =>
    intro clusters
    obtain ⟨h1, h2⟩ := ih (clusters.add t.answer.leader t.part t.id)
    simp only [List.foldl_cons]
    refine ⟨fun h p => ?_, ?_⟩
    · rw [h1 h p, Clusters.bucket_add]
      by_cases hc : h = t.answer.leader ∧ p = t.part
      · obtain ⟨e1, e2⟩ := hc
        subst e1 e2
        simp [List.filter_cons]
      · have hc2 : ¬ (t.answer.leader = h ∧ t.part = p) :=
          fun e => hc ⟨e.1.symm, e.2.symm⟩
        rw [if_neg hc, List.filter_cons, if_neg (by simpa using hc2)]
        simp
    · have e1 : ((clusters.add t.answer.leader t.part t.id).allIds ++ rest.map fun t => t.id).Perm
          ((clusters.allIds ++ [t.id]) ++ rest.map fun t => t.id) :=
        (Clusters.allIds_add clusters _ _ _).append_right _
      have e2 : (clusters.allIds ++ [t.id]) ++ (rest.map fun t => t.id)
          = clusters.allIds ++ (t :: rest).map fun t => t.id := by
        simp [List.append_assoc]
      rw [← e2]
      exact h2.trans e1

/-- A successful run of the loop of `clusterIdsToHosts`, iteration by iteration. -/
theorem StorageClient.clusterIdsToHostsLoop_ok {α : Type}
    (partIdOf : α → Except Fault (StatusOr PartitionID))
    (getPartHosts : PartitionID → StatusOr PartHosts) (ids : List (α × LeaderEnv)) :
    ∀ (c c1 : StorageClient) (clusters out : Clusters α),
      StorageClient.clusterIdsToHostsLoop partIdOf getPartHosts ids c clusters
        = .ok (.value out, c1) →
      ∃ trace : List (Resolved α),
        trace.map (fun t => (t.id, t.env)) = ids ∧
        (∀ t ∈ trace, partIdOf t.id = .ok (.value t.part) ∧
          getPartHosts t.part = .value t.partHosts) ∧
        c.getLeaderSeq (trace.map fun t => (t.env, t.partHosts))
          = .ok (trace.map fun t => t.answer) ∧
        c1 = c.after (trace.map fun t => t.answer) ∧
        out = trace.foldl (fun m t => m.add t.answer.leader t.part t.id) clusters := by
  induction ids with
  | nil =>
    intro c c1 clusters out h
    simp only [StorageClient.clusterIdsToHostsLoop, Except.ok.injEq, Prod.mk.injEq,
      StatusOr.value.injEq] at h
    obtain ⟨h1, h2⟩ := h
    subst h1 h2
    exact ⟨[], rfl, by simp, rfl, rfl, rfl⟩
  | cons id rest ih =>
    intro c c1 clusters out h
    unfold StorageClient.clusterIdsToHostsLoop at h
    cases hp : partIdOf id.1 with
    | error e => rw [hp] at h; simp at h
    | ok sp =>
      rw [hp] at h
      cases sp with
      | status st => simp at h
      | value part =>
        simp only at h
        cases hg : getPartHosts part with
        | status st => rw [hg] at h; simp at h
        | value partHosts =>
          rw [hg] at h
          simp only at h
          by_cases hz : partHosts.hosts_.length = 0
          · rw [if_pos hz] at h; simp at h
          · rw [if_neg hz] at h
            cases hl : c.getLeader id.2 partHosts with
            | error e => rw [hl] at h; simp at h
            | ok r =>
              rw [hl] at h
              simp only at h
              obtain ⟨trace, h1, h2, h3, h4, h5⟩ := ih r.client c1 _ out h
              refine ⟨{ id := id.1, env := id.2, part := part, partHosts := partHosts,
                        answer := r } :: trace, ?_, ?_, ?_, ?_, ?_⟩
              · simp [h1]
              · intro t ht
                rcases List.mem_cons.1 ht with e | ht1
                · subst e; exact ⟨hp, hg⟩
                · exact h2 t ht1
              · simp only [List.map_cons]
                unfold StorageClient.getLeaderSeq
                rw [hl]
                simp only
                rw [h3]
              · simp only [List.map_cons, StorageClient.after_cons]
                exact h4
              · simp only [List.foldl_cons]
                exact h5

/-- C28. When `clusterIdsToHosts(space, ids, f)` succeeds, every iteration resolved
its id: the partition is `partId(space, f(id))`, the replicas are those of
`getPartHosts` and the leader is the answer of the `getLeader` call of the iteration.
The bucket `[h][p]` of the result holds exactly the ids whose iteration resolved
partition `p` and leader `h`, in input order, and all buckets together hold each
input id exactly once and nothing else. -/
theorem clusterIdsToHosts_buckets {α : Type} (c c1 : StorageClient)
    (fnv64_buf : List (Fin 256) → Nat) (cache : LocalCache)
    (getPartHosts : GraphSpaceID → PartitionID → StatusOr PartHosts) (s : GraphSpaceID)
    (ids : List (α × LeaderEnv)) (f : α → VertexID) (clusters : Clusters α)
    (h : c.clusterIdsToHosts fnv64_buf cache getPartHosts s ids f = .ok (.value clusters, c1)) :
    ∃ trace : List (Resolved α),
      trace.map (fun t => (t.id, t.env)) = ids ∧
      (∀ t ∈ trace, partId fnv64_buf cache s (f t.id) = .ok (.value t.part) ∧
        getPartHosts s t.part = .value t.partHosts) ∧
      c.getLeaderSeq (trace.map fun t => (t.env, t.partHosts))
        = .ok (trace.map fun t => t.answer) ∧
      c1 = c.after (trace.map fun t => t.answer) ∧
      (∀ h p, clusters.bucket h p
        = (trace.filter fun t => decide (t.answer.leader = h ∧ t.part = p)).map
            fun t => t.id) ∧
      clusters.allIds.Perm (ids.map Prod.fst) := by
  unfold StorageClient.clusterIdsToHosts at h
  obtain ⟨trace, h1, h2, h3, h4, h5⟩ :=
    StorageClient.clusterIdsToHostsLoop_ok _ _ ids c c1 [] clusters h
  obtain ⟨f1, f2⟩ := Clusters.foldl_add trace ([] : Clusters α)
  refine ⟨trace, h1, h2, h3, h4, fun h p => ?_, ?_⟩
  · rw [h5, f1 h p]
    simp [Clusters.bucket, umFind]
  · rw [h5]
    have e : ids.map Prod.fst = trace.map fun t => t.id := by
      rw [← h1, List.map_map]
      rfl
    rw [e]
    simpa [Clusters.allIds] using f2

theorem clusterIdsToHosts_buckets_witness :
    freshStorageClient.clusterIdsToHosts (fun _ => 0) scenarioCache
        (getPartHostsFromCache scenarioCache) 1 scenarioIds (fun v => v)
      = .ok (.value scenarioClusters, scenarioClient) ∧
    scenarioClusters.bucket hostB 2 = [vidOf 1, vidOf 5] ∧
    scenarioClusters.allIds.Perm (scenarioIds.map Prod.fst) :=
  ⟨by rfl, by decide,
    (clusterIdsToHosts_buckets freshStorageClient scenarioClient (fun _ => 0) scenarioCache
      (getPartHostsFromCache scenarioCache) 1 scenarioIds (fun v => v) scenarioClusters
      (by rfl)).choose_spec.2.2.2.2.2⟩

/-! ### Missed cases -/

/-- C35. When `getPartHosts` fails for the partition of an id, `clusterIdsToHosts`
returns `status.status()`, the status of the `partId` result, which is OK there, not
the status of the failed lookup. In space 1 of `gapCache` every id belongs to partition
1, which the cache does not hold: `getPartHostsFromCache` fails with "Part not found in
cache", and `clusterIdsToHosts` returns a result that holds the status OK. -/
theorem clusterIdsToHosts_lookup_failure_is_ok :
    partId (fun _ => 0) gapCache 1 (vidOf 1) = .ok (.value 1) ∧
    getPartHostsFromCache gapCache 1 1
      = .status (.Error ("Part not found in cache, spaceid: " ++ toString (1 : Int)
          ++ ", partid: " ++ toString (1 : Int))) ∧
    freshStorageClient.clusterIdsToHosts (fun _ => 0) gapCache (getPartHostsFromCache gapCache)
        1 [(vidOf 1, scenarioEnv 0)] (fun v => v)
      = .ok (.status .OK, freshStorageClient) := by
  refine ⟨by decide, by decide, by rfl⟩

/-- Whatever fails in `getPartHosts` for the first id, the status returned is OK. -/
theorem clusterIdsToHosts_first_lookup_fails {α : Type} (c : StorageClient)
    (fnv64_buf : List (Fin 256) → Nat) (cache : LocalCache)
    (getPartHosts : GraphSpaceID → PartitionID → StatusOr PartHosts) (s : GraphSpaceID)
    (id : α × LeaderEnv) (rest : List (α × LeaderEnv)) (f : α → VertexID) (p : PartitionID)
    (err : Status) (hp : partId fnv64_buf cache s (f id.1) = .ok (.value p))
    (hg : getPartHosts s p = .status err) :
    c.clusterIdsToHosts fnv64_buf cache getPartHosts s (id :: rest) f = .ok (.status .OK, c) := by
  simp only [StorageClient.clusterIdsToHosts, StorageClient.clusterIdsToHostsLoop, hp, hg]

/-- C36. In `checkPartExistInCache` the loop over the partitions of a known host falls
through to the final `return Status::SpaceNotFound()`. Space 1 of the old sample
snapshot is cached and host A holds its partitions 1, 2 and 5, but not 3: the call for
partition 3 returns `SpaceNotFound`, not `PartNotFound`, although the space is
cached; the sibling `checkSpaceExistInCache` reports the space as present. -/
theorem checkPartExist_known_host_other_part :
    (umFind snapOld 1).isSome = true ∧
    localParts snapOld hostA 1 = [1, 2, 5] ∧
    checkPartExistInCache snapOld hostA 1 3 = .SpaceNotFound ∧
    checkSpaceExistInCache snapOld hostA 1 = .OK ∧
    checkPartExistInCache snapOld hostC 1 3 = .PartNotFound := by
  decide

/-- What `checkPartExistInCache` returns, case by case. -/
theorem checkPartExist_cases (cache : LocalCache) (host : HostAddr) (s : GraphSpaceID)
    (p : PartitionID) :
    (umFind cache s = none → checkPartExistInCache cache host s p = .SpaceNotFound) ∧
    (∀ info, umFind cache s = some info → umFind info.partsOnHost_ host = none →
      checkPartExistInCache cache host s p = .PartNotFound) ∧
    (∀ info parts, umFind cache s = some info → umFind info.partsOnHost_ host = some parts →
      p ∈ parts → checkPartExistInCache cache host s p = .OK) ∧
    (∀ info parts, umFind cache s = some info → umFind info.partsOnHost_ host = some parts →
      p ∉ parts → checkPartExistInCache cache host s p = .SpaceNotFound) := by
  refine ⟨fun h => ?_, fun info h1 h2 => ?_, fun info parts h1 h2 h3 => ?_,
    fun info parts h1 h2 h3 => ?_⟩
  · simp only [checkPartExistInCache, h]
  · simp only [checkPartExistInCache, h1, h2]
  · simp only [checkPartExistInCache, h1, h2, if_pos h3]
  · simp only [checkPartExistInCache, h1, h2, if_neg h3]

/-- C37. For a space that is cached with an empty partition allocation `partsNum`
returns 0 and `partId` evaluates `vid % 0` for every id: the call does not return a
failure, it divides by zero. -/
theorem partId_zero_partitions (fnv64_buf : List (Fin 256) → Nat) (id : VertexID) :
    partsNum zeroPartsCache 1 = .value 0 ∧
    partId fnv64_buf zeroPartsCache 1 id = .error .divisionByZero := by
  refine ⟨by decide, ?_⟩
  have h : partsNum zeroPartsCache 1 = .value 0 := by decide
  simp only [partId, h]
  rfl

/-- C38. `loadIndexes` writes the member map `tagNameIndexMap_` in place with `emplace`,
which keeps an entry that is there, and nothing clears the map. After a load that
listed the tag index "idx" with id 10 and a second load that lists it with id 11 (the
index was dropped and created again), the name still maps to 10, the reloaded space
holds only index 11, and `getTagIndexByNameFromCache(1, "idx")` returns
`IndexNotFound`; the lookup by the new id finds the item. -/
theorem getTagIndexByName_stale_after_recreate :
    (loadDataSeq partHostsDiffer [indexServer [idxItem 10], indexServer [idxItem 11]]
        emptyClient).map Prod.fst = .ok [true, true] ∧
    (loadDataSeq partHostsDiffer [indexServer [idxItem 10], indexServer [idxItem 11]]
        emptyClient).map (fun r => getTagIndexByNameFromCache r.2 1 "idx")
      = .ok (.status .IndexNotFound) ∧
    (loadDataSeq partHostsDiffer [indexServer [idxItem 10], indexServer [idxItem 11]]
        emptyClient).map (fun r => getTagIndexFromCache r.2 1 11)
      = .ok (.value (idxItem 11)) ∧
    (loadDataSeq partHostsDiffer [indexServer [idxItem 10]] emptyClient).map
        (fun r => getTagIndexByNameFromCache r.2 1 "idx")
      = .ok (.value (idxItem 10)) := by
  decide

/-! ### The version lookup -/

theorem schemaAtChecked_eq (schemas : List (Int × List (Option NebulaSchemaProvider)))
    (id : Int) (ver : SchemaVer) :
    schemaAtChecked schemas id ver = .ok (schemaAt schemas id ver) := by
  unfold schemaAtChecked schemaAt
  cases umFind schemas id with
  | none => rfl
  | some vec =>
    simp only
    by_cases h : vec.length ≤ toUInt64 ver
    · rw [if_pos h, if_pos h]
    · rw [if_neg h, if_neg h, List.getElem?_eq_getElem (not_le.1 h),
        List.getD_eq_getElem?_getD, List.getElem?_eq_getElem (not_le.1 h)]
      rfl

theorem toUInt64_of_nonneg (ver : Int) (h0 : 0 ≤ ver) (h1 : ver < 9223372036854775808) :
    toUInt64 ver = ver.toNat := by
  unfold toUInt64
  omega

theorem toUInt64_of_neg (ver : Int) (h0 : ver < 0) (h1 : -9223372036854775808 ≤ ver) :
    9223372036854775808 ≤ toUInt64 ver := by
  unfold toUInt64
  omega

/-- The slot of a version in the arrays of a cached space, for every 64-bit `ver`. -/
theorem schemaAt_slot (schemas : List (Int × List (Option NebulaSchemaProvider)))
    (id : Int) (ver : Int)
    (hver : -9223372036854775808 ≤ ver ∧ ver < 9223372036854775808) :
    (umFind schemas id = none → schemaAt schemas id ver = none) ∧
    (∀ vec, umFind schemas id = some vec → vec.length < 9223372036854775808 →
      (ver < 0 ∨ (vec.length : Int) ≤ ver → schemaAt schemas id ver = none) ∧
      (0 ≤ ver → ver < (vec.length : Int) →
        schemaAt schemas id ver = vec.getD ver.toNat none)) := by
  refine ⟨fun h => by simp [schemaAt, h], fun vec h hlen => ⟨fun hout => ?_, fun h0 h1 => ?_⟩⟩
  · have hle : vec.length ≤ toUInt64 ver := by
      rcases hout with hneg | hbig
      · have := toUInt64_of_neg ver hneg hver.1
        omega
      · have h0 : 0 ≤ ver := le_trans (Int.ofNat_nonneg _) hbig
        rw [toUInt64_of_nonneg ver h0 hver.2]
        have h2 : ((vec.length : Nat) : Int) ≤ (ver : Int) := hbig
        have h3 : (0 : Int) ≤ (ver : Int) := h0
        omega
    simp only [schemaAt, h, if_pos hle]
  · have hnat : ver.toNat < vec.length := by
      have h2 : (ver : Int) < ((vec.length : Nat) : Int) := h1
      have h3 : (0 : Int) ≤ (ver : Int) := h0
      omega
    simp only [schemaAt, h, toUInt64_of_nonneg ver h0 hver.2, if_neg (not_le.2 hnat)]

/-- C33. For every client state and every 64-bit `ver`, the vector access of
`getTagSchemaFromCache` and `getEdgeSchemaFromCache` is never out of range: the calls
return. On a ready client and a cached space they return the empty handle when the id
is unknown, when `ver` is negative or not below the length of the array, and when the
slot of `ver` is empty; otherwise the schema in the slot. -/
theorem getSchemaFromCache_never_out_of_range (st : MetaClientState) (s : GraphSpaceID)
    (id : Int) (ver : SchemaVer)
    (hver : -9223372036854775808 ≤ ver ∧ ver < 9223372036854775808) :
    getTagSchemaFromCacheChecked st s id ver = .ok (getTagSchemaFromCache st s id ver) ∧
    getEdgeSchemaFromCacheChecked st s id ver = .ok (getEdgeSchemaFromCache st s id ver) ∧
    (st.ready_ = true → ∀ info, umFind st.localCache_ s = some info →
      (umFind info.tagSchemas_ id = none → getTagSchemaFromCache st s id ver = .value none) ∧
      (umFind info.edgeSchemas_ id = none → getEdgeSchemaFromCache st s id ver = .value none) ∧
      (∀ vec, umFind info.tagSchemas_ id = some vec → vec.length < 9223372036854775808 →
        (ver < 0 ∨ (vec.length : Int) ≤ ver →
          getTagSchemaFromCache st s id ver = .value none) ∧
        (0 ≤ ver → ver < (vec.length : Int) →
          getTagSchemaFromCache st s id ver = .value (vec.getD ver.toNat none))) ∧
      (∀ vec, umFind info.edgeSchemas_ id = some vec → vec.length < 9223372036854775808 →
        (ver < 0 ∨ (vec.length : Int) ≤ ver →
          getEdgeSchemaFromCache st s id ver = .value none) ∧
        (0 ≤ ver → ver < (vec.length : Int) →
          getEdgeSchemaFromCache st s id ver = .value (vec.getD ver.toNat none)))) := by
  refine ⟨?_, ?_, fun hr info hi => ?_⟩
  · unfold getTagSchemaFromCacheChecked getTagSchemaFromCache
    by_cases hr : st.ready_ = true
    · cases hc : umFind st.localCache_ s with
      | none => simp [hr]
      | some info => simp [hr, schemaAtChecked_eq]
    · simp [hr]
  · unfold getEdgeSchemaFromCacheChecked getEdgeSchemaFromCache
    by_cases hr : st.ready_ = true
    · cases hc : umFind st.localCache_ s with
      | none => simp [hr]
      | some info => simp [hr, schemaAtChecked_eq]
    · simp [hr]
  · obtain ⟨t1, t2⟩ := schemaAt_slot info.tagSchemas_ id ver hver
    obtain ⟨e1, e2⟩ := schemaAt_slot info.edgeSchemas_ id ver hver
    have ht : getTagSchemaFromCache st s id ver = .value (schemaAt info.tagSchemas_ id ver) := by
      simp [getTagSchemaFromCache, hr, hi]
    have he : getEdgeSchemaFromCache st s id ver
        = .value (schemaAt info.edgeSchemas_ id ver) := by
      simp [getEdgeSchemaFromCache, hr, hi]
    refine ⟨fun h => by rw [ht, t1 h], fun h => by rw [he, e1 h],
      fun vec hv hl => ⟨fun ho => ?_, fun h0 h1 => ?_⟩,
      fun vec hv hl => ⟨fun ho => ?_, fun h0 h1 => ?_⟩⟩
    · rw [ht, (t2 vec hv hl).1 ho]
    · rw [ht, (t2 vec hv hl).2 h0 h1]
    · rw [he, (e2 vec hv hl).1 ho]
    · rw [he, (e2 vec hv hl).2 h0 h1]

theorem getSchemaFromCache_never_out_of_range_witness :
    (-9223372036854775808 ≤ (-1 : Int) ∧ (-1 : Int) < 9223372036854775808) ∧
    getTagSchemaFromCacheChecked
        (stateAfter (loadData partHostsDiffer (schemaServer [tagT0, tagU0, tagT1]) emptyClient))
        1 2 (-1)
      = .ok (getTagSchemaFromCache
          (stateAfter (loadData partHostsDiffer (schemaServer [tagT0, tagU0, tagT1]) emptyClient))
          1 2 (-1)) ∧
    getTagSchemaFromCache
        (stateAfter (loadData partHostsDiffer (schemaServer [tagT0, tagU0, tagT1]) emptyClient))
        1 2 (-1) = .value none :=
  ⟨by decide,
    (getSchemaFromCache_never_out_of_range
      (stateAfter (loadData partHostsDiffer (schemaServer [tagT0, tagU0, tagT1]) emptyClient))
      1 2 (-1) (by decide)).1, by decide⟩

/-- A gap slot and a version beyond the array give the empty handle: after the listing
`T v1, U v0, T v0` the array of "T" has lost slot 1, and version 7 was never there. -/
theorem getSchemaFromCache_gap_sample :
    getTagSchemaFromCacheChecked
        (stateAfter (loadData partHostsDiffer (schemaServer [tagT1, tagU0, tagT0]) emptyClient))
        1 2 1 = .ok (.value none) ∧
    getTagSchemaFromCacheChecked
        (stateAfter (loadData partHostsDiffer (schemaServer [tagT1, tagU0, tagT0]) emptyClient))
        1 2 7 = .ok (.value none) ∧
    getEdgeSchemaFromCacheChecked
        (stateAfter (loadData partHostsDiffer (edgeServer [edgeE0, edgeE1]) emptyClient))
        1 5 (-9223372036854775808) = .ok (.value none) := by
  decide

/-! ### Space-level calls of `diff` -/

theorem partAddedOrUpdated_kind (differs : PartHosts → PartHosts → Bool)
    (oparts : List (PartitionID × PartHosts)) (q : PartitionID × PartHosts)
    (ev : ListenerEvent) (hev : ev ∈ partAddedOrUpdated differs oparts q) :
    ev = .onPartAdded q.2 ∨ ev = .onPartUpdated q.2 := by
  unfold partAddedOrUpdated at hev
  cases h : umFind oparts q.1 with
  | none =>
    rw [h] at hev
    simp only [List.mem_singleton] at hev
    exact Or.inl hev
  | some oph =>
    rw [h] at hev
    simp only at hev
    by_cases hd : differs oph q.2 = true
    · rw [if_pos hd] at hev
      simp only [List.mem_singleton] at hev
      exact Or.inr hev
    · rw [if_neg hd] at hev
      simp at hev

theorem partRemoved_kind (s : GraphSpaceID) (nparts : List (PartitionID × PartHosts))
    (q : PartitionID × PartHosts) (ev : ListenerEvent) (hev : ev ∈ partRemoved s nparts q) :
    ev = .onPartRemoved s q.1 := by
  unfold partRemoved at hev
  cases h : umFind nparts q.1 with
  | none =>
    rw [h] at hev
    simp only [List.mem_singleton] at hev
    exact hev
  | some nph =>
    rw [h] at hev
    simp at hev

theorem spaceAdded_mem_addedEvents (differs : PartHosts → PartHosts → Bool) (oldPM : PartsMap)
    (e : GraphSpaceID × List (PartitionID × PartHosts)) (s : GraphSpaceID) :
    ListenerEvent.onSpaceAdded s ∈ addedEvents differs oldPM e
      ↔ s = e.1 ∧ umFind oldPM e.1 = none := by
  unfold addedEvents
  cases ho : umFind oldPM e.1 with
  | none => simp
  | some oparts =>
    simp only [List.mem_flatMap]
    constructor
    · rintro ⟨q, _, hq⟩
      rcases partAddedOrUpdated_kind differs oparts q _ hq with h | h <;> cases h
    · rintro ⟨_, h⟩
      cases h

theorem spaceRemoved_not_mem_addedEvents (differs : PartHosts → PartHosts → Bool)
    (oldPM : PartsMap) (e : GraphSpaceID × List (PartitionID × PartHosts)) (s : GraphSpaceID) :
    ListenerEvent.onSpaceRemoved s ∉ addedEvents differs oldPM e := by
  unfold addedEvents
  cases ho : umFind oldPM e.1 with
  | none => simp
  | some oparts =>
    simp only [List.mem_flatMap]
    rintro ⟨q, _, hq⟩
    rcases partAddedOrUpdated_kind differs oparts q _ hq with h | h <;> cases h

theorem spaceRemoved_mem_removedEvents (newPM : PartsMap)
    (e : GraphSpaceID × List (PartitionID × PartHosts)) (s : GraphSpaceID) :
    ListenerEvent.onSpaceRemoved s ∈ removedEvents newPM e
      ↔ s = e.1 ∧ umFind newPM e.1 = none := by
  unfold removedEvents
  cases hn : umFind newPM e.1 with
  | none => simp
  | some nparts =>
    simp only [List.mem_flatMap]
    constructor
    · rintro ⟨q, _, hq⟩
      cases partRemoved_kind e.1 nparts q _ hq
    · rintro ⟨_, h⟩
      cases h

theorem spaceAdded_not_mem_removedEvents (newPM : PartsMap)
    (e : GraphSpaceID × List (PartitionID × PartHosts)) (s : GraphSpaceID) :
    ListenerEvent.onSpaceAdded s ∉ removedEvents newPM e := by
  unfold removedEvents
  cases hn : umFind newPM e.1 with
  | none => simp
  | some nparts =>
    simp only [List.mem_flatMap]
    rintro ⟨q, _, hq⟩
    cases partRemoved_kind e.1 nparts q _ hq

theorem partsMapEntry_isSome_iff (host : HostAddr) (cache : LocalCache) (s : GraphSpaceID) :
    partsMapEntry host cache s = none ↔ localParts cache host s = [] := by
  constructor
  · exact partsMapEntry_none host cache s
  · intro h
    cases hp : partsMapEntry host cache s with
    | none => rfl
    | some parts => exact absurd h (partsMapEntry_facts host cache s parts hp).2.2.2

/-- C34 as stated fails: space 1 is present in both snapshots, and host A gains its
first partition of it; `diff` for host A calls `onSpaceAdded(1)` before the
`onPartAdded`. In the other direction, when host A loses its last partition of the
space, `diff` calls `onSpaceRemoved(1)`. -/
theorem diff_first_local_part_adds_space :
    (umFind snapBefore 1).isSome = true ∧ (umFind snapAfter 1).isSome = true ∧
    diff partHostsDiffer true hostA snapBefore snapAfter
      = .ok [.onSpaceAdded 1, .onPartAdded { spaceId_ := 1, partId_ := 2, hosts_ := [hostA] }] ∧
    diff partHostsDiffer true hostA snapAfter snapBefore
      = .ok [.onPartRemoved 1 2, .onSpaceRemoved 1] := by
  decide

/-- C34, amended. `diff` calls `onSpaceAdded(s)` exactly for the spaces in which the
local host holds a partition in the new snapshot and none in the old one, and
`onSpaceRemoved(s)` exactly for the spaces in which it holds a partition in the old
snapshot and none in the new one; a space in which the local host holds partitions in
both snapshots gets neither call. -/
theorem diff_space_level_calls (differs : PartHosts → PartHosts → Bool) (host : HostAddr)
    (old new : LocalCache) (ho : IsSnapshot old) (hn : IsSnapshot new) :
    ∃ evs : List ListenerEvent, diff differs true host old new = .ok evs ∧
      (∀ s, ListenerEvent.onSpaceAdded s ∈ evs
        ↔ localParts new host s ≠ [] ∧ localParts old host s = []) ∧
      (∀ s, ListenerEvent.onSpaceRemoved s ∈ evs
        ↔ localParts old host s ≠ [] ∧ localParts new host s = []) ∧
      (∀ s, localParts old host s ≠ [] → localParts new host s ≠ [] →
        ListenerEvent.onSpaceAdded s ∉ evs ∧ ListenerEvent.onSpaceRemoved s ∉ evs) := by
  obtain ⟨oldPM, newPM, hd, hpo, hpn⟩ := diff_snapshot differs host old new ho hn
  have hadd : ∀ s, ListenerEvent.onSpaceAdded s ∈ diffAdded differs oldPM newPM ++
      diffRemoved oldPM newPM ↔ localParts new host s ≠ [] ∧ localParts old host s = [] := by
    intro s
    rw [← partsMapEntry_isSome_iff host old s, ← hpo.find s]
    simp only [List.mem_append, diffAdded_eq, diffRemoved_eq, List.mem_flatMap]
    constructor
    · rintro (⟨e, he, hm⟩ | ⟨e, _, hm⟩)
      · obtain ⟨h1, h2⟩ := (spaceAdded_mem_addedEvents differs oldPM e s).1 hm
        subst h1
        exact ⟨(partsMapEntry_facts host new e.1 e.2 (hpn.entry e he)).2.2.2, h2⟩
      · exact absurd hm (spaceAdded_not_mem_removedEvents newPM e s)
    · rintro ⟨h1, h2⟩
      obtain ⟨parts, hparts⟩ := partsMapEntry_local host new s h1
      have hfn : umFind newPM s = some parts := by rw [hpn.find, hparts]
      exact Or.inl ⟨(s, parts), umFind_some_mem _ _ _ hfn,
        (spaceAdded_mem_addedEvents differs oldPM (s, parts) s).2 ⟨rfl, h2⟩⟩
  have hrem : ∀ s, ListenerEvent.onSpaceRemoved s ∈ diffAdded differs oldPM newPM ++
      diffRemoved oldPM newPM ↔ localParts old host s ≠ [] ∧ localParts new host s = [] := by
    intro s
    rw [← partsMapEntry_isSome_iff host new s, ← hpn.find s]
    simp only [List.mem_append, diffAdded_eq, diffRemoved_eq, List.mem_flatMap]
    constructor
    · rintro (⟨e, _, hm⟩ | ⟨e, he, hm⟩)
      · exact absurd hm (spaceRemoved_not_mem_addedEvents differs oldPM e s)
      · obtain ⟨h1, h2⟩ := (spaceRemoved_mem_removedEvents newPM e s).1 hm
        subst h1
        exact ⟨(partsMapEntry_facts host old e.1 e.2 (hpo.entry e he)).2.2.2, h2⟩
    · rintro ⟨h1, h2⟩
      obtain ⟨parts, hparts⟩ := partsMapEntry_local host old s h1
      have hfo : umFind oldPM s = some parts := by rw [hpo.find, hparts]
      exact Or.inr ⟨(s, parts), umFind_some_mem _ _ _ hfo,
        (spaceRemoved_mem_removedEvents newPM (s, parts) s).2 ⟨rfl, h2⟩⟩
  refine ⟨_, hd, hadd, hrem, fun s h1 h2 => ⟨?_, ?_⟩⟩
  · rw [hadd s]; exact fun h => h1 h.2
  · rw [hrem s]; exact fun h => h2 h.2

theorem diff_space_level_calls_witness :
    IsSnapshot snapBefore ∧ IsSnapshot snapAfter ∧
    ∃ evs : List ListenerEvent, diff partHostsDiffer true hostA snapBefore snapAfter = .ok evs ∧
      (∀ s, ListenerEvent.onSpaceAdded s ∈ evs
        ↔ localParts snapAfter hostA s ≠ [] ∧ localParts snapBefore hostA s = []) :=
  ⟨⟨by decide, by decide⟩, ⟨by decide, by decide⟩, by
    obtain ⟨evs, h1, h2, _⟩ := diff_space_level_calls partHostsDiffer hostA snapBefore snapAfter
      ⟨by decide, by decide⟩ ⟨by decide, by decide⟩
    exact ⟨evs, h1, h2⟩⟩

/-! ### Division and modulus of INT values -/

/-- C40. For the INT operands `INT64_MIN` and `-1` the operators evaluate the `int64_t`
expressions `lhs.getInt() / denom` and `lhs.getInt() % denom`, whose quotient does not
fit: the division overflows instead of returning a Value. Only the divisor 0 is
guarded. -/
theorem value_div_min_by_minus_one (fo : FloatOps) :
    Value.div fo (.int (-9223372036854775808)) (.int (-1)) = .error .overflow ∧
    Value.mod fo (.int (-9223372036854775808)) (.int (-1)) = .error .overflow ∧
    Value.div fo (.int (-9223372036854775808)) (.int 0) = .ok (.null .DIV_BY_ZERO) ∧
    Value.div fo (.int (-9223372036854775807)) (.int (-1)) = .ok (.int 9223372036854775807) := by
  refine ⟨?_, ?_, ?_, ?_⟩ <;> simp [Value.div, Value.mod, int64Div, int64Mod, Except.map]

/-- The rest of C40 holds: a null operand is returned (the left one first), the
divisor 0 gives `DIV_BY_ZERO`, and every other pair of INT operands except
`INT64_MIN` and `-1` gives the truncated quotient and remainder. -/
theorem value_div_int (fo : FloatOps) (a b : Int) (t u : NullType) (v : Value) :
    Value.div fo (.null t) v = .ok (.null t) ∧ Value.mod fo (.null t) v = .ok (.null t) ∧
    Value.div fo (.int a) (.null u) = .ok (.null u) ∧
    Value.mod fo (.int a) (.null u) = .ok (.null u) ∧
    Value.div fo (.int a) (.int 0) = .ok (.null .DIV_BY_ZERO) ∧
    Value.mod fo (.int a) (.int 0) = .ok (.null .DIV_BY_ZERO) ∧
    (b ≠ 0 → ¬ (a = -9223372036854775808 ∧ b = -1) →
      Value.div fo (.int a) (.int b) = .ok (.int (Int.tdiv a b)) ∧
      Value.mod fo (.int a) (.int b) = .ok (.int (Int.tmod a b))) := by
  refine ⟨?_, ?_, ?_, ?_, ?_, ?_, fun hb hov => ⟨?_, ?_⟩⟩
  · cases v <;> rfl
  · cases v <;> rfl
  · rfl
  · rfl
  · simp [Value.div]
  · simp [Value.mod]
  · simp [Value.div, hb, int64Div, hov, Except.map]
  · simp [Value.mod, hb, int64Mod, hov, Except.map]

/-! ### The configuration merge -/

theorem updateGflagsValue_frame (env : ConfigEnv) (hasListener : Bool) (c c1 : ConfigState)
    (item : ConfigItem) (h : updateGflagsValue env hasListener c item = .ok c1) :
    c1.metaConfigMap_ = c.metaConfigMap_ ∧ c1.gflagsCalls = c.gflagsCalls ++ [item] ∧
    c1.configReady_ = c.configReady_ := by
  unfold updateGflagsValue at h
  simp only at h
  split at h
  · have := Except.ok.inj h
    subst this
    exact ⟨rfl, rfl, rfl⟩
  · split at h
    · simp at h
    · split at h
      · have := Except.ok.inj h
        subst this
        exact ⟨rfl, rfl, rfl⟩
      · split at h
        · split at h
          · have := Except.ok.inj h
            subst this
            exact ⟨rfl, rfl, rfl⟩
          · have := Except.ok.inj h
            subst this
            exact ⟨rfl, rfl, rfl⟩
        · have := Except.ok.inj h
          subst this
          exact ⟨rfl, rfl, rfl⟩

theorem mergeCfgEntry_ok (env : ConfigEnv) (hasListener : Bool) (c c1 : ConfigState)
    (entry : (Int × String) × ConfigItem)
    (h : mergeCfgEntry env hasListener c entry = .ok c1) :
    c1.metaConfigMap_ = (if cfgChanged env.valueNe c.metaConfigMap_ entry
      then umAssign c.metaConfigMap_ entry.1 entry.2 else c.metaConfigMap_) ∧
    c1.gflagsCalls = c.gflagsCalls ++
      (if cfgChanged env.valueNe c.metaConfigMap_ entry then [entry.2] else []) ∧
    c1.configReady_ = c.configReady_ := by
  unfold mergeCfgEntry at h
  by_cases hc : cfgChanged env.valueNe c.metaConfigMap_ entry = true
  · rw [if_pos hc] at h
    cases hu : updateGflagsValue env hasListener c entry.2 with
    | error e => rw [hu] at h; simp at h
    | ok c2 =>
      rw [hu] at h
      have := Except.ok.inj h
      subst this
      obtain ⟨h1, h2, h3⟩ := updateGflagsValue_frame env hasListener c c2 entry.2 hu
      simp only [if_pos hc]
      exact ⟨by rw [h1], h2, h3⟩
  · rw [if_neg hc] at h
    have := Except.ok.inj h
    subst this
    simp [hc]

theorem cfgChanged_congr (valueNe : VariantType → VariantType → Bool)
    (cache1 cache2 : MetaConfigMap) (entry : (Int × String) × ConfigItem)
    (h : umFind cache1 entry.1 = umFind cache2 entry.1) :
    cfgChanged valueNe cache1 entry = cfgChanged valueNe cache2 entry := by
  unfold cfgChanged
  rw [h]

/-- The merge loop over listed entries with distinct keys: the calls of
`updateGflagsValue` are those for the entries that count as changed against the cache
before the loop, and the cache afterwards is the merge. -/
theorem mergeCfg_fold (env : ConfigEnv) (hasListener : Bool)
    (es : MetaConfigMap) :
    ∀ (c c1 : ConfigState), (es.map Prod.fst).Nodup →
      foldlE (mergeCfgEntry env hasListener) c es = .ok c1 →
      c1.gflagsCalls = c.gflagsCalls
        ++ (es.filter (cfgChanged env.valueNe c.metaConfigMap_)).map Prod.snd ∧
      (∀ key, umFind c1.metaConfigMap_ key = cfgMerged env.valueNe c.metaConfigMap_ es key) ∧
      c1.configReady_ = c.configReady_ := by
  induction es with
  | nil =>
    intro c c1 _ h
    simp only [foldlE, Except.ok.injEq] at h
    subst h
    exact ⟨by simp, fun key => by simp [cfgMerged, umFind], rfl⟩
  | cons e rest ih =>
    intro c c1 hnd h
    obtain ⟨cm, hcm, hrest⟩ := foldlE_cons_ok _ _ _ _ _ h
    obtain ⟨m1, m2, m3⟩ := mergeCfgEntry_ok env hasListener c cm e hcm
    rw [List.map_cons, List.nodup_cons] at hnd
    obtain ⟨i1, i2, i3⟩ := ih cm c1 hnd.2 hrest
    have hother : ∀ key, key ≠ e.1 → umFind cm.metaConfigMap_ key = umFind c.metaConfigMap_ key := by
      intro key hk
      rw [m1]
      by_cases hc : cfgChanged env.valueNe c.metaConfigMap_ e = true
      · rw [if_pos hc, umFind_umAssign, if_neg hk]
      · rw [if_neg hc]
    have hfilter : rest.filter (cfgChanged env.valueNe cm.metaConfigMap_)
        = rest.filter (cfgChanged env.valueNe c.metaConfigMap_) := by
      apply List.filter_congr
      intro x hx
      have hne : x.1 ≠ e.1 := fun hc => hnd.1 (by rw [← hc]; exact List.mem_map_of_mem _ hx)
      rw [cfgChanged_congr env.valueNe _ _ x (hother x.1 hne)]
    refine ⟨?_, fun key => ?_, by rw [i3, m3]⟩
    · rw [i1, m2, hfilter, List.filter_cons]
      by_cases hc : cfgChanged env.valueNe c.metaConfigMap_ e = true
      · simp [hc]
      · simp [hc]
    · rw [i2 key]
      obtain ⟨k0, it0⟩ := e
      by_cases hk : key = k0
      · subst hk
        have hrk : umFind rest key = none :=
          (umFind_eq_none_iff rest key).2 hnd.1
        simp only [cfgMerged, hrk, umFind, if_true]
        rw [m1]
        by_cases hc : cfgChanged env.valueNe c.metaConfigMap_ (key, it0) = true
        · rw [if_pos hc, if_pos hc, umFind_umAssign, if_pos rfl]
        · rw [if_neg hc, if_neg hc]
      · have hk2 : ¬ k0 = key := fun hc => hk hc.symm
        simp only [cfgMerged, umFind, if_neg hk2]
        cases hr : umFind rest key with
        | none => exact hother key hk
        | some item =>
          simp only
          rw [cfgChanged_congr env.valueNe cm.metaConfigMap_ c.metaConfigMap_ (key, item)
            (hother key hk), hother key hk]

theorem umEmplace_keys_nodup {K V : Type} [DecidableEq K] (m : List (K × V)) (k : K) (v : V)
    (hnd : (m.map Prod.fst).Nodup) : ((umEmplace m k v).map Prod.fst).Nodup := by
  unfold umEmplace
  cases h : umFind m k with
  | some c => exact hnd
  | none =>
    simp only [List.map_append, List.map_cons, List.map_nil]
    rw [List.nodup_append]
    refine ⟨hnd, List.nodup_singleton _, ?_⟩
    intro a ha hb
    rw [List.mem_singleton] at hb
    subst hb
    exact (umFind_eq_none_iff m a).1 h ha

/-- The local map of the listed items: distinct keys, and under every key the first
listed item with that key. -/
theorem cfgListed_facts (items : List ConfigItem) :
    ((cfgListed items).map Prod.fst).Nodup ∧
    ∀ key, umFind (cfgListed items) key
      = items.find? (fun it => decide ((it.module_, it.name_) = key)) := by
  have gen : ∀ (items : List ConfigItem) (m : MetaConfigMap), (m.map Prod.fst).Nodup →
      ((items.foldl (fun m item => umEmplace m (item.module_, item.name_) item) m).map
        Prod.fst).Nodup ∧
      ∀ key, umFind (items.foldl (fun m item => umEmplace m (item.module_, item.name_) item) m) key
        = (umFind m key).orElse
            (fun _ => items.find? (fun it => decide ((it.module_, it.name_) = key))) := by
    intro items
    induction items with
    | nil =>
      intro m hm
      refine ⟨hm, fun key => ?_⟩
      cases hmk : umFind m key <;> simp [hmk]
    | cons it rest ih =>
      intro m hm
      obtain ⟨h1, h2⟩ := ih (umEmplace m (it.module_, it.name_) it)
        (umEmplace_keys_nodup m _ _ hm)
      refine ⟨h1, fun key => ?_⟩
      simp only [List.foldl_cons]
      rw [h2 key, umFind_umEmplace]
      cases hm2 : umFind m key with
      | some c => simp
      | none =>
        by_cases hk : key = (it.module_, it.name_)
        · subst hk; simp
        · have hk2 : ¬ (it.module_, it.name_) = key := fun hc => hk hc.symm
          simp [hk, List.find?_cons, hk2]
  obtain ⟨h1, h2⟩ := gen items [] List.nodup_nil
  refine ⟨h1, fun key => ?_⟩
  have := h2 key
  simpa [cfgListed, umFind] using this

/-- A successful `loadCfg`, taken apart. -/
theorem loadCfg_success (env : ConfigEnv) (hasListener : Bool) (c c1 : ConfigState)
    (h : loadCfg env hasListener c = .ok (true, c1)) :
    ∃ items c0, env.listConfigs = .value items ∧
      c0.metaConfigMap_ = c.metaConfigMap_ ∧ c0.gflagsCalls = c.gflagsCalls ∧
      foldlE (mergeCfgEntry env hasListener) c0 (cfgListed items) = .ok c1 := by
  have hr : (if c.configReady_ = true then (true, c) else registerCfg env c).2.metaConfigMap_
      = c.metaConfigMap_ ∧
      (if c.configReady_ = true then (true, c) else registerCfg env c).2.gflagsCalls
        = c.gflagsCalls := by
    by_cases hc : c.configReady_ = true
    · simp [hc]
    · simp only [if_neg hc, registerCfg]
      cases env.regConfig <;> exact ⟨rfl, rfl⟩
  unfold loadCfg at h
  simp only at h
  generalize (if c.configReady_ = true then (true, c) else registerCfg env c) = r at h hr
  by_cases hb : (!r.1) = true
  · rw [if_pos hb] at h
    simp at h
  · rw [if_neg hb] at h
    cases hl : env.listConfigs with
    | status x => rw [hl] at h; simp at h
    | value items =>
      rw [hl] at h
      simp only at h
      cases hf : foldlE (mergeCfgEntry env hasListener) r.2 (cfgListed items) with
      | error e => rw [hf] at h; simp at h
      | ok c2 =>
        rw [hf] at h
        simp only [Except.ok.injEq, Prod.mk.injEq, true_and] at h
        subst h
        exact ⟨items, r.2, rfl, hr.1, hr.2, hf⟩

theorem cfgListed_of_nodup (items : List ConfigItem)
    (hnd : (items.map (fun it => (it.module_, it.name_))).Nodup) :
    cfgListed items = items.map (fun it => ((it.module_, it.name_), it)) := by
  have gen : ∀ (items : List ConfigItem) (m : MetaConfigMap),
      (items.map (fun it => (it.module_, it.name_))).Nodup →
      (∀ it ∈ items, (it.module_, it.name_) ∉ m.map Prod.fst) →
      items.foldl (fun m item => umEmplace m (item.module_, item.name_) item) m
        = m ++ items.map (fun it => ((it.module_, it.name_), it)) := by
    intro items
    induction items with
    | nil => intro m _ _; simp
    | cons it rest ih =>
      intro m hnd hdis
      rw [List.map_cons, List.nodup_cons] at hnd
      have hnone : umFind m (it.module_, it.name_) = none :=
        (umFind_eq_none_iff m _).2 (hdis it (List.mem_cons_self _ _))
      have he : umEmplace m (it.module_, it.name_) it = m ++ [((it.module_, it.name_), it)] := by
        simp [umEmplace, hnone]
      simp only [List.foldl_cons, List.map_cons]
      rw [he, ih _ hnd.2, List.append_assoc]
      · rfl
      · intro x hx hmem
        rw [List.map_append, List.mem_append] at hmem
        rcases hmem with hmem | hmem
        · exact hdis x (List.mem_cons_of_mem _ hx) hmem
        · simp only [List.map_cons, List.map_nil, List.mem_singleton] at hmem
          apply hnd.1
          rw [← hmem]
          exact List.mem_map_of_mem (fun it => (it.module_, it.name_)) hx
  have := gen items [] hnd (fun _ _ => by simp)
  simpa [cfgListed] using this

/-- C32. The merge of `MetaClient::loadCfg`. Let `loadCfg` return `true` after the
server listed `items`, whose (module, name) keys are distinct. Then (1)
`updateGflagsValue` was called, once each, with exactly the listed items whose key had
no entry in the configuration cache before or whose cached value differs from the
listed one (`operator!=` of the variant), (2) which is what the test `cfgChanged`
says, (3) the cache entry of such an item is the listed item afterwards and the entry
of any other listed item is the one from before, (4) so that, when values that do not
differ are equal, the cache holds under every listed key the listed value, and (5) the
entry of every key that was not listed is unchanged. -/
theorem loadCfg_merge (env : ConfigEnv) (hasListener : Bool) (c c1 : ConfigState)
    (items : List ConfigItem) (hlist : env.listConfigs = .value items)
    (hnd : (items.map (fun it => (it.module_, it.name_))).Nodup)
    (h : loadCfg env hasListener c = .ok (true, c1)) :
    c1.gflagsCalls = c.gflagsCalls ++ items.filter
      (fun it => cfgChanged env.valueNe c.metaConfigMap_ ((it.module_, it.name_), it)) ∧
    (∀ it ∈ items,
      (cfgChanged env.valueNe c.metaConfigMap_ ((it.module_, it.name_), it) = true ↔
        (umFind c.metaConfigMap_ (it.module_, it.name_) = none ∨
         ∃ cached : ConfigItem, umFind c.metaConfigMap_ (it.module_, it.name_) = some cached ∧
           env.valueNe it.value_ cached.value_ = true))) ∧
    (∀ it ∈ items, umFind c1.metaConfigMap_ (it.module_, it.name_) =
      if cfgChanged env.valueNe c.metaConfigMap_ ((it.module_, it.name_), it) then some it
      else umFind c.metaConfigMap_ (it.module_, it.name_)) ∧
    ((∀ a b, env.valueNe a b = false → a = b) →
      ∀ it ∈ items, ∃ cached : ConfigItem,
        umFind c1.metaConfigMap_ (it.module_, it.name_) = some cached ∧
        cached.value_ = it.value_) ∧
    (∀ key, key ∉ items.map (fun it => (it.module_, it.name_)) →
      umFind c1.metaConfigMap_ key = umFind c.metaConfigMap_ key) := by
  obtain ⟨items1, c0, hl, hm, hg, hf⟩ := loadCfg_success env hasListener c c1 h
  rw [hlist] at hl
  have hi := StatusOr.value.inj hl
  subst hi
  obtain ⟨hnd1, hfind⟩ := cfgListed_facts items
  obtain ⟨f1, f2, _⟩ := mergeCfg_fold env hasListener (cfgListed items) c0 c1 hnd1 hf
  rw [hm] at f1 f2
  rw [hg] at f1
  have hfirst : ∀ it ∈ items, umFind (cfgListed items) (it.module_, it.name_) = some it := by
    intro it hit
    rw [cfgListed_of_nodup items hnd]
    have hmem : ((it.module_, it.name_), it)
        ∈ items.map (fun it => ((it.module_, it.name_), it)) :=
      List.mem_map_of_mem (fun it => ((it.module_, it.name_), it)) hit
    have hnd2 : ((items.map (fun it => ((it.module_, it.name_), it))).map Prod.fst).Nodup := by
      rw [List.map_map]
      exact hnd
    exact umFind_of_mem_nodup _ _ _ hnd2 hmem
  have hentry : ∀ it ∈ items, umFind c1.metaConfigMap_ (it.module_, it.name_) =
      if cfgChanged env.valueNe c.metaConfigMap_ ((it.module_, it.name_), it) then some it
      else umFind c.metaConfigMap_ (it.module_, it.name_) := by
    intro it hit
    rw [f2, cfgMerged, hfirst it hit]
  have hiff : ∀ it : ConfigItem,
      (cfgChanged env.valueNe c.metaConfigMap_ ((it.module_, it.name_), it) = true ↔
        (umFind c.metaConfigMap_ (it.module_, it.name_) = none ∨
         ∃ cached : ConfigItem, umFind c.metaConfigMap_ (it.module_, it.name_) = some cached ∧
           env.valueNe it.value_ cached.value_ = true)) := by
    intro it
    unfold cfgChanged
    cases hc : umFind c.metaConfigMap_ (it.module_, it.name_) with
    | none => simp [hc]
    | some cached => simp [hc]
  refine ⟨?_, fun it _ => hiff it, hentry, ?_, ?_⟩
  · rw [f1, cfgListed_of_nodup items hnd, List.filter_map, List.map_map]
    congr 1
    simp [Function.comp_def]
  · intro hne it hit
    rw [hentry it hit]
    by_cases hc : cfgChanged env.valueNe c.metaConfigMap_ ((it.module_, it.name_), it) = true
    · exact ⟨it, by rw [if_pos hc], rfl⟩
    · rw [if_neg hc]
      have hc2 := hc
      unfold cfgChanged at hc2
      cases hu : umFind c.metaConfigMap_ (it.module_, it.name_) with
      | none => rw [hu] at hc2; simp at hc2
      | some cached =>
        rw [hu] at hc2
        simp only [Bool.not_eq_true] at hc2
        exact ⟨cached, rfl, (hne _ _ hc2).symm⟩
  · intro key hkey
    rw [f2, cfgMerged]
    have hnone : umFind (cfgListed items) key = none := by
      rw [cfgListed_of_nodup items hnd]
      apply (umFind_eq_none_iff _ key).2
      rw [List.map_map]
      exact hkey
    rw [hnone]

/-- The theorem `loadCfg_merge` at the sample load: `b` has a new value and `c` is
new, `a` is as cached and `z` is not listed. -/
theorem loadCfg_merge_witness :
    loadCfg sampleConfigEnv false sampleConfigState = .ok (true, sampleConfigAfter) ∧
    sampleConfigAfter.gflagsCalls = [cfgItem "b" 5, cfgItem "c" 7] ∧
    umFind sampleConfigAfter.metaConfigMap_ (1, "z") = some (cfgItem "z" 9) :=
  ⟨by decide,
   (loadCfg_merge sampleConfigEnv false sampleConfigState sampleConfigAfter
      sampleListedItems rfl (by decide) (by decide)).1,
   (loadCfg_merge sampleConfigEnv false sampleConfigState sampleConfigAfter
      sampleListedItems rfl (by decide) (by decide)).2.2.2.2 (1, "z") (by decide)⟩

/-! ### The heartbeat task -/

/-- A heartbeat that fails delivers its status and leaves the timestamps and the
caches alone. -/
theorem heartbeat_status (env : HeartbeatEnv) (c : MetaClient) (s : Status)
    (hb : env.heartBeat = .status s) :
    ∃ c1 : MetaClient, heartbeat env c = .ok (.status s, c1) ∧
      c1.localLastUpdateTime_ = c.localLastUpdateTime_ ∧
      c1.metadLastUpdateTime_ = c.metadLastUpdateTime_ ∧
      c1.st = c.st ∧ c1.cfg = c.cfg ∧ c1.skipConfig_ = c.skipConfig_ := by
  unfold heartbeat
  simp only [hb]
  by_cases h0 : c.inStoraged_ = true ∧ c.clusterId_ = 0
  · rw [if_pos h0]
    exact ⟨_, rfl, rfl, rfl, rfl, rfl, rfl⟩
  · rw [if_neg h0]
    exact ⟨_, rfl, rfl, rfl, rfl, rfl, rfl⟩

/-- A heartbeat that succeeds delivers `true` and records the timestamp of the
response. -/
theorem heartbeat_value (env : HeartbeatEnv) (c c1 : MetaClient) (resp : HBResp)
    (ret : StatusOr Bool) (hb : env.heartBeat = .value resp)
    (h : heartbeat env c = .ok (ret, c1)) :
    ret = .value true ∧
      c1.localLastUpdateTime_ = c.localLastUpdateTime_ ∧
      c1.metadLastUpdateTime_ = resp.last_update_time_in_ms ∧
      c1.st = c.st ∧ c1.cfg = c.cfg ∧ c1.skipConfig_ = c.skipConfig_ := by
  unfold heartbeat at h
  simp only [hb] at h
  have hc0 : (if c.inStoraged_ = true ∧ c.clusterId_ = 0
        then { c with clusterId_ := env.clusterIdFromFile } else c).localLastUpdateTime_
        = c.localLastUpdateTime_ ∧
      (if c.inStoraged_ = true ∧ c.clusterId_ = 0
        then { c with clusterId_ := env.clusterIdFromFile } else c).st = c.st ∧
      (if c.inStoraged_ = true ∧ c.clusterId_ = 0
        then { c with clusterId_ := env.clusterIdFromFile } else c).cfg = c.cfg ∧
      (if c.inStoraged_ = true ∧ c.clusterId_ = 0
        then { c with clusterId_ := env.clusterIdFromFile } else c).skipConfig_
        = c.skipConfig_ := by
    by_cases h0 : c.inStoraged_ = true ∧ c.clusterId_ = 0
    · rw [if_pos h0]; exact ⟨rfl, rfl, rfl, rfl⟩
    · rw [if_neg h0]; exact ⟨rfl, rfl, rfl, rfl⟩
  generalize (if c.inStoraged_ = true ∧ c.clusterId_ = 0
        then { c with clusterId_ := env.clusterIdFromFile } else c) = c0 at h hc0
  obtain ⟨e1, e2, e3, e4⟩ := hc0
  by_cases h1 : c0.inStoraged_ = true ∧ c0.clusterId_ = 0
  · rw [if_pos h1] at h
    by_cases h2 : env.persistInFile resp.cluster_id = true
    · rw [if_pos h2] at h
      simp only [Except.ok.injEq, Prod.mk.injEq] at h
      obtain ⟨hr, hc⟩ := h
      subst hr; subst hc
      exact ⟨rfl, e1, rfl, e2, e3, e4⟩
    · rw [if_neg h2] at h
      simp at h
  · rw [if_neg h1] at h
    simp only [Except.ok.injEq, Prod.mk.injEq] at h
    obtain ⟨hr, hc⟩ := h
    subst hr; subst hc
    exact ⟨rfl, e1, rfl, e2, e3, e4⟩

/-- The reload block, taken apart: its flags are those of `loadData` and (unless the
configuration is skipped) `loadCfg`, and the local timestamp becomes the server
timestamp exactly when both flags are `true`. -/
theorem reload_ok (env : HeartbeatEnv) (c : MetaClient) (r : Reloaded)
    (h : reload env c = .ok r) :
    r.client.metadLastUpdateTime_ = c.metadLastUpdateTime_ ∧
    r.client.localLastUpdateTime_
      = (if r.ldRet && r.lcRet then c.metadLastUpdateTime_ else c.localLastUpdateTime_) ∧
    (c.skipConfig_ = true → r.lcRet = true ∧ r.client.cfg = c.cfg) ∧
    r.client.skipConfig_ = c.skipConfig_ ∧
    loadData env.differs env.server c.st = .ok (r.ldRet, r.client.st) ∧
    (c.skipConfig_ = false →
      loadCfg env.config r.client.st.hasListener c.cfg = .ok (r.lcRet, r.client.cfg)) := by
  unfold reload at h
  cases hld : loadData env.differs env.server c.st with
  | error e => rw [hld] at h; simp at h
  | ok p =>
    obtain ⟨ldRet, st1⟩ := p
    rw [hld] at h
    simp only at h
    by_cases hs : c.skipConfig_ = true
    · simp only [hs, Bool.not_true, Bool.false_eq_true, if_false, Bool.and_true] at h
      by_cases hl : ldRet = true
      · rw [if_pos hl] at h
        have := Except.ok.inj h
        subst this
        simp [hs, hl]
      · rw [if_neg hl] at h
        have := Except.ok.inj h
        subst this
        simp [hs, hl]
    · have hs2 : c.skipConfig_ = false := by simpa using hs
      simp only [hs2, Bool.not_false, if_true] at h
      cases hlc : loadCfg env.config st1.hasListener c.cfg with
      | error e => rw [hlc] at h; simp at h
      | ok q =>
        obtain ⟨lcRet, cfg1⟩ := q
        rw [hlc] at h
        simp only at h
        by_cases hl : (ldRet && lcRet) = true
        · rw [if_pos hl] at h
          have := Except.ok.inj h
          subst this
          simp [hs2, hl, hlc]
        · rw [if_neg hl] at h
          have := Except.ok.inj h
          subst this
          simp [hs2, hl, hlc]

/-- A run of the heartbeat task after a successful heartbeat, taken apart. -/
theorem heartBeatThreadFunc_value (env : HeartbeatEnv) (c : MetaClient) (resp : HBResp)
    (run : HeartbeatRun) (hb : env.heartBeat = .value resp)
    (h : heartBeatThreadFunc env c = .ok run) :
    run.client.metadLastUpdateTime_ = resp.last_update_time_in_ms ∧
    run.reloaded.isSome = decide (c.localLastUpdateTime_ < resp.last_update_time_in_ms) ∧
    (run.reloaded = none → run.client.localLastUpdateTime_ = c.localLastUpdateTime_ ∧
      run.client.st = c.st ∧ run.client.cfg = c.cfg) ∧
    (∀ ld lc, run.reloaded = some (ld, lc) →
      run.client.localLastUpdateTime_
        = (if ld && lc then resp.last_update_time_in_ms else c.localLastUpdateTime_) ∧
      loadData env.differs env.server c.st = .ok (ld, run.client.st) ∧
      (c.skipConfig_ = true → lc = true ∧ run.client.cfg = c.cfg) ∧
      (c.skipConfig_ = false →
        loadCfg env.config run.client.st.hasListener c.cfg = .ok (lc, run.client.cfg))) := by
  unfold heartBeatThreadFunc at h
  cases hh : heartbeat env c with
  | error e => rw [hh] at h; simp at h
  | ok p =>
    obtain ⟨ret, c1⟩ := p
    rw [hh] at h
    obtain ⟨hr, e1, e2, e3, e4, e5⟩ := heartbeat_value env c c1 resp ret hb hh
    subst hr
    simp only [StatusOr.ok, Bool.not_true, Bool.false_eq_true, if_false] at h
    by_cases hlt : c1.localLastUpdateTime_ < c1.metadLastUpdateTime_
    · rw [if_pos hlt] at h
      cases hre : reload env c1 with
      | error e => rw [hre] at h; simp at h
      | ok r =>
        rw [hre] at h
        have := Except.ok.inj h
        subst this
        obtain ⟨r1, r2, r3, r4, r5, r6⟩ := reload_ok env c1 r hre
        rw [e1, e2] at hlt
        refine ⟨by rw [r1, e2], by simp [hlt], by simp, ?_⟩
        intro ld lc hsome
        simp only [Option.some.injEq, Prod.mk.injEq] at hsome
        obtain ⟨hld, hlc⟩ := hsome
        subst hld; subst hlc
        rw [e1, e2] at r2
        rw [e3] at r5
        rw [e4, e5] at r3
        rw [e4, e5] at r6
        exact ⟨r2, r5, r3, r6⟩
    · rw [if_neg hlt] at h
      have := Except.ok.inj h
      subst this
      rw [e1, e2] at hlt
      refine ⟨e2, by simp [hlt], fun _ => ⟨e1, e3, e4⟩, ?_⟩
      intro ld lc hsome
      simp at hsome

/-- C31. One run of the heartbeat task. After a successful heartbeat (response `resp`)
the server timestamp of the client is the one of the response; the run reloads if and
only if the local timestamp was strictly less than it; when it reloads, with `ld` the
flag of `loadData` and `lc` the flag of `loadCfg` (`true` when the configuration is
skipped), the local timestamp afterwards is the server timestamp if both flags are
`true` and is unchanged otherwise, and in the latter case the next run whose heartbeat
succeeds with a timestamp that is not older reloads again. A run whose heartbeat
fails returns, reloads nothing and leaves both timestamps and the caches as they
were. -/
theorem heartBeatThreadFunc_reload (env : HeartbeatEnv) (c : MetaClient) (resp : HBResp)
    (run : HeartbeatRun) (hb : env.heartBeat = .value resp)
    (h : heartBeatThreadFunc env c = .ok run) :
    run.client.metadLastUpdateTime_ = resp.last_update_time_in_ms ∧
    run.reloaded.isSome = decide (c.localLastUpdateTime_ < resp.last_update_time_in_ms) ∧
    (run.reloaded = none → run.client.localLastUpdateTime_ = c.localLastUpdateTime_) ∧
    (∀ ld lc, run.reloaded = some (ld, lc) →
      run.client.localLastUpdateTime_
        = (if ld && lc then resp.last_update_time_in_ms else c.localLastUpdateTime_) ∧
      loadData env.differs env.server c.st = .ok (ld, run.client.st) ∧
      (c.skipConfig_ = true → lc = true) ∧
      (c.skipConfig_ = false →
        loadCfg env.config run.client.st.hasListener c.cfg = .ok (lc, run.client.cfg))) ∧
    (∀ ld lc (env2 : HeartbeatEnv) (resp2 : HBResp) (run2 : HeartbeatRun),
      run.reloaded = some (ld, lc) → (ld && lc) = false →
      env2.heartBeat = .value resp2 →
      resp.last_update_time_in_ms ≤ resp2.last_update_time_in_ms →
      heartBeatThreadFunc env2 run.client = .ok run2 →
      run2.reloaded.isSome = true) ∧
    (∀ s, ∃ c1 : MetaClient,
      heartBeatThreadFunc { env with heartBeat := .status s } c = .ok ⟨c1, none⟩ ∧
      c1.localLastUpdateTime_ = c.localLastUpdateTime_ ∧
      c1.metadLastUpdateTime_ = c.metadLastUpdateTime_ ∧
      c1.st = c.st ∧ c1.cfg = c.cfg) := by
  obtain ⟨a1, a2, a3, a4⟩ := heartBeatThreadFunc_value env c resp run hb h
  refine ⟨a1, a2, fun hn => (a3 hn).1, ?_, ?_, ?_⟩
  · intro ld lc hsome
    obtain ⟨b1, b2, b3, b4⟩ := a4 ld lc hsome
    exact ⟨b1, b2, fun hs => (b3 hs).1, b4⟩
  · intro ld lc env2 resp2 run2 hsome hfail hb2 hle h2
    obtain ⟨b1, _, _, _⟩ := a4 ld lc hsome
    rw [hfail] at b1
    simp only [Bool.false_eq_true, if_false] at b1
    obtain ⟨_, d2, _, _⟩ := heartBeatThreadFunc_value env2 run.client resp2 run2 hb2 h2
    rw [d2, b1]
    have hlt : c.localLastUpdateTime_ < resp.last_update_time_in_ms := by
      have h3 := a2
      rw [hsome] at h3
      simpa using h3.symm
    simp only [decide_eq_true_eq]
    omega
  · intro s
    obtain ⟨c1, h1, h2, h3, h4, h5, _⟩ :=
      heartbeat_status { env with heartBeat := .status s } c s rfl
    refine ⟨c1, ?_, h2, h3, h4, h5⟩
    unfold heartBeatThreadFunc
    rw [h1]
    simp [StatusOr.ok]

/-- The theorem `heartBeatThreadFunc_reload` at the sample client and a heartbeat
that tells the timestamp 7: the run reloads and the local timestamp becomes 7. -/
theorem heartBeatThreadFunc_reload_witness :
    heartBeatThreadFunc (heartbeatEnv (.value ⟨0, 7⟩)) sampleMetaClient
      = .ok ⟨sampleMetaClientAfter, some (true, true)⟩ ∧
    (⟨sampleMetaClientAfter, some (true, true)⟩ : HeartbeatRun).reloaded.isSome
      = decide (sampleMetaClient.localLastUpdateTime_ < 7) :=
  ⟨by decide,
   (heartBeatThreadFunc_reload (heartbeatEnv (.value ⟨0, 7⟩)) sampleMetaClient ⟨0, 7⟩
      ⟨sampleMetaClientAfter, some (true, true)⟩ rfl (by decide)).2.1⟩

/-! ### The ready flag and `isMetadReady` -/

/-- The ready flag after a `loadData` that returns. -/
theorem loadData_ready (differs : PartHosts → PartHosts → Bool) (srv : MetaServer)
    (st st1 : MetaClientState) (ld : Bool) (h : loadData differs srv st = .ok (ld, st1)) :
    st1.ready_ = (st.ready_ || ld) := by
  cases ld with
  | true =>
    obtain ⟨_, _, _, _, _, _, _, _, _, _, _, _, _, _, _, _, _, hr⟩ :=
      loadData_success differs srv st st1 h
    rw [hr]; simp
  | false =>
    rw [loadData_failure_ready differs srv st st1 h]; simp

/-- C39, refuted as stated: the sample client is ready after a full load, and a call
of `isMetadReady` whose heartbeat fails with an RPC failure returns `false` and leaves
the ready flag `false`. -/
theorem isMetadReady_heartbeat_failure_clears_ready :
    loadData partHostsDiffer emptyServer emptyClient = .ok (true, sampleLoadedClient.st) ∧
    sampleLoadedClient.st.ready_ = true ∧
    isMetadReady (heartbeatEnv heartbeatTimeout) sampleLoadedClient
      = .ok (false, { sampleLoadedClient with
                      st := { sampleLoadedClient.st with ready_ := false } }) := by
  decide

/-- C39, amended. A call of `isMetadReady` that returns, returns the ready flag as it
is afterwards. If its heartbeat failed with a status that differs from
`Status::LeaderChanged()`, the flag is `false` afterwards, whatever it was, and nothing
is loaded. Otherwise (the heartbeat succeeded, or failed with the leader-changed
status) the call runs `loadData`, and the flag afterwards is `true` exactly when it
was `true` before or that load returned `true`: such a call never clears the flag. -/
theorem isMetadReady_ready (env : HeartbeatEnv) (c c1 : MetaClient) (b : Bool)
    (h : isMetadReady env c = .ok (b, c1)) :
    b = c1.st.ready_ ∧
    (∀ s, env.heartBeat = .status s → env.statusNe s (.LeaderChanged "") = true →
      c1.st = { c.st with ready_ := false } ∧ c1.cfg = c.cfg ∧
      c1.localLastUpdateTime_ = c.localLastUpdateTime_) ∧
    ((env.heartBeat.ok = true ∨
        ∃ s, env.heartBeat = .status s ∧ env.statusNe s (.LeaderChanged "") = false) →
      ∃ ld, loadData env.differs env.server c.st = .ok (ld, c1.st) ∧
        c1.st.ready_ = (c.st.ready_ || ld) ∧
        (c.st.ready_ = true → c1.st.ready_ = true)) := by
  unfold isMetadReady at h
  cases hh : heartbeat env c with
  | error e => rw [hh] at h; simp at h
  | ok p =>
    obtain ⟨ret, c0⟩ := p
    rw [hh] at h
    simp only at h
    have hload : heartbeatFailed env.statusNe ret = false → c0.st = c.st →
        b = c1.st.ready_ ∧ ∃ ld, loadData env.differs env.server c.st = .ok (ld, c1.st) ∧
          c1.st.ready_ = (c.st.ready_ || ld) ∧ (c.st.ready_ = true → c1.st.ready_ = true) := by
      intro hf hst
      rw [hf] at h
      simp only [Bool.false_eq_true, if_false] at h
      cases hre : reload env c0 with
      | error e => rw [hre] at h; simp at h
      | ok r =>
        rw [hre] at h
        simp only [Except.ok.injEq, Prod.mk.injEq] at h
        obtain ⟨hb, hc⟩ := h
        subst hc
        obtain ⟨_, _, _, _, r5, _⟩ := reload_ok env c0 r hre
        rw [hst] at r5
        have hr := loadData_ready env.differs env.server c.st r.client.st r.ldRet r5
        exact ⟨hb.symm, r.ldRet, r5, hr, fun ht => by rw [hr, ht]; rfl⟩
    cases hhb : env.heartBeat with
    | value resp =>
      obtain ⟨hr, _, _, e3, _, _⟩ := heartbeat_value env c c0 resp ret hhb hh
      subst hr
      obtain ⟨g1, g2⟩ := hload rfl e3
      refine ⟨g1, ?_, fun _ => g2⟩
      intro s hs
      simp at hs
    | status s0 =>
      obtain ⟨c2, f1, f2, f3, f4, f5, f6⟩ := heartbeat_status env c s0 hhb
      rw [hh] at f1
      simp only [Except.ok.injEq, Prod.mk.injEq] at f1
      obtain ⟨hr, hc⟩ := f1
      subst hr; subst hc
      by_cases hne : env.statusNe s0 (.LeaderChanged "") = true
      · have hf : heartbeatFailed env.statusNe (StatusOr.status s0 : StatusOr Bool) = true := hne
        rw [hf] at h
        simp only [if_true, Except.ok.injEq, Prod.mk.injEq] at h
        obtain ⟨hb, hc⟩ := h
        subst hb; subst hc
        refine ⟨rfl, ?_, ?_⟩
        · intro s hs _
          exact ⟨by rw [f4], f5, f2⟩
        · intro hcase
          rcases hcase with hok | ⟨s, hs, hsn⟩
          · simp [StatusOr.ok] at hok
          · have := StatusOr.status.inj hs
            subst this
            rw [hne] at hsn
            simp at hsn
      · have hf : heartbeatFailed env.statusNe (StatusOr.status s0 : StatusOr Bool) = false := by
          simpa [heartbeatFailed] using hne
        obtain ⟨g1, g2⟩ := hload hf f4
        refine ⟨g1, ?_, fun _ => g2⟩
        intro s hs hsn
        have := StatusOr.status.inj hs
        subst this
        exact absurd hsn hne

/-- The theorem `isMetadReady_ready` at the sample client and a heartbeat that ends
with the leader-changed status: the load runs and the client is ready afterwards. -/
theorem isMetadReady_ready_witness :
    isMetadReady (heartbeatEnv heartbeatLeaderChanged) sampleMetaClient
      = .ok (true, { sampleMetaClientAfter with
                     localLastUpdateTime_ := 0, metadLastUpdateTime_ := 0 }) ∧
    true = ({ sampleMetaClientAfter with
              localLastUpdateTime_ := 0, metadLastUpdateTime_ := 0 } : MetaClient).st.ready_ :=
  ⟨by decide,
   (isMetadReady_ready (heartbeatEnv heartbeatLeaderChanged) sampleMetaClient
      { sampleMetaClientAfter with localLastUpdateTime_ := 0, metadLastUpdateTime_ := 0 }
      true (by decide)).1⟩

end Nebula
